import Mathlib

/-! # python-interpretor: parser and statement evaluation

A shallow embedding of `Parser.cpp` (the recursive-descent parser) and of
`statements/Statement.cpp` (the evaluation of statements against a symbol
table).  Code of the repository that these two files call but that is not
among the sources (the lexer, the tokens, the expression nodes, the value
descriptors and the symbol table) is modelled from the specification and is
marked as such.

Recursion of the C++ code is bounded by an explicit fuel argument: a result
`outOfFuel` means that the budget was too small, never that the program
stopped.
-/

namespace PyInterp

/-! ## Tokens -/

/-- The reserved words tested by the parser. -/
inductive Keyword
  | kwPrint | kwReturn | kwFor | kwIn | kwRange | kwIf | kwElif | kwElse | kwDef
  | kwAnd | kwOr | kwNot
  deriving DecidableEq, Repr

/-- Modelled from the spec: Token (Token.hpp is not among the sources).  A
token is one classified lexical unit; each predicate the parser calls
(isName, isPrint, eol, ...) recognises exactly one class.  A float literal is
kept as the bit pattern of its value, a comparison operator as its text. -/
inductive Token
  | eof
  | eol
  | indent
  | dedent
  | name (text : String)
  | wholeNumber (value : Int)
  | float (bits : Nat)
  | string (text : String)
  | keyword (k : Keyword)
  | assign
  | openParen
  | closeParen
  | colon
  | comma
  | plus
  | minus
  | times
  | divide
  | modulo
  | compOp (text : String)
  | other (text : String)
  deriving DecidableEq, Repr

namespace Token

def isEof : Token → Bool
  | eof => true
  | _ => false

def isEol : Token → Bool
  | eol => true
  | _ => false

def isIndent : Token → Bool
  | indent => true
  | _ => false

def isDedent : Token → Bool
  | dedent => true
  | _ => false

def isName : Token → Bool
  | name _ => true
  | _ => false

def isWholeNumber : Token → Bool
  | wholeNumber _ => true
  | _ => false

def isFloat : Token → Bool
  | float _ => true
  | _ => false

def isString : Token → Bool
  | string _ => true
  | _ => false

def isPrint : Token → Bool
  | keyword .kwPrint => true
  | _ => false

def isReturn : Token → Bool
  | keyword .kwReturn => true
  | _ => false

def isFor : Token → Bool
  | keyword .kwFor => true
  | _ => false

def isIn : Token → Bool
  | keyword .kwIn => true
  | _ => false

def isRange : Token → Bool
  | keyword .kwRange => true
  | _ => false

def isIf : Token → Bool
  | keyword .kwIf => true
  | _ => false

def isElIf : Token → Bool
  | keyword .kwElif => true
  | _ => false

def isElse : Token → Bool
  | keyword .kwElse => true
  | _ => false

def isFunc : Token → Bool
  | keyword .kwDef => true
  | _ => false

def isAnd : Token → Bool
  | keyword .kwAnd => true
  | _ => false

def isOr : Token → Bool
  | keyword .kwOr => true
  | _ => false

def isNot : Token → Bool
  | keyword .kwNot => true
  | _ => false

def isAssignmentOperator : Token → Bool
  | assign => true
  | _ => false

def isOpenParen : Token → Bool
  | openParen => true
  | _ => false

def isCloseParen : Token → Bool
  | closeParen => true
  | _ => false

def isColon : Token → Bool
  | colon => true
  | _ => false

def isComma : Token → Bool
  | comma => true
  | _ => false

def isAdditionOperator : Token → Bool
  | plus => true
  | _ => false

def isSubtractionOperator : Token → Bool
  | minus => true
  | _ => false

def isMultiplicationOperator : Token → Bool
  | times => true
  | _ => false

def isDivisionOperator : Token → Bool
  | divide => true
  | _ => false

def isModuloOperator : Token → Bool
  | modulo => true
  | _ => false

def isCompOp : Token → Bool
  | compOp _ => true
  | _ => false

/-- The text of a name token, empty for every other token. -/
def getName : Token → String
  | name s => s
  | _ => ""

end Token

/-! ## The lexer -/

/-- One call on the lexer, recorded in the order of the calls. -/
inductive LexOp
  | get
  | unget
  deriving DecidableEq, Repr

/-- Modelled from the spec: Lexer (lex/Lexer.hpp is not among the sources).
The token source is forward-only with a single pushback slot: `input` holds
the tokens not fetched yet, `last` the token fetched most recently and
`ungotten` whether it has been pushed back.  The field `ops` is a history of
the calls made so far; no operation reads it. -/
structure Lexer where
  input : List Token
  last : Option Token
  ungotten : Bool
  ops : List LexOp
  deriving DecidableEq, Repr

namespace Lexer

/-- A lexer that has not been used yet. -/
def init (toks : List Token) : Lexer :=
  { input := toks, last := none, ungotten := false, ops := [] }

/-- Modelled from the spec: `next()`.  A pushed-back token is delivered again;
otherwise the first token of the input is consumed, and end-of-file is
delivered on every fetch after the input is exhausted. -/
def getToken (lx : Lexer) : Token × Lexer :=
  if lx.ungotten then
    (lx.last.getD (Token.other ""), { lx with ungotten := false, ops := lx.ops ++ [LexOp.get] })
  else
    match lx.input with
    | [] => (Token.eof, { lx with last := some Token.eof, ops := lx.ops ++ [LexOp.get] })
    | t :: ts => (t, { lx with input := ts, last := some t, ops := lx.ops ++ [LexOp.get] })

/-- Modelled from the spec: `pushback()`.  Marks the last fetched token as
pending; there is one slot only, so a second pushback in a row adds
nothing. -/
def ungetToken (lx : Lexer) : Lexer :=
  { lx with ungotten := true, ops := lx.ops ++ [LexOp.unget] }

/-- The tokens the lexer will deliver, in order, before the end-of-file
tokens: the pushed-back token if there is one, then the unread input. -/
def stream (lx : Lexer) : List Token :=
  if lx.ungotten then lx.last.getD (Token.other "") :: lx.input else lx.input

end Lexer

/-! ## Expression nodes -/

/-- Modelled from the spec: ExprNode (ExprNode.hpp is not among the sources).
Every node keeps the token it was built from; binary nodes own a left and a
right child, which the parser leaves absent where it assigns none. -/
inductive ExprNode
  | BooleanExprNode (tok : Token) (left right : Option ExprNode)
  | ComparisonExprNode (tok : Token) (left right : Option ExprNode)
  | InfixExprNode (tok : Token) (left right : Option ExprNode)
  | Variable (tok : Token)
  | WholeNumber (tok : Token)
  | Double (tok : Token)
  | StringExp (tok : Token)
  | FunctionCall (id : Token) (args : List ExprNode)

namespace ExprNode

/-- Modelled from the spec: the accessor `token()` of ExprNode, which gives the
token handed to the constructor of the node (for a call, the name token of
the callee). -/
def token : ExprNode → Token
  | BooleanExprNode tok _ _ => tok
  | ComparisonExprNode tok _ _ => tok
  | InfixExprNode tok _ _ => tok
  | Variable tok => tok
  | WholeNumber tok => tok
  | Double tok => tok
  | StringExp tok => tok
  | FunctionCall id _ => id

end ExprNode

/-! ## Parser results -/

/-- The outcome of a production: a value with the lexer after it, the fatal
exit of `Parser::die` (calling context, message, offending token, lexer at
that point), or an exhausted recursion budget. -/
inductive PResult (α : Type)
  | ok (value : α) (lx : Lexer)
  | die (scope message : String) (tok : Token) (lx : Lexer)
  | outOfFuel

namespace PResult

/-- Sequencing: the continuation runs only after a successful production. -/
def bind {α β : Type} (r : PResult α) (k : α → Lexer → PResult β) : PResult β :=
  match r with
  | ok a lx => k a lx
  | die s m t lx => die s m t lx
  | outOfFuel => outOfFuel

/-- The value of a successful production. -/
def value? {α : Type} : PResult α → Option α
  | ok a _ => some a
  | _ => none

/-- The lexer left by a successful production. -/
def lexer? {α : Type} : PResult α → Option Lexer
  | ok _ lx => some lx
  | _ => none

end PResult

/-! ## Expression productions of `Parser.cpp` -/

/-- The operator loop that `or_test`, `and_test`, `comparison`, `arith_expr`
and `term` each spell out: while the fetched token is an operator of the
level, build a node with the tree so far as left child and the next operand
as right child; the first other token is pushed back. -/
def binaryLoop (isOp : Token → Bool) (mk : Token → Option ExprNode → Option ExprNode → ExprNode)
    (operand : Lexer → PResult ExprNode) : Nat → ExprNode → Lexer → PResult ExprNode
  | 0, _, _ => PResult.outOfFuel
  | n + 1, left, lx =>
    let (tok, lx1) := lx.getToken
    if isOp tok then
      (operand lx1).bind fun right lx2 =>
        binaryLoop isOp mk operand n (mk tok (some left) (some right)) lx2
    else
      PResult.ok left lx1.ungetToken

/-- The loop of `Parser::testlist`: after each comma one more `test`. -/
def testlistLoop (test : Lexer → PResult ExprNode) :
    Nat → List ExprNode → Lexer → PResult (List ExprNode)
  | 0, _, _ => PResult.outOfFuel
  | n + 1, p, lx =>
    let (tok, lx1) := lx.getToken
    if tok.isComma then
      (test lx1).bind fun e lx2 => testlistLoop test n (p ++ [e]) lx2
    else
      PResult.ok p lx1.ungetToken

mutual

/-- The production `Parser::testlist`. -/
def testlist : Nat → Lexer → PResult (List ExprNode)
  | 0, _ => PResult.outOfFuel
  | fuel + 1, lx =>
    (test fuel lx).bind fun e lx1 => testlistLoop (test fuel) fuel [e] lx1

/-- The production `Parser::test`. -/
def test : Nat → Lexer → PResult ExprNode
  | 0, _ => PResult.outOfFuel
  | fuel + 1, lx => or_test fuel lx

/-- The production `Parser::or_test`. -/
def or_test : Nat → Lexer → PResult ExprNode
  | 0, _ => PResult.outOfFuel
  | fuel + 1, lx =>
    (and_test fuel lx).bind fun left lx1 =>
      binaryLoop Token.isOr ExprNode.BooleanExprNode (and_test fuel) fuel left lx1

/-- The production `Parser::and_test`. -/
def and_test : Nat → Lexer → PResult ExprNode
  | 0, _ => PResult.outOfFuel
  | fuel + 1, lx =>
    (not_test fuel lx).bind fun left lx1 =>
      binaryLoop Token.isAnd ExprNode.BooleanExprNode (not_test fuel) fuel left lx1

/-- The production `Parser::not_test`. -/
def not_test : Nat → Lexer → PResult ExprNode
  | 0, _ => PResult.outOfFuel
  | fuel + 1, lx =>
    let (tok, lx1) := lx.getToken
    if tok.isNot then
      (not_test fuel lx1).bind fun operand lx2 =>
        PResult.ok (ExprNode.BooleanExprNode tok (some operand) none) lx2
    else
      comparison fuel lx1.ungetToken

/-- The production `Parser::comparison`. -/
def comparison : Nat → Lexer → PResult ExprNode
  | 0, _ => PResult.outOfFuel
  | fuel + 1, lx =>
    (arith_expr fuel lx).bind fun left lx1 =>
      binaryLoop Token.isCompOp ExprNode.ComparisonExprNode (arith_expr fuel) fuel left lx1

/-- The production `Parser::arith_expr`. -/
def arith_expr : Nat → Lexer → PResult ExprNode
  | 0, _ => PResult.outOfFuel
  | fuel + 1, lx =>
    (term fuel lx).bind fun left lx1 =>
      binaryLoop (fun tok => tok.isAdditionOperator || tok.isSubtractionOperator)
        ExprNode.InfixExprNode (term fuel) fuel left lx1

/-- The production `Parser::term`. -/
def term : Nat → Lexer → PResult ExprNode
  | 0, _ => PResult.outOfFuel
  | fuel + 1, lx =>
    (factor fuel lx).bind fun left lx1 =>
      binaryLoop
        (fun tok => tok.isMultiplicationOperator || tok.isDivisionOperator || tok.isModuloOperator)
        ExprNode.InfixExprNode (factor fuel) fuel left lx1

/-- The production `Parser::call`, entered with the name token of the callee. -/
def call : Nat → Token → Lexer → PResult ExprNode
  | 0, _, _ => PResult.outOfFuel
  | fuel + 1, id, lx =>
    let (tok, lx1) := lx.getToken
    if !tok.isOpenParen then
      PResult.die "Parser::call()" "Expected (" tok lx1
    else
      (testlist fuel lx1).bind fun tlist lx2 =>
        let (tok2, lx3) := lx2.getToken
        if !tok2.isCloseParen then
          PResult.die "Parser::call()" "Expected )" tok2 lx3
        else
          PResult.ok (ExprNode.FunctionCall id tlist) lx3

/-- The production `Parser::factor`. -/
def factor : Nat → Lexer → PResult ExprNode
  | 0, _ => PResult.outOfFuel
  | fuel + 1, lx =>
    let (tok, lx1) := lx.getToken
    if tok.isSubtractionOperator then
      (factor fuel lx1).bind fun operand lx2 =>
        PResult.ok (ExprNode.InfixExprNode tok (some operand) none) lx2
    else
      (atom fuel lx1.ungetToken).bind fun left lx2 =>
        if left.token.isName then
          let (tok2, lx3) := lx2.getToken
          if tok2.isOpenParen then
            call fuel left.token lx3.ungetToken
          else
            PResult.ok left lx3.ungetToken
        else
          PResult.ok left lx2

/-- The production `Parser::atom`. -/
def atom : Nat → Lexer → PResult ExprNode
  | 0, _ => PResult.outOfFuel
  | fuel + 1, lx =>
    let (tok, lx1) := lx.getToken
    if tok.isName then PResult.ok (ExprNode.Variable tok) lx1
    else if tok.isWholeNumber then PResult.ok (ExprNode.WholeNumber tok) lx1
    else if tok.isString then PResult.ok (ExprNode.StringExp tok) lx1
    else if tok.isFloat then PResult.ok (ExprNode.Double tok) lx1
    else if tok.isOpenParen then
      (test fuel lx1).bind fun p lx2 =>
        let (token, lx3) := lx2.getToken
        if !token.isCloseParen then
          PResult.die "Parser::atom" "Expected close-parenthesis, instead got" token lx3
        else
          PResult.ok p lx3
    else PResult.die "Parser::atom" "Unexpected token" tok lx1

end

/-! ## Statement nodes -/

/-- The statement nodes of `Statement.hpp`, with the members that
`Statement.cpp` reads and writes.  A member held through a pointer that the
code tests against `nullptr`, or moves out of, is an `Option`.  The members
`start`, `end_` and `step` of a range statement are the optionals that
`RangeStmt::parseTestList` overwrites on every evaluation. -/
inductive Statement
  | AssignStmt (lhsVariable : String) (rhsExpression : ExprNode)
  | PrintStatement (testList : List ExprNode)
  | IfStatement (if_ : Option (ExprNode × List Statement))
      (elif_ : Option (List (ExprNode × List Statement))) (else_ : Option (List Statement))
  | RangeStmt (id : String) (testList : List ExprNode) (forBody : List Statement)
      (start end_ step : Option Int)
  | FunctionDefinition (funcName : String) (paramList : List String)
      (suite : Option (List Statement)) (hasBeenAddedToSymTab : Bool)
  | ReturnStatement (value : ExprNode)

/-- The class `Statements`: statements in execution order. -/
abbrev Statements := List Statement

/-! ## Statement productions of `Parser.cpp` -/

/-- The helper `Parser::getEOL`. -/
def getEOL (scope : String) (lx : Lexer) : PResult Unit :=
  let (tok, lx1) := lx.getToken
  if !tok.isEol then PResult.die scope "Generic getEOL" tok lx1 else PResult.ok () lx1

/-- The production `Parser::print_stmt`. -/
def print_stmt (fuel : Nat) (lx : Lexer) : PResult Statement :=
  let (tok, lx1) := lx.getToken
  if !tok.isPrint then
    PResult.die "Parser::print_stmt()" "Expected PRINT keyword, instead got" tok lx1
  else
    (testlist fuel lx1).bind fun testList lx2 => PResult.ok (Statement.PrintStatement testList) lx2

/-- The production `Parser::assign_stmt`, entered with the cached name token. -/
def assign_stmt (fuel : Nat) (varName : Token) (lx : Lexer) : PResult Statement :=
  let (assignOp, lx1) := lx.getToken
  if !assignOp.isAssignmentOperator then
    PResult.die "Parser::assign_stmt" "Parser::assign_stmt() expected ASSIGN_OP instead got "
      assignOp lx1
  else
    (test fuel lx1).bind fun rightHandSideExpr lx2 =>
      PResult.ok (Statement.AssignStmt varName.getName rightHandSideExpr) lx2

/-- The production `Parser::return_stmt`. -/
def return_stmt (fuel : Nat) (lx : Lexer) : PResult Statement :=
  let (tok, lx1) := lx.getToken
  if !tok.isReturn then
    PResult.die "Parser::return_stmt" "Expected a return TOKEN, instead got: " tok lx1
  else
    (test fuel lx1).bind fun e lx2 => PResult.ok (Statement.ReturnStatement e) lx2

/-- The production `Parser::simple_stmt`.  The branches for a RETURN token and
for a name followed by an open parenthesis have an empty body in the source
and fall through to the final `die`.  (The line the source prints when the
first token is an end-of-line is not part of the model.) -/
def simple_stmt (fuel : Nat) (lx : Lexer) : PResult Statement :=
  let scope := "Parser::simple_stmt"
  let (tok, lx1) := lx.getToken
  if !(tok.isPrint || tok.isName || tok.isReturn) then
    PResult.die scope "violating rule" tok lx1
  else if tok.isPrint then
    (print_stmt fuel lx1.ungetToken).bind fun printStmt lx2 =>
      (getEOL scope lx2).bind fun _ lx3 => PResult.ok printStmt lx3
  else if tok.isReturn then
    PResult.die scope "Error" tok lx1
  else if tok.isName then
    let cachedToken := tok
    let (tok2, lx2) := lx1.getToken
    if tok2.isAssignmentOperator then
      (assign_stmt fuel cachedToken lx2.ungetToken).bind fun assignStmt lx3 =>
        (getEOL scope lx3).bind fun _ lx4 => PResult.ok assignStmt lx4
    else if tok2.isOpenParen then
      PResult.die scope "Error" tok2 lx2
    else
      PResult.die scope "Unidentified -> 1 <-" tok2 lx2
  else
    PResult.die scope "Unidentified -> 1 <-" tok lx1

/-- The loop shared by `Parser::file_input` (which stops at end-of-file) and
`Parser::suite` (which stops at a DEDENT): while the fetched token is not the
stop token, push it back and parse one statement. -/
def stmtsLoop (stop : Token → Bool) (stmt : Lexer → PResult Statement) :
    Nat → Statements → Lexer → PResult Statements
  | 0, _, _ => PResult.outOfFuel
  | n + 1, stmts, lx =>
    let (tok, lx1) := lx.getToken
    if !stop tok then
      (stmt lx1.ungetToken).bind fun s lx2 => stmtsLoop stop stmt n (stmts ++ [s]) lx2
    else
      PResult.ok stmts lx1

/-- The end of `Parser::func_suite`: the token after the loop must be a DEDENT. -/
def funcSuiteEnd (stmts : Statements) (tok : Token) (lx : Lexer) : PResult Statements :=
  if tok.isDedent then PResult.ok stmts lx
  else PResult.die "Parser::func_suit()" "EXpected a DEDENT token, instead got: " tok lx

/-- The loop of `Parser::func_suite`: it leaves the loop (`break`) right after
the first return statement.  (The line the source prints on a RETURN token is
not part of the model.) -/
def funcSuiteLoop (fuel : Nat) (stmt : Lexer → PResult Statement) :
    Nat → Statements → Lexer → PResult Statements
  | 0, _, _ => PResult.outOfFuel
  | n + 1, stmts, lx =>
    let (tok, lx1) := lx.getToken
    if !tok.isDedent then
      if tok.isReturn then
        (return_stmt fuel lx1.ungetToken).bind fun r lx2 =>
          let (tok2, lx3) := lx2.getToken
          funcSuiteEnd (stmts ++ [r]) tok2 lx3
      else
        (stmt lx1.ungetToken).bind fun s lx2 => funcSuiteLoop fuel stmt n (stmts ++ [s]) lx2
    else
      funcSuiteEnd stmts tok lx1

/-- The elif loop of `Parser::if_stmt`.  It is entered with the token fetched
after the previous suite and returns the pairs collected, the token fetched
last and the flag `conditionHit`. -/
def elifLoop (test : Lexer → PResult ExprNode) (suite : Lexer → PResult Statements) :
    Nat → List (ExprNode × Statements) → Token → Bool → Lexer →
      PResult (List (ExprNode × Statements) × Token × Bool)
  | 0, _, _, _, _ => PResult.outOfFuel
  | n + 1, elifs, tok, conditionHit, lx =>
    if tok.isElIf then
      (test lx).bind fun elifCmp lx1 =>
        let (tok1, lx2) := lx1.getToken
        if !tok1.isColon then
          PResult.die "Parser::if_stmt" "Expected : keyword, instead got" tok1 lx2
        else
          (suite lx2).bind fun stmts lx3 =>
            let (tok2, lx4) := lx3.getToken
            elifLoop test suite n (elifs ++ [(elifCmp, stmts)]) tok2 false lx4
    else
      PResult.ok (elifs, tok, conditionHit) lx

section StatementProductions

/- The production `func_def`, which `Parser::compound_stmt` calls, is not among
the sources: it is a parameter of the statement productions and receives
`Parser::func_suite`, the production written for its body. -/
variable (func_def : (Lexer → PResult Statements) → Lexer → PResult Statement)

mutual

/-- The production `Parser::stmt`. -/
def stmt : Nat → Lexer → PResult Statement
  | 0, _ => PResult.outOfFuel
  | fuel + 1, lx =>
    let (tok, lx1) := lx.getToken
    if tok.isFunc || tok.isFor || tok.isIf then
      compound_stmt fuel lx1.ungetToken
    else
      simple_stmt fuel lx1.ungetToken

/-- The production `Parser::compound_stmt`. -/
def compound_stmt : Nat → Lexer → PResult Statement
  | 0, _ => PResult.outOfFuel
  | fuel + 1, lx =>
    let (tok, lx1) := lx.getToken
    if tok.isFor then for_stmt fuel lx1.ungetToken
    else if tok.isIf then if_stmt fuel lx1.ungetToken
    else if tok.isFunc then func_def (func_suite fuel) lx1.ungetToken
    else
      PResult.die "Parser::compound_stmt"
        "Parser::compound_stmt() expected _keyword -> FOR | IF | DEF, instead got " tok lx1

/-- The production `Parser::if_stmt`. -/
def if_stmt : Nat → Lexer → PResult Statement
  | 0, _ => PResult.outOfFuel
  | fuel + 1, lx =>
    let scope := "Parser::if_stmt"
    let (tok, lx1) := lx.getToken
    if !tok.isIf then PResult.die scope "Expected if keyword, instead got" tok lx1
    else
      (test fuel lx1).bind fun comp lx2 =>
        let (tok1, lx3) := lx2.getToken
        if !tok1.isColon then PResult.die scope "Expected : keyword, instead got" tok1 lx3
        else
          (suite fuel lx3).bind fun stmts lx4 =>
            let (tok2, lx5) := lx4.getToken
            let afterElif : PResult (Option (List (ExprNode × Statements)) × Token × Bool) :=
              if tok2.isElIf then
                (elifLoop (test fuel) (suite fuel) fuel [] tok2 true lx5).bind fun r lx6 =>
                  PResult.ok (some r.1, r.2.1, r.2.2) lx6
              else
                PResult.ok (none, tok2, false) lx5
            afterElif.bind fun r lx6 =>
              let afterElse : PResult (Option Statements × Bool) :=
                if r.2.1.isElse then
                  let (tok3, lx7) := lx6.getToken
                  if !tok3.isColon then
                    PResult.die scope "Expected : keyword, instead got" tok3 lx7
                  else
                    (suite fuel lx7).bind fun elseStmts lx8 => PResult.ok (some elseStmts, true) lx8
                else
                  PResult.ok (none, r.2.2) lx6
              afterElse.bind fun e lx7 =>
                PResult.ok (Statement.IfStatement (some (comp, stmts)) r.1 e.1)
                  (if !e.2 then lx7.ungetToken else lx7)

/-- The production `Parser::for_stmt`. -/
def for_stmt : Nat → Lexer → PResult Statement
  | 0, _ => PResult.outOfFuel
  | fuel + 1, lx =>
    let scope := "Parser::for_stmt"
    let (tok, lx1) := lx.getToken
    if !tok.isFor then PResult.die scope "Expected FOR _keyword, instead got" tok lx1
    else
      let (tok1, lx2) := lx1.getToken
      if !tok1.isName then PResult.die scope "Expected NAME _keyword, instead got" tok1 lx2
      else
        let varName := tok1.getName
        let (tok2, lx3) := lx2.getToken
        if !tok2.isIn then PResult.die scope "Expected IN _keyword, instead got" tok2 lx3
        else
          let (tok3, lx4) := lx3.getToken
          if !tok3.isRange then PResult.die scope "Expected RANGE, instead got" tok3 lx4
          else
            let (tok4, lx5) := lx4.getToken
            if !tok4.isOpenParen then PResult.die scope "Expected OPENPAREN, instead got" tok4 lx5
            else
              (testlist fuel lx5).bind fun list lx6 =>
                let (tok5, lx7) := lx6.getToken
                if !tok5.isCloseParen then
                  PResult.die scope "Expected CLOSEPAREN, instead got" tok5 lx7
                else
                  let (tok6, lx8) := lx7.getToken
                  if !tok6.isColon then PResult.die scope "Expected : symbol, instead got" tok6 lx8
                  else
                    (suite fuel lx8).bind fun stmts lx9 =>
                      PResult.ok (Statement.RangeStmt varName list stmts none none none) lx9

/-- The production `Parser::suite`. -/
def suite : Nat → Lexer → PResult Statements
  | 0, _ => PResult.outOfFuel
  | fuel + 1, lx =>
    let scope := "Parser::suite"
    let (tok, lx1) := lx.getToken
    if !tok.isEol then PResult.die scope "Expected an EOL, instead got" tok lx1
    else
      let (tok1, lx2) := lx1.getToken
      if !tok1.isIndent then PResult.die scope "Expected an INDENT, instead got" tok1 lx2
      else stmtsLoop Token.isDedent (stmt fuel) fuel [] lx2

/-- The production `Parser::func_suite`. -/
def func_suite : Nat → Lexer → PResult Statements
  | 0, _ => PResult.outOfFuel
  | fuel + 1, lx =>
    let scope := "Parser::func_suit()"
    let (tok, lx1) := lx.getToken
    if !tok.isEol then PResult.die scope "Expected an EOL token, instead got: " tok lx1
    else
      let (tok1, lx2) := lx1.getToken
      if !tok1.isIndent then PResult.die scope "Expected an INDENT token, instead got: " tok1 lx2
      else funcSuiteLoop fuel (stmt fuel) fuel [] lx2

end

/-- The production `Parser::file_input`. -/
def file_input (fuel : Nat) (lx : Lexer) : PResult Statements :=
  stmtsLoop Token.isEof (stmt func_def fuel) fuel [] lx

end StatementProductions

/-! ## The C++ type `int` -/

/-- The least value of the C++ type `int` (`INT_MIN`): 32 bits, two's
complement. -/
def intMin : Int := -2147483648

/-- The greatest value of the C++ type `int` (`INT_MAX`). -/
def intMax : Int := 2147483647

/-- The integer is a value of the C++ type `int`. -/
def IsCInt (x : Int) : Prop := intMin ≤ x ∧ x ≤ intMax

instance IsCInt.decidable (x : Int) : Decidable (IsCInt x) :=
  inferInstanceAs (Decidable (intMin ≤ x ∧ x ≤ intMax))

/-- The value of type `int` that a 32-bit machine holds for the integer `x`:
`x` modulo 2^32, taken between `INT_MIN` and `INT_MAX`.  It is `x` itself
when `x` is in that range; an `int` sum that leaves the range wraps around. -/
def toCInt (x : Int) : Int := (x - intMin) % 4294967296 + intMin

/-! ## Values, symbol table, value runtime -/

/-- Modelled from the spec: Value (the descriptors of the value runtime are
not among the sources).  A dynamically tagged value: Integer, Float, Boolean
or String; a float is kept as the bit pattern of its value.  `Statement.cpp`
reads an Integer into the C++ type `int` and has it incremented by an `int`;
the laws of `Runtime` fix both on that type. -/
inductive Value
  | int (n : Int)
  | float (bits : Nat)
  | bool (b : Bool)
  | str (s : String)
  deriving DecidableEq, Repr

/-- Modelled from the spec: Environment (SymTab.hpp is not among the sources).
Bindings from names to values and from names to function definitions. -/
structure SymTab where
  vars : String → Option Value
  funcs : String → Option Statement

namespace SymTab

/-- An environment without bindings. -/
def empty : SymTab :=
  { vars := fun _ => none, funcs := fun _ => none }

/-- Modelled from the spec: `exists(name)`. -/
def isDefined (st : SymTab) (name : String) : Bool :=
  (st.vars name).isSome

/-- Modelled from the spec: `get(name)`; absent when the name is not bound. -/
def getValueFor (st : SymTab) (name : String) : Option Value :=
  st.vars name

/-- Modelled from the spec: `set(name, value)`, an upsert. -/
def setValueFor (st : SymTab) (name : String) (v : Value) : SymTab :=
  { st with vars := fun k => if k = name then some v else st.vars k }

/-- Modelled from the spec: `create(name, intValue)`, which introduces a
binding to an Integer value. -/
def createEntryFor (st : SymTab) (name : String) (n : Int) : SymTab :=
  st.setValueFor name (Value.int n)

/-- Modelled from the spec: `erase(name)`. -/
def erase (st : SymTab) (name : String) : SymTab :=
  { st with vars := fun k => if k = name then none else st.vars k }

/-- Modelled from the spec: `registerFunction(name, definition)`. -/
def setFunction (st : SymTab) (name : String) (fd : Statement) : SymTab :=
  { st with funcs := fun k => if k = name then some fd else st.funcs k }

end SymTab

/-- Modelled from the spec: the value runtime (ExprNode::evaluate and the
Descriptor functions are not among the sources).  Evaluating an expression
reads the environment and gives a fresh value or fails; `getIntValue`,
`getBoolValue` and `incrementByN` are `asInt(value) -> int`, `asBool` and
`incrementInPlace(value, by: int)` of the spec.  Integers are those of the
C++ type `int`, as in `int intVal = Descriptor::Int::getIntValue(..)` of
`Statement.cpp`: every reading is a value of that type, the reading of an
Integer is its value on that type, and the increment is the sum on that type,
which wraps around when it leaves the range.  Nothing else is assumed about
the readings of the other tags. -/
structure Runtime where
  evaluate : ExprNode → SymTab → Except String Value
  getIntValue : Value → Int
  getBoolValue : Value → Bool
  incrementByN : Int → Value → Value
  getIntValue_isCInt : ∀ v : Value, IsCInt (getIntValue v)
  getIntValue_int : ∀ n : Int, getIntValue (Value.int n) = toCInt n
  getBoolValue_bool : ∀ b : Bool, getBoolValue (Value.bool b) = b
  incrementByN_int : ∀ k n : Int, incrementByN k (Value.int n) = Value.int (toCInt (n + k))

/-- One write of a print statement to standard output: a value (printed by
`Descriptor::printValue`), the blank after a value, or the line end. -/
inductive Output
  | value (v : Value)
  | blank
  | endl
  deriving DecidableEq, Repr

/-- The state a statement runs against: the symbol table and what the print
statements have written to standard output so far. -/
structure World where
  symTab : SymTab
  out : List Output

/-- The fatal exits of the evaluator (each is a message followed by
`exit(1)`), and the failures of the parts modelled from the spec. -/
inductive Fatal
  | nullIf
  | variableDefined (id : String)
  | noEnd
  | invalidForLoop (start end_ step : Int)
  | tooManyNodes
  | expression (message : String)
  | undefinedVariable (id : String)
  | unsupportedReturn
  deriving DecidableEq, Repr

/-- The outcome of evaluating a node: normal completion with the node as the
evaluation left it and the world after it, a fatal exit with the world at
that point, or an exhausted recursion budget. -/
inductive Outcome (α : Type)
  | done (node : α) (w : World)
  | fatal (e : Fatal) (w : World)
  | outOfFuel

namespace Outcome

/-- Sequencing: the continuation runs only after normal completion. -/
def bind {α β : Type} (r : Outcome α) (k : α → World → Outcome β) : Outcome β :=
  match r with
  | done a w => k a w
  | fatal e w => fatal e w
  | outOfFuel => outOfFuel

/-- Whether the evaluation ended in a fatal exit. -/
def isFatal {α : Type} : Outcome α → Bool
  | fatal _ _ => true
  | _ => false

/-- Whether the evaluation completed normally. -/
def isDone {α : Type} : Outcome α → Bool
  | done _ _ => true
  | _ => false

/-- The world at the end of a completed or fatally ended evaluation. -/
def world? {α : Type} : Outcome α → Option World
  | done _ w => some w
  | fatal _ w => some w
  | outOfFuel => none

end Outcome

/-! ## Evaluation of `Statement.cpp` -/

/-- The three optionals of a range statement (`std::optional<int>`).  The
values they hold are stored by `RangeStmt::parseTestList` from readings of
`Runtime.getIntValue`, which are values of the type `int`. -/
structure RangeOptionals where
  start : Option Int
  end_ : Option Int
  step : Option Int
  deriving DecidableEq, Repr

section Evaluation

variable (rt : Runtime)

/-- The method `AssignStmt::evaluate`. -/
def AssignStmt.evaluate (lhsVariable : String) (rhsExpression : ExprNode) (w : World) :
    Outcome Unit :=
  match rt.evaluate rhsExpression w.symTab with
  | Except.error m => Outcome.fatal (Fatal.expression m) w
  | Except.ok rhs => Outcome.done () { w with symTab := w.symTab.setValueFor lhsVariable rhs }

/-- The method `PrintStatement::evaluate`: each value is printed as soon as it
is evaluated, followed by a blank; a line end closes the statement. -/
def PrintStatement.evaluate : List ExprNode → World → Outcome Unit
  | [], w => Outcome.done () { w with out := w.out ++ [Output.endl] }
  | item :: rest, w =>
    match rt.evaluate item w.symTab with
    | Except.error m => Outcome.fatal (Fatal.expression m) w
    | Except.ok v =>
      PrintStatement.evaluate rest { w with out := w.out ++ [Output.value v, Output.blank] }

/-- The method `Statements::evaluate`, given the evaluation of one statement. -/
def Statements.evaluate (evaluate : Statement → World → Outcome Statement) :
    Statements → World → Outcome Statements
  | [], w => Outcome.done [] w
  | s :: rest, w =>
    (evaluate s w).bind fun s1 w1 =>
      (Statements.evaluate evaluate rest w1).bind fun rest1 w2 => Outcome.done (s1 :: rest1) w2

/-- The method `IfStmt::evaluate`: the block runs when the condition holds;
the boolean tells whether it did. -/
def IfStmt.evaluate (evalBlock : Statements → World → Outcome Statements)
    (p : ExprNode × Statements) (w : World) : Outcome (Bool × (ExprNode × Statements)) :=
  match rt.evaluate p.1 w.symTab with
  | Except.error m => Outcome.fatal (Fatal.expression m) w
  | Except.ok v =>
    if rt.getBoolValue v then
      (evalBlock p.2 w).bind fun block w1 => Outcome.done (true, (p.1, block)) w1
    else
      Outcome.done (false, p) w

/-- The method `ElifStmt::evaluate`: the pairs in order, stopping at the first
condition that holds. -/
def ElifStmt.evaluate (evalBlock : Statements → World → Outcome Statements) :
    List (ExprNode × Statements) → World → Outcome (Bool × List (ExprNode × Statements))
  | [], w => Outcome.done (false, []) w
  | item :: rest, w =>
    match rt.evaluate item.1 w.symTab with
    | Except.error m => Outcome.fatal (Fatal.expression m) w
    | Except.ok v =>
      if rt.getBoolValue v then
        (evalBlock item.2 w).bind fun block w1 => Outcome.done (true, (item.1, block) :: rest) w1
      else
        (ElifStmt.evaluate evalBlock rest w).bind fun r w1 => Outcome.done (r.1, item :: r.2) w1

/-- The method `ElseStmt::evaluate`. -/
def ElseStmt.evaluate (evalBlock : Statements → World → Outcome Statements)
    (stmts : Statements) (w : World) : Outcome (Bool × Statements) :=
  (evalBlock stmts w).bind fun block w1 => Outcome.done (true, block) w1

/-- The method `IfStatement::evaluate`. -/
def IfStatement.evaluate (evalBlock : Statements → World → Outcome Statements)
    (if_ : Option (ExprNode × Statements)) (elif_ : Option (List (ExprNode × Statements)))
    (else_ : Option Statements) (w : World) : Outcome Statement :=
  match if_ with
  | none => Outcome.fatal Fatal.nullIf w
  | some p =>
    (IfStmt.evaluate rt evalBlock p w).bind fun r w1 =>
      if r.1 then Outcome.done (Statement.IfStatement (some r.2) elif_ else_) w1
      else
        let afterElif : Outcome (Bool × Option (List (ExprNode × Statements))) :=
          match elif_ with
          | none => Outcome.done (false, none) w1
          | some items =>
            (ElifStmt.evaluate rt evalBlock items w1).bind fun e w2 =>
              Outcome.done (e.1, some e.2) w2
        afterElif.bind fun e w2 =>
          if e.1 then Outcome.done (Statement.IfStatement (some r.2) e.2 else_) w2
          else
            match else_ with
            | none => Outcome.done (Statement.IfStatement (some r.2) e.2 none) w2
            | some stmts =>
              (ElseStmt.evaluate evalBlock stmts w2).bind fun b w3 =>
                Outcome.done (Statement.IfStatement (some r.2) e.2 (some b.2)) w3

/-- The method `RangeStmt::editOptionals`. -/
def RangeStmt.editOptionals (which : Nat) (opt : Option Int) (o : RangeOptionals) :
    RangeOptionals :=
  let o1 := if which = 0 then { o with start := opt } else o
  let o2 := if which = 1 then { o1 with end_ := opt } else o1
  if which = 2 then { o2 with step := opt } else o2

/-- The first loop of `RangeStmt::parseTestList`: each expression is evaluated
to an integer and stored at its position; the result carries the counter. -/
def RangeStmt.storeTestList (st : SymTab) :
    List ExprNode → Nat → RangeOptionals → Except Fatal (Nat × RangeOptionals)
  | [], i, o => Except.ok (i, o)
  | item :: rest, i, o =>
    match rt.evaluate item st with
    | Except.error m => Except.error (Fatal.expression m)
    | Except.ok desc =>
      RangeStmt.storeTestList st rest (i + 1)
        (RangeStmt.editOptionals i (some (rt.getIntValue desc)) o)

/-- The second loop of `RangeStmt::parseTestList`: the positions from the
counter up to 2 are cleared. -/
def RangeStmt.clearFrom : Nat → Nat → RangeOptionals → RangeOptionals
  | 0, _, o => o
  | n + 1, i, o =>
    if i < 3 then RangeStmt.clearFrom n (i + 1) (RangeStmt.editOptionals i none o) else o

/-- The method `RangeStmt::parseTestList`. -/
def RangeStmt.parseTestList (st : SymTab) (testList : List ExprNode) (o : RangeOptionals) :
    Except Fatal RangeOptionals :=
  if testList.length > 3 then Except.error Fatal.tooManyNodes
  else
    match RangeStmt.storeTestList rt st testList 0 o with
    | Except.error e => Except.error e
    | Except.ok (i, o1) =>
      let o2 := RangeStmt.clearFrom 3 i o1
      if o2.end_.isNone && o2.step.isNone then
        Except.ok { o2 with end_ := o2.start, start := none }
      else
        Except.ok o2

/-- The two `for` loops of `RangeStmt::evaluate`, which differ in the test
only: while the integer value bound to the loop variable passes the test, run
the body, then increment that binding in place by the step.  The reading of
the counter is the `int` that `Runtime.getIntValue` gives, and the increment
is the `int` sum of `Runtime.incrementByN`, which wraps around. -/
def RangeStmt.loop (evalBlock : Statements → World → Outcome Statements)
    (continues : Int → Bool) (step : Int) (id : String) :
    Nat → Statements → World → Outcome Statements
  | 0, _, _ => Outcome.outOfFuel
  | n + 1, forBody, w =>
    match w.symTab.getValueFor id with
    | none => Outcome.fatal (Fatal.undefinedVariable id) w
    | some v =>
      if continues (rt.getIntValue v) then
        (evalBlock forBody w).bind fun body1 w1 =>
          match w1.symTab.getValueFor id with
          | none => Outcome.fatal (Fatal.undefinedVariable id) w1
          | some v1 =>
            RangeStmt.loop evalBlock continues step id n body1
              { w1 with symTab := w1.symTab.setValueFor id (rt.incrementByN step v1) }
      else
        Outcome.done forBody w

/-- The method `RangeStmt::evaluate`; `loopFuel` bounds the number of loop
tests.  The locals `int start, end, step` are readings of
`Runtime.getIntValue` stored by `parseTestList`, or the defaults 0 and 1, so
they are values of the type `int`. -/
def RangeStmt.evaluate (evalBlock : Statements → World → Outcome Statements) (loopFuel : Nat)
    (id : String) (testList : List ExprNode) (forBody : Statements) (o : RangeOptionals)
    (w : World) : Outcome Statement :=
  match RangeStmt.parseTestList rt w.symTab testList o with
  | Except.error e => Outcome.fatal e w
  | Except.ok o1 =>
    if w.symTab.isDefined id then Outcome.fatal (Fatal.variableDefined id) w
    else
      let start := o1.start.getD 0
      match o1.end_ with
      | none => Outcome.fatal Fatal.noEnd w
      | some end_ =>
        let step := o1.step.getD 1
        let w1 : World := { w with symTab := w.symTab.createEntryFor id start }
        let finish : Statements → World → Outcome Statement := fun body w2 =>
          Outcome.done (Statement.RangeStmt id testList body o1.start o1.end_ o1.step)
            { w2 with symTab := w2.symTab.erase id }
        if start > end_ ∧ step < 0 then
          (RangeStmt.loop rt evalBlock (fun x => decide (x > end_)) step id loopFuel forBody w1).bind
            finish
        else if start < end_ ∧ 1 ≤ step then
          (RangeStmt.loop rt evalBlock (fun x => decide (x < end_)) step id loopFuel forBody w1).bind
            finish
        else if start = end_ then
          finish forBody w1
        else
          Outcome.fatal (Fatal.invalidForLoop start end_ step) w1

/-- The method `FunctionDefinition::evaluate`: a node not yet marked registers
a definition built from its own members, marked as added, and hands its body
over to it (`std::move`); the body is not run. -/
def FunctionDefinition.evaluate (funcName : String) (paramList : List String)
    (suite : Option Statements) (hasBeenAddedToSymTab : Bool) (w : World) : Outcome Statement :=
  if !hasBeenAddedToSymTab then
    Outcome.done (Statement.FunctionDefinition funcName paramList none hasBeenAddedToSymTab)
      { w with symTab :=
          w.symTab.setFunction funcName (Statement.FunctionDefinition funcName paramList suite true) }
  else
    Outcome.done (Statement.FunctionDefinition funcName paramList suite hasBeenAddedToSymTab) w

/-- Modelled from the spec: ReturnStatement::evaluate, which is not among the
sources.  The spec leaves statement-level return unsupported, so it is a
fatal exit. -/
def ReturnStatement.evaluate (_value : ExprNode) (w : World) : Outcome Unit :=
  Outcome.fatal Fatal.unsupportedReturn w

/-- The virtual method `Statement::evaluate`, dispatched on the class of the
node. -/
def Statement.evaluate : Nat → Statement → World → Outcome Statement
  | 0, _, _ => Outcome.outOfFuel
  | fuel + 1, s, w =>
    match s with
    | Statement.AssignStmt lhs rhs =>
      (AssignStmt.evaluate rt lhs rhs w).bind fun _ w1 => Outcome.done s w1
    | Statement.PrintStatement testList =>
      (PrintStatement.evaluate rt testList w).bind fun _ w1 => Outcome.done s w1
    | Statement.IfStatement if_ elif_ else_ =>
      IfStatement.evaluate rt (Statements.evaluate (Statement.evaluate fuel)) if_ elif_ else_ w
    | Statement.RangeStmt id testList forBody start end_ step =>
      RangeStmt.evaluate rt (Statements.evaluate (Statement.evaluate fuel)) fuel id testList
        forBody { start := start, end_ := end_, step := step } w
    | Statement.FunctionDefinition funcName paramList suite added =>
      FunctionDefinition.evaluate funcName paramList suite added w
    | Statement.ReturnStatement value =>
      (ReturnStatement.evaluate value w).bind fun _ w1 => Outcome.done s w1

/-- Evaluation of a block with the given budget. -/
def evalStatements (fuel : Nat) : Statements → World → Outcome Statements :=
  Statements.evaluate (Statement.evaluate rt fuel)

end Evaluation

/-! ## Vocabulary of the properties -/

/-- The operator tokens: the arithmetic, comparison, boolean and assignment
operators. -/
def Token.isOperator (t : Token) : Bool :=
  t.isAdditionOperator || t.isSubtractionOperator || t.isMultiplicationOperator ||
    t.isDivisionOperator || t.isModuloOperator || t.isCompOp || t.isAnd || t.isOr ||
    t.isNot || t.isAssignmentOperator

/-- The tokens that are an atom on their own: a name or a literal. -/
def Token.isAtom (t : Token) : Bool :=
  t.isName || t.isWholeNumber || t.isString || t.isFloat

/-- The node `Parser::atom` builds from a one-token atom, following the order
of its tests. -/
def ExprNode.ofAtom (t : Token) : ExprNode :=
  if t.isName then ExprNode.Variable t
  else if t.isWholeNumber then ExprNode.WholeNumber t
  else if t.isString then ExprNode.StringExp t
  else ExprNode.Double t

/-- A production succeeded with the value `v`, and the lexer it left delivers
the tokens `ts` next. -/
def PResult.Yields {α : Type} (r : PResult α) (v : α) (ts : List Token) : Prop :=
  ∃ lx, r = PResult.ok v lx ∧ lx.stream = ts

/-- The tail `op1 x1 op2 x2 ... opn xn` of a binary expression as the operator
loop of a level meets it: the stream starts with an operator of the level,
the operand production parses what follows it into a node, and so on until
the stream starts with a token that is no operator of the level.  The list
records each operator with the node of its right operand; the last argument
is the stream that remains. -/
inductive OperandChain (operand : Lexer → PResult ExprNode) (isOp : Token → Bool) :
    List Token → List (Token × ExprNode) → List Token → Prop
  | stop (t : Token) (ts : List Token) : isOp t = false →
      OperandChain operand isOp (t :: ts) [] (t :: ts)
  | more (op : Token) (ts : List Token) (e : ExprNode) (ts1 : List Token)
      (steps : List (Token × ExprNode)) (out : List Token) :
      isOp op = true →
      (∀ lx : Lexer, lx.stream = ts → (operand lx).Yields e ts1) →
      OperandChain operand isOp ts1 steps out →
      OperandChain operand isOp (op :: ts) ((op, e) :: steps) out

/-- The left fold `node(opn, ... node(op1, x0, x1) ..., xn)`. -/
def leftFold (mk : Token → Option ExprNode → Option ExprNode → ExprNode) (x0 : ExprNode)
    (steps : List (Token × ExprNode)) : ExprNode :=
  steps.foldl (fun left s => mk s.1 (some left) (some s.2)) x0

/-- The outcome without the node: what the evaluation did to the world and
how it ended. -/
def Outcome.forget {α : Type} : Outcome α → Outcome Unit
  | Outcome.done _ w => Outcome.done () w
  | Outcome.fatal e w => Outcome.fatal e w
  | Outcome.outOfFuel => Outcome.outOfFuel

/-- The condition `c` evaluates, in the world `w`, to a value whose boolean
reading is `b`. -/
def Runtime.condIs (rt : Runtime) (c : ExprNode) (w : World) (b : Bool) : Prop :=
  ∃ v, rt.evaluate c w.symTab = Except.ok v ∧ rt.getBoolValue v = b

/-- The world with the variable `id` bound to the integer `n`. -/
def World.bindInt (w : World) (id : String) (n : Int) : World :=
  { w with symTab := w.symTab.setValueFor id (Value.int n) }

/-- The world with the binding of `id` removed. -/
def World.unbind (w : World) (id : String) : World :=
  { w with symTab := w.symTab.erase id }

/-- The values `start, start + step, ..., start + (n - 1) * step`. -/
def rangeValues (start step : Int) (n : Nat) : List Int :=
  (List.range n).map fun (k : Nat) => start + (k : Int) * step

/-- Runs the block once for each value of the list, in order, each time with
the variable `id` bound to that value. -/
def runBodyAt (evalBlock : Statements → World → Outcome Statements) (id : String) :
    List Int → Statements → World → Outcome Statements
  | [], body, w => Outcome.done body w
  | v :: vs, body, w =>
    (evalBlock body (w.bindInt id v)).bind fun body1 w1 => runBodyAt evalBlock id vs body1 w1

/-- Each of the runs of `runBodyAt` completes and leaves the variable `id`
bound to the integer it was run with. -/
def BodyKeeps (evalBlock : Statements → World → Outcome Statements) (id : String) :
    List Int → Statements → World → Prop
  | [], _, _ => True
  | v :: vs, body, w =>
    ∃ body1 w1, evalBlock body (w.bindInt id v) = Outcome.done body1 w1 ∧
      w1.symTab.getValueFor id = some (Value.int v) ∧ BodyKeeps evalBlock id vs body1 w1

/-- The defaulting of `RangeStmt::evaluate`: start 0 and step 1 where the
optional is empty; the end has no default. -/
def RangeOptionals.defaulted (o : RangeOptionals) : Option (Int × Int × Int) :=
  o.end_.map fun e => (o.start.getD 0, e, o.step.getD 1)

/-- An evaluation that, when it completes, leaves defined every variable that
was defined before it. -/
def KeepsDefined {α β : Type} (f : α → World → Outcome β) : Prop :=
  ∀ (a : α) (w : World) (b : β) (w1 : World), f a w = Outcome.done b w1 →
    ∀ x : String, w.symTab.isDefined x = true → w1.symTab.isDefined x = true

/-- The lexer at the end of a production that returned or died. -/
def PResult.lexerAt? {α : Type} : PResult α → Option Lexer
  | PResult.ok _ lx => some lx
  | PResult.die _ _ _ lx => some lx
  | PResult.outOfFuel => none

/-- Every lexer a production ends in, returning or dying, is related to the
lexer it started from. -/
def PResult.EndsIn {α : Type} (R : Lexer → Lexer → Prop) (lx : Lexer) (r : PResult α) : Prop :=
  ∀ lx1 : Lexer, r.lexerAt? = some lx1 → R lx lx1

/-- A relation between lexer states that holds from a state to itself, across
a fetch, across a fetch followed by a pushback, and along a chain. -/
structure LexerInvariant (R : Lexer → Lexer → Prop) : Prop where
  refl : ∀ lx : Lexer, R lx lx
  trans : ∀ a b c : Lexer, R a b → R b c → R a c
  get : ∀ lx : Lexer, R lx lx.getToken.2
  getUnget : ∀ lx : Lexer, R lx lx.getToken.2.ungetToken

/-- The token the lexer delivers at the `i`-th fetch from now: the tokens of
the stream, then end-of-file for ever. -/
def Lexer.peek (lx : Lexer) (i : Nat) : Token :=
  lx.stream.getD i Token.eof

/-- The pushback discipline of a sequence of lexer calls: every pushback is
immediately preceded by a fetch (so never two in a row, and never first). -/
def PushbackDiscipline (ops : List LexOp) : Prop :=
  ∀ i : Nat, ops[i]? = some LexOp.unget → ∃ j : Nat, i = j + 1 ∧ ops[j]? = some LexOp.get

/-- The calls made between two lexer states keep the pushback discipline. -/
def Lexer.Disciplined (lx lx1 : Lexer) : Prop :=
  ∃ added : List LexOp, lx1.ops = lx.ops ++ added ∧ PushbackDiscipline added

/-- An instance of the absent production `func_def`, for the examples: a
definition without parameters, `def NAME ( ) : func_suite`. -/
def sampleFuncDef (func_suite : Lexer → PResult Statements) (lx : Lexer) : PResult Statement :=
  let scope := "Parser::func_def"
  let (tok, lx1) := lx.getToken
  if !tok.isFunc then PResult.die scope "Expected DEF" tok lx1
  else
    let (tok1, lx2) := lx1.getToken
    if !tok1.isName then PResult.die scope "Expected NAME" tok1 lx2
    else
      let (tok2, lx3) := lx2.getToken
      if !tok2.isOpenParen then PResult.die scope "Expected (" tok2 lx3
      else
        let (tok3, lx4) := lx3.getToken
        if !tok3.isCloseParen then PResult.die scope "Expected )" tok3 lx4
        else
          let (tok4, lx5) := lx4.getToken
          if !tok4.isColon then PResult.die scope "Expected :" tok4 lx5
          else
            (func_suite lx5).bind fun body lx6 =>
              PResult.ok (Statement.FunctionDefinition tok1.getName [] (some body) false) lx6

/-- The number of values of the range from `start` towards `end_` by `step`:
how many of `start, start + step, ...` lie before `end_` in the direction of
the step. -/
def rangeCount (start end_ step : Int) : Nat :=
  if 0 < step then ((end_ - start + step - 1) / step).toNat
  else if step < 0 then ((start - end_ + (-step) - 1) / (-step)).toNat
  else 0

/-- The test of the range loop that `RangeStmt::evaluate` runs for the step:
`counter > end` for a negative step, `counter < end` otherwise. -/
def rangeTest (end_ step : Int) (x : Int) : Bool :=
  if step < 0 then decide (x > end_) else decide (x < end_)

/-- The counter of a range loop on the type `int`, followed for at most `fuel`
loop tests from the value `v`: the values that pass the test, in order, each
followed by its `int` sum with the step, and the first value that fails the
test.  Absent when `fuel` tests do not reach a value that fails. -/
def counterPath (continues : Int → Bool) (step : Int) : Nat → Int → Option (List Int × Int)
  | 0, _ => none
  | fuel + 1, v =>
    if continues v then
      (counterPath continues step fuel (toCInt (v + step))).map fun p => (v :: p.1, p.2)
    else
      some ([], v)

mutual
/-- Every if statement of the tree, at any depth, has its primary
(condition, block) pair. -/
def Statement.ifsAttached : Statement → Bool
  | Statement.AssignStmt _ _ => true
  | Statement.PrintStatement _ => true
  | Statement.IfStatement none _ _ => false
  | Statement.IfStatement (some (_, block)) elif_ else_ =>
    Statements.ifsAttached block && ElifItems.ifsAttachedOpt elif_ &&
      Statements.ifsAttachedOpt else_
  | Statement.RangeStmt _ _ forBody _ _ _ => Statements.ifsAttached forBody
  | Statement.FunctionDefinition _ _ suite _ => Statements.ifsAttachedOpt suite
  | Statement.ReturnStatement _ => true
/-- Every statement of the block satisfies `Statement.ifsAttached`. -/
def Statements.ifsAttached : List Statement → Bool
  | [] => true
  | s :: rest => Statement.ifsAttached s && Statements.ifsAttached rest
/-- An absent block, or a block that satisfies `Statements.ifsAttached`. -/
def Statements.ifsAttachedOpt : Option (List Statement) → Bool
  | none => true
  | some block => Statements.ifsAttached block
/-- Every block of the elif pairs satisfies `Statements.ifsAttached`. -/
def ElifItems.ifsAttached : List (ExprNode × List Statement) → Bool
  | [] => true
  | (_, block) :: rest => Statements.ifsAttached block && ElifItems.ifsAttached rest
/-- An absent elif part, or one that satisfies `ElifItems.ifsAttached`. -/
def ElifItems.ifsAttachedOpt : Option (List (ExprNode × List Statement)) → Bool
  | none => true
  | some items => ElifItems.ifsAttached items
end

/-- The parse, when it returns a value, returns one that satisfies `good`. -/
def PResult.Returns {α : Type} (good : α → Prop) (r : PResult α) : Prop :=
  ∀ (v : α) (lx : Lexer), r = PResult.ok v lx → good v

/-- The evaluation does not end in the fatal exit for an if statement without
primary branch, and when it completes its result satisfies `good`. -/
def Outcome.AvoidsNullIf {α : Type} (good : α → Prop) : Outcome α → Prop
  | Outcome.done a _ => good a
  | Outcome.fatal e _ => e ≠ Fatal.nullIf
  | Outcome.outOfFuel => True

/-- The tokens of the statement `for x in range ( args ) :` with the block
`print x`, for the examples. -/
def sampleFor (args : List Token) : List Token :=
  [Token.keyword Keyword.kwFor, Token.name "x", Token.keyword Keyword.kwIn,
    Token.keyword Keyword.kwRange, Token.openParen] ++ args ++
  [Token.closeParen, Token.colon, Token.eol, Token.indent, Token.keyword Keyword.kwPrint,
    Token.name "x", Token.eol, Token.dedent]

/-- The production `p`, started on any lexer that delivers the tokens `s`
next, returns the value `v` and leaves a lexer that delivers `out` next. -/
def Parses {α : Type} (p : Lexer → PResult α) (s : List Token) (v : α) (out : List Token) :
    Prop :=
  ∀ lx : Lexer, lx.stream = s → (p lx).Yields v out

/-- The node `not(not(... not(c)))` with `k` unary `not` nodes: the operand
is the left child, the right child is absent. -/
def notNest : Nat → ExprNode → ExprNode
  | 0, c => c
  | k + 1, c =>
    ExprNode.BooleanExprNode (Token.keyword Keyword.kwNot) (some (notNest k c)) none

/-- The node `-(-(... -(u)))` with `k` unary minus nodes: the operand is the
left child, the right child is absent. -/
def negNest : Nat → ExprNode → ExprNode
  | 0, u => u
  | k + 1, u => ExprNode.InfixExprNode Token.minus (some (negNest k u)) none

/-- The clauses `elif c1 : block1 ... elif cn : blockn` of an if statement on
a token stream: each starts with ELIF, `test` parses the condition up to a
colon, and `suite` parses the block.  The list holds the (condition, block)
pairs in source order; the last argument is the stream after the last
block. -/
inductive ElifChain (test : Lexer → PResult ExprNode) (suite : Lexer → PResult Statements) :
    List Token → List (ExprNode × Statements) → List Token → Prop
  | done (s : List Token) : ElifChain test suite s [] s
  | clause (s1 : List Token) (c : ExprNode) (s2 : List Token) (b : Statements)
      (s3 : List Token) (pairs : List (ExprNode × Statements)) (out : List Token) :
      Parses test s1 c (Token.colon :: s2) → Parses suite s2 b s3 →
      ElifChain test suite s3 pairs out →
      ElifChain test suite (Token.keyword Keyword.kwElif :: s1) ((c, b) :: pairs) out

/-- The elif member of the IfStatement built from the pairs parsed: absent
when there was no elif clause. -/
def elifMember (pairs : List (ExprNode × Statements)) :
    Option (List (ExprNode × Statements)) :=
  if pairs.isEmpty then none else some pairs

/-- The number of tokens up to the last one that is not an end-of-file token. -/
def tokensBeforeEnd : List Token → Nat
  | [] => 0
  | t :: ts => if tokensBeforeEnd ts = 0 ∧ t.isEof = true then 0 else tokensBeforeEnd ts + 1

/-- The number of tokens the lexer still holds before it delivers end-of-file
for ever: the measure that decreases with every token consumed. -/
def Lexer.remaining (lx : Lexer) : Nat :=
  tokensBeforeEnd lx.stream

/-- The production, when it returns, has consumed at least one token: fewer
tokens remain than at its start. -/
def PResult.Consumes {α : Type} (lx : Lexer) (r : PResult α) : Prop :=
  ∀ (v : α) (lx1 : Lexer), r = PResult.ok v lx1 → lx1.remaining < lx.remaining

/-- The run ended within its budget: it returned or ended in the fatal error. -/
def PResult.Terminates {α : Type} (r : PResult α) : Prop :=
  r ≠ PResult.outOfFuel

/-! ## A reference value runtime for the examples -/

/-- Integer arithmetic of the reference runtime; division truncates. -/
def refArith (op : Token) (a b : Int) : Except String Value :=
  match op with
  | Token.plus => Except.ok (Value.int (a + b))
  | Token.minus => Except.ok (Value.int (a - b))
  | Token.times => Except.ok (Value.int (a * b))
  | Token.divide => if b = 0 then Except.error "division by zero" else Except.ok (Value.int (a.tdiv b))
  | Token.modulo => if b = 0 then Except.error "division by zero" else Except.ok (Value.int (a.tmod b))
  | _ => Except.error "unknown operator"

/-- Integer comparison of the reference runtime. -/
def refCompare (op : String) (a b : Int) : Except String Value :=
  if op = "==" then Except.ok (Value.bool (decide (a = b)))
  else if op = "!=" then Except.ok (Value.bool (decide (a ≠ b)))
  else if op = "<" then Except.ok (Value.bool (decide (a < b)))
  else if op = ">" then Except.ok (Value.bool (decide (a > b)))
  else if op = "<=" then Except.ok (Value.bool (decide (a ≤ b)))
  else if op = ">=" then Except.ok (Value.bool (decide (a ≥ b)))
  else Except.error "unknown comparison"

/-- The integer reading of the reference runtime, a value of the type `int`. -/
def refGetIntValue : Value → Int
  | Value.int n => toCInt n
  | Value.bool b => if b then 1 else 0
  | _ => 0

/-- The boolean reading of the reference runtime. -/
def refGetBoolValue : Value → Bool
  | Value.bool b => b
  | Value.int n => decide (n ≠ 0)
  | _ => false

/-- The in-place increment of the reference runtime: the sum on the type
`int`, modulo 2^32. -/
def refIncrementByN (k : Int) : Value → Value
  | Value.int n => Value.int (toCInt (n + k))
  | v => v

/-- Expression evaluation of the reference runtime: variables, literals,
integer arithmetic and comparison, boolean connectives; anything else fails. -/
def refEvaluate (st : SymTab) : ExprNode → Except String Value
  | ExprNode.Variable (Token.name s) =>
    match st.vars s with
    | some v => Except.ok v
    | none => Except.error "undefined variable"
  | ExprNode.WholeNumber (Token.wholeNumber n) => Except.ok (Value.int n)
  | ExprNode.Double (Token.float b) => Except.ok (Value.float b)
  | ExprNode.StringExp (Token.string s) => Except.ok (Value.str s)
  | ExprNode.InfixExprNode op (some l) (some r) =>
    match refEvaluate st l, refEvaluate st r with
    | Except.ok a, Except.ok b => refArith op (refGetIntValue a) (refGetIntValue b)
    | Except.error m, _ => Except.error m
    | _, Except.error m => Except.error m
  | ExprNode.InfixExprNode Token.minus (some l) none =>
    match refEvaluate st l with
    | Except.ok a => Except.ok (Value.int (-(refGetIntValue a)))
    | Except.error m => Except.error m
  | ExprNode.ComparisonExprNode (Token.compOp op) (some l) (some r) =>
    match refEvaluate st l, refEvaluate st r with
    | Except.ok a, Except.ok b => refCompare op (refGetIntValue a) (refGetIntValue b)
    | Except.error m, _ => Except.error m
    | _, Except.error m => Except.error m
  | ExprNode.BooleanExprNode (Token.keyword Keyword.kwAnd) (some l) (some r) =>
    match refEvaluate st l, refEvaluate st r with
    | Except.ok a, Except.ok b => Except.ok (Value.bool (refGetBoolValue a && refGetBoolValue b))
    | Except.error m, _ => Except.error m
    | _, Except.error m => Except.error m
  | ExprNode.BooleanExprNode (Token.keyword Keyword.kwOr) (some l) (some r) =>
    match refEvaluate st l, refEvaluate st r with
    | Except.ok a, Except.ok b => Except.ok (Value.bool (refGetBoolValue a || refGetBoolValue b))
    | Except.error m, _ => Except.error m
    | _, Except.error m => Except.error m
  | ExprNode.BooleanExprNode (Token.keyword Keyword.kwNot) (some l) none =>
    match refEvaluate st l with
    | Except.ok a => Except.ok (Value.bool (!refGetBoolValue a))
    | Except.error m => Except.error m
  | _ => Except.error "unsupported expression"

/-- The reference value runtime. -/
def refRuntime : Runtime where
  evaluate := fun e st => refEvaluate st e
  getIntValue := refGetIntValue
  getBoolValue := refGetBoolValue
  incrementByN := refIncrementByN
  getIntValue_isCInt := fun v => by
    cases v with
    | int n =>
      have h0 := Int.emod_nonneg (n - intMin) (by decide : (4294967296 : Int) ≠ 0)
      have h1 := Int.emod_lt_of_pos (n - intMin) (by decide : (0 : Int) < 4294967296)
      simp only [refGetIntValue, toCInt, IsCInt, intMin, intMax] at *
      omega
    | float bits => exact (by decide : IsCInt 0)
    | bool b =>
      cases b
      · exact (by decide : IsCInt 0)
      · exact (by decide : IsCInt 1)
    | str s => exact (by decide : IsCInt 0)
  getIntValue_int := fun _ => rfl
  getBoolValue_bool := fun _ => rfl
  incrementByN_int := fun _ _ => rfl

/-- The world of a fresh run: no bindings, nothing printed. -/
def World.initial : World :=
  { symTab := SymTab.empty, out := [] }

/-- The node of an integer literal. -/
def intLit (n : Int) : ExprNode :=
  ExprNode.WholeNumber (Token.wholeNumber n)

/-- The node of a variable. -/
def varRef (s : String) : ExprNode :=
  ExprNode.Variable (Token.name s)

end PyInterp


namespace PyInterp

/-! # Properties -/

/-! ## The lexer -/

theorem Lexer.getToken_eq {lx : Lexer} {t : Token} {ts : List Token}
    (h : lx.stream = t :: ts) : lx.getToken = (t, lx.getToken.2) := by
  unfold Lexer.stream at h
  unfold Lexer.getToken
  split at h
  · next hu => simp only [hu, if_true]; simp at h; simp [h.1]
  · next hu => simp only [hu]; simp [h]

theorem Lexer.getToken_stream {lx : Lexer} {t : Token} {ts : List Token}
    (h : lx.stream = t :: ts) : lx.getToken.2.stream = ts := by
  unfold Lexer.stream at h
  unfold Lexer.getToken Lexer.stream
  split at h
  · next hu => simp only [hu, if_true]; simp at h; simp [h.2]
  · next hu => simp only [hu]; simp [h]

theorem Lexer.getToken_unget_stream {lx : Lexer} {t : Token} {ts : List Token}
    (h : lx.stream = t :: ts) : lx.getToken.2.ungetToken.stream = t :: ts := by
  unfold Lexer.stream at h
  unfold Lexer.getToken Lexer.stream Lexer.ungetToken
  split at h
  · next hu => simp only [hu, if_true]; simp at h; simp [h.1, h.2]
  · next hu => simp only [hu]; simp [h]

theorem Lexer.init_stream (ts : List Token) : (Lexer.init ts).stream = ts := by
  simp [Lexer.init, Lexer.stream]

/-! ## Sequencing of productions -/

theorem PResult.Yields.bind {α β : Type} {r : PResult α} {v : α} {ts : List Token}
    {k : α → Lexer → PResult β} {w : β} {us : List Token}
    (h : r.Yields v ts) (hk : ∀ lx : Lexer, lx.stream = ts → (k v lx).Yields w us) :
    (r.bind k).Yields w us := by
  obtain ⟨lx, hr, hs⟩ := h
  rw [hr]
  exact hk lx hs

theorem PResult.Yields.value {α : Type} {r : PResult α} {v : α} {ts : List Token}
    (h : r.Yields v ts) : r.value? = some v := by
  obtain ⟨lx, hr, _⟩ := h
  rw [hr]; rfl

theorem PResult.Yields.stream {α : Type} {r : PResult α} {v : α} {ts : List Token}
    (h : r.Yields v ts) : r.lexer?.map Lexer.stream = some ts := by
  obtain ⟨lx, hr, hs⟩ := h
  rw [hr]; simp [PResult.lexer?, hs]

/-! ## The operator loop -/

theorem binaryLoop_stop (isOp : Token → Bool)
    (mk : Token → Option ExprNode → Option ExprNode → ExprNode)
    (operand : Lexer → PResult ExprNode) (n : Nat) (left : ExprNode) (lx : Lexer)
    (t : Token) (ts : List Token) (h : lx.stream = t :: ts) (ht : isOp t = false) :
    (binaryLoop isOp mk operand (n + 1) left lx).Yields left (t :: ts) := by
  unfold binaryLoop
  rw [Lexer.getToken_eq h]
  simp only [ht]
  exact ⟨_, rfl, Lexer.getToken_unget_stream h⟩

theorem binaryLoop_step (isOp : Token → Bool)
    (mk : Token → Option ExprNode → Option ExprNode → ExprNode)
    (operand : Lexer → PResult ExprNode) (n : Nat) (left : ExprNode) (lx : Lexer)
    (op : Token) (ts : List Token) (h : lx.stream = op :: ts) (hop : isOp op = true) :
    binaryLoop isOp mk operand (n + 1) left lx =
      (operand lx.getToken.2).bind fun right lx2 =>
        binaryLoop isOp mk operand n (mk op (some left) (some right)) lx2 := by
  conv => lhs; unfold binaryLoop
  rw [Lexer.getToken_eq h]
  simp only [hop, if_true]

theorem binaryLoop_chain (isOp : Token → Bool)
    (mk : Token → Option ExprNode → Option ExprNode → ExprNode)
    (operand : Lexer → PResult ExprNode) {ts : List Token} {steps : List (Token × ExprNode)}
    {out : List Token} (hc : OperandChain operand isOp ts steps out) :
    ∀ (n : Nat) (left : ExprNode) (lx : Lexer), steps.length < n → lx.stream = ts →
      (binaryLoop isOp mk operand n left lx).Yields (leftFold mk left steps) out := by
  induction hc with
  | stop t ts ht =>
    intro n left lx hn hs
    cases n with
    | zero => simp at hn
    | succ n => exact binaryLoop_stop isOp mk operand n left lx t ts hs ht
  | more op ts e ts1 steps out hop hoperand _ ih =>
    intro n left lx hn hs
    cases n with
    | zero => simp at hn
    | succ n =>
      rw [binaryLoop_step isOp mk operand n left lx op ts hs hop]
      refine PResult.Yields.bind (hoperand _ (Lexer.getToken_stream hs)) ?_
      intro lx2 hs2
      have hn2 : steps.length < n := by simpa using hn
      exact ih n (mk op (some left) (some e)) lx2 hn2 hs2

/-! ## Single-token operands -/

theorem ExprNode.ofAtom_token (a : Token) : (ExprNode.ofAtom a).token = a := by
  unfold ExprNode.ofAtom
  split
  · rfl
  · split
    · rfl
    · split <;> rfl

theorem atom_ofAtom (fuel : Nat) (lx : Lexer) (a : Token) (ts : List Token)
    (h : lx.stream = a :: ts) (ha : a.isAtom = true) :
    (atom (fuel + 1) lx).Yields (ExprNode.ofAtom a) ts := by
  unfold atom
  rw [Lexer.getToken_eq h]
  refine ⟨lx.getToken.2, ?_, Lexer.getToken_stream h⟩
  cases a <;> simp_all [Token.isAtom, Token.isName, Token.isWholeNumber, Token.isString,
    Token.isFloat, ExprNode.ofAtom]

theorem factor_ofAtom (fuel : Nat) (lx : Lexer) (a t : Token) (ts : List Token)
    (h : lx.stream = a :: t :: ts) (ha : a.isAtom = true)
    (hcall : a.isName = true → t.isOpenParen = false) :
    (factor (fuel + 2) lx).Yields (ExprNode.ofAtom a) (t :: ts) := by
  unfold factor
  rw [Lexer.getToken_eq h]
  have hminus : a.isSubtractionOperator = false := by
    cases a <;> simp_all [Token.isAtom, Token.isName, Token.isWholeNumber, Token.isString,
      Token.isFloat, Token.isSubtractionOperator]
  simp only [hminus]
  refine PResult.Yields.bind (atom_ofAtom fuel _ a (t :: ts) (Lexer.getToken_unget_stream h) ha) ?_
  intro lx2 hs2
  rw [ExprNode.ofAtom_token]
  cases hn : a.isName with
  | false => exact ⟨lx2, by simp, hs2⟩
  | true =>
    rw [Lexer.getToken_eq hs2]
    simp only [hcall hn]
    exact ⟨_, by simp, Lexer.getToken_unget_stream hs2⟩

theorem term_ofAtom (fuel : Nat) (lx : Lexer) (a t : Token) (ts : List Token)
    (h : lx.stream = a :: t :: ts) (ha : a.isAtom = true)
    (hcall : a.isName = true → t.isOpenParen = false)
    (hmul : (t.isMultiplicationOperator || t.isDivisionOperator || t.isModuloOperator) = false) :
    (term (fuel + 3) lx).Yields (ExprNode.ofAtom a) (t :: ts) := by
  unfold term
  refine PResult.Yields.bind (factor_ofAtom fuel lx a t ts h ha hcall) ?_
  intro lx1 hs1
  exact binaryLoop_stop _ _ _ _ _ lx1 t ts hs1 hmul

theorem arith_expr_ofAtom (fuel : Nat) (lx : Lexer) (a t : Token) (ts : List Token)
    (h : lx.stream = a :: t :: ts) (ha : a.isAtom = true)
    (hcall : a.isName = true → t.isOpenParen = false)
    (hmul : (t.isMultiplicationOperator || t.isDivisionOperator || t.isModuloOperator) = false)
    (hadd : (t.isAdditionOperator || t.isSubtractionOperator) = false) :
    (arith_expr (fuel + 4) lx).Yields (ExprNode.ofAtom a) (t :: ts) := by
  unfold arith_expr
  refine PResult.Yields.bind (term_ofAtom fuel lx a t ts h ha hcall hmul) ?_
  intro lx1 hs1
  exact binaryLoop_stop _ _ _ _ _ lx1 t ts hs1 hadd

theorem comparison_ofAtom (fuel : Nat) (lx : Lexer) (a t : Token) (ts : List Token)
    (h : lx.stream = a :: t :: ts) (ha : a.isAtom = true)
    (hcall : a.isName = true → t.isOpenParen = false)
    (hmul : (t.isMultiplicationOperator || t.isDivisionOperator || t.isModuloOperator) = false)
    (hadd : (t.isAdditionOperator || t.isSubtractionOperator) = false)
    (hcmp : t.isCompOp = false) :
    (comparison (fuel + 5) lx).Yields (ExprNode.ofAtom a) (t :: ts) := by
  unfold comparison
  refine PResult.Yields.bind (arith_expr_ofAtom fuel lx a t ts h ha hcall hmul hadd) ?_
  intro lx1 hs1
  exact binaryLoop_stop _ _ _ _ _ lx1 t ts hs1 hcmp

theorem not_test_ofAtom (fuel : Nat) (lx : Lexer) (a t : Token) (ts : List Token)
    (h : lx.stream = a :: t :: ts) (ha : a.isAtom = true)
    (hcall : a.isName = true → t.isOpenParen = false)
    (hmul : (t.isMultiplicationOperator || t.isDivisionOperator || t.isModuloOperator) = false)
    (hadd : (t.isAdditionOperator || t.isSubtractionOperator) = false)
    (hcmp : t.isCompOp = false) :
    (not_test (fuel + 6) lx).Yields (ExprNode.ofAtom a) (t :: ts) := by
  unfold not_test
  rw [Lexer.getToken_eq h]
  have hnot : a.isNot = false := by
    cases a <;> simp_all [Token.isAtom, Token.isName, Token.isWholeNumber, Token.isString,
      Token.isFloat, Token.isNot]
  simp only [hnot]
  exact comparison_ofAtom fuel _ a t ts (Lexer.getToken_unget_stream h) ha hcall hmul hadd hcmp

theorem and_test_ofAtom (fuel : Nat) (lx : Lexer) (a t : Token) (ts : List Token)
    (h : lx.stream = a :: t :: ts) (ha : a.isAtom = true)
    (hcall : a.isName = true → t.isOpenParen = false)
    (hmul : (t.isMultiplicationOperator || t.isDivisionOperator || t.isModuloOperator) = false)
    (hadd : (t.isAdditionOperator || t.isSubtractionOperator) = false)
    (hcmp : t.isCompOp = false) (hand : t.isAnd = false) :
    (and_test (fuel + 7) lx).Yields (ExprNode.ofAtom a) (t :: ts) := by
  unfold and_test
  refine PResult.Yields.bind (not_test_ofAtom fuel lx a t ts h ha hcall hmul hadd hcmp) ?_
  intro lx1 hs1
  exact binaryLoop_stop _ _ _ _ _ lx1 t ts hs1 hand

/-! ## Precedence and associativity -/

theorem Token.not_openParen_of_additive {t : Token}
    (h : (t.isAdditionOperator || t.isSubtractionOperator) = true) :
    t.isOpenParen = false ∧
      (t.isMultiplicationOperator || t.isDivisionOperator || t.isModuloOperator) = false := by
  cases t <;> simp_all [Token.isAdditionOperator, Token.isSubtractionOperator,
    Token.isOpenParen, Token.isMultiplicationOperator, Token.isDivisionOperator,
    Token.isModuloOperator]

theorem Token.not_openParen_of_multiplicative {t : Token}
    (h : (t.isMultiplicationOperator || t.isDivisionOperator || t.isModuloOperator) = true) :
    t.isOpenParen = false := by
  cases t <;> simp_all [Token.isOpenParen, Token.isMultiplicationOperator,
    Token.isDivisionOperator, Token.isModuloOperator]

theorem Token.not_level_of_not_operator {t : Token} (h : t.isOperator = false) :
    (t.isMultiplicationOperator || t.isDivisionOperator || t.isModuloOperator) = false ∧
      (t.isAdditionOperator || t.isSubtractionOperator) = false ∧ t.isCompOp = false ∧
      t.isAnd = false ∧ t.isOr = false := by
  cases t <;> simp_all [Token.isOperator]

/-- C1 (amended): multiplicative operators bind tighter than additive ones.
For one-token atoms a, b, c, an additive operator and a multiplicative
operator, followed by a token t that is no operator and, when c is a name, no
open parenthesis, `arith_expr` on `a + b * c` returns the node
`+(a, *(b, c))` and on `a * b + c` the node `+(*(a, b), c)`, with t the next
token to be read, for every budget of at least 4. -/
theorem arith_expr_precedence (fuel : Nat) (a b c addOp mulOp t : Token) (rest : List Token)
    (ha : a.isAtom = true) (hb : b.isAtom = true) (hc : c.isAtom = true)
    (hadd : (addOp.isAdditionOperator || addOp.isSubtractionOperator) = true)
    (hmul : (mulOp.isMultiplicationOperator || mulOp.isDivisionOperator ||
      mulOp.isModuloOperator) = true)
    (ht : t.isOperator = false) (hcall : c.isName = true → t.isOpenParen = false) :
    (∀ lx : Lexer, lx.stream = a :: addOp :: b :: mulOp :: c :: t :: rest →
      (arith_expr (fuel + 4) lx).Yields
        (ExprNode.InfixExprNode addOp (some (ExprNode.ofAtom a))
          (some (ExprNode.InfixExprNode mulOp (some (ExprNode.ofAtom b))
            (some (ExprNode.ofAtom c)))))
        (t :: rest)) ∧
    (∀ lx : Lexer, lx.stream = a :: mulOp :: b :: addOp :: c :: t :: rest →
      (arith_expr (fuel + 4) lx).Yields
        (ExprNode.InfixExprNode addOp
          (some (ExprNode.InfixExprNode mulOp (some (ExprNode.ofAtom a))
            (some (ExprNode.ofAtom b))))
          (some (ExprNode.ofAtom c)))
        (t :: rest)) := by
  obtain ⟨haddP, haddM⟩ := Token.not_openParen_of_additive hadd
  have hmulP := Token.not_openParen_of_multiplicative hmul
  obtain ⟨htM, htA, -, -, -⟩ := Token.not_level_of_not_operator ht
  constructor
  · intro lx hs
    unfold arith_expr
    refine PResult.Yields.bind
      (term_ofAtom fuel lx a addOp _ hs ha (fun _ => haddP) haddM) ?_
    intro lx1 hs1
    refine binaryLoop_chain _ ExprNode.InfixExprNode (term (fuel + 3))
      (OperandChain.more addOp _ _ (t :: rest) [] (t :: rest) hadd ?_
        (OperandChain.stop t rest htA)) (fuel + 3) _ lx1 (by simp) hs1
    intro lx2 hs2
    unfold term
    refine PResult.Yields.bind
      (factor_ofAtom fuel lx2 b mulOp _ hs2 hb (fun _ => hmulP)) ?_
    intro lx3 hs3
    exact binaryLoop_chain _ ExprNode.InfixExprNode (factor (fuel + 2))
      (OperandChain.more mulOp _ _ (t :: rest) [] (t :: rest) hmul
        (fun lx4 hs4 => factor_ofAtom fuel lx4 c t rest hs4 hc hcall)
        (OperandChain.stop t rest htM)) (fuel + 2) _ lx3 (by simp) hs3
  · intro lx hs
    unfold arith_expr
    have hterm : (term (fuel + 3) lx).Yields
        (ExprNode.InfixExprNode mulOp (some (ExprNode.ofAtom a)) (some (ExprNode.ofAtom b)))
        (addOp :: c :: t :: rest) := by
      unfold term
      refine PResult.Yields.bind
        (factor_ofAtom fuel lx a mulOp _ hs ha (fun _ => hmulP)) ?_
      intro lx1 hs1
      exact binaryLoop_chain _ ExprNode.InfixExprNode (factor (fuel + 2))
        (OperandChain.more mulOp _ _ (addOp :: c :: t :: rest) [] _ hmul
          (fun lx2 hs2 => factor_ofAtom fuel lx2 b addOp _ hs2 hb (fun _ => haddP))
          (OperandChain.stop addOp _ haddM)) (fuel + 2) _ lx1 (by simp) hs1
    refine PResult.Yields.bind hterm ?_
    intro lx1 hs1
    exact binaryLoop_chain _ ExprNode.InfixExprNode (term (fuel + 3))
      (OperandChain.more addOp _ _ (t :: rest) [] (t :: rest) hadd
        (fun lx2 hs2 => term_ofAtom fuel lx2 c t rest hs2 hc hcall htM)
        (OperandChain.stop t rest htA)) (fuel + 3) _ lx1 (by simp) hs1

/-- C1 (witness): `1 + 2 * 3` followed by an end-of-line parses to
`+(1, *(2, 3))`. -/
theorem arith_expr_precedence_witness :
    (arith_expr 4 (Lexer.init [Token.wholeNumber 1, Token.plus, Token.wholeNumber 2,
        Token.times, Token.wholeNumber 3, Token.eol])).value? =
      some (ExprNode.InfixExprNode Token.plus
        (some (ExprNode.WholeNumber (Token.wholeNumber 1)))
        (some (ExprNode.InfixExprNode Token.times
          (some (ExprNode.WholeNumber (Token.wholeNumber 2)))
          (some (ExprNode.WholeNumber (Token.wholeNumber 3)))))) :=
  ((arith_expr_precedence 0 (Token.wholeNumber 1) (Token.wholeNumber 2) (Token.wholeNumber 3)
    Token.plus Token.times Token.eol [] rfl rfl rfl rfl rfl rfl (fun _ => rfl)).1
      (Lexer.init _) (Lexer.init_stream _)).value

/-- C1 (counterexample): with the name c followed by an open parenthesis,
which is no operator, `arith_expr` on `a + b * c ( 1 )` returns
`+(a, *(b, call c(1)))` and not `+(a, *(b, c))`. -/
theorem arith_expr_precedence_counterexample :
    Token.isOperator Token.openParen = false ∧
    (arith_expr 20 (Lexer.init [Token.name "a", Token.plus, Token.name "b", Token.times,
        Token.name "c", Token.openParen, Token.wholeNumber 1, Token.closeParen,
        Token.eol])).value? =
      some (ExprNode.InfixExprNode Token.plus (some (ExprNode.Variable (Token.name "a")))
        (some (ExprNode.InfixExprNode Token.times (some (ExprNode.Variable (Token.name "b")))
          (some (ExprNode.FunctionCall (Token.name "c")
            [ExprNode.WholeNumber (Token.wholeNumber 1)]))))) ∧
    (arith_expr 20 (Lexer.init [Token.name "a", Token.plus, Token.name "b", Token.times,
        Token.name "c", Token.openParen, Token.wholeNumber 1, Token.closeParen,
        Token.eol])).value? ≠
      some (ExprNode.InfixExprNode Token.plus (some (ExprNode.Variable (Token.name "a")))
        (some (ExprNode.InfixExprNode Token.times (some (ExprNode.Variable (Token.name "b")))
          (some (ExprNode.Variable (Token.name "c")))))) := by
  simp [arith_expr, term, factor, atom, call, testlist, test, or_test, and_test, not_test,
    comparison, binaryLoop, testlistLoop, Lexer.init, Lexer.getToken, Lexer.ungetToken,
    PResult.bind, PResult.value?, Token.isName, Token.isSubtractionOperator,
    Token.isAdditionOperator, Token.isMultiplicationOperator, Token.isDivisionOperator,
    Token.isModuloOperator, Token.isOpenParen, Token.isCloseParen, Token.isWholeNumber,
    Token.isComma, Token.isOr, Token.isAnd, Token.isNot, Token.isCompOp, ExprNode.token,
    Token.isOperator, Token.isAssignmentOperator]

/-- C2: every binary level is left-associative.  For each of `or_test`,
`and_test`, `comparison`, `arith_expr` and `term`: when the next-higher level
parses the operand x0, and the stream then holds `op1 x1 ... opn xn` with each
opi an operator of the level and each xi parsed by the next-higher level, the
level returns the left fold `node(opn, ... node(op1, x0, x1) ..., xn)` and
leaves the stream at the first token that is no operator of the level, for
every budget above the number of operators. -/
theorem binary_levels_left_associative (fuel : Nat) (ts0 ts1 out : List Token) (x0 : ExprNode)
    (steps : List (Token × ExprNode)) (hn : steps.length < fuel) :
    ((∀ lx : Lexer, lx.stream = ts0 → (and_test fuel lx).Yields x0 ts1) →
      OperandChain (and_test fuel) Token.isOr ts1 steps out →
      ∀ lx : Lexer, lx.stream = ts0 →
        (or_test (fuel + 1) lx).Yields (leftFold ExprNode.BooleanExprNode x0 steps) out) ∧
    ((∀ lx : Lexer, lx.stream = ts0 → (not_test fuel lx).Yields x0 ts1) →
      OperandChain (not_test fuel) Token.isAnd ts1 steps out →
      ∀ lx : Lexer, lx.stream = ts0 →
        (and_test (fuel + 1) lx).Yields (leftFold ExprNode.BooleanExprNode x0 steps) out) ∧
    ((∀ lx : Lexer, lx.stream = ts0 → (arith_expr fuel lx).Yields x0 ts1) →
      OperandChain (arith_expr fuel) Token.isCompOp ts1 steps out →
      ∀ lx : Lexer, lx.stream = ts0 →
        (comparison (fuel + 1) lx).Yields (leftFold ExprNode.ComparisonExprNode x0 steps) out) ∧
    ((∀ lx : Lexer, lx.stream = ts0 → (term fuel lx).Yields x0 ts1) →
      OperandChain (term fuel)
        (fun tok => tok.isAdditionOperator || tok.isSubtractionOperator) ts1 steps out →
      ∀ lx : Lexer, lx.stream = ts0 →
        (arith_expr (fuel + 1) lx).Yields (leftFold ExprNode.InfixExprNode x0 steps) out) ∧
    ((∀ lx : Lexer, lx.stream = ts0 → (factor fuel lx).Yields x0 ts1) →
      OperandChain (factor fuel)
        (fun tok => tok.isMultiplicationOperator || tok.isDivisionOperator ||
          tok.isModuloOperator) ts1 steps out →
      ∀ lx : Lexer, lx.stream = ts0 →
        (term (fuel + 1) lx).Yields (leftFold ExprNode.InfixExprNode x0 steps) out) := by
  refine ⟨?_, ?_, ?_, ?_, ?_⟩
  · intro h0 hc lx hs
    unfold or_test
    exact PResult.Yields.bind (h0 lx hs) fun lx1 hs1 =>
      binaryLoop_chain _ _ _ hc fuel x0 lx1 hn hs1
  · intro h0 hc lx hs
    unfold and_test
    exact PResult.Yields.bind (h0 lx hs) fun lx1 hs1 =>
      binaryLoop_chain _ _ _ hc fuel x0 lx1 hn hs1
  · intro h0 hc lx hs
    unfold comparison
    exact PResult.Yields.bind (h0 lx hs) fun lx1 hs1 =>
      binaryLoop_chain _ _ _ hc fuel x0 lx1 hn hs1
  · intro h0 hc lx hs
    unfold arith_expr
    exact PResult.Yields.bind (h0 lx hs) fun lx1 hs1 =>
      binaryLoop_chain _ _ _ hc fuel x0 lx1 hn hs1
  · intro h0 hc lx hs
    unfold term
    exact PResult.Yields.bind (h0 lx hs) fun lx1 hs1 =>
      binaryLoop_chain _ _ _ hc fuel x0 lx1 hn hs1

/-- C2 (witness): `10 - 3 - 2` parses to `-(-(10, 3), 2)`, which is not
`-(10, -(3, 2))`. -/
theorem binary_levels_left_associative_witness :
    (arith_expr 4 (Lexer.init [Token.wholeNumber 10, Token.minus, Token.wholeNumber 3,
        Token.minus, Token.wholeNumber 2, Token.eol])).value? =
      some (ExprNode.InfixExprNode Token.minus
        (some (ExprNode.InfixExprNode Token.minus
          (some (ExprNode.WholeNumber (Token.wholeNumber 10)))
          (some (ExprNode.WholeNumber (Token.wholeNumber 3)))))
        (some (ExprNode.WholeNumber (Token.wholeNumber 2)))) ∧
    ExprNode.InfixExprNode Token.minus
        (some (ExprNode.InfixExprNode Token.minus
          (some (ExprNode.WholeNumber (Token.wholeNumber 10)))
          (some (ExprNode.WholeNumber (Token.wholeNumber 3)))))
        (some (ExprNode.WholeNumber (Token.wholeNumber 2))) ≠
      ExprNode.InfixExprNode Token.minus
        (some (ExprNode.WholeNumber (Token.wholeNumber 10)))
        (some (ExprNode.InfixExprNode Token.minus
          (some (ExprNode.WholeNumber (Token.wholeNumber 3)))
          (some (ExprNode.WholeNumber (Token.wholeNumber 2))))) :=
  ⟨((binary_levels_left_associative 3
      [Token.wholeNumber 10, Token.minus, Token.wholeNumber 3, Token.minus,
        Token.wholeNumber 2, Token.eol]
      [Token.minus, Token.wholeNumber 3, Token.minus, Token.wholeNumber 2, Token.eol]
      [Token.eol] (ExprNode.WholeNumber (Token.wholeNumber 10))
      [(Token.minus, ExprNode.WholeNumber (Token.wholeNumber 3)),
        (Token.minus, ExprNode.WholeNumber (Token.wholeNumber 2))] (by decide)).2.2.2.1
      (fun lx hs => term_ofAtom 0 lx (Token.wholeNumber 10) Token.minus _ hs rfl
        (fun _ => rfl) rfl)
      (OperandChain.more Token.minus _ _ _ _ _ rfl
        (fun lx hs => term_ofAtom 0 lx (Token.wholeNumber 3) Token.minus _ hs rfl
          (fun _ => rfl) rfl)
        (OperandChain.more Token.minus _ _ _ _ _ rfl
          (fun lx hs => term_ofAtom 0 lx (Token.wholeNumber 2) Token.eol _ hs rfl
            (fun _ => rfl) rfl)
          (OperandChain.stop Token.eol [] rfl)))
      (Lexer.init _) (Lexer.init_stream _)).value,
    by simp⟩

/-- C3 (amended): `and` binds tighter than `or`.  For one-token atoms a, b, c
followed by a token t that is no operator and, when c is a name, no open
parenthesis, `or_test` on `a or b and c` returns `or(a, and(b, c))` and on
`a and b or c` returns `or(and(a, b), c)`, with t the next token to be read,
for every budget of at least 8. -/
theorem or_test_and_binds_tighter (fuel : Nat) (a b c t : Token) (rest : List Token)
    (ha : a.isAtom = true) (hb : b.isAtom = true) (hc : c.isAtom = true)
    (ht : t.isOperator = false) (hcall : c.isName = true → t.isOpenParen = false) :
    (∀ lx : Lexer,
      lx.stream = a :: Token.keyword Keyword.kwOr :: b :: Token.keyword Keyword.kwAnd ::
        c :: t :: rest →
      (or_test (fuel + 8) lx).Yields
        (ExprNode.BooleanExprNode (Token.keyword Keyword.kwOr) (some (ExprNode.ofAtom a))
          (some (ExprNode.BooleanExprNode (Token.keyword Keyword.kwAnd)
            (some (ExprNode.ofAtom b)) (some (ExprNode.ofAtom c)))))
        (t :: rest)) ∧
    (∀ lx : Lexer,
      lx.stream = a :: Token.keyword Keyword.kwAnd :: b :: Token.keyword Keyword.kwOr ::
        c :: t :: rest →
      (or_test (fuel + 8) lx).Yields
        (ExprNode.BooleanExprNode (Token.keyword Keyword.kwOr)
          (some (ExprNode.BooleanExprNode (Token.keyword Keyword.kwAnd)
            (some (ExprNode.ofAtom a)) (some (ExprNode.ofAtom b))))
          (some (ExprNode.ofAtom c)))
        (t :: rest)) := by
  obtain ⟨htM, htA, htC, htAnd, htOr⟩ := Token.not_level_of_not_operator ht
  constructor
  · intro lx hs
    unfold or_test
    refine PResult.Yields.bind
      (and_test_ofAtom fuel lx a (Token.keyword Keyword.kwOr) _ hs ha (fun _ => rfl) rfl rfl rfl
        rfl) ?_
    intro lx1 hs1
    refine binaryLoop_chain _ ExprNode.BooleanExprNode (and_test (fuel + 7))
      (OperandChain.more (Token.keyword Keyword.kwOr) _ _ (t :: rest) [] (t :: rest) rfl ?_
        (OperandChain.stop t rest htOr)) (fuel + 7) _ lx1 (by simp) hs1
    intro lx2 hs2
    unfold and_test
    refine PResult.Yields.bind
      (not_test_ofAtom fuel lx2 b (Token.keyword Keyword.kwAnd) _ hs2 hb (fun _ => rfl) rfl rfl
        rfl) ?_
    intro lx3 hs3
    exact binaryLoop_chain _ ExprNode.BooleanExprNode (not_test (fuel + 6))
      (OperandChain.more (Token.keyword Keyword.kwAnd) _ _ (t :: rest) [] (t :: rest) rfl
        (fun lx4 hs4 => not_test_ofAtom fuel lx4 c t rest hs4 hc hcall htM htA htC)
        (OperandChain.stop t rest htAnd)) (fuel + 6) _ lx3 (by simp) hs3
  · intro lx hs
    unfold or_test
    have hand : (and_test (fuel + 7) lx).Yields
        (ExprNode.BooleanExprNode (Token.keyword Keyword.kwAnd) (some (ExprNode.ofAtom a))
          (some (ExprNode.ofAtom b)))
        (Token.keyword Keyword.kwOr :: c :: t :: rest) := by
      unfold and_test
      refine PResult.Yields.bind
        (not_test_ofAtom fuel lx a (Token.keyword Keyword.kwAnd) _ hs ha (fun _ => rfl) rfl rfl
          rfl) ?_
      intro lx1 hs1
      exact binaryLoop_chain _ ExprNode.BooleanExprNode (not_test (fuel + 6))
        (OperandChain.more (Token.keyword Keyword.kwAnd) _ _ _ [] _ rfl
          (fun lx2 hs2 => not_test_ofAtom fuel lx2 b (Token.keyword Keyword.kwOr) _ hs2 hb
            (fun _ => rfl) rfl rfl rfl)
          (OperandChain.stop (Token.keyword Keyword.kwOr) _ rfl)) (fuel + 6) _ lx1 (by simp) hs1
    refine PResult.Yields.bind hand ?_
    intro lx1 hs1
    exact binaryLoop_chain _ ExprNode.BooleanExprNode (and_test (fuel + 7))
      (OperandChain.more (Token.keyword Keyword.kwOr) _ _ (t :: rest) [] (t :: rest) rfl
        (fun lx2 hs2 => and_test_ofAtom fuel lx2 c t rest hs2 hc hcall htM htA htC htAnd)
        (OperandChain.stop t rest htOr)) (fuel + 7) _ lx1 (by simp) hs1

/-- C3 (witness): `a or b and c` followed by a colon parses to
`or(a, and(b, c))`. -/
theorem or_test_and_binds_tighter_witness :
    (or_test 8 (Lexer.init [Token.name "a", Token.keyword Keyword.kwOr, Token.name "b",
        Token.keyword Keyword.kwAnd, Token.name "c", Token.colon])).value? =
      some (ExprNode.BooleanExprNode (Token.keyword Keyword.kwOr)
        (some (ExprNode.Variable (Token.name "a")))
        (some (ExprNode.BooleanExprNode (Token.keyword Keyword.kwAnd)
          (some (ExprNode.Variable (Token.name "b")))
          (some (ExprNode.Variable (Token.name "c")))))) :=
  ((or_test_and_binds_tighter 0 (Token.name "a") (Token.name "b") (Token.name "c")
    Token.colon [] rfl rfl rfl rfl (fun _ => rfl)).1 (Lexer.init _) (Lexer.init_stream _)).value

/-- C3 (counterexample): with the name c followed by an open parenthesis,
which is no operator, `or_test` on `a or b and c ( 1 )` returns
`or(a, and(b, call c(1)))` and not `or(a, and(b, c))`. -/
theorem or_test_and_binds_tighter_counterexample :
    Token.isOperator Token.openParen = false ∧
    (or_test 24 (Lexer.init [Token.name "a", Token.keyword Keyword.kwOr, Token.name "b",
        Token.keyword Keyword.kwAnd, Token.name "c", Token.openParen, Token.wholeNumber 1,
        Token.closeParen, Token.colon])).value? =
      some (ExprNode.BooleanExprNode (Token.keyword Keyword.kwOr)
        (some (ExprNode.Variable (Token.name "a")))
        (some (ExprNode.BooleanExprNode (Token.keyword Keyword.kwAnd)
          (some (ExprNode.Variable (Token.name "b")))
          (some (ExprNode.FunctionCall (Token.name "c")
            [ExprNode.WholeNumber (Token.wholeNumber 1)]))))) ∧
    (or_test 24 (Lexer.init [Token.name "a", Token.keyword Keyword.kwOr, Token.name "b",
        Token.keyword Keyword.kwAnd, Token.name "c", Token.openParen, Token.wholeNumber 1,
        Token.closeParen, Token.colon])).value? ≠
      some (ExprNode.BooleanExprNode (Token.keyword Keyword.kwOr)
        (some (ExprNode.Variable (Token.name "a")))
        (some (ExprNode.BooleanExprNode (Token.keyword Keyword.kwAnd)
          (some (ExprNode.Variable (Token.name "b")))
          (some (ExprNode.Variable (Token.name "c")))))) := by
  simp [arith_expr, term, factor, atom, call, testlist, test, or_test, and_test, not_test,
    comparison, binaryLoop, testlistLoop, Lexer.init, Lexer.getToken, Lexer.ungetToken,
    PResult.bind, PResult.value?, Token.isName, Token.isSubtractionOperator,
    Token.isAdditionOperator, Token.isMultiplicationOperator, Token.isDivisionOperator,
    Token.isModuloOperator, Token.isOpenParen, Token.isCloseParen, Token.isWholeNumber,
    Token.isComma, Token.isOr, Token.isAnd, Token.isNot, Token.isCompOp, ExprNode.token,
    Token.isOperator, Token.isAssignmentOperator]

end PyInterp


namespace PyInterp

/-! ## Outcomes -/

theorem Outcome.forget_bind_done {α β : Type} (r : Outcome α) (f : α → β) :
    (r.bind fun a w => Outcome.done (f a) w).forget = r.forget := by
  cases r <;> rfl

theorem Outcome.bind_done {α β : Type} (a : α) (w : World) (k : α → World → Outcome β) :
    (Outcome.done a w).bind k = k a w := rfl

theorem Outcome.bind_fatal {α β : Type} (e : Fatal) (w : World) (k : α → World → Outcome β) :
    (Outcome.fatal e w : Outcome α).bind k = Outcome.fatal e w := rfl

theorem Outcome.bind_outOfFuel {α β : Type} (k : α → World → Outcome β) :
    (Outcome.outOfFuel : Outcome α).bind k = Outcome.outOfFuel := rfl

/-! ## Branch selection -/

theorem IfStmt.evaluate_true (rt : Runtime) (evalBlock : Statements → World → Outcome Statements)
    (p : ExprNode × Statements) (w : World) (h : rt.condIs p.1 w true) :
    IfStmt.evaluate rt evalBlock p w =
      (evalBlock p.2 w).bind fun block w1 => Outcome.done (true, (p.1, block)) w1 := by
  obtain ⟨v, hv, hb⟩ := h
  simp [IfStmt.evaluate, hv, hb]

theorem IfStmt.evaluate_false (rt : Runtime)
    (evalBlock : Statements → World → Outcome Statements)
    (p : ExprNode × Statements) (w : World) (h : rt.condIs p.1 w false) :
    IfStmt.evaluate rt evalBlock p w = Outcome.done (false, p) w := by
  obtain ⟨v, hv, hb⟩ := h
  simp [IfStmt.evaluate, hv, hb]

theorem ElifStmt.evaluate_all_false (rt : Runtime)
    (evalBlock : Statements → World → Outcome Statements) (w : World) :
    ∀ items : List (ExprNode × Statements), (∀ q ∈ items, rt.condIs q.1 w false) →
      ElifStmt.evaluate rt evalBlock items w = Outcome.done (false, items) w := by
  intro items
  induction items with
  | nil => intro _; rfl
  | cons q rest ih =>
    intro h
    obtain ⟨v, hv, hb⟩ := h q (List.mem_cons_self _ _)
    have hrest := ih fun r hr => h r (List.mem_cons_of_mem _ hr)
    simp [ElifStmt.evaluate, hv, hb, hrest, Outcome.bind]

theorem ElifStmt.evaluate_first_true (rt : Runtime)
    (evalBlock : Statements → World → Outcome Statements) (w : World) (c : ExprNode)
    (b : Statements) (post : List (ExprNode × Statements)) (hc : rt.condIs c w true) :
    ∀ pre : List (ExprNode × Statements), (∀ q ∈ pre, rt.condIs q.1 w false) →
      ElifStmt.evaluate rt evalBlock (pre ++ (c, b) :: post) w =
        (evalBlock b w).bind fun block w1 =>
          Outcome.done (true, pre ++ (c, block) :: post) w1 := by
  intro pre
  induction pre with
  | nil =>
    intro _
    obtain ⟨v, hv, hb⟩ := hc
    simp [ElifStmt.evaluate, hv, hb]
  | cons q rest ih =>
    intro h
    obtain ⟨v, hv, hb⟩ := h q (List.mem_cons_self _ _)
    have hrest := ih fun r hr => h r (List.mem_cons_of_mem _ hr)
    rw [List.cons_append, ElifStmt.evaluate]
    simp only [hv, hb]
    rw [hrest]
    cases evalBlock b w <;> simp [Outcome.bind]

/-- C4: `IfStatement::evaluate` is first-true-wins.  For an if statement with
its primary branch attached: when, in the order primary, elif 1, ..., elif n,
the conditions before some branch are false and the condition of that branch
is true, the statement does exactly what the block of that branch does,
whatever the later branches and the else block are (they are not evaluated);
when every condition is false it does what the else block does if there is
one, and otherwise completes with the world unchanged. -/
theorem ifStatement_first_true_wins (rt : Runtime)
    (evalBlock : Statements → World → Outcome Statements) (p : ExprNode × Statements)
    (elif_ : Option (List (ExprNode × Statements))) (else_ : Option Statements) (w : World) :
    (∀ (pre : List (ExprNode × Statements)) (c : ExprNode) (b : Statements)
        (post : List (ExprNode × Statements)),
      p :: elif_.getD [] = pre ++ (c, b) :: post →
      (∀ q ∈ pre, rt.condIs q.1 w false) → rt.condIs c w true →
      (IfStatement.evaluate rt evalBlock (some p) elif_ else_ w).forget =
        (evalBlock b w).forget) ∧
    ((∀ q ∈ p :: elif_.getD [], rt.condIs q.1 w false) →
      (∀ s : Statements, else_ = some s →
        (IfStatement.evaluate rt evalBlock (some p) elif_ else_ w).forget =
          (evalBlock s w).forget) ∧
      (else_ = none →
        (IfStatement.evaluate rt evalBlock (some p) elif_ else_ w).forget =
          Outcome.done () w)) := by
  constructor
  · intro pre c b post hsplit hpre hc
    cases pre with
    | nil =>
      simp only [List.nil_append, List.cons.injEq] at hsplit
      obtain ⟨hp, -⟩ := hsplit
      subst hp
      simp only [IfStatement.evaluate, IfStmt.evaluate_true rt evalBlock (c, b) w hc]
      cases evalBlock b w <;> simp [Outcome.bind, Outcome.forget]
    | cons q pre1 =>
      simp only [List.cons_append, List.cons.injEq] at hsplit
      obtain ⟨hp, hitems⟩ := hsplit
      subst hp
      have hp := hpre p (List.mem_cons_self _ _)
      have hpre1 : ∀ r ∈ pre1, rt.condIs r.1 w false :=
        fun r hr => hpre r (List.mem_cons_of_mem _ hr)
      cases elif_ with
      | none => simp at hitems
      | some items =>
        simp only [Option.getD_some] at hitems
        subst hitems
        simp only [IfStatement.evaluate, IfStmt.evaluate_false rt evalBlock p w hp,
          Outcome.bind_done, ElifStmt.evaluate_first_true rt evalBlock w c b post hc pre1 hpre1]
        cases evalBlock b w <;> simp [Outcome.bind, Outcome.forget]
  · intro hall
    have hp := hall p (List.mem_cons_self _ _)
    have helif : ∀ items, elif_ = some items →
        ElifStmt.evaluate rt evalBlock items w = Outcome.done (false, items) w := by
      intro items hi
      subst hi
      exact ElifStmt.evaluate_all_false rt evalBlock w items
        fun r hr => hall r (List.mem_cons_of_mem _ (by simpa using hr))
    constructor
    · intro s hs
      subst hs
      cases elif_ with
      | none =>
        simp only [IfStatement.evaluate, IfStmt.evaluate_false rt evalBlock p w hp,
          Outcome.bind_done, ElseStmt.evaluate]
        cases evalBlock s w <;> simp [Outcome.bind, Outcome.forget]
      | some items =>
        simp only [IfStatement.evaluate, IfStmt.evaluate_false rt evalBlock p w hp,
          Outcome.bind_done, helif items rfl, ElseStmt.evaluate]
        cases evalBlock s w <;> simp [Outcome.bind, Outcome.forget]
    · intro hs
      subst hs
      cases elif_ with
      | none =>
        simp [IfStatement.evaluate, IfStmt.evaluate_false rt evalBlock p w hp,
          Outcome.bind, Outcome.forget]
      | some items =>
        simp [IfStatement.evaluate, IfStmt.evaluate_false rt evalBlock p w hp,
          Outcome.bind, helif items rfl, Outcome.forget]

/-- C4 (witness): with conditions false, false, true across if/elif/elif the
statement does what the third block does: it prints 3 and nothing else. -/
theorem ifStatement_first_true_wins_witness :
    (IfStatement.evaluate refRuntime (evalStatements refRuntime 1)
        (some (intLit 0, [Statement.PrintStatement [intLit 1]]))
        (some [(intLit 0, [Statement.PrintStatement [intLit 2]]),
          (intLit 1, [Statement.PrintStatement [intLit 3]])])
        none World.initial).forget =
      (evalStatements refRuntime 1 [Statement.PrintStatement [intLit 3]] World.initial).forget ∧
    (evalStatements refRuntime 1 [Statement.PrintStatement [intLit 3]]
        World.initial).world?.map World.out =
      some [Output.value (Value.int 3), Output.blank, Output.endl] :=
  ⟨(ifStatement_first_true_wins refRuntime (evalStatements refRuntime 1)
      (intLit 0, [Statement.PrintStatement [intLit 1]])
      (some [(intLit 0, [Statement.PrintStatement [intLit 2]]),
        (intLit 1, [Statement.PrintStatement [intLit 3]])])
      none World.initial).1
      [(intLit 0, [Statement.PrintStatement [intLit 1]]),
        (intLit 0, [Statement.PrintStatement [intLit 2]])]
      (intLit 1) [Statement.PrintStatement [intLit 3]] [] rfl
      (by
        intro q hq
        simp only [List.mem_cons, List.mem_singleton, List.not_mem_nil, or_false] at hq
        rcases hq with rfl | rfl <;> exact ⟨Value.int 0, rfl, rfl⟩)
      ⟨Value.int 1, rfl, rfl⟩,
    rfl⟩

/-! ## The symbol table -/

theorem World.unbind_bindInt (w : World) (id : String) (n : Int) :
    (w.bindInt id n).unbind id = w.unbind id := by
  unfold World.unbind World.bindInt SymTab.erase SymTab.setValueFor
  congr 2
  funext k
  by_cases hk : k = id <;> simp [hk]

theorem World.unbind_of_undefined (w : World) (id : String)
    (h : w.symTab.isDefined id = false) : w.unbind id = w := by
  unfold World.unbind SymTab.erase
  have hv : w.symTab.vars id = none := by
    simpa [SymTab.isDefined] using h
  have : (fun k => if k = id then none else w.symTab.vars k) = w.symTab.vars := by
    funext k
    by_cases hk : k = id
    · simp [hk, hv]
    · simp [hk]
  rw [this]

theorem World.getValueFor_bindInt (w : World) (id : String) (n : Int) :
    (w.bindInt id n).symTab.getValueFor id = some (Value.int n) := by
  simp [World.bindInt, SymTab.setValueFor, SymTab.getValueFor]

theorem World.isDefined_unbind (w : World) (id : String) :
    (w.unbind id).symTab.isDefined id = false := by
  simp [World.unbind, SymTab.erase, SymTab.isDefined]

/-! ## The type `int` -/

theorem toCInt_of_isCInt {x : Int} (h : IsCInt x) : toCInt x = x := by
  simp only [toCInt, IsCInt, intMin, intMax] at *
  omega

theorem isCInt_toCInt (x : Int) : IsCInt (toCInt x) := by
  simp only [toCInt, IsCInt, intMin, intMax]
  omega

theorem Runtime.getIntValue_of_isCInt (rt : Runtime) {n : Int} (h : IsCInt n) :
    rt.getIntValue (Value.int n) = n := by
  rw [rt.getIntValue_int, toCInt_of_isCInt h]

theorem Runtime.incrementByN_of_isCInt (rt : Runtime) {k n : Int} (h : IsCInt (n + k)) :
    rt.incrementByN k (Value.int n) = Value.int (n + k) := by
  rw [rt.incrementByN_int, toCInt_of_isCInt h]

theorem isCInt_steps {start step : Int} {k : Nat} (h0 : IsCInt start)
    (hk : IsCInt (start + (k : Int) * step)) :
    ∀ j : Nat, j ≤ k → IsCInt (start + (j : Int) * step) := by
  intro j hj
  have hjk : (j : Int) ≤ (k : Int) := by exact_mod_cast hj
  have hj0 : (0 : Int) ≤ (j : Int) := Int.ofNat_nonneg j
  simp only [IsCInt, intMin, intMax] at *
  rcases le_or_lt 0 step with hs | hs
  · have h1 := mul_le_mul_of_nonneg_right hjk hs
    have h2 := mul_nonneg hj0 hs
    omega
  · have h1 := mul_le_mul_of_nonpos_right hjk (le_of_lt hs)
    have h2 := mul_nonpos_of_nonneg_of_nonpos hj0 (le_of_lt hs)
    omega

theorem RangeStmt.parseTestList_isCInt (rt : Runtime) (st : SymTab) (testList : List ExprNode)
    (o o1 : RangeOptionals) (start end_ step : Int)
    (hparse : RangeStmt.parseTestList rt st testList o = Except.ok o1)
    (hdef : o1.defaulted = some (start, end_, step)) :
    IsCInt start ∧ IsCInt end_ ∧ IsCInt step := by
  have h0 : IsCInt 0 := by decide
  have h1 : IsCInt 1 := by decide
  match testList, hparse with
  | [], hparse =>
    simp [RangeStmt.parseTestList, RangeStmt.storeTestList, RangeStmt.clearFrom,
      RangeStmt.editOptionals] at hparse
    subst hparse
    simp [RangeOptionals.defaulted] at hdef
  | [a], hparse =>
    cases ha : rt.evaluate a st with
    | error m => simp [RangeStmt.parseTestList, RangeStmt.storeTestList, ha] at hparse
    | ok va =>
      simp [RangeStmt.parseTestList, RangeStmt.storeTestList, RangeStmt.clearFrom,
        RangeStmt.editOptionals, ha] at hparse
      subst hparse
      simp [RangeOptionals.defaulted] at hdef
      obtain ⟨rfl, rfl, rfl⟩ := hdef
      exact ⟨h0, rt.getIntValue_isCInt va, h1⟩
  | [a, b], hparse =>
    cases ha : rt.evaluate a st with
    | error m => simp [RangeStmt.parseTestList, RangeStmt.storeTestList, ha] at hparse
    | ok va =>
      cases hb : rt.evaluate b st with
      | error m => simp [RangeStmt.parseTestList, RangeStmt.storeTestList, ha, hb] at hparse
      | ok vb =>
        simp [RangeStmt.parseTestList, RangeStmt.storeTestList, RangeStmt.clearFrom,
          RangeStmt.editOptionals, ha, hb] at hparse
        subst hparse
        simp [RangeOptionals.defaulted] at hdef
        obtain ⟨rfl, rfl, rfl⟩ := hdef
        exact ⟨rt.getIntValue_isCInt va, rt.getIntValue_isCInt vb, h1⟩
  | [a, b, c], hparse =>
    cases ha : rt.evaluate a st with
    | error m => simp [RangeStmt.parseTestList, RangeStmt.storeTestList, ha] at hparse
    | ok va =>
      cases hb : rt.evaluate b st with
      | error m => simp [RangeStmt.parseTestList, RangeStmt.storeTestList, ha, hb] at hparse
      | ok vb =>
        cases hc : rt.evaluate c st with
        | error m =>
          simp [RangeStmt.parseTestList, RangeStmt.storeTestList, ha, hb, hc] at hparse
        | ok vc =>
          simp [RangeStmt.parseTestList, RangeStmt.storeTestList, RangeStmt.clearFrom,
            RangeStmt.editOptionals, ha, hb, hc] at hparse
          subst hparse
          simp [RangeOptionals.defaulted] at hdef
          obtain ⟨rfl, rfl, rfl⟩ := hdef
          exact ⟨rt.getIntValue_isCInt va, rt.getIntValue_isCInt vb, rt.getIntValue_isCInt vc⟩
  | a :: b :: c :: d :: rest, hparse =>
    simp [RangeStmt.parseTestList] at hparse

/-! ## Range loops -/

theorem rangeValues_zero (start step : Int) : rangeValues start step 0 = [] := rfl

theorem rangeValues_succ (start step : Int) (k : Nat) :
    rangeValues start step (k + 1) = start :: rangeValues (start + step) step k := by
  unfold rangeValues
  rw [List.range_succ_eq_map, List.map_cons, List.map_map]
  congr 1
  · simp
  · apply List.map_congr_left
    intro j _
    simp only [Function.comp, Nat.succ_eq_add_one]
    push_cast
    ring

theorem rangeValues_length (start step : Int) (n : Nat) :
    (rangeValues start step n).length = n := by
  simp [rangeValues]

theorem RangeStmt.loop_path (rt : Runtime)
    (evalBlock : Statements → World → Outcome Statements)
    (continues : Int → Bool) (step : Int) (id : String) :
    ∀ (n : Nat) (v : Int) (body : Statements) (w : World) (vs : List Int) (last : Int),
      IsCInt v →
      counterPath continues step n v = some (vs, last) →
      BodyKeeps evalBlock id vs body w →
      ∃ body1 w1, runBodyAt evalBlock id vs body w = Outcome.done body1 w1 ∧
        RangeStmt.loop rt evalBlock continues step id n body (w.bindInt id v) =
          Outcome.done body1 (w1.bindInt id last) := by
  intro n
  induction n with
  | zero =>
    intro v body w vs last _ hp
    simp [counterPath] at hp
  | succ n ih =>
    intro v body w vs last hv hp hkeeps
    rw [counterPath] at hp
    by_cases hc : continues v = true
    · rw [if_pos hc] at hp
      cases hrest : counterPath continues step n (toCInt (v + step)) with
      | none => simp [hrest] at hp
      | some p =>
        obtain ⟨vs1, last1⟩ := p
        simp only [hrest, Option.map_some', Option.some.injEq, Prod.mk.injEq] at hp
        obtain ⟨rfl, rfl⟩ := hp
        obtain ⟨body1, w1, hrun, hget, hrestk⟩ := hkeeps
        obtain ⟨body2, w2, hrun2, hloop2⟩ :=
          ih (toCInt (v + step)) body1 w1 vs1 last1 (isCInt_toCInt _) hrest hrestk
        refine ⟨body2, w2, ?_, ?_⟩
        · simp [runBodyAt, hrun, Outcome.bind, hrun2]
        · have hnext : World.mk (w1.symTab.setValueFor id (rt.incrementByN step (Value.int v)))
              w1.out = w1.bindInt id (toCInt (v + step)) := by
            rw [rt.incrementByN_int]; rfl
          rw [RangeStmt.loop]
          simp only [World.getValueFor_bindInt, rt.getIntValue_of_isCInt hv, hc, if_true, hrun,
            Outcome.bind_done, hget, hnext, hloop2]
    · rw [if_neg hc] at hp
      simp only [Option.some.injEq, Prod.mk.injEq] at hp
      obtain ⟨rfl, rfl⟩ := hp
      refine ⟨body, w, rfl, ?_⟩
      rw [RangeStmt.loop]
      simp [World.getValueFor_bindInt, rt.getIntValue_of_isCInt hv, hc]

theorem counterPath_rangeValues (continues : Int → Bool) (step : Int) :
    ∀ (k : Nat) (start : Int) (n : Nat), k < n →
      (∀ j : Nat, j < k → continues (start + (j : Int) * step) = true) →
      continues (start + (k : Int) * step) = false →
      (∀ j : Nat, j ≤ k → IsCInt (start + (j : Int) * step)) →
      counterPath continues step n start =
        some (rangeValues start step k, start + (k : Int) * step) := by
  intro k
  induction k with
  | zero =>
    intro start n hn _ hexit _
    cases n with
    | zero => simp at hn
    | succ n =>
      simp only [Nat.cast_zero, zero_mul, add_zero] at hexit ⊢
      simp [counterPath, hexit, rangeValues_zero]
  | succ k ih =>
    intro start n hn hcont hexit hfit
    cases n with
    | zero => simp at hn
    | succ n =>
      have h0 : continues start = true := by simpa using hcont 0 (Nat.succ_pos k)
      have hcont1 : ∀ j : Nat, j < k → continues (start + step + (j : Int) * step) = true := by
        intro j hj
        have := hcont (j + 1) (Nat.succ_lt_succ hj)
        rw [← this]
        congr 1
        push_cast
        ring
      have hexit1 : continues (start + step + (k : Int) * step) = false := by
        rw [← hexit]
        congr 1
        push_cast
        ring
      have hfit1 : ∀ j : Nat, j ≤ k → IsCInt (start + step + (j : Int) * step) := by
        intro j hj
        have := hfit (j + 1) (Nat.succ_le_succ hj)
        have e : start + ((j + 1 : Nat) : Int) * step = start + step + (j : Int) * step := by
          push_cast
          ring
        rwa [e] at this
      have hstep1 : toCInt (start + step) = start + step := by
        have := hfit1 0 (Nat.zero_le k)
        simp only [Nat.cast_zero, zero_mul, add_zero] at this
        exact toCInt_of_isCInt this
      have hfinal : start + step + (k : Int) * step = start + ((k + 1 : Nat) : Int) * step := by
        push_cast
        ring
      rw [counterPath, if_pos h0, hstep1,
        ih (start + step) n (Nat.lt_of_succ_lt_succ hn) hcont1 hexit1 hfit1, rangeValues_succ,
        hfinal]
      rfl

theorem counterPath_mono (continues : Int → Bool) (step : Int) :
    ∀ (n m : Nat) (v : Int) (p : List Int × Int), n ≤ m →
      counterPath continues step n v = some p → counterPath continues step m v = some p := by
  intro n
  induction n with
  | zero =>
    intro m v p _ hp
    simp [counterPath] at hp
  | succ n ih =>
    intro m v p hnm hp
    cases m with
    | zero => omega
    | succ m =>
      rw [counterPath] at hp ⊢
      by_cases hc : continues v = true
      · rw [if_pos hc] at hp ⊢
        cases hrest : counterPath continues step n (toCInt (v + step)) with
        | none => simp [hrest] at hp
        | some q =>
          rw [hrest] at hp
          rw [ih m (toCInt (v + step)) q (Nat.le_of_succ_le_succ hnm) hrest]
          exact hp
      · rw [if_neg hc] at hp ⊢
        exact hp

theorem RangeStmt.loop_runs (rt : Runtime) (evalBlock : Statements → World → Outcome Statements)
    (continues : Int → Bool) (step : Int) (id : String)
    (k : Nat) (start : Int) (body : Statements) (w : World) (n : Nat) (hkn : k < n)
    (hcont : ∀ j : Nat, j < k → continues (start + (j : Int) * step) = true)
    (hexit : continues (start + (k : Int) * step) = false)
    (hstart : IsCInt start) (hlast : IsCInt (start + (k : Int) * step))
    (hkeeps : BodyKeeps evalBlock id (rangeValues start step k) body w) :
    ∃ body1 w1, runBodyAt evalBlock id (rangeValues start step k) body w =
        Outcome.done body1 w1 ∧
      RangeStmt.loop rt evalBlock continues step id n body (w.bindInt id start) =
        Outcome.done body1 (w1.bindInt id (start + (k : Int) * step)) :=
  RangeStmt.loop_path rt evalBlock continues step id n start body w _ _ hstart
    (counterPath_rangeValues continues step k start n hkn hcont hexit
      (isCInt_steps hstart hlast)) hkeeps

theorem RangeStmt.evaluate_of_parse (rt : Runtime)
    (evalBlock : Statements → World → Outcome Statements) (loopFuel : Nat) (id : String)
    (testList : List ExprNode) (forBody : Statements) (o o1 : RangeOptionals) (w : World)
    (start end_ step : Int)
    (hparse : RangeStmt.parseTestList rt w.symTab testList o = Except.ok o1)
    (hdef : o1.defaulted = some (start, end_, step))
    (hundef : w.symTab.isDefined id = false) :
    RangeStmt.evaluate rt evalBlock loopFuel id testList forBody o w =
      if start > end_ ∧ step < 0 then
        (RangeStmt.loop rt evalBlock (fun x => decide (x > end_)) step id loopFuel forBody
          (w.bindInt id start)).bind fun body w2 =>
            Outcome.done (Statement.RangeStmt id testList body o1.start o1.end_ o1.step)
              (w2.unbind id)
      else if start < end_ ∧ 1 ≤ step then
        (RangeStmt.loop rt evalBlock (fun x => decide (x < end_)) step id loopFuel forBody
          (w.bindInt id start)).bind fun body w2 =>
            Outcome.done (Statement.RangeStmt id testList body o1.start o1.end_ o1.step)
              (w2.unbind id)
      else if start = end_ then
        Outcome.done (Statement.RangeStmt id testList forBody o1.start o1.end_ o1.step)
          ((w.bindInt id start).unbind id)
      else Outcome.fatal (Fatal.invalidForLoop start end_ step) (w.bindInt id start) := by
  unfold RangeOptionals.defaulted at hdef
  cases hend : o1.end_ with
  | none => simp [hend] at hdef
  | some e =>
    simp only [hend, Option.map_some', Option.some.injEq, Prod.mk.injEq] at hdef
    obtain ⟨hs, he, hst⟩ := hdef
    subst hs he hst
    simp only [RangeStmt.evaluate, hparse, hundef, hend]
    rfl

theorem ceil_div_bounds (d s : Int) (n : Nat) (hs : 0 < s)
    (hn : (n : ℤ) = ⌈((d : ℤ) : ℚ) / ((s : ℤ) : ℚ)⌉) :
    ((n : ℤ) - 1) * s < d ∧ d ≤ (n : ℤ) * s := by
  have hsq : (0 : ℚ) < (s : ℚ) := by exact_mod_cast hs
  obtain ⟨h1, h2⟩ := Int.ceil_eq_iff.mp hn.symm
  constructor
  · have := (lt_div_iff₀ hsq).mp h1
    exact_mod_cast this
  · have := (div_le_iff₀ hsq).mp h2
    exact_mod_cast this

theorem rangeValues_getElem? (start step : Int) (n k : Nat) (hk : k < n) :
    (rangeValues start step n)[k]? = some (start + (k : Int) * step) := by
  simp [rangeValues, List.getElem?_map, List.getElem?_range hk]

theorem mem_rangeValues {start step : Int} {n : Nat} {v : Int}
    (h : v ∈ rangeValues start step n) : ∃ k : Nat, k < n ∧ v = start + (k : Int) * step := by
  simp only [rangeValues, List.mem_map, List.mem_range] at h
  obtain ⟨k, hk, rfl⟩ := h
  exact ⟨k, hk, rfl⟩

/-- C5: ascending range loop on the type `int`.  When the defaulted range is
(start, end, step) with start < end and step >= 1, the counter value after
the last run, start + n * step with n = ceil((end - start) / step), is at
most `INT_MAX` (no increment overflows), the loop variable is not defined at
entry, and the body, run in turn with the loop variable bound to start,
start + step, ..., completes each time and leaves that binding as it is, then
`RangeStmt::evaluate` does exactly these n runs of the body, the k-th with
the loop variable bound to start + k * step, a value below end, and then
removes the loop variable. -/
theorem rangeStmt_ascending (rt : Runtime)
    (evalBlock : Statements → World → Outcome Statements) (loopFuel : Nat) (id : String)
    (testList : List ExprNode) (forBody : Statements) (o o1 : RangeOptionals) (w : World)
    (start end_ step : Int) (n : Nat)
    (hparse : RangeStmt.parseTestList rt w.symTab testList o = Except.ok o1)
    (hdef : o1.defaulted = some (start, end_, step))
    (hundef : w.symTab.isDefined id = false)
    (hlt : start < end_) (hstep : 1 ≤ step)
    (hn : (n : ℤ) = ⌈((end_ - start : ℤ) : ℚ) / ((step : ℤ) : ℚ)⌉)
    (hfit : start + (n : Int) * step ≤ intMax)
    (hfuel : n < loopFuel)
    (hbody : BodyKeeps evalBlock id (rangeValues start step n) forBody w) :
    RangeStmt.evaluate rt evalBlock loopFuel id testList forBody o w =
        ((runBodyAt evalBlock id (rangeValues start step n) forBody w).bind fun body w2 =>
          Outcome.done (Statement.RangeStmt id testList body o1.start o1.end_ o1.step)
            (w2.unbind id)) ∧
      (rangeValues start step n).length = n ∧
      (∀ k : Nat, k < n → (rangeValues start step n)[k]? = some (start + (k : Int) * step)) ∧
      ∀ v ∈ rangeValues start step n, v < end_ := by
  obtain ⟨hlo, hhi⟩ := ceil_div_bounds (end_ - start) step n (by omega) hn
  have hcont : ∀ j : Nat, j < n → start + (j : Int) * step < end_ := by
    intro j hj
    have hj1 : (j : Int) ≤ (n : Int) - 1 := by omega
    have := mul_le_mul_of_nonneg_right hj1 (by omega : (0 : Int) ≤ step)
    omega
  have hexit : ¬(start + (n : Int) * step < end_) := by omega
  refine ⟨?_, rangeValues_length start step n, fun k hk => rangeValues_getElem? start step n k hk,
    ?_⟩
  · rw [RangeStmt.evaluate_of_parse rt evalBlock loopFuel id testList forBody o o1 w start end_
      step hparse hdef hundef]
    have h1 : ¬(start > end_ ∧ step < 0) := by omega
    have h2 : start < end_ ∧ 1 ≤ step := ⟨hlt, hstep⟩
    rw [if_neg h1, if_pos h2]
    obtain ⟨hstart, -, -⟩ := RangeStmt.parseTestList_isCInt rt w.symTab testList o o1 start end_
      step hparse hdef
    have hlast : IsCInt (start + (n : Int) * step) := by
      have hpos := mul_nonneg (Int.ofNat_nonneg n) (by omega : (0 : Int) ≤ step)
      simp only [IsCInt, intMin, intMax] at hstart hfit ⊢
      omega
    obtain ⟨body1, w1, hrun, hloop⟩ :=
      RangeStmt.loop_runs rt evalBlock (fun x => decide (x < end_)) step id n start forBody w
        loopFuel hfuel (fun j hj => by simpa using hcont j hj) (by simpa using hexit) hstart
        hlast hbody
    rw [hloop, hrun, Outcome.bind_done, Outcome.bind_done, World.unbind_bindInt]
  · intro v hv
    obtain ⟨k, hk, rfl⟩ := mem_rangeValues hv
    exact hcont k hk

/-- C6: descending range loop on the type `int`.  When the defaulted range is
(start, end, step) with start > end and step < 0, the counter value after the
last run, start + n * step with n = ceil((start - end) / |step|), is at least
`INT_MIN` (no increment overflows), the loop variable is not defined at
entry, and the body, run in turn with the loop variable bound to start,
start + step, ..., completes each time and leaves that binding as it is, then
`RangeStmt::evaluate` does exactly these n runs of the body, the k-th with
the loop variable bound to start + k * step, a value above end, and then
removes the loop variable. -/
theorem rangeStmt_descending (rt : Runtime)
    (evalBlock : Statements → World → Outcome Statements) (loopFuel : Nat) (id : String)
    (testList : List ExprNode) (forBody : Statements) (o o1 : RangeOptionals) (w : World)
    (start end_ step : Int) (n : Nat)
    (hparse : RangeStmt.parseTestList rt w.symTab testList o = Except.ok o1)
    (hdef : o1.defaulted = some (start, end_, step))
    (hundef : w.symTab.isDefined id = false)
    (hgt : start > end_) (hstep : step < 0)
    (hn : (n : ℤ) = ⌈((start - end_ : ℤ) : ℚ) / ((|step| : ℤ) : ℚ)⌉)
    (hfit : intMin ≤ start + (n : Int) * step)
    (hfuel : n < loopFuel)
    (hbody : BodyKeeps evalBlock id (rangeValues start step n) forBody w) :
    RangeStmt.evaluate rt evalBlock loopFuel id testList forBody o w =
        ((runBodyAt evalBlock id (rangeValues start step n) forBody w).bind fun body w2 =>
          Outcome.done (Statement.RangeStmt id testList body o1.start o1.end_ o1.step)
            (w2.unbind id)) ∧
      (rangeValues start step n).length = n ∧
      (∀ k : Nat, k < n → (rangeValues start step n)[k]? = some (start + (k : Int) * step)) ∧
      ∀ v ∈ rangeValues start step n, v > end_ := by
  have habs : |step| = -step := abs_of_neg hstep
  rw [habs] at hn
  obtain ⟨hlo, hhi⟩ := ceil_div_bounds (start - end_) (-step) n (by omega) hn
  have hcont : ∀ j : Nat, j < n → start + (j : Int) * step > end_ := by
    intro j hj
    have hj1 : (j : Int) ≤ (n : Int) - 1 := by omega
    have := mul_le_mul_of_nonneg_right hj1 (by omega : (0 : Int) ≤ -step)
    have e1 : (j : Int) * -step = -((j : Int) * step) := by ring
    have e2 : ((n : Int) - 1) * -step = -(((n : Int) - 1) * step) := by ring
    omega
  have hexit : ¬(start + (n : Int) * step > end_) := by
    have e1 : (n : Int) * -step = -((n : Int) * step) := by ring
    omega
  refine ⟨?_, rangeValues_length start step n, fun k hk => rangeValues_getElem? start step n k hk,
    ?_⟩
  · rw [RangeStmt.evaluate_of_parse rt evalBlock loopFuel id testList forBody o o1 w start end_
      step hparse hdef hundef]
    have h1 : start > end_ ∧ step < 0 := ⟨hgt, hstep⟩
    rw [if_pos h1]
    obtain ⟨hstart, -, -⟩ := RangeStmt.parseTestList_isCInt rt w.symTab testList o o1 start end_
      step hparse hdef
    have hlast : IsCInt (start + (n : Int) * step) := by
      have hneg := mul_nonpos_of_nonneg_of_nonpos (Int.ofNat_nonneg n) (le_of_lt hstep)
      simp only [IsCInt, intMin, intMax] at hstart hfit ⊢
      omega
    obtain ⟨body1, w1, hrun, hloop⟩ :=
      RangeStmt.loop_runs rt evalBlock (fun x => decide (x > end_)) step id n start forBody w
        loopFuel hfuel (fun j hj => by simpa using hcont j hj) (by simpa using hexit) hstart
        hlast hbody
    rw [hloop, hrun, Outcome.bind_done, Outcome.bind_done, World.unbind_bindInt]
  · intro v hv
    obtain ⟨k, hk, rfl⟩ := mem_rangeValues hv
    exact hcont k hk

/-- C5 (witness): `for x in range(0, 5): print x` runs the body with x = 0, 1,
2, 3, 4, prints these five values, and leaves x undefined. -/
theorem rangeStmt_ascending_witness :
    (RangeStmt.evaluate refRuntime (evalStatements refRuntime 1) 6 "x" [intLit 0, intLit 5]
          [Statement.PrintStatement [varRef "x"]] ⟨none, none, none⟩ World.initial =
        ((runBodyAt (evalStatements refRuntime 1) "x" (rangeValues 0 1 5)
          [Statement.PrintStatement [varRef "x"]] World.initial).bind fun body w2 =>
            Outcome.done (Statement.RangeStmt "x" [intLit 0, intLit 5] body (some 0) (some 5) none)
              (w2.unbind "x")) ∧
      (rangeValues 0 1 5).length = 5 ∧
      (∀ k : Nat, k < 5 → (rangeValues 0 1 5)[k]? = some (0 + (k : Int) * 1)) ∧
      ∀ v ∈ rangeValues 0 1 5, v < 5) ∧
    rangeValues 0 1 5 = [0, 1, 2, 3, 4] ∧
    (RangeStmt.evaluate refRuntime (evalStatements refRuntime 1) 6 "x" [intLit 0, intLit 5]
        [Statement.PrintStatement [varRef "x"]] ⟨none, none, none⟩ World.initial).world?.map
        World.out =
      some [Output.value (Value.int 0), Output.blank, Output.endl,
        Output.value (Value.int 1), Output.blank, Output.endl,
        Output.value (Value.int 2), Output.blank, Output.endl,
        Output.value (Value.int 3), Output.blank, Output.endl,
        Output.value (Value.int 4), Output.blank, Output.endl] :=
  ⟨rangeStmt_ascending refRuntime (evalStatements refRuntime 1) 6 "x" [intLit 0, intLit 5]
      [Statement.PrintStatement [varRef "x"]] ⟨none, none, none⟩ ⟨some 0, some 5, none⟩
      World.initial 0 5 1 5 rfl rfl rfl (by decide) (by decide) (by norm_num) (by decide)
      (by decide)
      ⟨_, _, rfl, rfl, _, _, rfl, rfl, _, _, rfl, rfl, _, _, rfl, rfl, _, _, rfl, rfl, trivial⟩,
    rfl, rfl⟩

/-- C5 (counterexample): `for x in range(0, 1600000000, 1503238553): print x`
has start < end and step >= 1 and ceil((end - start) / step) = 2, but the
second increment leaves the range of `int` and wraps around: the body runs
four times, with x = 0, 1503238553, -1288490190 and 214748363. -/
theorem rangeStmt_ascending_counterexample :
    (RangeStmt.parseTestList refRuntime World.initial.symTab
        [intLit 0, intLit 1600000000, intLit 1503238553] ⟨none, none, none⟩).toOption.bind
        RangeOptionals.defaulted =
      some (0, 1600000000, 1503238553) ∧
    ⌈(((1600000000 : ℤ) - 0 : ℤ) : ℚ) / ((1503238553 : ℤ) : ℚ)⌉ = 2 ∧
    intMax < 0 + 2 * 1503238553 ∧
    (RangeStmt.evaluate refRuntime (evalStatements refRuntime 1) 5 "x"
        [intLit 0, intLit 1600000000, intLit 1503238553]
        [Statement.PrintStatement [varRef "x"]] ⟨none, none, none⟩ World.initial).world?.map
        World.out =
      some [Output.value (Value.int 0), Output.blank, Output.endl,
        Output.value (Value.int 1503238553), Output.blank, Output.endl,
        Output.value (Value.int (-1288490190)), Output.blank, Output.endl,
        Output.value (Value.int 214748363), Output.blank, Output.endl] := by
  refine ⟨rfl, ?_, by decide, rfl⟩
  rw [Int.ceil_eq_iff]
  norm_num

/-- C6 (witness): `for x in range(5, 0, -1): print x` runs the body with
x = 5, 4, 3, 2, 1 and prints these five values. -/
theorem rangeStmt_descending_witness :
    (RangeStmt.evaluate refRuntime (evalStatements refRuntime 1) 6 "x"
          [intLit 5, intLit 0, intLit (-1)]
          [Statement.PrintStatement [varRef "x"]] ⟨none, none, none⟩ World.initial =
        ((runBodyAt (evalStatements refRuntime 1) "x" (rangeValues 5 (-1) 5)
          [Statement.PrintStatement [varRef "x"]] World.initial).bind fun body w2 =>
            Outcome.done (Statement.RangeStmt "x" [intLit 5, intLit 0, intLit (-1)] body (some 5)
              (some 0) (some (-1))) (w2.unbind "x")) ∧
      (rangeValues 5 (-1) 5).length = 5 ∧
      (∀ k : Nat, k < 5 → (rangeValues 5 (-1) 5)[k]? = some (5 + (k : Int) * (-1))) ∧
      ∀ v ∈ rangeValues 5 (-1) 5, v > 0) ∧
    rangeValues 5 (-1) 5 = [5, 4, 3, 2, 1] ∧
    (RangeStmt.evaluate refRuntime (evalStatements refRuntime 1) 6 "x"
        [intLit 5, intLit 0, intLit (-1)]
        [Statement.PrintStatement [varRef "x"]] ⟨none, none, none⟩ World.initial).world?.map
        World.out =
      some [Output.value (Value.int 5), Output.blank, Output.endl,
        Output.value (Value.int 4), Output.blank, Output.endl,
        Output.value (Value.int 3), Output.blank, Output.endl,
        Output.value (Value.int 2), Output.blank, Output.endl,
        Output.value (Value.int 1), Output.blank, Output.endl] :=
  ⟨rangeStmt_descending refRuntime (evalStatements refRuntime 1) 6 "x"
      [intLit 5, intLit 0, intLit (-1)]
      [Statement.PrintStatement [varRef "x"]] ⟨none, none, none⟩ ⟨some 5, some 0, some (-1)⟩
      World.initial 5 0 (-1) 5 rfl rfl rfl (by decide) (by decide) (by norm_num) (by decide)
      (by decide)
      ⟨_, _, rfl, rfl, _, _, rfl, rfl, _, _, rfl, rfl, _, _, rfl, rfl, _, _, rfl, rfl, trivial⟩,
    rfl, rfl⟩

/-- C6 (counterexample): `for x in range(0, -1600000000, -1503238553): print x`
has start > end and step < 0 and ceil((start - end) / |step|) = 2, but the
second increment leaves the range of `int` and wraps around: the body runs
four times, with x = 0, -1503238553, 1288490190 and -214748363. -/
theorem rangeStmt_descending_counterexample :
    (RangeStmt.parseTestList refRuntime World.initial.symTab
        [intLit 0, intLit (-1600000000), intLit (-1503238553)] ⟨none, none, none⟩).toOption.bind
        RangeOptionals.defaulted =
      some (0, -1600000000, -1503238553) ∧
    ⌈(((0 : ℤ) - (-1600000000) : ℤ) : ℚ) / ((|(-1503238553 : ℤ)| : ℤ) : ℚ)⌉ = 2 ∧
    0 + 2 * (-1503238553) < intMin ∧
    (RangeStmt.evaluate refRuntime (evalStatements refRuntime 1) 5 "x"
        [intLit 0, intLit (-1600000000), intLit (-1503238553)]
        [Statement.PrintStatement [varRef "x"]] ⟨none, none, none⟩ World.initial).world?.map
        World.out =
      some [Output.value (Value.int 0), Output.blank, Output.endl,
        Output.value (Value.int (-1503238553)), Output.blank, Output.endl,
        Output.value (Value.int 1288490190), Output.blank, Output.endl,
        Output.value (Value.int (-214748363)), Output.blank, Output.endl] := by
  refine ⟨rfl, ?_, by decide, rfl⟩
  rw [Int.ceil_eq_iff]
  norm_num

/-- C7: positional meaning of the range arguments.  Whatever the optionals
stored in the node are before the call (so also on a re-evaluation),
`RangeStmt::parseTestList` followed by the defaulting gives
(start, end, step) = (0, e, 1) for the list [e], (a, b, 1) for [a, b] and
(a, b, c) for [a, b, c], each expression read as an integer. -/
theorem parseTestList_positional (rt : Runtime) (st : SymTab) (o : RangeOptionals) :
    (∀ (e : ExprNode) (v : Value), rt.evaluate e st = Except.ok v →
      RangeStmt.parseTestList rt st [e] o =
          Except.ok ⟨none, some (rt.getIntValue v), none⟩ ∧
        (RangeOptionals.mk none (some (rt.getIntValue v)) none).defaulted =
          some (0, rt.getIntValue v, 1)) ∧
    (∀ (a b : ExprNode) (va vb : Value), rt.evaluate a st = Except.ok va →
      rt.evaluate b st = Except.ok vb →
      RangeStmt.parseTestList rt st [a, b] o =
          Except.ok ⟨some (rt.getIntValue va), some (rt.getIntValue vb), none⟩ ∧
        (RangeOptionals.mk (some (rt.getIntValue va)) (some (rt.getIntValue vb)) none).defaulted =
          some (rt.getIntValue va, rt.getIntValue vb, 1)) ∧
    (∀ (a b c : ExprNode) (va vb vc : Value), rt.evaluate a st = Except.ok va →
      rt.evaluate b st = Except.ok vb → rt.evaluate c st = Except.ok vc →
      RangeStmt.parseTestList rt st [a, b, c] o =
          Except.ok ⟨some (rt.getIntValue va), some (rt.getIntValue vb),
            some (rt.getIntValue vc)⟩ ∧
        (RangeOptionals.mk (some (rt.getIntValue va)) (some (rt.getIntValue vb))
            (some (rt.getIntValue vc))).defaulted =
          some (rt.getIntValue va, rt.getIntValue vb, rt.getIntValue vc)) := by
  refine ⟨?_, ?_, ?_⟩
  · intro e v he
    simp [RangeStmt.parseTestList, RangeStmt.storeTestList, RangeStmt.editOptionals,
      RangeStmt.clearFrom, RangeOptionals.defaulted, he]
  · intro a b va vb ha hb
    simp [RangeStmt.parseTestList, RangeStmt.storeTestList, RangeStmt.editOptionals,
      RangeStmt.clearFrom, RangeOptionals.defaulted, ha, hb]
  · intro a b c va vb vc ha hb hc
    simp [RangeStmt.parseTestList, RangeStmt.storeTestList, RangeStmt.editOptionals,
      RangeStmt.clearFrom, RangeOptionals.defaulted, ha, hb, hc]

/-- C7 (witness): with the optionals (7, 8, 9) left in the node by an earlier
evaluation, the list [5] still gives (0, 5, 1). -/
theorem parseTestList_positional_witness :
    RangeStmt.parseTestList refRuntime SymTab.empty [intLit 5] ⟨some 7, some 8, some 9⟩ =
        Except.ok ⟨none, some (refRuntime.getIntValue (Value.int 5)), none⟩ ∧
      (RangeOptionals.mk none (some (refRuntime.getIntValue (Value.int 5))) none).defaulted =
        some (0, refRuntime.getIntValue (Value.int 5), 1) :=
  (parseTestList_positional refRuntime SymTab.empty ⟨some 7, some 8, some 9⟩).1 (intLit 5)
    (Value.int 5) rfl

/-! ## Statements never undefine a variable -/

theorem SymTab.isDefined_setValueFor (st : SymTab) (id x : String) (v : Value)
    (h : st.isDefined x = true) : (st.setValueFor id v).isDefined x = true := by
  unfold SymTab.isDefined SymTab.setValueFor at *
  by_cases hx : x = id <;> simp [hx, h]

theorem SymTab.isDefined_setValueFor_self (st : SymTab) (id : String) (v : Value) :
    (st.setValueFor id v).isDefined id = true := by
  simp [SymTab.isDefined, SymTab.setValueFor]

theorem SymTab.isDefined_erase_of_ne (st : SymTab) (id x : String) (hx : x ≠ id)
    (h : st.isDefined x = true) : (st.erase id).isDefined x = true := by
  unfold SymTab.isDefined SymTab.erase at *
  simp [hx, h]

theorem SymTab.getValueFor_of_isDefined (st : SymTab) (id : String)
    (h : st.isDefined id = true) : ∃ v, st.getValueFor id = some v := by
  unfold SymTab.isDefined at h
  unfold SymTab.getValueFor
  exact Option.isSome_iff_exists.mp h

theorem PrintStatement.evaluate_symTab (rt : Runtime) :
    ∀ (testList : List ExprNode) (w w1 : World),
      PrintStatement.evaluate rt testList w = Outcome.done () w1 → w1.symTab = w.symTab := by
  intro testList
  induction testList with
  | nil =>
    intro w w1 h
    simp only [PrintStatement.evaluate, Outcome.done.injEq, true_and] at h
    rw [← h]
  | cons item rest ih =>
    intro w w1 h
    rw [PrintStatement.evaluate] at h
    cases hv : rt.evaluate item w.symTab with
    | error m => simp [hv] at h
    | ok v =>
      simp only [hv] at h
      have hrest := ih _ w1 h
      exact hrest

theorem Statements.block_keepsDefined (evaluate : Statement → World → Outcome Statement)
    (h : KeepsDefined evaluate) : KeepsDefined (Statements.evaluate evaluate) := by
  intro stmts
  induction stmts with
  | nil =>
    intro w b w1 hrun x hx
    simp only [Statements.evaluate, Outcome.done.injEq] at hrun
    rw [← hrun.2]; exact hx
  | cons s rest ih =>
    intro w b w1 hrun x hx
    rw [Statements.evaluate] at hrun
    cases hs : evaluate s w with
    | fatal e w2 => simp [hs, Outcome.bind] at hrun
    | outOfFuel => simp [hs, Outcome.bind] at hrun
    | done s1 w2 =>
      rw [hs, Outcome.bind_done] at hrun
      cases hr : Statements.evaluate evaluate rest w2 with
      | fatal e w3 => simp [hr, Outcome.bind] at hrun
      | outOfFuel => simp [hr, Outcome.bind] at hrun
      | done rest1 w3 =>
        rw [hr, Outcome.bind_done] at hrun
        simp only [Outcome.done.injEq] at hrun
        rw [← hrun.2]
        exact ih w2 rest1 w3 hr x (h s w s1 w2 hs x hx)

theorem IfStmt.primary_keepsDefined (rt : Runtime)
    (evalBlock : Statements → World → Outcome Statements) (h : KeepsDefined evalBlock) :
    KeepsDefined (IfStmt.evaluate rt evalBlock) := by
  intro p w b w1 hrun x hx
  unfold IfStmt.evaluate at hrun
  cases hv : rt.evaluate p.1 w.symTab with
  | error m => simp [hv] at hrun
  | ok v =>
    simp only [hv] at hrun
    split at hrun
    · cases hb : evalBlock p.2 w with
      | fatal e w2 => simp [hb, Outcome.bind] at hrun
      | outOfFuel => simp [hb, Outcome.bind] at hrun
      | done block w2 =>
        rw [hb, Outcome.bind_done] at hrun
        simp only [Outcome.done.injEq] at hrun
        rw [← hrun.2]
        exact h p.2 w block w2 hb x hx
    · simp only [Outcome.done.injEq] at hrun
      rw [← hrun.2]; exact hx

theorem ElifStmt.chain_keepsDefined (rt : Runtime)
    (evalBlock : Statements → World → Outcome Statements) (h : KeepsDefined evalBlock) :
    KeepsDefined (ElifStmt.evaluate rt evalBlock) := by
  intro items
  induction items with
  | nil =>
    intro w b w1 hrun x hx
    simp only [ElifStmt.evaluate, Outcome.done.injEq] at hrun
    rw [← hrun.2]; exact hx
  | cons item rest ih =>
    intro w b w1 hrun x hx
    rw [ElifStmt.evaluate] at hrun
    cases hv : rt.evaluate item.1 w.symTab with
    | error m => simp [hv] at hrun
    | ok v =>
      simp only [hv] at hrun
      split at hrun
      · cases hb : evalBlock item.2 w with
        | fatal e w2 => simp [hb, Outcome.bind] at hrun
        | outOfFuel => simp [hb, Outcome.bind] at hrun
        | done block w2 =>
          rw [hb, Outcome.bind_done] at hrun
          simp only [Outcome.done.injEq] at hrun
          rw [← hrun.2]
          exact h item.2 w block w2 hb x hx
      · cases hr : ElifStmt.evaluate rt evalBlock rest w with
        | fatal e w2 => simp [hr, Outcome.bind] at hrun
        | outOfFuel => simp [hr, Outcome.bind] at hrun
        | done r w2 =>
          rw [hr, Outcome.bind_done] at hrun
          simp only [Outcome.done.injEq] at hrun
          rw [← hrun.2]
          exact ih w r w2 hr x hx

theorem IfStatement.branches_keepsDefined (rt : Runtime)
    (evalBlock : Statements → World → Outcome Statements) (h : KeepsDefined evalBlock)
    (if_ : Option (ExprNode × Statements)) (elif_ : Option (List (ExprNode × Statements)))
    (else_ : Option Statements) (w : World) (s1 : Statement) (w1 : World)
    (hrun : IfStatement.evaluate rt evalBlock if_ elif_ else_ w = Outcome.done s1 w1)
    (x : String) (hx : w.symTab.isDefined x = true) : w1.symTab.isDefined x = true := by
  unfold IfStatement.evaluate at hrun
  cases if_ with
  | none => simp at hrun
  | some p =>
    simp only at hrun
    cases hp : IfStmt.evaluate rt evalBlock p w with
    | fatal e w2 => simp [hp, Outcome.bind] at hrun
    | outOfFuel => simp [hp, Outcome.bind] at hrun
    | done r w2 =>
      have hx2 := IfStmt.primary_keepsDefined rt evalBlock h p w r w2 hp x hx
      rw [hp, Outcome.bind_done] at hrun
      split at hrun
      · simp only [Outcome.done.injEq] at hrun
        rw [← hrun.2]; exact hx2
      · cases elif_ with
        | none =>
          simp only [Outcome.bind_done, Bool.false_eq_true, if_false] at hrun
          cases else_ with
          | none =>
            simp only [Outcome.done.injEq] at hrun
            rw [← hrun.2]; exact hx2
          | some stmts =>
            simp only [ElseStmt.evaluate] at hrun
            cases hb : evalBlock stmts w2 with
            | fatal e w3 => simp [hb, Outcome.bind] at hrun
            | outOfFuel => simp [hb, Outcome.bind] at hrun
            | done block w3 =>
              simp only [hb, Outcome.bind_done, Outcome.done.injEq] at hrun
              rw [← hrun.2]
              exact h stmts w2 block w3 hb x hx2
        | some items =>
          simp only at hrun
          cases he : ElifStmt.evaluate rt evalBlock items w2 with
          | fatal e w3 => simp [he, Outcome.bind] at hrun
          | outOfFuel => simp [he, Outcome.bind] at hrun
          | done r2 w3 =>
            have hx3 := ElifStmt.chain_keepsDefined rt evalBlock h items w2 r2 w3 he x hx2
            simp only [he, Outcome.bind_done] at hrun
            split at hrun
            · simp only [Outcome.done.injEq] at hrun
              rw [← hrun.2]; exact hx3
            · cases else_ with
              | none =>
                simp only [Outcome.done.injEq] at hrun
                rw [← hrun.2]; exact hx3
              | some stmts =>
                simp only [ElseStmt.evaluate] at hrun
                cases hb : evalBlock stmts w3 with
                | fatal e w4 => simp [hb, Outcome.bind] at hrun
                | outOfFuel => simp [hb, Outcome.bind] at hrun
                | done block w4 =>
                  simp only [hb, Outcome.bind_done, Outcome.done.injEq] at hrun
                  rw [← hrun.2]
                  exact h stmts w3 block w4 hb x hx3

theorem RangeStmt.loop_keepsDefined (rt : Runtime)
    (evalBlock : Statements → World → Outcome Statements) (h : KeepsDefined evalBlock)
    (continues : Int → Bool) (step : Int) (id : String) :
    ∀ (n : Nat) (body : Statements) (w : World) (b : Statements) (w1 : World),
      RangeStmt.loop rt evalBlock continues step id n body w = Outcome.done b w1 →
      ∀ x : String, w.symTab.isDefined x = true → w1.symTab.isDefined x = true := by
  intro n
  induction n with
  | zero => intro body w b w1 hrun; simp [RangeStmt.loop] at hrun
  | succ n ih =>
    intro body w b w1 hrun x hx
    rw [RangeStmt.loop] at hrun
    cases hv : w.symTab.getValueFor id with
    | none => simp [hv] at hrun
    | some v =>
      simp only [hv] at hrun
      split at hrun
      · cases hb : evalBlock body w with
        | fatal e w2 => simp [hb, Outcome.bind] at hrun
        | outOfFuel => simp [hb, Outcome.bind] at hrun
        | done body1 w2 =>
          have hx2 := h body w body1 w2 hb x hx
          rw [hb, Outcome.bind_done] at hrun
          cases hv1 : w2.symTab.getValueFor id with
          | none => simp [hv1] at hrun
          | some v1 =>
            simp only [hv1] at hrun
            exact ih _ _ b w1 hrun x (SymTab.isDefined_setValueFor _ id x _ hx2)
      · simp only [Outcome.done.injEq] at hrun
        rw [← hrun.2]; exact hx

theorem RangeStmt.range_keepsDefined (rt : Runtime)
    (evalBlock : Statements → World → Outcome Statements) (h : KeepsDefined evalBlock)
    (loopFuel : Nat) (id : String) (testList : List ExprNode) (forBody : Statements)
    (o : RangeOptionals) (w : World) (s1 : Statement) (w1 : World)
    (hrun : RangeStmt.evaluate rt evalBlock loopFuel id testList forBody o w = Outcome.done s1 w1)
    (x : String) (hx : w.symTab.isDefined x = true) : w1.symTab.isDefined x = true := by
  unfold RangeStmt.evaluate at hrun
  cases hp : RangeStmt.parseTestList rt w.symTab testList o with
  | error e => simp [hp] at hrun
  | ok o1 =>
    simp only [hp] at hrun
    cases hd : w.symTab.isDefined id with
    | true => simp [hd] at hrun
    | false =>
      have hne : x ≠ id := by
        intro hxe
        rw [hxe, hd] at hx
        exact Bool.false_ne_true hx
      have hx0 : (w.symTab.createEntryFor id (o1.start.getD 0)).isDefined x = true :=
        SymTab.isDefined_setValueFor _ id x _ hx
      simp only [hd, Bool.false_eq_true, if_false] at hrun
      cases he : o1.end_ with
      | none => simp [he] at hrun
      | some e =>
        simp only [he] at hrun
        split at hrun
        · cases hl : RangeStmt.loop rt evalBlock (fun x => decide (x > e)) (o1.step.getD 1) id
              loopFuel forBody { w with symTab := w.symTab.createEntryFor id (o1.start.getD 0) } with
          | fatal e2 w2 => simp [hl, Outcome.bind] at hrun
          | outOfFuel => simp [hl, Outcome.bind] at hrun
          | done body1 w2 =>
            have hx2 := RangeStmt.loop_keepsDefined rt evalBlock h _ _ id loopFuel forBody _
              body1 w2 hl x hx0
            simp only [hl, Outcome.bind_done, Outcome.done.injEq] at hrun
            rw [← hrun.2]
            exact SymTab.isDefined_erase_of_ne _ id x hne hx2
        · split at hrun
          · cases hl : RangeStmt.loop rt evalBlock (fun x => decide (x < e)) (o1.step.getD 1) id
                loopFuel forBody
                { w with symTab := w.symTab.createEntryFor id (o1.start.getD 0) } with
            | fatal e2 w2 => simp [hl, Outcome.bind] at hrun
            | outOfFuel => simp [hl, Outcome.bind] at hrun
            | done body1 w2 =>
              have hx2 := RangeStmt.loop_keepsDefined rt evalBlock h _ _ id loopFuel forBody _
                body1 w2 hl x hx0
              simp only [hl, Outcome.bind_done, Outcome.done.injEq] at hrun
              rw [← hrun.2]
              exact SymTab.isDefined_erase_of_ne _ id x hne hx2
          · split at hrun
            · simp only [Outcome.done.injEq] at hrun
              rw [← hrun.2]
              exact SymTab.isDefined_erase_of_ne _ id x hne hx0
            · simp at hrun

theorem Statement.dispatch_keepsDefined (rt : Runtime) :
    ∀ fuel : Nat, KeepsDefined (Statement.evaluate rt fuel) := by
  intro fuel
  induction fuel with
  | zero => intro s w s1 w1 hrun; simp [Statement.evaluate] at hrun
  | succ fuel ih =>
    have hblock := Statements.block_keepsDefined (Statement.evaluate rt fuel) ih
    intro s w s1 w1 hrun x hx
    cases s with
    | AssignStmt lhs rhs =>
      simp only [Statement.evaluate, AssignStmt.evaluate] at hrun
      cases hv : rt.evaluate rhs w.symTab with
      | error m => simp [hv, Outcome.bind] at hrun
      | ok v =>
        simp only [hv, Outcome.bind_done, Outcome.done.injEq] at hrun
        rw [← hrun.2]
        exact SymTab.isDefined_setValueFor _ lhs x v hx
    | PrintStatement testList =>
      simp only [Statement.evaluate] at hrun
      cases hp : PrintStatement.evaluate rt testList w with
      | fatal e w2 => simp [hp, Outcome.bind] at hrun
      | outOfFuel => simp [hp, Outcome.bind] at hrun
      | done u w2 =>
        simp only [hp, Outcome.bind_done, Outcome.done.injEq] at hrun
        rw [← hrun.2, PrintStatement.evaluate_symTab rt testList w w2 hp]
        exact hx
    | IfStatement if_ elif_ else_ =>
      simp only [Statement.evaluate] at hrun
      exact IfStatement.branches_keepsDefined rt _ hblock if_ elif_ else_ w s1 w1 hrun x hx
    | RangeStmt id testList forBody start end_ step =>
      simp only [Statement.evaluate] at hrun
      exact RangeStmt.range_keepsDefined rt _ hblock fuel id testList forBody _ w s1 w1 hrun
        x hx
    | FunctionDefinition funcName paramList suite added =>
      simp only [Statement.evaluate, FunctionDefinition.evaluate] at hrun
      split at hrun
      · simp only [Outcome.done.injEq] at hrun
        rw [← hrun.2]; exact hx
      · simp only [Outcome.done.injEq] at hrun
        rw [← hrun.2]; exact hx
    | ReturnStatement e =>
      simp [Statement.evaluate, ReturnStatement.evaluate, Outcome.bind] at hrun

theorem evalStatements_keepsDefined (rt : Runtime) (fuel : Nat) :
    KeepsDefined (evalStatements rt fuel) :=
  Statements.block_keepsDefined _ (Statement.dispatch_keepsDefined rt fuel)

/-! ## Fatal and degenerate ranges, the redefinition guard -/

theorem RangeStmt.loop_not_fatal (rt : Runtime) (fuel : Nat) (continues : Int → Bool)
    (step : Int) (id : String) (I : Statements → World → Prop)
    (hI : ∀ (b : Statements) (w1 : World), I b w1 →
      (evalStatements rt fuel b w1).isFatal = false ∧
      ∀ (b2 : Statements) (w2 : World) (v : Value),
        evalStatements rt fuel b w1 = Outcome.done b2 w2 →
        w2.symTab.getValueFor id = some v →
        I b2 ⟨w2.symTab.setValueFor id (rt.incrementByN step v), w2.out⟩) :
    ∀ (n : Nat) (body : Statements) (w : World), I body w → w.symTab.isDefined id = true →
      (RangeStmt.loop rt (evalStatements rt fuel) continues step id n body w).isFatal = false := by
  intro n
  induction n with
  | zero => intro body w _ _; rfl
  | succ n ih =>
    intro body w hIw hd
    obtain ⟨v, hv⟩ := SymTab.getValueFor_of_isDefined _ id hd
    obtain ⟨hnf, hnext⟩ := hI body w hIw
    rw [RangeStmt.loop]
    simp only [hv]
    split
    · cases hb : evalStatements rt fuel body w with
      | fatal e w2 => rw [hb] at hnf; simp [Outcome.isFatal] at hnf
      | outOfFuel => rfl
      | done body1 w2 =>
        have hd2 := evalStatements_keepsDefined rt fuel body w body1 w2 hb id hd
        obtain ⟨v1, hv1⟩ := SymTab.getValueFor_of_isDefined _ id hd2
        simp only [Outcome.bind_done, hv1]
        exact ih body1 _ (hnext body1 w2 v1 hb hv1) (SymTab.isDefined_setValueFor_self _ id _)
    · rfl

theorem Outcome.isFatal_bind_done {α β : Type} (r : Outcome α) (f : α → World → β)
    (g : α → World → World) :
    (r.bind fun a w => Outcome.done (f a w) (g a w)).isFatal = r.isFatal := by
  cases r <;> rfl

/-- C8: an invalid direction/step combination is fatal, and exactly then.  For
a range statement whose range expressions parse to the defaulted
(start, end, step), whose loop variable is not defined at entry and whose
body never fails in the runs of the loop, evaluation ends in a fatal exit if
and only if start != end and neither (start > end and step < 0) nor
(start < end and step >= 1); in that case the exit is the invalid-loop error
whatever the body is, so the body is not executed. -/
theorem rangeStmt_fatal_iff (rt : Runtime) (fuel : Nat) (id : String)
    (testList : List ExprNode) (forBody : Statements) (s0 e0 st0 : Option Int)
    (o1 : RangeOptionals) (w : World) (start end_ step : Int)
    (I : Statements → World → Prop)
    (hparse : RangeStmt.parseTestList rt w.symTab testList ⟨s0, e0, st0⟩ = Except.ok o1)
    (hdef : o1.defaulted = some (start, end_, step))
    (hundef : w.symTab.isDefined id = false)
    (h0 : I forBody (w.bindInt id start))
    (hI : ∀ (b : Statements) (w1 : World), I b w1 →
      (evalStatements rt fuel b w1).isFatal = false ∧
      ∀ (b2 : Statements) (w2 : World) (v : Value),
        evalStatements rt fuel b w1 = Outcome.done b2 w2 →
        w2.symTab.getValueFor id = some v →
        I b2 ⟨w2.symTab.setValueFor id (rt.incrementByN step v), w2.out⟩) :
    ((Statement.evaluate rt (fuel + 1) (Statement.RangeStmt id testList forBody s0 e0 st0)
        w).isFatal = true ↔
      (start ≠ end_ ∧ ¬(start > end_ ∧ step < 0) ∧ ¬(start < end_ ∧ 1 ≤ step))) ∧
    ((start ≠ end_ ∧ ¬(start > end_ ∧ step < 0) ∧ ¬(start < end_ ∧ 1 ≤ step)) →
      ∀ body : Statements,
        Statement.evaluate rt (fuel + 1) (Statement.RangeStmt id testList body s0 e0 st0) w =
          Outcome.fatal (Fatal.invalidForLoop start end_ step) (w.bindInt id start)) := by
  have hev : ∀ body : Statements,
      Statement.evaluate rt (fuel + 1) (Statement.RangeStmt id testList body s0 e0 st0) w =
        RangeStmt.evaluate rt (evalStatements rt fuel) fuel id testList body ⟨s0, e0, st0⟩ w :=
    fun _ => rfl
  have hinvalid : (start ≠ end_ ∧ ¬(start > end_ ∧ step < 0) ∧ ¬(start < end_ ∧ 1 ≤ step)) →
      ∀ body : Statements,
        Statement.evaluate rt (fuel + 1) (Statement.RangeStmt id testList body s0 e0 st0) w =
          Outcome.fatal (Fatal.invalidForLoop start end_ step) (w.bindInt id start) := by
    intro ⟨hne, hnd, hna⟩ body
    rw [hev, RangeStmt.evaluate_of_parse rt _ fuel id testList body _ o1 w start end_ step hparse
      hdef hundef, if_neg hnd, if_neg hna, if_neg hne]
  have hdefd : (w.bindInt id start).symTab.isDefined id = true :=
    SymTab.isDefined_setValueFor_self _ id _
  refine ⟨⟨?_, fun hc => ?_⟩, hinvalid⟩
  · intro hfatal
    by_contra hc
    rw [hev, RangeStmt.evaluate_of_parse rt _ fuel id testList forBody _ o1 w start end_ step
      hparse hdef hundef] at hfatal
    split at hfatal
    · rw [Outcome.isFatal_bind_done, RangeStmt.loop_not_fatal rt fuel _ step id I hI fuel forBody
        _ h0 hdefd] at hfatal
      exact Bool.false_ne_true hfatal
    · split at hfatal
      · rw [Outcome.isFatal_bind_done, RangeStmt.loop_not_fatal rt fuel _ step id I hI fuel
          forBody _ h0 hdefd] at hfatal
        exact Bool.false_ne_true hfatal
      · split at hfatal
        · simp [Outcome.isFatal] at hfatal
        · rename_i h1 h2 h3
          exact hc ⟨h3, h1, h2⟩
  · rw [hinvalid hc forBody]; rfl

/-- C8 (witness): `range(0, 5, -1)` is fatal with the body `y = 1`, which
never fails; so are `range(5, 0)`, `range(-3)` and `range(0, 5, 0)`. -/
theorem rangeStmt_fatal_iff_witness :
    (((Statement.evaluate refRuntime (1 + 1)
          (Statement.RangeStmt "x" [intLit 0, intLit 5, intLit (-1)]
            [Statement.AssignStmt "y" (intLit 1)] none none none) World.initial).isFatal = true ↔
        ((0 : Int) ≠ 5 ∧ ¬((0 : Int) > 5 ∧ (-1 : Int) < 0) ∧ ¬((0 : Int) < 5 ∧ (1 : Int) ≤ -1))) ∧
      (((0 : Int) ≠ 5 ∧ ¬((0 : Int) > 5 ∧ (-1 : Int) < 0) ∧ ¬((0 : Int) < 5 ∧ (1 : Int) ≤ -1)) →
        ∀ body : Statements,
          Statement.evaluate refRuntime (1 + 1)
              (Statement.RangeStmt "x" [intLit 0, intLit 5, intLit (-1)] body none none none)
              World.initial =
            Outcome.fatal (Fatal.invalidForLoop 0 5 (-1)) (World.initial.bindInt "x" 0))) ∧
    (Statement.evaluate refRuntime 2
        (Statement.RangeStmt "x" [intLit 5, intLit 0] [Statement.AssignStmt "y" (intLit 1)]
          none none none) World.initial).isFatal = true ∧
    (Statement.evaluate refRuntime 2
        (Statement.RangeStmt "x" [intLit (-3)] [Statement.AssignStmt "y" (intLit 1)]
          none none none) World.initial).isFatal = true ∧
    (Statement.evaluate refRuntime 2
        (Statement.RangeStmt "x" [intLit 0, intLit 5, intLit 0]
          [Statement.AssignStmt "y" (intLit 1)] none none none) World.initial).isFatal = true :=
  ⟨rangeStmt_fatal_iff refRuntime 1 "x" [intLit 0, intLit 5, intLit (-1)]
      [Statement.AssignStmt "y" (intLit 1)] none none none ⟨some 0, some 5, some (-1)⟩
      World.initial 0 5 (-1) (fun b _ => b = [Statement.AssignStmt "y" (intLit 1)])
      rfl rfl rfl rfl
      (by
        intro b w1 hb
        subst hb
        refine ⟨rfl, ?_⟩
        intro b2 w2 v hrun _
        have hb2 : evalStatements refRuntime 1 [Statement.AssignStmt "y" (intLit 1)] w1 =
            Outcome.done [Statement.AssignStmt "y" (intLit 1)]
              ⟨w1.symTab.setValueFor "y" (Value.int 1), w1.out⟩ := rfl
        rw [hb2] at hrun
        simp only [Outcome.done.injEq] at hrun
        exact hrun.1.symm),
    rfl, rfl, rfl⟩

/-- C9 (amended): degenerate range.  When the defaulted start equals the end
and the loop variable is not defined at entry, then for every step
`RangeStmt::evaluate` completes without running the body and leaves the world
as it was, the loop variable still not defined. -/
theorem rangeStmt_degenerate (rt : Runtime)
    (evalBlock : Statements → World → Outcome Statements) (loopFuel : Nat) (id : String)
    (testList : List ExprNode) (forBody : Statements) (o o1 : RangeOptionals) (w : World)
    (start end_ step : Int)
    (hparse : RangeStmt.parseTestList rt w.symTab testList o = Except.ok o1)
    (hdef : o1.defaulted = some (start, end_, step))
    (hundef : w.symTab.isDefined id = false)
    (heq : start = end_) :
    RangeStmt.evaluate rt evalBlock loopFuel id testList forBody o w =
        Outcome.done (Statement.RangeStmt id testList forBody o1.start o1.end_ o1.step) w ∧
      w.symTab.isDefined id = false := by
  refine ⟨?_, hundef⟩
  rw [RangeStmt.evaluate_of_parse rt evalBlock loopFuel id testList forBody o o1 w start end_
    step hparse hdef hundef]
  have h1 : ¬(start > end_ ∧ step < 0) := by omega
  have h2 : ¬(start < end_ ∧ 1 ≤ step) := by omega
  rw [if_neg h1, if_neg h2, if_pos heq, World.unbind_bindInt, World.unbind_of_undefined w id hundef]

/-- C9 (witness): `range(3, 3)` and `range(0)` execute nothing, here with a
body that would print. -/
theorem rangeStmt_degenerate_witness :
    (RangeStmt.evaluate refRuntime (evalStatements refRuntime 1) 1 "x" [intLit 3, intLit 3]
          [Statement.PrintStatement [varRef "x"]] ⟨none, none, none⟩ World.initial =
        Outcome.done (Statement.RangeStmt "x" [intLit 3, intLit 3]
          [Statement.PrintStatement [varRef "x"]] (some 3) (some 3) none) World.initial ∧
      World.initial.symTab.isDefined "x" = false) ∧
    (RangeStmt.evaluate refRuntime (evalStatements refRuntime 1) 1 "x" [intLit 0]
        [Statement.PrintStatement [varRef "x"]] ⟨none, none, none⟩ World.initial).world?.map
        World.out = some [] :=
  ⟨rangeStmt_degenerate refRuntime (evalStatements refRuntime 1) 1 "x" [intLit 3, intLit 3]
      [Statement.PrintStatement [varRef "x"]] ⟨none, none, none⟩ ⟨some 3, some 3, none⟩
      World.initial 3 3 1 rfl rfl rfl rfl,
    rfl⟩

/-- C9 (counterexample): with x already bound, `for x in range(3, 3)` has the
defaulted start equal to the end, yet it ends in the fatal exit of the
redefinition guard. -/
theorem rangeStmt_degenerate_counterexample :
    (RangeStmt.parseTestList refRuntime (World.initial.bindInt "x" 1).symTab
        [intLit 3, intLit 3] ⟨none, none, none⟩).toOption.bind RangeOptionals.defaulted =
      some (3, 3, 1) ∧
    RangeStmt.evaluate refRuntime (evalStatements refRuntime 1) 1 "x" [intLit 3, intLit 3]
        [] ⟨none, none, none⟩ (World.initial.bindInt "x" 1) =
      Outcome.fatal (Fatal.variableDefined "x") (World.initial.bindInt "x" 1) :=
  ⟨rfl, rfl⟩

theorem RangeStmt.evaluate_of_defined (rt : Runtime)
    (evalBlock : Statements → World → Outcome Statements) (loopFuel : Nat) (id : String)
    (testList : List ExprNode) (forBody : Statements) (o : RangeOptionals) (w : World)
    (hdefined : w.symTab.isDefined id = true) :
    (∃ e : Fatal, RangeStmt.evaluate rt evalBlock loopFuel id testList forBody o w =
      Outcome.fatal e w) ∧
    ∀ o1 : RangeOptionals, RangeStmt.parseTestList rt w.symTab testList o = Except.ok o1 →
      RangeStmt.evaluate rt evalBlock loopFuel id testList forBody o w =
        Outcome.fatal (Fatal.variableDefined id) w := by
  have hok : ∀ o1 : RangeOptionals,
      RangeStmt.parseTestList rt w.symTab testList o = Except.ok o1 →
      RangeStmt.evaluate rt evalBlock loopFuel id testList forBody o w =
        Outcome.fatal (Fatal.variableDefined id) w := by
    intro o1 hp
    simp [RangeStmt.evaluate, hp, hdefined]
  refine ⟨?_, hok⟩
  cases hp : RangeStmt.parseTestList rt w.symTab testList o with
  | error e => exact ⟨e, by simp [RangeStmt.evaluate, hp]⟩
  | ok o1 => exact ⟨_, hok o1 hp⟩

theorem Statements.evaluate_append (evaluate : Statement → World → Outcome Statement)
    (rest : Statements) :
    ∀ (pre : Statements) (w : World),
      Statements.evaluate evaluate (pre ++ rest) w =
        (Statements.evaluate evaluate pre w).bind fun pre1 w1 =>
          (Statements.evaluate evaluate rest w1).bind fun rest1 w2 =>
            Outcome.done (pre1 ++ rest1) w2 := by
  intro pre
  induction pre with
  | nil =>
    intro w
    simp only [List.nil_append, Statements.evaluate, Outcome.bind_done]
    cases Statements.evaluate evaluate rest w <;> rfl
  | cons s pre ih =>
    intro w
    have hl : Statements.evaluate evaluate (s :: (pre ++ rest)) w =
        (evaluate s w).bind fun s1 w1 =>
          (Statements.evaluate evaluate (pre ++ rest) w1).bind fun rest1 w2 =>
            Outcome.done (s1 :: rest1) w2 := rfl
    have hr : Statements.evaluate evaluate (s :: pre) w =
        (evaluate s w).bind fun s1 w1 =>
          (Statements.evaluate evaluate pre w1).bind fun rest1 w2 =>
            Outcome.done (s1 :: rest1) w2 := rfl
    rw [List.cons_append, hl, hr]
    cases evaluate s w with
    | fatal e w1 => rfl
    | outOfFuel => rfl
    | done s1 w1 =>
      rw [Outcome.bind_done, Outcome.bind_done, ih]
      cases Statements.evaluate evaluate pre w1 with
      | fatal e w2 => rfl
      | outOfFuel => rfl
      | done pre1 w2 =>
        rw [Outcome.bind_done, Outcome.bind_done, Outcome.bind_done]
        cases Statements.evaluate evaluate rest w2 <;> rfl

/-- C10: the redefinition guard.  In every world in which the loop variable
is already defined, `RangeStmt::evaluate` ends in a fatal exit with the world
unchanged, whatever the range arguments and the body are (the body is not
run); when the range arguments parse, the exit is the redefinition error.
Consequently a range loop that enters its loop and whose body reaches, after
statements that complete, a nested range loop on the same variable name, is
fatal in its first iteration. -/
theorem rangeStmt_redefinition_guard (rt : Runtime) (id : String) :
    (∀ (evalBlock : Statements → World → Outcome Statements) (loopFuel : Nat)
        (testList : List ExprNode) (forBody : Statements) (o : RangeOptionals) (w : World),
      w.symTab.isDefined id = true →
      (∃ e : Fatal, RangeStmt.evaluate rt evalBlock loopFuel id testList forBody o w =
        Outcome.fatal e w) ∧
      ∀ o1 : RangeOptionals, RangeStmt.parseTestList rt w.symTab testList o = Except.ok o1 →
        RangeStmt.evaluate rt evalBlock loopFuel id testList forBody o w =
          Outcome.fatal (Fatal.variableDefined id) w) ∧
    (∀ (fuel : Nat) (testList innerList : List ExprNode) (pre post innerBody : Statements)
        (s0 e0 st0 s1 e1 st1 : Option Int) (o1 : RangeOptionals) (w w2 : World)
        (start end_ step : Int) (pre1 : Statements),
      RangeStmt.parseTestList rt w.symTab testList ⟨s0, e0, st0⟩ = Except.ok o1 →
      o1.defaulted = some (start, end_, step) →
      w.symTab.isDefined id = false →
      ((start > end_ ∧ step < 0) ∨ (start < end_ ∧ 1 ≤ step)) →
      evalStatements rt (fuel + 1) pre (w.bindInt id start) = Outcome.done pre1 w2 →
      ∃ e : Fatal,
        Statement.evaluate rt (fuel + 2)
            (Statement.RangeStmt id testList
              (pre ++ Statement.RangeStmt id innerList innerBody s1 e1 st1 :: post) s0 e0 st0) w =
          Outcome.fatal e w2) := by
  refine ⟨fun evalBlock loopFuel testList forBody o w hd =>
    RangeStmt.evaluate_of_defined rt evalBlock loopFuel id testList forBody o w hd, ?_⟩
  intro fuel testList innerList pre post innerBody s0 e0 st0 s1 e1 st1 o1 w w2 start end_ step
    pre1 hparse hdef hundef henter hpre
  have hd1 : (w.bindInt id start).symTab.isDefined id = true :=
    SymTab.isDefined_setValueFor_self _ id _
  have hd2 : w2.symTab.isDefined id = true :=
    evalStatements_keepsDefined rt (fuel + 1) pre _ pre1 w2 hpre id hd1
  obtain ⟨⟨e, he⟩, -⟩ := RangeStmt.evaluate_of_defined rt (evalStatements rt fuel) fuel id
    innerList innerBody ⟨s1, e1, st1⟩ w2 hd2
  have hinner : Statement.evaluate rt (fuel + 1)
      (Statement.RangeStmt id innerList innerBody s1 e1 st1) w2 = Outcome.fatal e w2 := he
  have hbody : evalStatements rt (fuel + 1)
      (pre ++ Statement.RangeStmt id innerList innerBody s1 e1 st1 :: post)
      (w.bindInt id start) = Outcome.fatal e w2 := by
    unfold evalStatements at hpre ⊢
    rw [Statements.evaluate_append, hpre, Outcome.bind_done, Statements.evaluate, hinner]
    rfl
  obtain ⟨hstart, -, -⟩ := RangeStmt.parseTestList_isCInt rt w.symTab testList ⟨s0, e0, st0⟩ o1
    start end_ step hparse hdef
  have hloop : ∀ continues : Int → Bool, continues start = true →
      RangeStmt.loop rt (evalStatements rt (fuel + 1)) continues step id (fuel + 1)
        (pre ++ Statement.RangeStmt id innerList innerBody s1 e1 st1 :: post)
        (w.bindInt id start) = Outcome.fatal e w2 := by
    intro continues hc
    rw [RangeStmt.loop]
    simp only [World.getValueFor_bindInt, rt.getIntValue_of_isCInt hstart, hc, if_true, hbody,
      Outcome.bind_fatal]
  refine ⟨e, ?_⟩
  have hev : Statement.evaluate rt (fuel + 2)
      (Statement.RangeStmt id testList
        (pre ++ Statement.RangeStmt id innerList innerBody s1 e1 st1 :: post) s0 e0 st0) w =
      RangeStmt.evaluate rt (evalStatements rt (fuel + 1)) (fuel + 1) id testList
        (pre ++ Statement.RangeStmt id innerList innerBody s1 e1 st1 :: post) ⟨s0, e0, st0⟩ w :=
    rfl
  rw [hev, RangeStmt.evaluate_of_parse rt _ (fuel + 1) id testList _ _ o1 w start end_ step
    hparse hdef hundef]
  rcases henter with hdesc | hasc
  · rw [if_pos hdesc, hloop _ (by simpa using hdesc.1)]
    rfl
  · have hnd : ¬(start > end_ ∧ step < 0) := by omega
    rw [if_neg hnd, if_pos hasc, hloop _ (by simpa using hasc.1)]
    rfl

/-- C10 (witness): with x bound to 7, `for x in range(0, 3)` is fatal and
leaves the binding; and `for x in range(0, 3): for x in range(0, 2): print x`
is fatal in its first iteration, with x = 0 and nothing printed. -/
theorem rangeStmt_redefinition_guard_witness :
    ((∃ e : Fatal,
        RangeStmt.evaluate refRuntime (evalStatements refRuntime 1) 5 "x" [intLit 0, intLit 3]
            [Statement.PrintStatement [varRef "x"]] ⟨none, none, none⟩
            (World.initial.bindInt "x" 7) =
          Outcome.fatal e (World.initial.bindInt "x" 7)) ∧
      ∀ o1 : RangeOptionals,
        RangeStmt.parseTestList refRuntime (World.initial.bindInt "x" 7).symTab
            [intLit 0, intLit 3] ⟨none, none, none⟩ = Except.ok o1 →
        RangeStmt.evaluate refRuntime (evalStatements refRuntime 1) 5 "x" [intLit 0, intLit 3]
            [Statement.PrintStatement [varRef "x"]] ⟨none, none, none⟩
            (World.initial.bindInt "x" 7) =
          Outcome.fatal (Fatal.variableDefined "x") (World.initial.bindInt "x" 7)) ∧
    (World.initial.bindInt "x" 7).symTab.getValueFor "x" = some (Value.int 7) ∧
    Statement.evaluate refRuntime 3
        (Statement.RangeStmt "x" [intLit 0, intLit 3]
          [Statement.RangeStmt "x" [intLit 0, intLit 2] [Statement.PrintStatement [varRef "x"]]
            none none none] none none none) World.initial =
      Outcome.fatal (Fatal.variableDefined "x") (World.initial.bindInt "x" 0) :=
  ⟨(rangeStmt_redefinition_guard refRuntime "x").1 (evalStatements refRuntime 1) 5
      [intLit 0, intLit 3] [Statement.PrintStatement [varRef "x"]] ⟨none, none, none⟩
      (World.initial.bindInt "x" 7) rfl,
    rfl, rfl⟩

end PyInterp


namespace PyInterp

/-! ## Productions in terms of the fetched token -/

theorem binaryLoop_succ (isOp : Token → Bool)
    (mk : Token → Option ExprNode → Option ExprNode → ExprNode)
    (operand : Lexer → PResult ExprNode) (n : Nat) (left : ExprNode) (lx : Lexer) :
    binaryLoop isOp mk operand (n + 1) left lx =
      if isOp lx.getToken.1 then
        (operand lx.getToken.2).bind fun right lx2 =>
          binaryLoop isOp mk operand n (mk lx.getToken.1 (some left) (some right)) lx2
      else PResult.ok left lx.getToken.2.ungetToken := rfl

theorem testlistLoop_succ (test : Lexer → PResult ExprNode) (n : Nat) (p : List ExprNode)
    (lx : Lexer) :
    testlistLoop test (n + 1) p lx =
      if lx.getToken.1.isComma then
        (test lx.getToken.2).bind fun e lx2 => testlistLoop test n (p ++ [e]) lx2
      else PResult.ok p lx.getToken.2.ungetToken := rfl

theorem not_test_succ (fuel : Nat) (lx : Lexer) :
    not_test (fuel + 1) lx =
      if lx.getToken.1.isNot then
        (not_test fuel lx.getToken.2).bind fun operand lx2 =>
          PResult.ok (ExprNode.BooleanExprNode lx.getToken.1 (some operand) none) lx2
      else comparison fuel lx.getToken.2.ungetToken := by
  rw [not_test]

theorem call_succ (fuel : Nat) (id : Token) (lx : Lexer) :
    call (fuel + 1) id lx =
      if !lx.getToken.1.isOpenParen then
        PResult.die "Parser::call()" "Expected (" lx.getToken.1 lx.getToken.2
      else
        (testlist fuel lx.getToken.2).bind fun tlist lx2 =>
          if !lx2.getToken.1.isCloseParen then
            PResult.die "Parser::call()" "Expected )" lx2.getToken.1 lx2.getToken.2
          else PResult.ok (ExprNode.FunctionCall id tlist) lx2.getToken.2 := by
  rw [call]

theorem factor_succ (fuel : Nat) (lx : Lexer) :
    factor (fuel + 1) lx =
      if lx.getToken.1.isSubtractionOperator then
        (factor fuel lx.getToken.2).bind fun operand lx2 =>
          PResult.ok (ExprNode.InfixExprNode lx.getToken.1 (some operand) none) lx2
      else
        (atom fuel lx.getToken.2.ungetToken).bind fun left lx2 =>
          if left.token.isName then
            if lx2.getToken.1.isOpenParen then call fuel left.token lx2.getToken.2.ungetToken
            else PResult.ok left lx2.getToken.2.ungetToken
          else PResult.ok left lx2 := by
  rw [factor]

theorem atom_succ (fuel : Nat) (lx : Lexer) :
    atom (fuel + 1) lx =
      if lx.getToken.1.isName then PResult.ok (ExprNode.Variable lx.getToken.1) lx.getToken.2
      else if lx.getToken.1.isWholeNumber then
        PResult.ok (ExprNode.WholeNumber lx.getToken.1) lx.getToken.2
      else if lx.getToken.1.isString then
        PResult.ok (ExprNode.StringExp lx.getToken.1) lx.getToken.2
      else if lx.getToken.1.isFloat then PResult.ok (ExprNode.Double lx.getToken.1) lx.getToken.2
      else if lx.getToken.1.isOpenParen then
        (test fuel lx.getToken.2).bind fun p lx2 =>
          if !lx2.getToken.1.isCloseParen then
            PResult.die "Parser::atom" "Expected close-parenthesis, instead got" lx2.getToken.1
              lx2.getToken.2
          else PResult.ok p lx2.getToken.2
      else PResult.die "Parser::atom" "Unexpected token" lx.getToken.1 lx.getToken.2 := by
  rw [atom]

/-! ## An invariant carried through every production -/

theorem PResult.EndsIn.of_ok {α : Type} {R : Lexer → Lexer → Prop} {lx lx1 : Lexer} (v : α)
    (h : R lx lx1) : (PResult.ok v lx1).EndsIn R lx := by
  intro lx2 h2
  simp only [PResult.lexerAt?, Option.some.injEq] at h2
  rw [← h2]; exact h

theorem PResult.EndsIn.of_die {α : Type} {R : Lexer → Lexer → Prop} {lx lx1 : Lexer}
    (scope message : String) (tok : Token) (h : R lx lx1) :
    (PResult.die scope message tok lx1 : PResult α).EndsIn R lx := by
  intro lx2 h2
  simp only [PResult.lexerAt?, Option.some.injEq] at h2
  rw [← h2]; exact h

theorem PResult.EndsIn.of_outOfFuel {α : Type} (R : Lexer → Lexer → Prop) (lx : Lexer) :
    (PResult.outOfFuel : PResult α).EndsIn R lx := by
  intro lx2 h2
  simp [PResult.lexerAt?] at h2

theorem PResult.EndsIn.andThen {α β : Type} {R : Lexer → Lexer → Prop} (hR : LexerInvariant R)
    {lx : Lexer} {r : PResult α} {k : α → Lexer → PResult β} (h : r.EndsIn R lx)
    (hk : ∀ (v : α) (lx1 : Lexer), r = PResult.ok v lx1 → (k v lx1).EndsIn R lx1) :
    (r.bind k).EndsIn R lx := by
  cases r with
  | ok v lx1 =>
    intro lx2 h2
    exact hR.trans lx lx1 lx2 (h lx1 rfl) (hk v lx1 rfl lx2 h2)
  | die s m t lx1 => exact h
  | outOfFuel => exact h

theorem PResult.EndsIn.andThenFrom {α β : Type} {R : Lexer → Lexer → Prop} {lx : Lexer}
    {r : PResult α} {k : α → Lexer → PResult β} (h : r.EndsIn R lx)
    (hk : ∀ (v : α) (lx1 : Lexer), r = PResult.ok v lx1 → (k v lx1).EndsIn R lx) :
    (r.bind k).EndsIn R lx := by
  cases r with
  | ok v lx1 => exact hk v lx1 rfl
  | die s m t lx1 => exact h
  | outOfFuel => exact h

theorem PResult.EndsIn.after {α : Type} {R : Lexer → Lexer → Prop} (hR : LexerInvariant R)
    {lx lx1 : Lexer} {r : PResult α} (h0 : R lx lx1) (h : r.EndsIn R lx1) : r.EndsIn R lx :=
  fun lx2 h2 => hR.trans lx lx1 lx2 h0 (h lx2 h2)

theorem binaryLoop_endsIn {R : Lexer → Lexer → Prop} (hR : LexerInvariant R)
    (isOp : Token → Bool) (mk : Token → Option ExprNode → Option ExprNode → ExprNode)
    (operand : Lexer → PResult ExprNode) (hop : ∀ lx : Lexer, (operand lx).EndsIn R lx) :
    ∀ (n : Nat) (left : ExprNode) (lx : Lexer),
      (binaryLoop isOp mk operand n left lx).EndsIn R lx := by
  intro n
  induction n with
  | zero => intro left lx; exact PResult.EndsIn.of_outOfFuel R lx
  | succ n ih =>
    intro left lx
    rw [binaryLoop_succ]
    split
    · exact PResult.EndsIn.after hR (hR.get lx)
        (PResult.EndsIn.andThen hR (hop _) fun right lx2 _ => ih _ lx2)
    · exact PResult.EndsIn.of_ok _ (hR.getUnget lx)

theorem testlistLoop_endsIn {R : Lexer → Lexer → Prop} (hR : LexerInvariant R)
    (test : Lexer → PResult ExprNode) (hop : ∀ lx : Lexer, (test lx).EndsIn R lx) :
    ∀ (n : Nat) (p : List ExprNode) (lx : Lexer), (testlistLoop test n p lx).EndsIn R lx := by
  intro n
  induction n with
  | zero => intro p lx; exact PResult.EndsIn.of_outOfFuel R lx
  | succ n ih =>
    intro p lx
    rw [testlistLoop_succ]
    split
    · exact PResult.EndsIn.after hR (hR.get lx)
        (PResult.EndsIn.andThen hR (hop _) fun e lx2 _ => ih _ lx2)
    · exact PResult.EndsIn.of_ok _ (hR.getUnget lx)

theorem expression_endsIn {R : Lexer → Lexer → Prop} (hR : LexerInvariant R) :
    ∀ fuel : Nat,
      (∀ lx : Lexer, (testlist fuel lx).EndsIn R lx) ∧
      (∀ lx : Lexer, (test fuel lx).EndsIn R lx) ∧
      (∀ lx : Lexer, (or_test fuel lx).EndsIn R lx) ∧
      (∀ lx : Lexer, (and_test fuel lx).EndsIn R lx) ∧
      (∀ lx : Lexer, (not_test fuel lx).EndsIn R lx) ∧
      (∀ lx : Lexer, (comparison fuel lx).EndsIn R lx) ∧
      (∀ lx : Lexer, (arith_expr fuel lx).EndsIn R lx) ∧
      (∀ lx : Lexer, (term fuel lx).EndsIn R lx) ∧
      (∀ (id : Token) (lx : Lexer), (call fuel id lx).EndsIn R lx) ∧
      (∀ lx : Lexer, (factor fuel lx).EndsIn R lx) ∧
      (∀ lx : Lexer, (atom fuel lx).EndsIn R lx) := by
  intro fuel
  induction fuel with
  | zero =>
    refine ⟨?_, ?_, ?_, ?_, ?_, ?_, ?_, ?_, ?_, ?_, ?_⟩
    · intro lx; rw [testlist]; exact PResult.EndsIn.of_outOfFuel R lx
    · intro lx; rw [test]; exact PResult.EndsIn.of_outOfFuel R lx
    · intro lx; rw [or_test]; exact PResult.EndsIn.of_outOfFuel R lx
    · intro lx; rw [and_test]; exact PResult.EndsIn.of_outOfFuel R lx
    · intro lx; rw [not_test]; exact PResult.EndsIn.of_outOfFuel R lx
    · intro lx; rw [comparison]; exact PResult.EndsIn.of_outOfFuel R lx
    · intro lx; rw [arith_expr]; exact PResult.EndsIn.of_outOfFuel R lx
    · intro lx; rw [term]; exact PResult.EndsIn.of_outOfFuel R lx
    · intro id lx; rw [call]; exact PResult.EndsIn.of_outOfFuel R lx
    · intro lx; rw [factor]; exact PResult.EndsIn.of_outOfFuel R lx
    · intro lx; rw [atom]; exact PResult.EndsIn.of_outOfFuel R lx
  | succ fuel ih =>
    obtain ⟨hTestlist, hTest, hOr, hAnd, hNot, hCmp, hArith, hTerm, hCall, hFactor, hAtom⟩ := ih
    refine ⟨?_, ?_, ?_, ?_, ?_, ?_, ?_, ?_, ?_, ?_, ?_⟩
    · intro lx
      rw [testlist]
      exact PResult.EndsIn.andThen hR (hTest lx) fun e lx1 _ =>
        testlistLoop_endsIn hR _ hTest fuel _ lx1
    · intro lx; rw [test]; exact hOr lx
    · intro lx
      rw [or_test]
      exact PResult.EndsIn.andThen hR (hAnd lx) fun left lx1 _ =>
        binaryLoop_endsIn hR _ _ _ hAnd fuel left lx1
    · intro lx
      rw [and_test]
      exact PResult.EndsIn.andThen hR (hNot lx) fun left lx1 _ =>
        binaryLoop_endsIn hR _ _ _ hNot fuel left lx1
    · intro lx
      rw [not_test_succ]
      split
      · exact PResult.EndsIn.after hR (hR.get lx)
          (PResult.EndsIn.andThen hR (hNot _) fun operand lx2 _ =>
            PResult.EndsIn.of_ok _ (hR.refl lx2))
      · exact PResult.EndsIn.after hR (hR.getUnget lx) (hCmp _)
    · intro lx
      rw [comparison]
      exact PResult.EndsIn.andThen hR (hArith lx) fun left lx1 _ =>
        binaryLoop_endsIn hR _ _ _ hArith fuel left lx1
    · intro lx
      rw [arith_expr]
      exact PResult.EndsIn.andThen hR (hTerm lx) fun left lx1 _ =>
        binaryLoop_endsIn hR _ _ _ hTerm fuel left lx1
    · intro lx
      rw [term]
      exact PResult.EndsIn.andThen hR (hFactor lx) fun left lx1 _ =>
        binaryLoop_endsIn hR _ _ _ hFactor fuel left lx1
    · intro id lx
      rw [call_succ]
      split
      · exact PResult.EndsIn.of_die _ _ _ (hR.get lx)
      · refine PResult.EndsIn.after hR (hR.get lx)
          (PResult.EndsIn.andThen hR (hTestlist _) fun tlist lx2 _ => ?_)
        split
        · exact PResult.EndsIn.of_die _ _ _ (hR.get lx2)
        · exact PResult.EndsIn.of_ok _ (hR.get lx2)
    · intro lx
      rw [factor_succ]
      split
      · exact PResult.EndsIn.after hR (hR.get lx)
          (PResult.EndsIn.andThen hR (hFactor _) fun operand lx2 _ =>
            PResult.EndsIn.of_ok _ (hR.refl lx2))
      · refine PResult.EndsIn.after hR (hR.getUnget lx)
          (PResult.EndsIn.andThen hR (hAtom _) fun left lx2 _ => ?_)
        split
        · split
          · exact PResult.EndsIn.after hR (hR.getUnget lx2) (hCall _ _)
          · exact PResult.EndsIn.of_ok _ (hR.getUnget lx2)
        · exact PResult.EndsIn.of_ok _ (hR.refl lx2)
    · intro lx
      rw [atom_succ]
      split
      · exact PResult.EndsIn.of_ok _ (hR.get lx)
      · split
        · exact PResult.EndsIn.of_ok _ (hR.get lx)
        · split
          · exact PResult.EndsIn.of_ok _ (hR.get lx)
          · split
            · exact PResult.EndsIn.of_ok _ (hR.get lx)
            · split
              · refine PResult.EndsIn.after hR (hR.get lx)
                  (PResult.EndsIn.andThen hR (hTest _) fun p lx2 _ => ?_)
                split
                · exact PResult.EndsIn.of_die _ _ _ (hR.get lx2)
                · exact PResult.EndsIn.of_ok _ (hR.get lx2)
              · exact PResult.EndsIn.of_die _ _ _ (hR.get lx)

/-! ## Statement productions in terms of the fetched token -/

theorem getEOL_eq (scope : String) (lx : Lexer) :
    getEOL scope lx =
      if !lx.getToken.1.isEol then PResult.die scope "Generic getEOL" lx.getToken.1 lx.getToken.2
      else PResult.ok () lx.getToken.2 := rfl

theorem print_stmt_eq (fuel : Nat) (lx : Lexer) :
    print_stmt fuel lx =
      if !lx.getToken.1.isPrint then
        PResult.die "Parser::print_stmt()" "Expected PRINT keyword, instead got" lx.getToken.1
          lx.getToken.2
      else
        (testlist fuel lx.getToken.2).bind fun testList lx2 =>
          PResult.ok (Statement.PrintStatement testList) lx2 := rfl

theorem assign_stmt_eq (fuel : Nat) (varName : Token) (lx : Lexer) :
    assign_stmt fuel varName lx =
      if !lx.getToken.1.isAssignmentOperator then
        PResult.die "Parser::assign_stmt"
          "Parser::assign_stmt() expected ASSIGN_OP instead got " lx.getToken.1 lx.getToken.2
      else
        (test fuel lx.getToken.2).bind fun rightHandSideExpr lx2 =>
          PResult.ok (Statement.AssignStmt varName.getName rightHandSideExpr) lx2 := rfl

theorem return_stmt_eq (fuel : Nat) (lx : Lexer) :
    return_stmt fuel lx =
      if !lx.getToken.1.isReturn then
        PResult.die "Parser::return_stmt" "Expected a return TOKEN, instead got: " lx.getToken.1
          lx.getToken.2
      else
        (test fuel lx.getToken.2).bind fun e lx2 =>
          PResult.ok (Statement.ReturnStatement e) lx2 := rfl

theorem simple_stmt_eq (fuel : Nat) (lx : Lexer) :
    simple_stmt fuel lx =
      if !(lx.getToken.1.isPrint || lx.getToken.1.isName || lx.getToken.1.isReturn) then
        PResult.die "Parser::simple_stmt" "violating rule" lx.getToken.1 lx.getToken.2
      else if lx.getToken.1.isPrint then
        (print_stmt fuel lx.getToken.2.ungetToken).bind fun printStmt lx2 =>
          (getEOL "Parser::simple_stmt" lx2).bind fun _ lx3 => PResult.ok printStmt lx3
      else if lx.getToken.1.isReturn then
        PResult.die "Parser::simple_stmt" "Error" lx.getToken.1 lx.getToken.2
      else if lx.getToken.1.isName then
        if lx.getToken.2.getToken.1.isAssignmentOperator then
          (assign_stmt fuel lx.getToken.1 lx.getToken.2.getToken.2.ungetToken).bind
            fun assignStmt lx3 =>
              (getEOL "Parser::simple_stmt" lx3).bind fun _ lx4 => PResult.ok assignStmt lx4
        else if lx.getToken.2.getToken.1.isOpenParen then
          PResult.die "Parser::simple_stmt" "Error" lx.getToken.2.getToken.1
            lx.getToken.2.getToken.2
        else
          PResult.die "Parser::simple_stmt" "Unidentified -> 1 <-" lx.getToken.2.getToken.1
            lx.getToken.2.getToken.2
      else
        PResult.die "Parser::simple_stmt" "Unidentified -> 1 <-" lx.getToken.1 lx.getToken.2 :=
  rfl

theorem stmtsLoop_succ (stop : Token → Bool) (stmt : Lexer → PResult Statement) (n : Nat)
    (stmts : Statements) (lx : Lexer) :
    stmtsLoop stop stmt (n + 1) stmts lx =
      if !stop lx.getToken.1 then
        (stmt lx.getToken.2.ungetToken).bind fun s lx2 =>
          stmtsLoop stop stmt n (stmts ++ [s]) lx2
      else PResult.ok stmts lx.getToken.2 := rfl

theorem funcSuiteLoop_succ (fuel : Nat) (stmt : Lexer → PResult Statement) (n : Nat)
    (stmts : Statements) (lx : Lexer) :
    funcSuiteLoop fuel stmt (n + 1) stmts lx =
      if !lx.getToken.1.isDedent then
        if lx.getToken.1.isReturn then
          (return_stmt fuel lx.getToken.2.ungetToken).bind fun r lx2 =>
            funcSuiteEnd (stmts ++ [r]) lx2.getToken.1 lx2.getToken.2
        else
          (stmt lx.getToken.2.ungetToken).bind fun s lx2 =>
            funcSuiteLoop fuel stmt n (stmts ++ [s]) lx2
      else funcSuiteEnd stmts lx.getToken.1 lx.getToken.2 := rfl

theorem elifLoop_succ (test : Lexer → PResult ExprNode) (suite : Lexer → PResult Statements)
    (n : Nat) (elifs : List (ExprNode × Statements)) (tok : Token) (conditionHit : Bool)
    (lx : Lexer) :
    elifLoop test suite (n + 1) elifs tok conditionHit lx =
      if tok.isElIf then
        (test lx).bind fun elifCmp lx1 =>
          if !lx1.getToken.1.isColon then
            PResult.die "Parser::if_stmt" "Expected : keyword, instead got" lx1.getToken.1
              lx1.getToken.2
          else
            (suite lx1.getToken.2).bind fun stmts lx3 =>
              elifLoop test suite n (elifs ++ [(elifCmp, stmts)]) lx3.getToken.1 false
                lx3.getToken.2
      else PResult.ok (elifs, tok, conditionHit) lx := rfl

theorem stmt_succ (func_def : (Lexer → PResult Statements) → Lexer → PResult Statement)
    (fuel : Nat) (lx : Lexer) :
    stmt func_def (fuel + 1) lx =
      if lx.getToken.1.isFunc || lx.getToken.1.isFor || lx.getToken.1.isIf then
        compound_stmt func_def fuel lx.getToken.2.ungetToken
      else simple_stmt fuel lx.getToken.2.ungetToken := by
  rw [stmt]

theorem compound_stmt_succ (func_def : (Lexer → PResult Statements) → Lexer → PResult Statement)
    (fuel : Nat) (lx : Lexer) :
    compound_stmt func_def (fuel + 1) lx =
      if lx.getToken.1.isFor then for_stmt func_def fuel lx.getToken.2.ungetToken
      else if lx.getToken.1.isIf then if_stmt func_def fuel lx.getToken.2.ungetToken
      else if lx.getToken.1.isFunc then
        func_def (func_suite func_def fuel) lx.getToken.2.ungetToken
      else
        PResult.die "Parser::compound_stmt"
          "Parser::compound_stmt() expected _keyword -> FOR | IF | DEF, instead got "
          lx.getToken.1 lx.getToken.2 := by
  rw [compound_stmt]

theorem suite_succ (func_def : (Lexer → PResult Statements) → Lexer → PResult Statement)
    (fuel : Nat) (lx : Lexer) :
    suite func_def (fuel + 1) lx =
      if !lx.getToken.1.isEol then
        PResult.die "Parser::suite" "Expected an EOL, instead got" lx.getToken.1 lx.getToken.2
      else if !lx.getToken.2.getToken.1.isIndent then
        PResult.die "Parser::suite" "Expected an INDENT, instead got" lx.getToken.2.getToken.1
          lx.getToken.2.getToken.2
      else stmtsLoop Token.isDedent (stmt func_def fuel) fuel [] lx.getToken.2.getToken.2 := by
  rw [suite]

theorem func_suite_succ (func_def : (Lexer → PResult Statements) → Lexer → PResult Statement)
    (fuel : Nat) (lx : Lexer) :
    func_suite func_def (fuel + 1) lx =
      if !lx.getToken.1.isEol then
        PResult.die "Parser::func_suit()" "Expected an EOL token, instead got: " lx.getToken.1
          lx.getToken.2
      else if !lx.getToken.2.getToken.1.isIndent then
        PResult.die "Parser::func_suit()" "Expected an INDENT token, instead got: "
          lx.getToken.2.getToken.1 lx.getToken.2.getToken.2
      else funcSuiteLoop fuel (stmt func_def fuel) fuel [] lx.getToken.2.getToken.2 := by
  rw [func_suite]

theorem for_stmt_succ (func_def : (Lexer → PResult Statements) → Lexer → PResult Statement)
    (fuel : Nat) (lx : Lexer) :
    for_stmt func_def (fuel + 1) lx =
      if !lx.getToken.1.isFor then
        PResult.die "Parser::for_stmt" "Expected FOR _keyword, instead got" lx.getToken.1
          lx.getToken.2
      else if !lx.getToken.2.getToken.1.isName then
        PResult.die "Parser::for_stmt" "Expected NAME _keyword, instead got"
          lx.getToken.2.getToken.1 lx.getToken.2.getToken.2
      else if !lx.getToken.2.getToken.2.getToken.1.isIn then
        PResult.die "Parser::for_stmt" "Expected IN _keyword, instead got"
          lx.getToken.2.getToken.2.getToken.1 lx.getToken.2.getToken.2.getToken.2
      else if !lx.getToken.2.getToken.2.getToken.2.getToken.1.isRange then
        PResult.die "Parser::for_stmt" "Expected RANGE, instead got"
          lx.getToken.2.getToken.2.getToken.2.getToken.1
          lx.getToken.2.getToken.2.getToken.2.getToken.2
      else if !lx.getToken.2.getToken.2.getToken.2.getToken.2.getToken.1.isOpenParen then
        PResult.die "Parser::for_stmt" "Expected OPENPAREN, instead got"
          lx.getToken.2.getToken.2.getToken.2.getToken.2.getToken.1
          lx.getToken.2.getToken.2.getToken.2.getToken.2.getToken.2
      else
        (testlist fuel lx.getToken.2.getToken.2.getToken.2.getToken.2.getToken.2).bind
          fun list lx6 =>
            if !lx6.getToken.1.isCloseParen then
              PResult.die "Parser::for_stmt" "Expected CLOSEPAREN, instead got" lx6.getToken.1
                lx6.getToken.2
            else if !lx6.getToken.2.getToken.1.isColon then
              PResult.die "Parser::for_stmt" "Expected : symbol, instead got"
                lx6.getToken.2.getToken.1 lx6.getToken.2.getToken.2
            else
              (suite func_def fuel lx6.getToken.2.getToken.2).bind fun stmts lx9 =>
                PResult.ok
                  (Statement.RangeStmt lx.getToken.2.getToken.1.getName list stmts none none none)
                  lx9 := by
  rw [for_stmt]

theorem if_stmt_succ (func_def : (Lexer → PResult Statements) → Lexer → PResult Statement)
    (fuel : Nat) (lx : Lexer) :
    if_stmt func_def (fuel + 1) lx =
      if !lx.getToken.1.isIf then
        PResult.die "Parser::if_stmt" "Expected if keyword, instead got" lx.getToken.1
          lx.getToken.2
      else
        (test fuel lx.getToken.2).bind fun comp lx2 =>
          if !lx2.getToken.1.isColon then
            PResult.die "Parser::if_stmt" "Expected : keyword, instead got" lx2.getToken.1
              lx2.getToken.2
          else
            (suite func_def fuel lx2.getToken.2).bind fun stmts lx4 =>
              (if lx4.getToken.1.isElIf then
                (elifLoop (test fuel) (suite func_def fuel) fuel [] lx4.getToken.1 true
                  lx4.getToken.2).bind fun r lx6 => PResult.ok (some r.1, r.2.1, r.2.2) lx6
              else
                (PResult.ok (none, lx4.getToken.1, false) lx4.getToken.2 :
                  PResult (Option (List (ExprNode × Statements)) × Token × Bool))).bind
                fun r lx6 =>
                  (if r.2.1.isElse then
                    if !lx6.getToken.1.isColon then
                      PResult.die "Parser::if_stmt" "Expected : keyword, instead got"
                        lx6.getToken.1 lx6.getToken.2
                    else
                      (suite func_def fuel lx6.getToken.2).bind fun elseStmts lx8 =>
                        PResult.ok (some elseStmts, true) lx8
                  else
                    (PResult.ok (none, r.2.2) lx6 : PResult (Option Statements × Bool))).bind
                    fun e lx7 =>
                      PResult.ok (Statement.IfStatement (some (comp, stmts)) r.1 e.1)
                        (if !e.2 then lx7.ungetToken else lx7) := by
  rw [if_stmt]

theorem getEOL_endsIn {R : Lexer → Lexer → Prop} (hR : LexerInvariant R) (scope : String)
    (lx : Lexer) : (getEOL scope lx).EndsIn R lx := by
  rw [getEOL_eq]
  split
  · exact PResult.EndsIn.of_die _ _ _ (hR.get lx)
  · exact PResult.EndsIn.of_ok _ (hR.get lx)

theorem print_stmt_endsIn {R : Lexer → Lexer → Prop} (hR : LexerInvariant R) (fuel : Nat)
    (lx : Lexer) : (print_stmt fuel lx).EndsIn R lx := by
  rw [print_stmt_eq]
  split
  · exact PResult.EndsIn.of_die _ _ _ (hR.get lx)
  · exact PResult.EndsIn.after hR (hR.get lx)
      (PResult.EndsIn.andThen hR ((expression_endsIn hR fuel).1 _) fun l lx2 _ =>
        PResult.EndsIn.of_ok _ (hR.refl lx2))

theorem assign_stmt_endsIn {R : Lexer → Lexer → Prop} (hR : LexerInvariant R) (fuel : Nat)
    (varName : Token) (lx : Lexer) : (assign_stmt fuel varName lx).EndsIn R lx := by
  rw [assign_stmt_eq]
  split
  · exact PResult.EndsIn.of_die _ _ _ (hR.get lx)
  · exact PResult.EndsIn.after hR (hR.get lx)
      (PResult.EndsIn.andThen hR ((expression_endsIn hR fuel).2.1 _) fun e lx2 _ =>
        PResult.EndsIn.of_ok _ (hR.refl lx2))

theorem return_stmt_endsIn {R : Lexer → Lexer → Prop} (hR : LexerInvariant R) (fuel : Nat)
    (lx : Lexer) : (return_stmt fuel lx).EndsIn R lx := by
  rw [return_stmt_eq]
  split
  · exact PResult.EndsIn.of_die _ _ _ (hR.get lx)
  · exact PResult.EndsIn.after hR (hR.get lx)
      (PResult.EndsIn.andThen hR ((expression_endsIn hR fuel).2.1 _) fun e lx2 _ =>
        PResult.EndsIn.of_ok _ (hR.refl lx2))

theorem simple_stmt_endsIn {R : Lexer → Lexer → Prop} (hR : LexerInvariant R) (fuel : Nat)
    (lx : Lexer) : (simple_stmt fuel lx).EndsIn R lx := by
  have h2 : R lx lx.getToken.2.getToken.2 := hR.trans _ _ _ (hR.get lx) (hR.get _)
  rw [simple_stmt_eq]
  split
  · exact PResult.EndsIn.of_die _ _ _ (hR.get lx)
  · split
    · exact PResult.EndsIn.after hR (hR.getUnget lx)
        (PResult.EndsIn.andThen hR (print_stmt_endsIn hR fuel _) fun s lx2 _ =>
          PResult.EndsIn.andThen hR (getEOL_endsIn hR _ lx2) fun _ lx3 _ =>
            PResult.EndsIn.of_ok _ (hR.refl lx3))
    · split
      · exact PResult.EndsIn.of_die _ _ _ (hR.get lx)
      · split
        · split
          · exact PResult.EndsIn.after hR
              (hR.trans _ _ _ (hR.get lx) (hR.getUnget lx.getToken.2))
              (PResult.EndsIn.andThen hR (assign_stmt_endsIn hR fuel _ _) fun s lx3 _ =>
                PResult.EndsIn.andThen hR (getEOL_endsIn hR _ lx3) fun _ lx4 _ =>
                  PResult.EndsIn.of_ok _ (hR.refl lx4))
          · split
            · exact PResult.EndsIn.of_die _ _ _ h2
            · exact PResult.EndsIn.of_die _ _ _ h2
        · exact PResult.EndsIn.of_die _ _ _ (hR.get lx)

theorem stmtsLoop_endsIn {R : Lexer → Lexer → Prop} (hR : LexerInvariant R)
    (stop : Token → Bool) (stmt : Lexer → PResult Statement)
    (hstmt : ∀ lx : Lexer, (stmt lx).EndsIn R lx) :
    ∀ (n : Nat) (stmts : Statements) (lx : Lexer),
      (stmtsLoop stop stmt n stmts lx).EndsIn R lx := by
  intro n
  induction n with
  | zero => intro stmts lx; exact PResult.EndsIn.of_outOfFuel R lx
  | succ n ih =>
    intro stmts lx
    rw [stmtsLoop_succ]
    split
    · exact PResult.EndsIn.after hR (hR.getUnget lx)
        (PResult.EndsIn.andThen hR (hstmt _) fun s lx2 _ => ih _ lx2)
    · exact PResult.EndsIn.of_ok _ (hR.get lx)

theorem funcSuiteEnd_endsIn {R : Lexer → Lexer → Prop} {lx lx1 : Lexer} (stmts : Statements)
    (tok : Token) (h : R lx lx1) : (funcSuiteEnd stmts tok lx1).EndsIn R lx := by
  unfold funcSuiteEnd
  split
  · exact PResult.EndsIn.of_ok _ h
  · exact PResult.EndsIn.of_die _ _ _ h

theorem funcSuiteLoop_endsIn {R : Lexer → Lexer → Prop} (hR : LexerInvariant R) (fuel : Nat)
    (stmt : Lexer → PResult Statement) (hstmt : ∀ lx : Lexer, (stmt lx).EndsIn R lx) :
    ∀ (n : Nat) (stmts : Statements) (lx : Lexer),
      (funcSuiteLoop fuel stmt n stmts lx).EndsIn R lx := by
  intro n
  induction n with
  | zero => intro stmts lx; exact PResult.EndsIn.of_outOfFuel R lx
  | succ n ih =>
    intro stmts lx
    rw [funcSuiteLoop_succ]
    split
    · split
      · exact PResult.EndsIn.after hR (hR.getUnget lx)
          (PResult.EndsIn.andThen hR (return_stmt_endsIn hR fuel _) fun r lx2 _ =>
            funcSuiteEnd_endsIn _ _ (hR.get lx2))
      · exact PResult.EndsIn.after hR (hR.getUnget lx)
          (PResult.EndsIn.andThen hR (hstmt _) fun s lx2 _ => ih _ lx2)
    · exact funcSuiteEnd_endsIn _ _ (hR.get lx)

theorem elifLoop_endsIn {R : Lexer → Lexer → Prop} (hR : LexerInvariant R)
    (test : Lexer → PResult ExprNode) (suite : Lexer → PResult Statements)
    (htest : ∀ lx : Lexer, (test lx).EndsIn R lx)
    (hsuite : ∀ lx : Lexer, (suite lx).EndsIn R lx) :
    ∀ (n : Nat) (elifs : List (ExprNode × Statements)) (tok : Token) (conditionHit : Bool)
      (x : Lexer),
      (elifLoop test suite n elifs tok conditionHit x.getToken.2).EndsIn R x ∧
      ∀ (v : List (ExprNode × Statements) × Token × Bool) (lx1 : Lexer),
        elifLoop test suite n elifs tok conditionHit x.getToken.2 = PResult.ok v lx1 →
        ∃ y : Lexer, R x y ∧ lx1 = y.getToken.2 := by
  intro n
  induction n with
  | zero =>
    intro elifs tok conditionHit x
    exact ⟨PResult.EndsIn.of_outOfFuel R x, fun v lx1 h => by simp [elifLoop] at h⟩
  | succ n ih =>
    intro elifs tok conditionHit x
    rw [elifLoop_succ]
    split
    · cases ht : test x.getToken.2 with
      | outOfFuel =>
        exact ⟨PResult.EndsIn.of_outOfFuel R x, fun v lx1 h => by simp [PResult.bind] at h⟩
      | die s m t lx1 =>
        have hx1 : R x lx1 :=
          hR.trans _ _ _ (hR.get x) (htest x.getToken.2 lx1 (by rw [ht]; rfl))
        exact ⟨PResult.EndsIn.of_die _ _ _ hx1, fun v lx2 h => by simp [PResult.bind] at h⟩
      | ok c lx1 =>
        have hx1 : R x lx1 :=
          hR.trans _ _ _ (hR.get x) (htest x.getToken.2 lx1 (by rw [ht]; rfl))
        simp only [PResult.bind]
        split
        · exact ⟨PResult.EndsIn.of_die _ _ _ (hR.trans _ _ _ hx1 (hR.get lx1)),
            fun v lx2 h => by simp at h⟩
        · cases hs : suite lx1.getToken.2 with
          | outOfFuel =>
            exact ⟨PResult.EndsIn.of_outOfFuel R x, fun v lx2 h => by simp at h⟩
          | die s m t lx3 =>
            have hx3 : R x lx3 := hR.trans _ _ _ hx1
              (hR.trans _ _ _ (hR.get lx1) (hsuite lx1.getToken.2 lx3 (by rw [hs]; rfl)))
            exact ⟨PResult.EndsIn.of_die _ _ _ hx3, fun v lx2 h => by simp at h⟩
          | ok stmts lx3 =>
            have hx3 : R x lx3 := hR.trans _ _ _ hx1
              (hR.trans _ _ _ (hR.get lx1) (hsuite lx1.getToken.2 lx3 (by rw [hs]; rfl)))
            obtain ⟨hends, hok⟩ := ih (elifs ++ [(c, stmts)]) lx3.getToken.1 false lx3
            refine ⟨PResult.EndsIn.after hR hx3 hends, fun v lx2 h => ?_⟩
            obtain ⟨y, hy, hlx⟩ := hok v lx2 h
            exact ⟨y, hR.trans _ _ _ hx3 hy, hlx⟩
    · exact ⟨PResult.EndsIn.of_ok _ (hR.get x), fun v lx1 h => by
        simp only [PResult.ok.injEq] at h
        exact ⟨x, hR.refl x, h.2.symm⟩⟩

theorem afterElif_endsIn {R : Lexer → Lexer → Prop} (hR : LexerInvariant R)
    (test : Lexer → PResult ExprNode) (suite : Lexer → PResult Statements)
    (htest : ∀ lx : Lexer, (test lx).EndsIn R lx)
    (hsuite : ∀ lx : Lexer, (suite lx).EndsIn R lx) (n : Nat) (x : Lexer) :
    ((if x.getToken.1.isElIf then
        (elifLoop test suite n [] x.getToken.1 true x.getToken.2).bind fun r lx6 =>
          PResult.ok (some r.1, r.2.1, r.2.2) lx6
      else
        (PResult.ok (none, x.getToken.1, false) x.getToken.2 :
          PResult (Option (List (ExprNode × Statements)) × Token × Bool))).EndsIn R x) ∧
    ∀ (v : Option (List (ExprNode × Statements)) × Token × Bool) (lx1 : Lexer),
      (if x.getToken.1.isElIf then
        (elifLoop test suite n [] x.getToken.1 true x.getToken.2).bind fun r lx6 =>
          PResult.ok (some r.1, r.2.1, r.2.2) lx6
      else
        (PResult.ok (none, x.getToken.1, false) x.getToken.2 :
          PResult (Option (List (ExprNode × Statements)) × Token × Bool))) =
        PResult.ok v lx1 →
      ∃ y : Lexer, R x y ∧ lx1 = y.getToken.2 := by
  obtain ⟨hends, hok⟩ := elifLoop_endsIn hR test suite htest hsuite n [] x.getToken.1 true x
  split
  · cases hl : elifLoop test suite n [] x.getToken.1 true x.getToken.2 with
    | outOfFuel =>
      exact ⟨PResult.EndsIn.of_outOfFuel R x, fun v lx1 h => by simp [PResult.bind] at h⟩
    | die s m t lx1 =>
      exact ⟨PResult.EndsIn.of_die _ _ _ (hends lx1 (by rw [hl]; rfl)),
        fun v lx2 h => by simp [PResult.bind] at h⟩
    | ok r lx1 =>
      obtain ⟨y, hy, hlx⟩ := hok r lx1 hl
      refine ⟨PResult.EndsIn.of_ok _ (hends lx1 (by rw [hl]; rfl)), fun v lx2 h => ?_⟩
      simp only [PResult.bind, PResult.ok.injEq] at h
      exact ⟨y, hy, by rw [← h.2]; exact hlx⟩
  · exact ⟨PResult.EndsIn.of_ok _ (hR.get x), fun v lx1 h => by
      simp only [PResult.ok.injEq] at h
      exact ⟨x, hR.refl x, h.2.symm⟩⟩

theorem ifTail_endsIn {R : Lexer → Lexer → Prop} (hR : LexerInvariant R)
    (suite : Lexer → PResult Statements) (hsuite : ∀ lx : Lexer, (suite lx).EndsIn R lx)
    (y : Lexer) (r : Option (List (ExprNode × Statements)) × Token × Bool)
    (primary : ExprNode × Statements) :
    ((if r.2.1.isElse then
        if !y.getToken.2.getToken.1.isColon then
          PResult.die "Parser::if_stmt" "Expected : keyword, instead got"
            y.getToken.2.getToken.1 y.getToken.2.getToken.2
        else
          (suite y.getToken.2.getToken.2).bind fun elseStmts lx8 =>
            PResult.ok (some elseStmts, true) lx8
      else
        (PResult.ok (none, r.2.2) y.getToken.2 : PResult (Option Statements × Bool))).bind
      fun e lx7 =>
        PResult.ok (Statement.IfStatement (some primary) r.1 e.1)
          (if !e.2 then lx7.ungetToken else lx7)).EndsIn R y := by
  have h2 : R y y.getToken.2.getToken.2 := hR.trans _ _ _ (hR.get y) (hR.get _)
  split
  · split
    · exact PResult.EndsIn.of_die _ _ _ h2
    · cases hs : suite y.getToken.2.getToken.2 with
      | outOfFuel => exact PResult.EndsIn.of_outOfFuel R y
      | die s m t lx8 =>
        exact PResult.EndsIn.of_die _ _ _
          (hR.trans _ _ _ h2 (hsuite _ lx8 (by rw [hs]; rfl)))
      | ok elseStmts lx8 =>
        exact PResult.EndsIn.of_ok _ (hR.trans _ _ _ h2 (hsuite _ lx8 (by rw [hs]; rfl)))
  · simp only [PResult.bind]
    cases r.2.2 with
    | true => exact PResult.EndsIn.of_ok _ (hR.get y)
    | false => exact PResult.EndsIn.of_ok _ (hR.getUnget y)

theorem statement_endsIn {R : Lexer → Lexer → Prop} (hR : LexerInvariant R)
    (func_def : (Lexer → PResult Statements) → Lexer → PResult Statement)
    (hfd : ∀ fs : Lexer → PResult Statements, (∀ lx : Lexer, (fs lx).EndsIn R lx) →
      ∀ lx : Lexer, (func_def fs lx).EndsIn R lx) :
    ∀ fuel : Nat,
      (∀ lx : Lexer, (stmt func_def fuel lx).EndsIn R lx) ∧
      (∀ lx : Lexer, (compound_stmt func_def fuel lx).EndsIn R lx) ∧
      (∀ lx : Lexer, (if_stmt func_def fuel lx).EndsIn R lx) ∧
      (∀ lx : Lexer, (for_stmt func_def fuel lx).EndsIn R lx) ∧
      (∀ lx : Lexer, (suite func_def fuel lx).EndsIn R lx) ∧
      (∀ lx : Lexer, (func_suite func_def fuel lx).EndsIn R lx) := by
  intro fuel
  induction fuel with
  | zero =>
    refine ⟨?_, ?_, ?_, ?_, ?_, ?_⟩
    · intro lx; rw [stmt]; exact PResult.EndsIn.of_outOfFuel R lx
    · intro lx; rw [compound_stmt]; exact PResult.EndsIn.of_outOfFuel R lx
    · intro lx; rw [if_stmt]; exact PResult.EndsIn.of_outOfFuel R lx
    · intro lx; rw [for_stmt]; exact PResult.EndsIn.of_outOfFuel R lx
    · intro lx; rw [suite]; exact PResult.EndsIn.of_outOfFuel R lx
    · intro lx; rw [func_suite]; exact PResult.EndsIn.of_outOfFuel R lx
  | succ fuel ih =>
    obtain ⟨hStmt, hCompound, hIf, hFor, hSuite, hFuncSuite⟩ := ih
    obtain ⟨hTestlist, hTest, -⟩ := expression_endsIn hR fuel
    have g2 : ∀ lx : Lexer, R lx lx.getToken.2.getToken.2 :=
      fun lx => hR.trans _ _ _ (hR.get lx) (hR.get _)
    refine ⟨?_, ?_, ?_, ?_, ?_, ?_⟩
    · intro lx
      rw [stmt_succ]
      split
      · exact PResult.EndsIn.after hR (hR.getUnget lx) (hCompound _)
      · exact PResult.EndsIn.after hR (hR.getUnget lx) (simple_stmt_endsIn hR fuel _)
    · intro lx
      rw [compound_stmt_succ]
      split
      · exact PResult.EndsIn.after hR (hR.getUnget lx) (hFor _)
      · split
        · exact PResult.EndsIn.after hR (hR.getUnget lx) (hIf _)
        · split
          · exact PResult.EndsIn.after hR (hR.getUnget lx) (hfd _ hFuncSuite _)
          · exact PResult.EndsIn.of_die _ _ _ (hR.get lx)
    · intro lx
      rw [if_stmt_succ]
      split
      · exact PResult.EndsIn.of_die _ _ _ (hR.get lx)
      · refine PResult.EndsIn.after hR (hR.get lx)
          (PResult.EndsIn.andThen hR (hTest _) fun comp lx2 _ => ?_)
        split
        · exact PResult.EndsIn.of_die _ _ _ (hR.get lx2)
        · refine PResult.EndsIn.after hR (hR.get lx2)
            (PResult.EndsIn.andThen hR (hSuite _) fun stmts lx4 _ => ?_)
          obtain ⟨hA, hAok⟩ := afterElif_endsIn hR (test fuel) (suite func_def fuel) hTest hSuite
            fuel lx4
          refine PResult.EndsIn.andThenFrom hA fun r lx6 hr => ?_
          obtain ⟨y, hy, hlx⟩ := hAok r lx6 hr
          subst hlx
          exact PResult.EndsIn.after hR hy
            (ifTail_endsIn hR (suite func_def fuel) hSuite y r (comp, stmts))
    · intro lx
      rw [for_stmt_succ]
      have g3 : R lx lx.getToken.2.getToken.2.getToken.2 :=
        hR.trans _ _ _ (g2 lx) (hR.get _)
      have g4 : R lx lx.getToken.2.getToken.2.getToken.2.getToken.2 :=
        hR.trans _ _ _ g3 (hR.get _)
      have g5 : R lx lx.getToken.2.getToken.2.getToken.2.getToken.2.getToken.2 :=
        hR.trans _ _ _ g4 (hR.get _)
      split
      · exact PResult.EndsIn.of_die _ _ _ (hR.get lx)
      · split
        · exact PResult.EndsIn.of_die _ _ _ (g2 lx)
        · split
          · exact PResult.EndsIn.of_die _ _ _ g3
          · split
            · exact PResult.EndsIn.of_die _ _ _ g4
            · split
              · exact PResult.EndsIn.of_die _ _ _ g5
              · refine PResult.EndsIn.after hR g5
                  (PResult.EndsIn.andThen hR (hTestlist _) fun list lx6 _ => ?_)
                split
                · exact PResult.EndsIn.of_die _ _ _ (hR.get lx6)
                · split
                  · exact PResult.EndsIn.of_die _ _ _ (g2 lx6)
                  · exact PResult.EndsIn.after hR (g2 lx6)
                      (PResult.EndsIn.andThen hR (hSuite _) fun stmts lx9 _ =>
                        PResult.EndsIn.of_ok _ (hR.refl lx9))
    · intro lx
      rw [suite_succ]
      split
      · exact PResult.EndsIn.of_die _ _ _ (hR.get lx)
      · split
        · exact PResult.EndsIn.of_die _ _ _ (g2 lx)
        · exact PResult.EndsIn.after hR (g2 lx) (stmtsLoop_endsIn hR _ _ hStmt fuel [] _)
    · intro lx
      rw [func_suite_succ]
      split
      · exact PResult.EndsIn.of_die _ _ _ (hR.get lx)
      · split
        · exact PResult.EndsIn.of_die _ _ _ (g2 lx)
        · exact PResult.EndsIn.after hR (g2 lx) (funcSuiteLoop_endsIn hR fuel _ hStmt fuel [] _)

theorem file_input_endsIn {R : Lexer → Lexer → Prop} (hR : LexerInvariant R)
    (func_def : (Lexer → PResult Statements) → Lexer → PResult Statement)
    (hfd : ∀ fs : Lexer → PResult Statements, (∀ lx : Lexer, (fs lx).EndsIn R lx) →
      ∀ lx : Lexer, (func_def fs lx).EndsIn R lx)
    (fuel : Nat) (lx : Lexer) : (file_input func_def fuel lx).EndsIn R lx := by
  unfold file_input
  exact stmtsLoop_endsIn hR _ _ (statement_endsIn hR func_def hfd fuel).1 fuel [] lx

/-! ## The pushback discipline -/

theorem Lexer.getToken_ops (lx : Lexer) : lx.getToken.2.ops = lx.ops ++ [LexOp.get] := by
  unfold Lexer.getToken
  split
  · rfl
  · split <;> rfl

theorem Lexer.getToken_unget_ops (lx : Lexer) :
    lx.getToken.2.ungetToken.ops = lx.ops ++ [LexOp.get, LexOp.unget] := by
  have h : lx.getToken.2.ungetToken.ops = lx.getToken.2.ops ++ [LexOp.unget] := rfl
  rw [h, Lexer.getToken_ops, List.append_assoc]
  rfl

theorem PushbackDiscipline.append {a b : List LexOp} (ha : PushbackDiscipline a)
    (hb : PushbackDiscipline b) : PushbackDiscipline (a ++ b) := by
  intro i hi
  by_cases hlt : i < a.length
  · rw [List.getElem?_append_left hlt] at hi
    obtain ⟨j, hj, hget⟩ := ha i hi
    refine ⟨j, hj, ?_⟩
    rw [List.getElem?_append_left (by omega)]
    exact hget
  · rw [List.getElem?_append_right (by omega)] at hi
    obtain ⟨j, hj, hget⟩ := hb (i - a.length) hi
    refine ⟨a.length + j, by omega, ?_⟩
    rw [List.getElem?_append_right (by omega)]
    simpa using hget

theorem PushbackDiscipline.nil : PushbackDiscipline [] := by
  intro i hi
  simp at hi

theorem PushbackDiscipline.get : PushbackDiscipline [LexOp.get] := by
  intro i hi
  cases i with
  | zero => simp at hi
  | succ i => simp at hi

theorem PushbackDiscipline.get_unget : PushbackDiscipline [LexOp.get, LexOp.unget] := by
  intro i hi
  match i with
  | 0 => simp at hi
  | 1 => exact ⟨0, rfl, rfl⟩
  | i + 2 => simp at hi

theorem Lexer.disciplined_invariant : LexerInvariant Lexer.Disciplined where
  refl := fun lx => ⟨[], by simp, PushbackDiscipline.nil⟩
  trans := by
    intro a b c ⟨p, hp, hpd⟩ ⟨q, hq, hqd⟩
    exact ⟨p ++ q, by rw [hq, hp, List.append_assoc], hpd.append hqd⟩
  get := fun lx => ⟨[LexOp.get], Lexer.getToken_ops lx, PushbackDiscipline.get⟩
  getUnget := fun lx =>
    ⟨[LexOp.get, LexOp.unget], Lexer.getToken_unget_ops lx, PushbackDiscipline.get_unget⟩

theorem sampleFuncDef_endsIn {R : Lexer → Lexer → Prop} (hR : LexerInvariant R)
    (fs : Lexer → PResult Statements) (hfs : ∀ lx : Lexer, (fs lx).EndsIn R lx) (lx : Lexer) :
    (sampleFuncDef fs lx).EndsIn R lx := by
  have g2 : R lx lx.getToken.2.getToken.2 := hR.trans _ _ _ (hR.get lx) (hR.get _)
  have g3 : R lx lx.getToken.2.getToken.2.getToken.2 := hR.trans _ _ _ g2 (hR.get _)
  have g4 : R lx lx.getToken.2.getToken.2.getToken.2.getToken.2 :=
    hR.trans _ _ _ g3 (hR.get _)
  have g5 : R lx lx.getToken.2.getToken.2.getToken.2.getToken.2.getToken.2 :=
    hR.trans _ _ _ g4 (hR.get _)
  have heq : sampleFuncDef fs lx =
      if !lx.getToken.1.isFunc then
        PResult.die "Parser::func_def" "Expected DEF" lx.getToken.1 lx.getToken.2
      else if !lx.getToken.2.getToken.1.isName then
        PResult.die "Parser::func_def" "Expected NAME" lx.getToken.2.getToken.1
          lx.getToken.2.getToken.2
      else if !lx.getToken.2.getToken.2.getToken.1.isOpenParen then
        PResult.die "Parser::func_def" "Expected (" lx.getToken.2.getToken.2.getToken.1
          lx.getToken.2.getToken.2.getToken.2
      else if !lx.getToken.2.getToken.2.getToken.2.getToken.1.isCloseParen then
        PResult.die "Parser::func_def" "Expected )"
          lx.getToken.2.getToken.2.getToken.2.getToken.1
          lx.getToken.2.getToken.2.getToken.2.getToken.2
      else if !lx.getToken.2.getToken.2.getToken.2.getToken.2.getToken.1.isColon then
        PResult.die "Parser::func_def" "Expected :"
          lx.getToken.2.getToken.2.getToken.2.getToken.2.getToken.1
          lx.getToken.2.getToken.2.getToken.2.getToken.2.getToken.2
      else
        (fs lx.getToken.2.getToken.2.getToken.2.getToken.2.getToken.2).bind fun body lx6 =>
          PResult.ok (Statement.FunctionDefinition lx.getToken.2.getToken.1.getName []
            (some body) false) lx6 := rfl
  rw [heq]
  split
  · exact PResult.EndsIn.of_die _ _ _ (hR.get lx)
  · split
    · exact PResult.EndsIn.of_die _ _ _ g2
    · split
      · exact PResult.EndsIn.of_die _ _ _ g3
      · split
        · exact PResult.EndsIn.of_die _ _ _ g4
        · split
          · exact PResult.EndsIn.of_die _ _ _ g5
          · exact PResult.EndsIn.after hR g5
              (PResult.EndsIn.andThen hR (hfs _) fun body lx6 _ =>
                PResult.EndsIn.of_ok _ (hR.refl lx6))

/-- C14: no double pushback.  Let the absent production `func_def` keep the
pushback discipline whenever the production it is handed does.  Then for
every token stream and every budget, when `file_input` ends (it returns or
dies), in the sequence of all lexer calls made every `ungetToken` is
immediately preceded by a `getToken`: never two in a row, never first.  The
same holds for the calls `file_input` adds when the lexer has been used
before. -/
theorem file_input_pushback_discipline
    (func_def : (Lexer → PResult Statements) → Lexer → PResult Statement)
    (hfd : ∀ fs : Lexer → PResult Statements,
      (∀ lx : Lexer, (fs lx).EndsIn Lexer.Disciplined lx) →
      ∀ lx : Lexer, (func_def fs lx).EndsIn Lexer.Disciplined lx)
    (fuel : Nat) :
    (∀ (toks : List Token) (ops : List LexOp),
      (file_input func_def fuel (Lexer.init toks)).lexerAt?.map Lexer.ops = some ops →
      PushbackDiscipline ops) ∧
    ∀ lx : Lexer, (file_input func_def fuel lx).EndsIn Lexer.Disciplined lx := by
  have hall : ∀ lx : Lexer, (file_input func_def fuel lx).EndsIn Lexer.Disciplined lx :=
    fun lx => file_input_endsIn Lexer.disciplined_invariant func_def hfd fuel lx
  refine ⟨?_, hall⟩
  intro toks ops hops
  cases hl : (file_input func_def fuel (Lexer.init toks)).lexerAt? with
  | none => simp [hl] at hops
  | some lx1 =>
    simp only [hl, Option.map_some', Option.some.injEq] at hops
    obtain ⟨added, hadd, hd⟩ := hall (Lexer.init toks) lx1 hl
    have : lx1.ops = added := by simpa [Lexer.init] using hadd
    rw [← hops, this]
    exact hd

/-- C14 (witness): with the sample `func_def`, parsing `print 1` and the end
of the line makes 26 lexer calls, and each pushback among them follows a
fetch. -/
theorem file_input_pushback_discipline_witness :
    (file_input sampleFuncDef 11
        (Lexer.init [Token.keyword Keyword.kwPrint, Token.wholeNumber 1,
          Token.eol])).lexerAt?.map Lexer.ops =
      some [LexOp.get, LexOp.unget, LexOp.get, LexOp.unget, LexOp.get, LexOp.unget, LexOp.get,
        LexOp.get, LexOp.unget, LexOp.get, LexOp.unget, LexOp.get, LexOp.get, LexOp.unget,
        LexOp.get, LexOp.unget, LexOp.get, LexOp.unget, LexOp.get, LexOp.unget, LexOp.get,
        LexOp.unget, LexOp.get, LexOp.unget, LexOp.get, LexOp.get] ∧
    PushbackDiscipline
      [LexOp.get, LexOp.unget, LexOp.get, LexOp.unget, LexOp.get, LexOp.unget, LexOp.get,
        LexOp.get, LexOp.unget, LexOp.get, LexOp.unget, LexOp.get, LexOp.get, LexOp.unget,
        LexOp.get, LexOp.unget, LexOp.get, LexOp.unget, LexOp.get, LexOp.unget, LexOp.get,
        LexOp.unget, LexOp.get, LexOp.unget, LexOp.get, LexOp.get] := by
  have hrun : (file_input sampleFuncDef 11
      (Lexer.init [Token.keyword Keyword.kwPrint, Token.wholeNumber 1,
        Token.eol])).lexerAt?.map Lexer.ops =
      some [LexOp.get, LexOp.unget, LexOp.get, LexOp.unget, LexOp.get, LexOp.unget, LexOp.get,
        LexOp.get, LexOp.unget, LexOp.get, LexOp.unget, LexOp.get, LexOp.get, LexOp.unget,
        LexOp.get, LexOp.unget, LexOp.get, LexOp.unget, LexOp.get, LexOp.unget, LexOp.get,
        LexOp.unget, LexOp.get, LexOp.unget, LexOp.get, LexOp.get] := by
    simp [file_input, stmtsLoop, stmt, simple_stmt, print_stmt, getEOL, arith_expr, term,
      factor, atom, call, testlist, test, or_test, and_test, not_test, comparison, binaryLoop,
      testlistLoop, Lexer.init, Lexer.getToken, Lexer.ungetToken, PResult.bind,
      PResult.lexerAt?, Token.isName, Token.isSubtractionOperator, Token.isAdditionOperator,
      Token.isMultiplicationOperator, Token.isDivisionOperator, Token.isModuloOperator,
      Token.isOpenParen, Token.isCloseParen, Token.isWholeNumber, Token.isComma, Token.isOr,
      Token.isAnd, Token.isNot, Token.isCompOp, ExprNode.token, Token.isEof, Token.isEol,
      Token.isPrint, Token.isReturn, Token.isFunc, Token.isFor, Token.isIf]
  exact ⟨hrun, (file_input_pushback_discipline sampleFuncDef
    (fun fs hfs lx => sampleFuncDef_endsIn Lexer.disciplined_invariant fs hfs lx) 11).1 _ _ hrun⟩

/-! ## The position in the token stream -/

theorem Lexer.getToken_peek (lx : Lexer) : lx.getToken.1 = lx.peek 0 := by
  obtain ⟨input, last, ungotten, ops⟩ := lx
  cases ungotten <;> cases input <;> simp [Lexer.getToken, Lexer.peek, Lexer.stream]

theorem Lexer.peek_getToken (lx : Lexer) (i : Nat) : lx.getToken.2.peek i = lx.peek (1 + i) := by
  obtain ⟨input, last, ungotten, ops⟩ := lx
  cases ungotten <;> cases input <;>
    simp [Lexer.getToken, Lexer.peek, Lexer.stream, Nat.add_comm 1 i]

theorem Lexer.peek_getToken_unget (lx : Lexer) (i : Nat) :
    lx.getToken.2.ungetToken.peek i = lx.peek i := by
  obtain ⟨input, last, ungotten, ops⟩ := lx
  cases ungotten <;> cases input <;> cases i <;>
    simp [Lexer.getToken, Lexer.ungetToken, Lexer.peek, Lexer.stream]

theorem PResult.bind_eq_ok {α β : Type} {r : PResult α} {k : α → Lexer → PResult β} {w : β}
    {lx1 : Lexer} (h : r.bind k = PResult.ok w lx1) :
    ∃ (v : α) (lx0 : Lexer), r = PResult.ok v lx0 ∧ k v lx0 = PResult.ok w lx1 := by
  cases r with
  | ok v lx0 => exact ⟨v, lx0, rfl, h⟩
  | die s m t lx0 => simp [PResult.bind] at h
  | outOfFuel => simp [PResult.bind] at h

theorem call_eq_ok {fuel : Nat} {id : Token} {lx : Lexer} {v : ExprNode} {lx1 : Lexer}
    (h : call fuel id lx = PResult.ok v lx1) :
    ∃ args : List ExprNode, v = ExprNode.FunctionCall id args := by
  cases fuel with
  | zero => simp [call] at h
  | succ fuel =>
    rw [call_succ] at h
    split at h
    · simp at h
    · obtain ⟨args, lx0, -, hk⟩ := PResult.bind_eq_ok h
      split at hk
      · simp at hk
      · simp only [PResult.ok.injEq] at hk
        exact ⟨args, hk.1.symm⟩

end PyInterp


namespace PyInterp

/-! ## Lifetime of the loop variable, bounds of the range -/

theorem SymTab.isDefined_erase_self (st : SymTab) (id : String) :
    (st.erase id).isDefined id = false := by
  simp [SymTab.erase, SymTab.isDefined]

theorem Outcome.bind_eq_done {α β : Type} {r : Outcome α} {k : α → World → Outcome β} {b : β}
    {w1 : World} (h : r.bind k = Outcome.done b w1) :
    ∃ (a : α) (w0 : World), r = Outcome.done a w0 ∧ k a w0 = Outcome.done b w1 := by
  cases r with
  | done a w0 => exact ⟨a, w0, rfl, h⟩
  | fatal e w0 => simp [Outcome.bind] at h
  | outOfFuel => simp [Outcome.bind] at h

/-- C11: lifetime of the loop variable.  Whenever `RangeStmt::evaluate`
returns normally, whatever the direction, the number of iterations and the
body (which may assign to the loop variable), the loop variable is not
defined in the resulting environment. -/
theorem rangeStmt_loop_variable_removed (rt : Runtime)
    (evalBlock : Statements → World → Outcome Statements) (loopFuel : Nat) (id : String)
    (testList : List ExprNode) (forBody : Statements) (o : RangeOptionals) (w : World)
    (s1 : Statement) (w1 : World)
    (h : RangeStmt.evaluate rt evalBlock loopFuel id testList forBody o w = Outcome.done s1 w1) :
    w1.symTab.isDefined id = false := by
  unfold RangeStmt.evaluate at h
  cases hp : RangeStmt.parseTestList rt w.symTab testList o with
  | error e => simp [hp] at h
  | ok o1 =>
    simp only [hp] at h
    cases hd : w.symTab.isDefined id with
    | true => simp [hd] at h
    | false =>
      simp only [hd, Bool.false_eq_true, if_false] at h
      cases he : o1.end_ with
      | none => simp [he] at h
      | some e =>
        simp only [he] at h
        split at h
        · obtain ⟨body, w2, -, hk⟩ := Outcome.bind_eq_done h
          simp only [Outcome.done.injEq] at hk
          rw [← hk.2]
          exact SymTab.isDefined_erase_self _ id
        · split at h
          · obtain ⟨body, w2, -, hk⟩ := Outcome.bind_eq_done h
            simp only [Outcome.done.injEq] at hk
            rw [← hk.2]
            exact SymTab.isDefined_erase_self _ id
          · split at h
            · simp only [Outcome.done.injEq] at h
              rw [← h.2]
              exact SymTab.isDefined_erase_self _ id
            · simp at h

/-- C11 (witness): `for x in range(0, 1): x = 5` completes, and x is not
defined afterwards although the body assigned to it. -/
theorem rangeStmt_loop_variable_removed_witness :
    (RangeStmt.evaluate refRuntime (evalStatements refRuntime 1) 3 "x" [intLit 0, intLit 1]
        [Statement.AssignStmt "x" (intLit 5)] ⟨none, none, none⟩ World.initial).isDone = true ∧
    (RangeStmt.evaluate refRuntime (evalStatements refRuntime 1) 3 "x" [intLit 0, intLit 1]
        [Statement.AssignStmt "x" (intLit 5)] ⟨none, none, none⟩ World.initial).world?.map
        (fun w => w.symTab.isDefined "x") = some false := by
  refine ⟨rfl, ?_⟩
  cases hr : RangeStmt.evaluate refRuntime (evalStatements refRuntime 1) 3 "x"
      [intLit 0, intLit 1] [Statement.AssignStmt "x" (intLit 5)] ⟨none, none, none⟩
      World.initial with
  | done s1 w1 =>
    simp only [Outcome.world?, Option.map_some', Option.some.injEq]
    exact rangeStmt_loop_variable_removed refRuntime _ 3 "x" _ _ _ World.initial s1 w1 hr
  | fatal e w1 =>
    have hdone : (RangeStmt.evaluate refRuntime (evalStatements refRuntime 1) 3 "x"
        [intLit 0, intLit 1] [Statement.AssignStmt "x" (intLit 5)] ⟨none, none, none⟩
        World.initial).isDone = true := rfl
    rw [hr] at hdone
    exact absurd hdone (by simp [Outcome.isDone])
  | outOfFuel =>
    have hdone : (RangeStmt.evaluate refRuntime (evalStatements refRuntime 1) 3 "x"
        [intLit 0, intLit 1] [Statement.AssignStmt "x" (intLit 5)] ⟨none, none, none⟩
        World.initial).isDone = true := rfl
    rw [hr] at hdone
    exact absurd hdone (by simp [Outcome.isDone])

theorem rangeCount_ascending (start end_ step : Int) (hlt : start < end_) (hstep : 1 ≤ step) :
    ((rangeCount start end_ step : Nat) : Int) * step ≥ end_ - start ∧
      (((rangeCount start end_ step : Nat) : Int) - 1) * step < end_ - start := by
  have hs : 0 < step := by omega
  have hq := Int.ediv_add_emod (end_ - start + step - 1) step
  have hr0 := Int.emod_nonneg (end_ - start + step - 1) (by omega : step ≠ 0)
  have hr1 := Int.emod_lt_of_pos (end_ - start + step - 1) hs
  have hpos : 0 < (end_ - start + step - 1) / step := by
    have h1 : 0 < step * ((end_ - start + step - 1) / step) := by omega
    exact (mul_pos_iff_of_pos_left hs).mp h1
  have hn : ((rangeCount start end_ step : Nat) : Int) = (end_ - start + step - 1) / step := by
    simp only [rangeCount, if_pos hs]
    exact Int.toNat_of_nonneg (le_of_lt hpos)
  rw [hn]
  have e1 : (end_ - start + step - 1) / step * step = step * ((end_ - start + step - 1) / step) :=
    mul_comm _ _
  have e2 : ((end_ - start + step - 1) / step - 1) * step =
      step * ((end_ - start + step - 1) / step) - step := by ring
  rw [e1, e2]
  omega

theorem rangeCount_descending (start end_ step : Int) (hgt : start > end_) (hstep : step < 0) :
    ((rangeCount start end_ step : Nat) : Int) * step ≤ end_ - start ∧
      (((rangeCount start end_ step : Nat) : Int) - 1) * step > end_ - start := by
  have hs : 0 < -step := by omega
  have hq := Int.ediv_add_emod (start - end_ + -step - 1) (-step)
  have hr0 := Int.emod_nonneg (start - end_ + -step - 1) (by omega : -step ≠ 0)
  have hr1 := Int.emod_lt_of_pos (start - end_ + -step - 1) hs
  have hpos : 0 < (start - end_ + -step - 1) / (-step) := by
    have h1 : 0 < -step * ((start - end_ + -step - 1) / (-step)) := by omega
    exact (mul_pos_iff_of_pos_left hs).mp h1
  have hn : ((rangeCount start end_ step : Nat) : Int) = (start - end_ + -step - 1) / (-step) := by
    simp only [rangeCount, if_neg (by omega : ¬ 0 < step), if_pos hstep]
    exact Int.toNat_of_nonneg (le_of_lt hpos)
  rw [hn]
  have e1 : (start - end_ + -step - 1) / (-step) * step =
      -(-step * ((start - end_ + -step - 1) / (-step))) := by ring
  have e2 : ((start - end_ + -step - 1) / (-step) - 1) * step =
      -(-step * ((start - end_ + -step - 1) / (-step))) - step := by ring
  rw [e1, e2]
  omega


theorem Outcome.forget_bind_congr {α β γ : Type} (r : Outcome α) (k1 : α → World → Outcome β)
    (k2 : α → World → Outcome γ) (h : ∀ a w, (k1 a w).forget = (k2 a w).forget) :
    (r.bind k1).forget = (r.bind k2).forget := by
  cases r with
  | done a w => exact h a w
  | fatal e w => rfl
  | outOfFuel => rfl

theorem rangeTest_ascending (end_ step : Int) (hstep : 1 ≤ step) :
    rangeTest end_ step = fun x => decide (x < end_) := by
  funext x
  simp [rangeTest, not_lt.mpr (by omega : (0 : Int) ≤ step)]

theorem rangeTest_descending (end_ step : Int) (hstep : step < 0) :
    rangeTest end_ step = fun x => decide (x > end_) := by
  funext x
  simp [rangeTest, hstep]

theorem counterPath_rangeCount (start end_ step : Int)
    (hdir : (start < end_ ∧ 1 ≤ step) ∨ (start > end_ ∧ step < 0))
    (hstart : IsCInt start)
    (hlast : IsCInt (start + ((rangeCount start end_ step : Nat) : Int) * step)) :
    counterPath (rangeTest end_ step) step (rangeCount start end_ step + 1) start =
      some (rangeValues start step (rangeCount start end_ step),
        start + ((rangeCount start end_ step : Nat) : Int) * step) := by
  rcases hdir with ⟨hlt, hstep⟩ | ⟨hgt, hstep⟩
  · obtain ⟨hhi, hlo⟩ := rangeCount_ascending start end_ step hlt hstep
    have hcont : ∀ j : Nat, j < rangeCount start end_ step →
        start + (j : Int) * step < end_ := by
      intro j hj
      have hj1 : (j : Int) ≤ ((rangeCount start end_ step : Nat) : Int) - 1 := by omega
      have := mul_le_mul_of_nonneg_right hj1 (by omega : (0 : Int) ≤ step)
      omega
    have hexit : ¬(start + ((rangeCount start end_ step : Nat) : Int) * step < end_) := by
      omega
    rw [rangeTest_ascending end_ step hstep]
    exact counterPath_rangeValues _ step _ start _ (Nat.lt_succ_self _)
      (fun j hj => by simpa using hcont j hj) (by simpa using hexit) (isCInt_steps hstart hlast)
  · obtain ⟨hhi, hlo⟩ := rangeCount_descending start end_ step hgt hstep
    have hcont : ∀ j : Nat, j < rangeCount start end_ step →
        start + (j : Int) * step > end_ := by
      intro j hj
      have hj1 : (j : Int) ≤ ((rangeCount start end_ step : Nat) : Int) - 1 := by omega
      have := mul_le_mul_of_nonneg_right hj1 (by omega : (0 : Int) ≤ -step)
      have e1 : (j : Int) * -step = -((j : Int) * step) := by ring
      have e2 : (((rangeCount start end_ step : Nat) : Int) - 1) * -step =
          -((((rangeCount start end_ step : Nat) : Int) - 1) * step) := by ring
      omega
    have hexit : ¬(start + ((rangeCount start end_ step : Nat) : Int) * step > end_) := by
      omega
    rw [rangeTest_descending end_ step hstep]
    exact counterPath_rangeValues _ step _ start _ (Nat.lt_succ_self _)
      (fun j hj => by simpa using hcont j hj) (by simpa using hexit) (isCInt_steps hstart hlast)

/-- C12: the range bounds are evaluated once, at loop entry.  Let the range
expressions evaluate at entry to a range (start, end, step) that is ascending
or descending, and let the counter, followed on the type `int` from start by
the step alone, pass the loop test at the values `vs` and fail it at `last`
within the budget of loop tests.  When the loop variable is not defined at
entry and the body (which may assign to any variable the range expressions
read) leaves the loop variable as it is, `RangeStmt::evaluate` runs the body
exactly once for each value of `vs`, in order, with the loop variable bound to
it: the count and the values depend on the entry values only.  When no
increment overflows, these are the `rangeCount start end step` values start,
start + step, ....  Moreover any other range expressions with the same values
at entry give the same run. -/
theorem rangeStmt_bounds_evaluated_once (rt : Runtime)
    (evalBlock : Statements → World → Outcome Statements) (loopFuel : Nat) (id : String)
    (testList : List ExprNode) (forBody : Statements) (o o1 : RangeOptionals) (w : World)
    (start end_ step : Int) (vs : List Int) (last : Int)
    (hparse : RangeStmt.parseTestList rt w.symTab testList o = Except.ok o1)
    (hdef : o1.defaulted = some (start, end_, step))
    (hundef : w.symTab.isDefined id = false)
    (hdir : (start < end_ ∧ 1 ≤ step) ∨ (start > end_ ∧ step < 0))
    (hpath : counterPath (rangeTest end_ step) step loopFuel start = some (vs, last))
    (hbody : BodyKeeps evalBlock id vs forBody w) :
    RangeStmt.evaluate rt evalBlock loopFuel id testList forBody o w =
        ((runBodyAt evalBlock id vs forBody w).bind fun body w2 =>
            Outcome.done (Statement.RangeStmt id testList body o1.start o1.end_ o1.step)
              (w2.unbind id)) ∧
      (IsCInt (start + ((rangeCount start end_ step : Nat) : Int) * step) →
        vs = rangeValues start step (rangeCount start end_ step) ∧
          vs.length = rangeCount start end_ step ∧
          last = start + ((rangeCount start end_ step : Nat) : Int) * step) ∧
      ∀ testList2 : List ExprNode,
        RangeStmt.parseTestList rt w.symTab testList2 o = Except.ok o1 →
        (RangeStmt.evaluate rt evalBlock loopFuel id testList2 forBody o w).forget =
          (RangeStmt.evaluate rt evalBlock loopFuel id testList forBody o w).forget := by
  obtain ⟨hstart, -, -⟩ := RangeStmt.parseTestList_isCInt rt w.symTab testList o o1 start end_
    step hparse hdef
  refine ⟨?_, ?_, ?_⟩
  · rw [RangeStmt.evaluate_of_parse rt evalBlock loopFuel id testList forBody o o1 w start end_
      step hparse hdef hundef]
    rcases hdir with ⟨hlt, hstep⟩ | ⟨hgt, hstep⟩
    · have h1 : ¬(start > end_ ∧ step < 0) := by omega
      have h2 : start < end_ ∧ 1 ≤ step := ⟨hlt, hstep⟩
      rw [if_neg h1, if_pos h2]
      rw [rangeTest_ascending end_ step hstep] at hpath
      obtain ⟨body1, w1, hrun, hloop⟩ :=
        RangeStmt.loop_path rt evalBlock (fun x => decide (x < end_)) step id loopFuel start
          forBody w vs last hstart hpath hbody
      rw [hloop, hrun, Outcome.bind_done, Outcome.bind_done, World.unbind_bindInt]
    · have h1 : start > end_ ∧ step < 0 := ⟨hgt, hstep⟩
      rw [if_pos h1]
      rw [rangeTest_descending end_ step hstep] at hpath
      obtain ⟨body1, w1, hrun, hloop⟩ :=
        RangeStmt.loop_path rt evalBlock (fun x => decide (x > end_)) step id loopFuel start
          forBody w vs last hstart hpath hbody
      rw [hloop, hrun, Outcome.bind_done, Outcome.bind_done, World.unbind_bindInt]
  · intro hlast
    have hcount := counterPath_rangeCount start end_ step hdir hstart hlast
    have e1 := counterPath_mono (rangeTest end_ step) step loopFuel
      (max loopFuel (rangeCount start end_ step + 1)) start _ (le_max_left _ _) hpath
    have e2 := counterPath_mono (rangeTest end_ step) step (rangeCount start end_ step + 1)
      (max loopFuel (rangeCount start end_ step + 1)) start _ (le_max_right _ _) hcount
    rw [e1] at e2
    simp only [Option.some.injEq, Prod.mk.injEq] at e2
    refine ⟨e2.1, ?_, e2.2⟩
    rw [e2.1, rangeValues_length]
  · intro testList2 hparse2
    rw [RangeStmt.evaluate_of_parse rt evalBlock loopFuel id testList forBody o o1 w start end_
      step hparse hdef hundef,
      RangeStmt.evaluate_of_parse rt evalBlock loopFuel id testList2 forBody o o1 w start end_
      step hparse2 hdef hundef]
    split
    · exact Outcome.forget_bind_congr _ _ _ (fun _ _ => rfl)
    · split
      · exact Outcome.forget_bind_congr _ _ _ (fun _ _ => rfl)
      · split <;> rfl

/-- C12 (witness): with n = 3, `for x in range(n): n = 10` runs its body
exactly 3 times, with x = 0, 1, 2, as `for x in range(3)` does, although n is
10 from the first run on.  With n = 1600000000,
`for x in range(0, n, 1503238553): n = 10` runs its body at the four values
that the `int` counter takes from the entry value of n. -/
theorem rangeStmt_bounds_evaluated_once_witness :
    (RangeStmt.evaluate refRuntime (evalStatements refRuntime 1) 4 "x" [varRef "n"]
          [Statement.AssignStmt "n" (intLit 10)] ⟨none, none, none⟩
          (World.initial.bindInt "n" 3) =
        ((runBodyAt (evalStatements refRuntime 1) "x" [0, 1, 2]
          [Statement.AssignStmt "n" (intLit 10)] (World.initial.bindInt "n" 3)).bind
            fun body w2 =>
              Outcome.done (Statement.RangeStmt "x" [varRef "n"] body none (some 3) none)
                (w2.unbind "x")) ∧
      (IsCInt (0 + ((rangeCount 0 3 1 : Nat) : Int) * 1) →
        [0, 1, 2] = rangeValues 0 1 (rangeCount 0 3 1) ∧
          [(0 : Int), 1, 2].length = rangeCount 0 3 1 ∧
          (3 : Int) = 0 + ((rangeCount 0 3 1 : Nat) : Int) * 1) ∧
      ∀ testList2 : List ExprNode,
        RangeStmt.parseTestList refRuntime (World.initial.bindInt "n" 3).symTab testList2
            ⟨none, none, none⟩ = Except.ok ⟨none, some 3, none⟩ →
        (RangeStmt.evaluate refRuntime (evalStatements refRuntime 1) 4 "x" testList2
            [Statement.AssignStmt "n" (intLit 10)] ⟨none, none, none⟩
            (World.initial.bindInt "n" 3)).forget =
          (RangeStmt.evaluate refRuntime (evalStatements refRuntime 1) 4 "x" [varRef "n"]
            [Statement.AssignStmt "n" (intLit 10)] ⟨none, none, none⟩
            (World.initial.bindInt "n" 3)).forget) ∧
    rangeCount 0 3 1 = 3 ∧
    (RangeStmt.evaluate refRuntime (evalStatements refRuntime 1) 4 "x" [varRef "n"]
        [Statement.AssignStmt "n" (intLit 10)] ⟨none, none, none⟩
        (World.initial.bindInt "n" 3)).world?.map (fun w => w.symTab.getValueFor "n") =
      some (some (Value.int 10)) ∧
    (RangeStmt.evaluate refRuntime (evalStatements refRuntime 1) 5 "x"
          [intLit 0, varRef "n", intLit 1503238553]
          [Statement.AssignStmt "n" (intLit 10)] ⟨none, none, none⟩
          (World.initial.bindInt "n" 1600000000) =
        ((runBodyAt (evalStatements refRuntime 1) "x" [0, 1503238553, -1288490190, 214748363]
          [Statement.AssignStmt "n" (intLit 10)] (World.initial.bindInt "n" 1600000000)).bind
            fun body w2 =>
              Outcome.done (Statement.RangeStmt "x" [intLit 0, varRef "n", intLit 1503238553]
                body (some 0) (some 1600000000) (some 1503238553)) (w2.unbind "x"))) :=
  ⟨rangeStmt_bounds_evaluated_once refRuntime (evalStatements refRuntime 1) 4 "x" [varRef "n"]
      [Statement.AssignStmt "n" (intLit 10)] ⟨none, none, none⟩ ⟨none, some 3, none⟩
      (World.initial.bindInt "n" 3) 0 3 1 [0, 1, 2] 3 rfl rfl rfl
      (Or.inl ⟨by decide, by decide⟩) rfl
      ⟨_, _, rfl, rfl, _, _, rfl, rfl, _, _, rfl, rfl, trivial⟩,
    by decide, rfl,
    (rangeStmt_bounds_evaluated_once refRuntime (evalStatements refRuntime 1) 5 "x"
      [intLit 0, varRef "n", intLit 1503238553]
      [Statement.AssignStmt "n" (intLit 10)] ⟨none, none, none⟩
      ⟨some 0, some 1600000000, some 1503238553⟩
      (World.initial.bindInt "n" 1600000000) 0 1600000000 1503238553
      [0, 1503238553, -1288490190, 214748363] 1717986916 rfl rfl rfl
      (Or.inl ⟨by decide, by decide⟩) (by decide)
      ⟨_, _, rfl, rfl, _, _, rfl, rfl, _, _, rfl, rfl, _, _, rfl, rfl, trivial⟩).1⟩


/-! ## Function definitions, simple statements -/

/-- C18: two-phase function definition.  For a `FunctionDefinition` node whose
marker is false and any environment, `FunctionDefinition::evaluate` (directly,
and through `Statement::evaluate` with any runtime and any budget) returns at
once: nothing is printed, every variable binding is as before, and the
function table maps the function name to a definition with the same name, the
same parameters and the body of the node, marked as registered, every other
entry being as before; the node is left without its body. -/
theorem functionDefinition_registers (funcName : String) (paramList : List String)
    (suite : Option Statements) (w : World) :
    (∃ w1 : World,
      FunctionDefinition.evaluate funcName paramList suite false w =
          Outcome.done (Statement.FunctionDefinition funcName paramList none false) w1 ∧
        (∀ (rt : Runtime) (fuel : Nat),
          Statement.evaluate rt (fuel + 1)
              (Statement.FunctionDefinition funcName paramList suite false) w =
            Outcome.done (Statement.FunctionDefinition funcName paramList none false) w1) ∧
        w1.out = w.out ∧
        w1.symTab.vars = w.symTab.vars ∧
        w1.symTab.funcs = fun k =>
          if k = funcName then some (Statement.FunctionDefinition funcName paramList suite true)
          else w.symTab.funcs k) :=
  ⟨_, rfl, fun _ _ => rfl, rfl, rfl, rfl⟩

/-- C19: statement-level `return` and statement-level calls are unsupported.
`Parser::simple_stmt` ends in its final fatal error when the first token is
RETURN, and when the first token is a NAME and the second is `(`; whenever it
returns, the node is a PrintStatement or an AssignStmt; and a first token that
is none of PRINT, NAME, RETURN is the fatal error "violating rule". -/
theorem simple_stmt_return_and_call_unsupported (fuel : Nat) (lx : Lexer) :
    (lx.peek 0 = Token.keyword Keyword.kwReturn →
      simple_stmt fuel lx =
        PResult.die "Parser::simple_stmt" "Error" (Token.keyword Keyword.kwReturn)
          lx.getToken.2) ∧
    (∀ f : String, lx.peek 0 = Token.name f → lx.peek 1 = Token.openParen →
      simple_stmt fuel lx =
        PResult.die "Parser::simple_stmt" "Error" Token.openParen lx.getToken.2.getToken.2) ∧
    (∀ (s : Statement) (lx1 : Lexer), simple_stmt fuel lx = PResult.ok s lx1 →
      (∃ testList, s = Statement.PrintStatement testList) ∨
        ∃ lhs rhs, s = Statement.AssignStmt lhs rhs) ∧
    ((lx.peek 0).isPrint = false → (lx.peek 0).isName = false → (lx.peek 0).isReturn = false →
      simple_stmt fuel lx =
        PResult.die "Parser::simple_stmt" "violating rule" (lx.peek 0) lx.getToken.2) := by
  refine ⟨?_, ?_, ?_, ?_⟩
  · intro h0
    rw [simple_stmt_eq, Lexer.getToken_peek, h0]
    rfl
  · intro f h0 h1
    have h1' : lx.getToken.2.getToken.1 = Token.openParen := by
      rw [Lexer.getToken_peek, Lexer.peek_getToken]
      exact h1
    rw [simple_stmt_eq, h1', Lexer.getToken_peek, h0]
    rfl
  · intro s lx1 h
    rw [simple_stmt_eq] at h
    split at h
    · simp at h
    · split at h
      · obtain ⟨p, lx2, hp, hk⟩ := PResult.bind_eq_ok h
        obtain ⟨u, lx3, -, hk2⟩ := PResult.bind_eq_ok hk
        simp only [PResult.ok.injEq] at hk2
        rw [print_stmt_eq] at hp
        split at hp
        · simp at hp
        · obtain ⟨tl, lx4, -, hk3⟩ := PResult.bind_eq_ok hp
          simp only [PResult.ok.injEq] at hk3
          exact Or.inl ⟨tl, by rw [← hk2.1, ← hk3.1]⟩
      · split at h
        · simp at h
        · split at h
          · split at h
            · obtain ⟨p, lx2, hp, hk⟩ := PResult.bind_eq_ok h
              obtain ⟨u, lx3, -, hk2⟩ := PResult.bind_eq_ok hk
              simp only [PResult.ok.injEq] at hk2
              rw [assign_stmt_eq] at hp
              split at hp
              · simp at hp
              · obtain ⟨rhs, lx4, -, hk3⟩ := PResult.bind_eq_ok hp
                simp only [PResult.ok.injEq] at hk3
                exact Or.inr ⟨_, rhs, by rw [← hk2.1, ← hk3.1]⟩
            · split at h <;> simp at h
          · simp at h
  · intro hp hn hr
    rw [simple_stmt_eq, Lexer.getToken_peek, hp, hn, hr]
    rfl

/-- C19 (witness): `return 1` and `f ( )` at statement level end in the fatal
error "Error", `print 1` gives a PrintStatement, and a line starting with `(`
is the fatal error "violating rule". -/
theorem simple_stmt_return_and_call_unsupported_witness :
    simple_stmt 11
        (Lexer.init [Token.keyword Keyword.kwReturn, Token.wholeNumber 1, Token.eol]) =
      PResult.die "Parser::simple_stmt" "Error" (Token.keyword Keyword.kwReturn)
        (Lexer.init [Token.keyword Keyword.kwReturn, Token.wholeNumber 1, Token.eol]).getToken.2 ∧
    simple_stmt 11
        (Lexer.init [Token.name "f", Token.openParen, Token.closeParen, Token.eol]) =
      PResult.die "Parser::simple_stmt" "Error" Token.openParen
        (Lexer.init [Token.name "f", Token.openParen, Token.closeParen,
          Token.eol]).getToken.2.getToken.2 ∧
    ((simple_stmt 11
        (Lexer.init [Token.keyword Keyword.kwPrint, Token.wholeNumber 1, Token.eol])).value? =
        some (Statement.PrintStatement [intLit 1]) ∧
      ((∃ testList, Statement.PrintStatement [intLit 1] = Statement.PrintStatement testList) ∨
        ∃ lhs rhs, Statement.PrintStatement [intLit 1] = Statement.AssignStmt lhs rhs)) ∧
    simple_stmt 11 (Lexer.init [Token.openParen, Token.eol]) =
      PResult.die "Parser::simple_stmt" "violating rule" Token.openParen
        (Lexer.init [Token.openParen, Token.eol]).getToken.2 := by
  have hprint : simple_stmt 11
      (Lexer.init [Token.keyword Keyword.kwPrint, Token.wholeNumber 1, Token.eol]) =
      PResult.ok (Statement.PrintStatement [intLit 1])
        (Lexer.mk [] (some Token.eol) false
          [LexOp.get, LexOp.unget, LexOp.get, LexOp.get, LexOp.unget, LexOp.get, LexOp.unget,
            LexOp.get, LexOp.get, LexOp.unget, LexOp.get, LexOp.unget, LexOp.get, LexOp.unget,
            LexOp.get, LexOp.unget, LexOp.get, LexOp.unget, LexOp.get, LexOp.unget,
            LexOp.get]) := by
    simp [simple_stmt, print_stmt, getEOL, arith_expr, term, factor, atom, call, testlist, test,
      or_test, and_test, not_test, comparison, binaryLoop, testlistLoop, Lexer.init,
      Lexer.getToken, Lexer.ungetToken, PResult.bind, PResult.lexer?, Token.isPrint,
      Token.isName, Token.isReturn, Token.isEol, Token.isOr, Token.isAnd, Token.isNot,
      Token.isCompOp, Token.isAdditionOperator, Token.isSubtractionOperator,
      Token.isMultiplicationOperator, Token.isDivisionOperator, Token.isModuloOperator,
      Token.isOpenParen, Token.isWholeNumber, Token.isFloat, Token.isString, Token.isComma,
      ExprNode.token, intLit]
  refine ⟨(simple_stmt_return_and_call_unsupported 11 _).1 rfl,
    (simple_stmt_return_and_call_unsupported 11 _).2.1 "f" rfl rfl,
    ⟨by rw [hprint]; rfl,
      (simple_stmt_return_and_call_unsupported 11 _).2.2.1 _ _ hprint⟩,
    (simple_stmt_return_and_call_unsupported 11 _).2.2.2 rfl rfl rfl⟩


/-! ## Blocks and range headers -/

/-- C16: `Parser::suite` accepts a block without statements.  On a token
stream that begins END_OF_LINE INDENT DEDENT, whatever follows, `suite`
returns an empty `Statements` and stops after the DEDENT; it is not a fatal
error, although the grammar rule in the comment of `suite` reads `stmt+`. -/
theorem suite_accepts_empty_block
    (func_def : (Lexer → PResult Statements) → Lexer → PResult Statement) (fuel : Nat)
    (rest : List Token) :
    suite func_def (fuel + 2)
        (Lexer.init (Token.eol :: Token.indent :: Token.dedent :: rest)) =
      PResult.ok []
        (Lexer.init (Token.eol :: Token.indent :: Token.dedent :: rest)).getToken.2.getToken.2.getToken.2 ∧
    (Lexer.init (Token.eol :: Token.indent :: Token.dedent ::
        rest)).getToken.2.getToken.2.getToken.2.stream = rest ∧
    (suite func_def (fuel + 2)
        (Lexer.init (Token.eol :: Token.indent :: Token.dedent :: rest))).value?.map
      List.length = some 0 := by
  have h : suite func_def (fuel + 2)
        (Lexer.init (Token.eol :: Token.indent :: Token.dedent :: rest)) =
      PResult.ok []
        (Lexer.init (Token.eol :: Token.indent :: Token.dedent ::
          rest)).getToken.2.getToken.2.getToken.2 := by
    rw [suite_succ, stmtsLoop_succ]
    simp only [Lexer.init, Lexer.getToken, Token.isEol, Token.isIndent, Token.isDedent]
    rfl
  refine ⟨h, ?_, ?_⟩
  · simp [Lexer.init, Lexer.getToken, Lexer.stream]
  · rw [h]
    rfl


theorem testlistLoop_length (test : Lexer → PResult ExprNode) :
    ∀ (n : Nat) (p : List ExprNode) (lx : Lexer) (l : List ExprNode) (lx1 : Lexer),
      testlistLoop test n p lx = PResult.ok l lx1 → p.length ≤ l.length := by
  intro n
  induction n with
  | zero => intro p lx l lx1 h; simp [testlistLoop] at h
  | succ n ih =>
    intro p lx l lx1 h
    rw [testlistLoop_succ] at h
    split at h
    · obtain ⟨e, lx2, -, hk⟩ := PResult.bind_eq_ok h
      have := ih _ _ _ _ hk
      simp only [List.length_append, List.length_singleton] at this
      omega
    · simp only [PResult.ok.injEq] at h
      rw [h.1]

theorem testlist_nonempty (fuel : Nat) (lx : Lexer) (l : List ExprNode) (lx1 : Lexer)
    (h : testlist fuel lx = PResult.ok l lx1) : 1 ≤ l.length := by
  cases fuel with
  | zero => simp [testlist] at h
  | succ fuel =>
    rw [testlist] at h
    obtain ⟨e, lx2, -, hk⟩ := PResult.bind_eq_ok h
    simpa using testlistLoop_length _ _ _ _ _ _ hk

/-- C17: the range expressions of a `for` header.  Every RangeStmt returned
by `Parser::for_stmt` holds at least one range expression, and a header with
an empty list, `for x in range ( )`, is the fatal error of `Parser::atom`.
The parser sets no upper limit: whatever list `testlist` parses from the
header, of any length, is the list of the RangeStmt returned when `) :` and a
block follow.  The limit of
three expressions is enforced when the statement is evaluated, where
`RangeStmt::parseTestList` fails with "Too many nodes!" on a longer list. -/
theorem for_stmt_range_expressions
    (func_def : (Lexer → PResult Statements) → Lexer → PResult Statement) (fuel : Nat) :
    (∀ (lx : Lexer) (s : Statement) (lx1 : Lexer),
      for_stmt func_def fuel lx = PResult.ok s lx1 →
      ∃ id list body, s = Statement.RangeStmt id list body none none none ∧ 1 ≤ list.length) ∧
    (∀ (x : String) (rest : List Token), ∃ lx1 : Lexer,
      for_stmt func_def (fuel + 11)
          (Lexer.init (Token.keyword Keyword.kwFor :: Token.name x ::
            Token.keyword Keyword.kwIn :: Token.keyword Keyword.kwRange :: Token.openParen ::
            Token.closeParen :: rest)) =
        PResult.die "Parser::atom" "Unexpected token" Token.closeParen lx1) ∧
    (∀ (lx : Lexer) (x : String) (list : List ExprNode) (lx6 : Lexer) (body : Statements)
        (lx9 : Lexer),
      lx.peek 0 = Token.keyword Keyword.kwFor → lx.peek 1 = Token.name x →
      lx.peek 2 = Token.keyword Keyword.kwIn → lx.peek 3 = Token.keyword Keyword.kwRange →
      lx.peek 4 = Token.openParen →
      testlist fuel lx.getToken.2.getToken.2.getToken.2.getToken.2.getToken.2 =
        PResult.ok list lx6 →
      lx6.peek 0 = Token.closeParen → lx6.peek 1 = Token.colon →
      suite func_def fuel lx6.getToken.2.getToken.2 = PResult.ok body lx9 →
      for_stmt func_def (fuel + 1) lx =
        PResult.ok (Statement.RangeStmt x list body none none none) lx9) ∧
    (∀ (rt : Runtime) (evalBlock : Statements → World → Outcome Statements) (loopFuel : Nat)
        (id : String) (testList : List ExprNode) (forBody : Statements) (o : RangeOptionals)
        (w : World),
      3 < testList.length →
      RangeStmt.parseTestList rt w.symTab testList o = Except.error Fatal.tooManyNodes ∧
        RangeStmt.evaluate rt evalBlock loopFuel id testList forBody o w =
          Outcome.fatal Fatal.tooManyNodes w) := by
  refine ⟨?_, ?_, ?_, ?_⟩
  · intro lx s lx1 h
    cases fuel with
    | zero => simp [for_stmt] at h
    | succ fuel =>
      rw [for_stmt_succ] at h
      split at h
      · simp at h
      · split at h
        · simp at h
        · split at h
          · simp at h
          · split at h
            · simp at h
            · split at h
              · simp at h
              · obtain ⟨list, lx6, hl, hk⟩ := PResult.bind_eq_ok h
                split at hk
                · simp at hk
                · split at hk
                  · simp at hk
                  · obtain ⟨body, lx9, -, hk2⟩ := PResult.bind_eq_ok hk
                    simp only [PResult.ok.injEq] at hk2
                    exact ⟨_, list, body, hk2.1.symm, testlist_nonempty _ _ _ _ hl⟩
  · intro x rest
    rw [for_stmt_succ]
    simp [testlist, test, or_test, and_test, not_test_succ, comparison, arith_expr, term,
      factor_succ, atom_succ, PResult.bind, Lexer.init, Lexer.getToken, Lexer.ungetToken,
      Token.isFor, Token.isName, Token.isIn, Token.isRange, Token.isOpenParen, Token.isNot,
      Token.isSubtractionOperator, Token.isWholeNumber, Token.isString, Token.isFloat]
  · intro lx x list lx6 body lx9 h0 h1 h2 h3 h4 hl h6 h7 hsuite
    have e0 : lx.getToken.1 = Token.keyword Keyword.kwFor := by
      rw [Lexer.getToken_peek]; exact h0
    have e1 : lx.getToken.2.getToken.1 = Token.name x := by
      rw [Lexer.getToken_peek, Lexer.peek_getToken]; exact h1
    have e2 : lx.getToken.2.getToken.2.getToken.1 = Token.keyword Keyword.kwIn := by
      rw [Lexer.getToken_peek, Lexer.peek_getToken, Lexer.peek_getToken]; exact h2
    have e3 : lx.getToken.2.getToken.2.getToken.2.getToken.1 =
        Token.keyword Keyword.kwRange := by
      rw [Lexer.getToken_peek, Lexer.peek_getToken, Lexer.peek_getToken, Lexer.peek_getToken]
      exact h3
    have e4 : lx.getToken.2.getToken.2.getToken.2.getToken.2.getToken.1 = Token.openParen := by
      rw [Lexer.getToken_peek, Lexer.peek_getToken, Lexer.peek_getToken, Lexer.peek_getToken,
        Lexer.peek_getToken]
      exact h4
    have e6 : lx6.getToken.1 = Token.closeParen := by
      rw [Lexer.getToken_peek]; exact h6
    have e7 : lx6.getToken.2.getToken.1 = Token.colon := by
      rw [Lexer.getToken_peek, Lexer.peek_getToken]; exact h7
    rw [for_stmt_succ, e0, e1, e2, e3, e4, hl]
    simp only [Token.isFor, Token.isName, Token.isIn, Token.isRange, Token.isOpenParen,
      Bool.not_true, Bool.false_eq_true, if_false, Token.getName, PResult.bind, e6, e7,
      Token.isCloseParen, Token.isColon, hsuite]
  · intro rt evalBlock loopFuel id testList forBody o w hlen
    have hp : RangeStmt.parseTestList rt w.symTab testList o =
        Except.error Fatal.tooManyNodes := by
      simp [RangeStmt.parseTestList, hlen]
    exact ⟨hp, by simp [RangeStmt.evaluate, hp]⟩

/-- C17 (witness): `for x in range(1, 2): print x` gives a RangeStmt with its
two expressions, `for x in range():` is the fatal error of `Parser::atom`, and
evaluating a RangeStmt with four expressions is the fatal error "Too many
nodes!". -/
theorem for_stmt_range_expressions_witness :
    (∃ id list body,
      Statement.RangeStmt "x" [intLit 1, intLit 2] [Statement.PrintStatement [varRef "x"]]
          none none none = Statement.RangeStmt id list body none none none ∧
        1 ≤ list.length) ∧
    (∃ lx1 : Lexer,
      for_stmt sampleFuncDef (0 + 11)
          (Lexer.init (Token.keyword Keyword.kwFor :: Token.name "x" ::
            Token.keyword Keyword.kwIn :: Token.keyword Keyword.kwRange :: Token.openParen ::
            Token.closeParen :: [Token.colon])) =
        PResult.die "Parser::atom" "Unexpected token" Token.closeParen lx1) ∧
    (for_stmt sampleFuncDef (12 + 1)
        (Lexer.init (sampleFor [Token.wholeNumber 1, Token.comma,
          Token.wholeNumber 2]))).value? =
      some (Statement.RangeStmt "x" [intLit 1, intLit 2]
        [Statement.PrintStatement [varRef "x"]] none none none) ∧
    (RangeStmt.parseTestList refRuntime World.initial.symTab
          [intLit 1, intLit 2, intLit 3, intLit 4] ⟨none, none, none⟩ =
        Except.error Fatal.tooManyNodes ∧
      RangeStmt.evaluate refRuntime (evalStatements refRuntime 1) 5 "x"
          [intLit 1, intLit 2, intLit 3, intLit 4] [Statement.PrintStatement [varRef "x"]]
          ⟨none, none, none⟩ World.initial =
        Outcome.fatal Fatal.tooManyNodes World.initial) := by
  have h6 : testlist 12 (Lexer.init (sampleFor [Token.wholeNumber 1, Token.comma,
        Token.wholeNumber 2])).getToken.2.getToken.2.getToken.2.getToken.2.getToken.2 =
      PResult.ok [intLit 1, intLit 2]
        (Lexer.mk [Token.colon, Token.eol, Token.indent, Token.keyword Keyword.kwPrint,
            Token.name "x", Token.eol, Token.dedent] (some Token.closeParen) true
          ((testlist 12 (Lexer.init (sampleFor [Token.wholeNumber 1, Token.comma,
            Token.wholeNumber 2])).getToken.2.getToken.2.getToken.2.getToken.2.getToken.2
            ).lexer?.elim [] Lexer.ops)) := by
    simp [sampleFor, arith_expr, term, factor, atom, call, testlist, test, or_test, and_test,
      not_test, comparison, binaryLoop, testlistLoop, Lexer.init, Lexer.getToken,
      Lexer.ungetToken, PResult.bind, PResult.lexer?, Token.isName, Token.isOr, Token.isAnd,
      Token.isNot, Token.isCompOp, Token.isAdditionOperator, Token.isSubtractionOperator,
      Token.isMultiplicationOperator, Token.isDivisionOperator, Token.isModuloOperator,
      Token.isOpenParen, Token.isWholeNumber, Token.isFloat, Token.isString, Token.isComma,
      ExprNode.token, intLit]
  have h9 : ∀ ops : List LexOp, ∃ lx9 : Lexer,
      suite sampleFuncDef 12
          (Lexer.mk [Token.colon, Token.eol, Token.indent, Token.keyword Keyword.kwPrint,
            Token.name "x", Token.eol, Token.dedent] (some Token.closeParen) true
            ops).getToken.2.getToken.2 =
        PResult.ok [Statement.PrintStatement [varRef "x"]] lx9 := by
    intro ops
    simp [suite, stmt, stmtsLoop, simple_stmt, print_stmt, getEOL, arith_expr, term,
      factor, atom, call, testlist, test, or_test, and_test, not_test, comparison, binaryLoop,
      testlistLoop, Lexer.getToken, Lexer.ungetToken, PResult.bind, Token.isPrint,
      Token.isName, Token.isReturn, Token.isEol, Token.isOr, Token.isAnd, Token.isNot,
      Token.isCompOp, Token.isAdditionOperator, Token.isSubtractionOperator,
      Token.isMultiplicationOperator, Token.isDivisionOperator, Token.isModuloOperator,
      Token.isOpenParen, Token.isWholeNumber, Token.isFloat, Token.isString, Token.isComma,
      Token.isIndent, Token.isDedent, Token.isFunc, Token.isFor, Token.isIf, ExprNode.token,
      varRef]
  obtain ⟨lx9, h9⟩ := h9 _
  have hfor := (for_stmt_range_expressions sampleFuncDef 12).2.2.1
    (Lexer.init (sampleFor [Token.wholeNumber 1, Token.comma, Token.wholeNumber 2])) "x"
    [intLit 1, intLit 2] _ [Statement.PrintStatement [varRef "x"]] lx9
    (by simp [sampleFor, Lexer.init, Lexer.peek, Lexer.stream])
    (by simp [sampleFor, Lexer.init, Lexer.peek, Lexer.stream])
    (by simp [sampleFor, Lexer.init, Lexer.peek, Lexer.stream])
    (by simp [sampleFor, Lexer.init, Lexer.peek, Lexer.stream])
    (by simp [sampleFor, Lexer.init, Lexer.peek, Lexer.stream]) h6
    (by simp [Lexer.peek, Lexer.stream]) (by simp [Lexer.peek, Lexer.stream]) h9
  refine ⟨(for_stmt_range_expressions sampleFuncDef (12 + 1)).1 _ _ _ hfor,
    (for_stmt_range_expressions sampleFuncDef 0).2.1 "x" [Token.colon], ?_,
    (for_stmt_range_expressions sampleFuncDef 0).2.2.2 refRuntime _ 5 "x" _ _ _ _
      (by decide)⟩
  rw [hfor]
  rfl

/-- C17 (counterexample): the header `for x in range(1, 2, 3, 4):` with the
block `print x` yields a RangeStmt that holds the four expressions. -/
theorem for_stmt_range_expressions_counterexample :
    (for_stmt sampleFuncDef 13
        (Lexer.init (sampleFor [Token.wholeNumber 1, Token.comma, Token.wholeNumber 2,
          Token.comma, Token.wholeNumber 3, Token.comma, Token.wholeNumber 4]))).value? =
      some (Statement.RangeStmt "x" [intLit 1, intLit 2, intLit 3, intLit 4]
        [Statement.PrintStatement [varRef "x"]] none none none) ∧
    [intLit 1, intLit 2, intLit 3, intLit 4].length = 4 := by
  refine ⟨?_, rfl⟩
  simp [sampleFor, for_stmt, suite, stmt, stmtsLoop, simple_stmt, print_stmt, getEOL, arith_expr,
    term, factor, atom, call, testlist, test, or_test, and_test, not_test, comparison,
    binaryLoop, testlistLoop, Lexer.init, Lexer.getToken, Lexer.ungetToken, PResult.bind,
    PResult.value?, Token.isPrint, Token.isName, Token.isReturn, Token.isEol, Token.isOr,
    Token.isAnd, Token.isNot, Token.isCompOp, Token.isAdditionOperator,
    Token.isSubtractionOperator, Token.isMultiplicationOperator, Token.isDivisionOperator,
    Token.isModuloOperator, Token.isOpenParen, Token.isCloseParen, Token.isColon,
    Token.isWholeNumber, Token.isFloat, Token.isString, Token.isComma, Token.isIndent,
    Token.isDedent, Token.isFunc, Token.isFor, Token.isIf, Token.isIn, Token.isRange,
    Token.getName, ExprNode.token, intLit, varRef]


/-! ## Calls -/

theorem or_test_ofAtom (fuel : Nat) (lx : Lexer) (a t : Token) (ts : List Token)
    (h : lx.stream = a :: t :: ts) (ha : a.isAtom = true)
    (hcall : a.isName = true → t.isOpenParen = false)
    (hmul : (t.isMultiplicationOperator || t.isDivisionOperator || t.isModuloOperator) = false)
    (hadd : (t.isAdditionOperator || t.isSubtractionOperator) = false)
    (hcmp : t.isCompOp = false) (hand : t.isAnd = false) (hor : t.isOr = false) :
    (or_test (fuel + 8) lx).Yields (ExprNode.ofAtom a) (t :: ts) := by
  unfold or_test
  refine PResult.Yields.bind (and_test_ofAtom fuel lx a t ts h ha hcall hmul hadd hcmp hand) ?_
  intro lx1 hs1
  exact binaryLoop_stop _ _ _ _ _ lx1 t ts hs1 hor

theorem test_ofAtom_closeParen (fuel : Nat) (lx : Lexer) (a : Token) (ts : List Token)
    (h : lx.stream = a :: Token.closeParen :: ts) (ha : a.isAtom = true) :
    (test (fuel + 9) lx).Yields (ExprNode.ofAtom a) (Token.closeParen :: ts) := by
  unfold test
  exact or_test_ofAtom fuel lx a Token.closeParen ts h ha (fun _ => rfl) rfl rfl rfl rfl rfl

theorem testlist_ofAtom_closeParen (fuel : Nat) (lx : Lexer) (a : Token) (ts : List Token)
    (h : lx.stream = a :: Token.closeParen :: ts) (ha : a.isAtom = true) :
    (testlist (fuel + 10) lx).Yields [ExprNode.ofAtom a] (Token.closeParen :: ts) := by
  unfold testlist
  refine PResult.Yields.bind (test_ofAtom_closeParen fuel lx a ts h ha) ?_
  intro lx1 hs1
  rw [testlistLoop_succ, Lexer.getToken_eq hs1]
  simp only [Token.isComma, Bool.false_eq_true, if_false]
  exact ⟨_, rfl, Lexer.getToken_unget_stream hs1⟩

theorem call_yields (fuel : Nat) (id : Token) (lx : Lexer) (us rest : List Token)
    (args : List ExprNode) (h : lx.stream = Token.openParen :: us)
    (hargs : ∀ lx1 : Lexer, lx1.stream = us →
      (testlist fuel lx1).Yields args (Token.closeParen :: rest)) :
    (call (fuel + 1) id lx).Yields (ExprNode.FunctionCall id args) rest := by
  rw [call_succ, Lexer.getToken_eq h]
  simp only [Token.isOpenParen, Bool.not_true, Bool.false_eq_true, if_false]
  refine PResult.Yields.bind (hargs _ (Lexer.getToken_stream h)) ?_
  intro lx2 hs2
  rw [Lexer.getToken_eq hs2]
  simp only [Token.isCloseParen, Bool.not_true, Bool.false_eq_true, if_false]
  exact ⟨_, rfl, Lexer.getToken_stream hs2⟩

theorem atom_paren_name (fuel : Nat) (lx : Lexer) (f : String) (ts : List Token)
    (h : lx.stream = Token.openParen :: Token.name f :: Token.closeParen :: ts) :
    (atom (fuel + 10) lx).Yields (ExprNode.Variable (Token.name f)) ts := by
  rw [atom_succ, Lexer.getToken_eq h]
  simp only [Token.isName, Token.isWholeNumber, Token.isString, Token.isFloat,
    Token.isOpenParen, Bool.false_eq_true, if_false, if_true]
  refine PResult.Yields.bind
    (test_ofAtom_closeParen fuel _ (Token.name f) ts (Lexer.getToken_stream h) rfl) ?_
  intro lx2 hs2
  rw [Lexer.getToken_eq hs2]
  simp only [Token.isCloseParen, Bool.not_true, Bool.false_eq_true, if_false]
  exact ⟨_, by simp [ExprNode.ofAtom, Token.isName], Lexer.getToken_stream hs2⟩

/-- C13: when `Parser::factor` recognises a call.  `factor` builds a
FunctionCall whenever the node returned by `Parser::atom` carries a NAME token
and `(` follows, and only then: for a NAME token followed by `(`, an argument
list and `)` it returns the FunctionCall of that name; for a literal followed
by `(` it returns the literal and leaves the `(` unconsumed; and for a
parenthesised name followed by `(`, an argument list and `)`, as in
`(f)(1)`, it also returns the FunctionCall of that name, the `(` being
consumed.  Whatever `factor` returns without a leading minus is either the
node `atom` returned or such a call. -/
theorem factor_call_recognition (fuel : Nat) :
    (∀ (lx : Lexer) (f : String) (us rest : List Token) (args : List ExprNode),
      lx.stream = Token.name f :: Token.openParen :: us →
      (∀ lx1 : Lexer, lx1.stream = us →
        (testlist fuel lx1).Yields args (Token.closeParen :: rest)) →
      (factor (fuel + 2) lx).Yields (ExprNode.FunctionCall (Token.name f) args) rest) ∧
    (∀ (lx : Lexer) (a : Token) (ts : List Token),
      lx.stream = a :: Token.openParen :: ts → a.isAtom = true → a.isName = false →
      (factor (fuel + 2) lx).Yields (ExprNode.ofAtom a) (Token.openParen :: ts)) ∧
    (∀ (lx : Lexer) (f : String) (us rest : List Token) (args : List ExprNode),
      lx.stream = Token.openParen :: Token.name f :: Token.closeParen :: Token.openParen :: us →
      (∀ lx1 : Lexer, lx1.stream = us →
        (testlist (fuel + 9) lx1).Yields args (Token.closeParen :: rest)) →
      (factor (fuel + 11) lx).Yields (ExprNode.FunctionCall (Token.name f) args) rest) ∧
    (∀ (lx : Lexer) (v : ExprNode) (lx1 : Lexer),
      factor (fuel + 1) lx = PResult.ok v lx1 → lx.getToken.1.isSubtractionOperator = false →
      ∃ (left : ExprNode) (lx2 : Lexer),
        atom fuel lx.getToken.2.ungetToken = PResult.ok left lx2 ∧
        (v = left ∨
          (left.token.isName = true ∧ lx2.getToken.1.isOpenParen = true ∧
            ∃ args, v = ExprNode.FunctionCall left.token args))) := by
  refine ⟨?_, ?_, ?_, ?_⟩
  · intro lx f us rest args h hargs
    rw [factor_succ, Lexer.getToken_eq h]
    simp only [Token.isSubtractionOperator, Bool.false_eq_true, if_false]
    refine PResult.Yields.bind
      (atom_ofAtom fuel _ (Token.name f) (Token.openParen :: us)
        (Lexer.getToken_unget_stream h) rfl) ?_
    intro lx2 hs2
    rw [Lexer.getToken_eq hs2]
    simp only [ExprNode.ofAtom, ExprNode.token, Token.isName, Token.isOpenParen, if_true]
    exact call_yields fuel _ _ us rest args (Lexer.getToken_unget_stream hs2) hargs
  · intro lx a ts h ha hn
    exact factor_ofAtom fuel lx a Token.openParen ts h ha (fun hn1 => by simp [hn] at hn1)
  · intro lx f us rest args h hargs
    rw [factor_succ, Lexer.getToken_eq h]
    simp only [Token.isSubtractionOperator, Bool.false_eq_true, if_false]
    refine PResult.Yields.bind
      (atom_paren_name fuel _ f (Token.openParen :: us) (Lexer.getToken_unget_stream h)) ?_
    intro lx2 hs2
    rw [Lexer.getToken_eq hs2]
    simp only [ExprNode.token, Token.isName, Token.isOpenParen, if_true]
    exact call_yields (fuel + 9) _ _ us rest args (Lexer.getToken_unget_stream hs2) hargs
  · intro lx v lx1 h hminus
    rw [factor_succ] at h
    simp only [hminus, Bool.false_eq_true, if_false] at h
    obtain ⟨left, lx2, hl, hk⟩ := PResult.bind_eq_ok h
    refine ⟨left, lx2, hl, ?_⟩
    split at hk
    · next hname =>
      split at hk
      · next hopen =>
        obtain ⟨args, hv⟩ := call_eq_ok hk
        exact Or.inr ⟨hname, hopen, args, hv⟩
      · simp only [PResult.ok.injEq] at hk
        exact Or.inl hk.1.symm
    · simp only [PResult.ok.injEq] at hk
      exact Or.inl hk.1.symm

/-- C13 (witness): `f ( 1 )` and `( f ) ( 1 )` both give the call of f with
the argument 1, and `2 ( 1 )` gives the literal 2 with `(` still to be read. -/
theorem factor_call_recognition_witness :
    (factor (10 + 2) (Lexer.init [Token.name "f", Token.openParen, Token.wholeNumber 1,
        Token.closeParen])).Yields (ExprNode.FunctionCall (Token.name "f") [intLit 1]) [] ∧
    (factor (10 + 2) (Lexer.init [Token.wholeNumber 2, Token.openParen, Token.wholeNumber 1,
        Token.closeParen])).Yields (intLit 2)
      [Token.openParen, Token.wholeNumber 1, Token.closeParen] ∧
    (factor (1 + 11) (Lexer.init [Token.openParen, Token.name "f", Token.closeParen,
        Token.openParen, Token.wholeNumber 1, Token.closeParen])).Yields
      (ExprNode.FunctionCall (Token.name "f") [intLit 1]) [] ∧
    ∃ (left : ExprNode) (lx2 : Lexer),
      atom 2 (Lexer.init [Token.name "f", Token.eol]).getToken.2.ungetToken =
        PResult.ok left lx2 ∧
      (varRef "f" = left ∨
        (left.token.isName = true ∧ lx2.getToken.1.isOpenParen = true ∧
          ∃ args, varRef "f" = ExprNode.FunctionCall left.token args)) :=
  ⟨(factor_call_recognition 10).1 _ "f" [Token.wholeNumber 1, Token.closeParen] [] [intLit 1]
      (Lexer.init_stream _)
      (fun lx1 h1 => testlist_ofAtom_closeParen 0 lx1 (Token.wholeNumber 1) [] h1 rfl),
    (factor_call_recognition 10).2.1 _ (Token.wholeNumber 2)
      [Token.wholeNumber 1, Token.closeParen] (Lexer.init_stream _) rfl rfl,
    (factor_call_recognition 1).2.2.1 _ "f" [Token.wholeNumber 1, Token.closeParen] []
      [intLit 1] (Lexer.init_stream _)
      (fun lx1 h1 => testlist_ofAtom_closeParen 0 lx1 (Token.wholeNumber 1) [] h1 rfl),
    (factor_call_recognition 2).2.2.2 (Lexer.init [Token.name "f", Token.eol]) (varRef "f")
      (Lexer.mk [] (some Token.eol) true
        [LexOp.get, LexOp.unget, LexOp.get, LexOp.get, LexOp.unget])
      (by simp [factor, atom, Lexer.init, Lexer.getToken, Lexer.ungetToken, PResult.bind,
        Token.isSubtractionOperator, Token.isName, Token.isOpenParen, ExprNode.token, varRef])
      rfl⟩

/-- C13 (counterexample): on `( f ) ( 1 )` the production `factor` returns
the call of f with the argument 1, not the Variable node of f, and every
token, the second `(` included, is consumed. -/
theorem factor_call_recognition_counterexample :
    (factor 12 (Lexer.init [Token.openParen, Token.name "f", Token.closeParen,
        Token.openParen, Token.wholeNumber 1, Token.closeParen])).value? =
      some (ExprNode.FunctionCall (Token.name "f") [intLit 1]) ∧
    (factor 12 (Lexer.init [Token.openParen, Token.name "f", Token.closeParen,
        Token.openParen, Token.wholeNumber 1, Token.closeParen])).value? ≠
      some (varRef "f") ∧
    (factor 12 (Lexer.init [Token.openParen, Token.name "f", Token.closeParen,
        Token.openParen, Token.wholeNumber 1, Token.closeParen])).lexer?.map Lexer.stream =
      some [] := by
  have h : ∃ ops, factor 12 (Lexer.init [Token.openParen, Token.name "f", Token.closeParen,
      Token.openParen, Token.wholeNumber 1, Token.closeParen]) =
      PResult.ok (ExprNode.FunctionCall (Token.name "f") [intLit 1])
        (Lexer.mk [] (some Token.closeParen) false ops) := by
    simp [arith_expr, term, factor, atom, call, testlist, test, or_test, and_test, not_test,
      comparison, binaryLoop, testlistLoop, Lexer.init, Lexer.getToken, Lexer.ungetToken,
      PResult.bind, Token.isName, Token.isOr, Token.isAnd, Token.isNot, Token.isCompOp,
      Token.isAdditionOperator, Token.isSubtractionOperator, Token.isMultiplicationOperator,
      Token.isDivisionOperator, Token.isModuloOperator, Token.isOpenParen, Token.isCloseParen,
      Token.isWholeNumber, Token.isFloat, Token.isString, Token.isComma, ExprNode.token,
      intLit]
  obtain ⟨ops, h⟩ := h
  rw [h]
  refine ⟨rfl, ?_, ?_⟩
  · simp [PResult.value?, varRef]
  · simp [PResult.lexer?, Lexer.stream]


end PyInterp


namespace PyInterp

/-! ## If statements and their primary branch -/

theorem PResult.returns_ok {α : Type} {good : α → Prop} {v : α} (lx : Lexer) (h : good v) :
    (PResult.ok v lx).Returns good := by
  intro v1 lx1 h1
  simp only [PResult.ok.injEq] at h1
  rw [← h1.1]; exact h

theorem PResult.returns_die {α : Type} (good : α → Prop) (s m : String) (t : Token)
    (lx : Lexer) : (PResult.die s m t lx : PResult α).Returns good := by
  intro v1 lx1 h1
  simp at h1

theorem PResult.returns_outOfFuel {α : Type} (good : α → Prop) :
    (PResult.outOfFuel : PResult α).Returns good := by
  intro v1 lx1 h1
  simp at h1

theorem PResult.returns_bind {α β : Type} {r : PResult α} {k : α → Lexer → PResult β}
    {good : β → Prop} (hk : ∀ (v : α) (lx : Lexer), r = PResult.ok v lx → (k v lx).Returns good) :
    (r.bind k).Returns good := by
  intro w lx1 h
  obtain ⟨v, lx0, hr, hk1⟩ := PResult.bind_eq_ok h
  exact hk v lx0 hr w lx1 hk1

theorem Statements.attached_append (a b : List Statement) :
    Statements.ifsAttached (a ++ b) = (Statements.ifsAttached a && Statements.ifsAttached b) := by
  induction a with
  | nil => simp [Statements.ifsAttached]
  | cons s rest ih => simp [Statements.ifsAttached, ih, Bool.and_assoc]

theorem ElifItems.items_attached_append (a b : List (ExprNode × List Statement)) :
    ElifItems.ifsAttached (a ++ b) = (ElifItems.ifsAttached a && ElifItems.ifsAttached b) := by
  induction a with
  | nil => simp [ElifItems.ifsAttached]
  | cons s rest ih =>
    obtain ⟨c, block⟩ := s
    simp [ElifItems.ifsAttached, ih, Bool.and_assoc]

theorem simple_stmt_attached (fuel : Nat) (lx : Lexer) :
    (simple_stmt fuel lx).Returns fun s => s.ifsAttached = true := by
  rw [simple_stmt_eq]
  split
  · exact PResult.returns_die _ _ _ _ _
  · split
    · refine PResult.returns_bind fun p lx2 hp => PResult.returns_bind fun u lx3 _ => ?_
      rw [print_stmt_eq] at hp
      split at hp
      · simp at hp
      · obtain ⟨tl, lx4, -, hk⟩ := PResult.bind_eq_ok hp
        simp only [PResult.ok.injEq] at hk
        exact PResult.returns_ok _ (by rw [← hk.1]; rfl)
    · split
      · exact PResult.returns_die _ _ _ _ _
      · split
        · split
          · refine PResult.returns_bind fun p lx2 hp => PResult.returns_bind fun u lx3 _ => ?_
            rw [assign_stmt_eq] at hp
            split at hp
            · simp at hp
            · obtain ⟨rhs, lx4, -, hk⟩ := PResult.bind_eq_ok hp
              simp only [PResult.ok.injEq] at hk
              exact PResult.returns_ok _ (by rw [← hk.1]; rfl)
          · split <;> exact PResult.returns_die _ _ _ _ _
        · exact PResult.returns_die _ _ _ _ _

theorem return_stmt_attached (fuel : Nat) (lx : Lexer) :
    (return_stmt fuel lx).Returns fun s => s.ifsAttached = true := by
  rw [return_stmt_eq]
  split
  · exact PResult.returns_die _ _ _ _ _
  · exact PResult.returns_bind fun e lx2 _ => PResult.returns_ok _ rfl

theorem stmtsLoop_attached (stop : Token → Bool) (stmt : Lexer → PResult Statement)
    (hstmt : ∀ lx : Lexer, (stmt lx).Returns fun s => s.ifsAttached = true) :
    ∀ (n : Nat) (stmts : Statements) (lx : Lexer), Statements.ifsAttached stmts = true →
      (stmtsLoop stop stmt n stmts lx).Returns fun b => Statements.ifsAttached b = true := by
  intro n
  induction n with
  | zero => intro stmts lx _; exact PResult.returns_outOfFuel _
  | succ n ih =>
    intro stmts lx hstmts
    rw [stmtsLoop_succ]
    split
    · refine PResult.returns_bind fun s lx2 hs => ih _ lx2 ?_
      rw [Statements.attached_append, hstmts]
      simp [Statements.ifsAttached, hstmt _ s lx2 hs]
    · exact PResult.returns_ok _ hstmts

theorem funcSuiteEnd_attached (stmts : Statements) (tok : Token) (lx : Lexer)
    (h : Statements.ifsAttached stmts = true) :
    (funcSuiteEnd stmts tok lx).Returns fun b => Statements.ifsAttached b = true := by
  unfold funcSuiteEnd
  split
  · exact PResult.returns_ok _ h
  · exact PResult.returns_die _ _ _ _ _

theorem funcSuiteLoop_attached (fuel : Nat) (stmt : Lexer → PResult Statement)
    (hstmt : ∀ lx : Lexer, (stmt lx).Returns fun s => s.ifsAttached = true) :
    ∀ (n : Nat) (stmts : Statements) (lx : Lexer), Statements.ifsAttached stmts = true →
      (funcSuiteLoop fuel stmt n stmts lx).Returns
        fun b => Statements.ifsAttached b = true := by
  intro n
  induction n with
  | zero => intro stmts lx _; exact PResult.returns_outOfFuel _
  | succ n ih =>
    intro stmts lx hstmts
    rw [funcSuiteLoop_succ]
    split
    · split
      · refine PResult.returns_bind fun r lx2 hr => funcSuiteEnd_attached _ _ _ ?_
        rw [Statements.attached_append, hstmts]
        simp [Statements.ifsAttached, return_stmt_attached fuel _ r lx2 hr]
      · refine PResult.returns_bind fun s lx2 hs => ih _ lx2 ?_
        rw [Statements.attached_append, hstmts]
        simp [Statements.ifsAttached, hstmt _ s lx2 hs]
    · exact funcSuiteEnd_attached _ _ _ hstmts

theorem elifLoop_attached (test : Lexer → PResult ExprNode) (suite : Lexer → PResult Statements)
    (hsuite : ∀ lx : Lexer, (suite lx).Returns fun b => Statements.ifsAttached b = true) :
    ∀ (n : Nat) (elifs : List (ExprNode × Statements)) (tok : Token) (conditionHit : Bool)
      (lx : Lexer), ElifItems.ifsAttached elifs = true →
      (elifLoop test suite n elifs tok conditionHit lx).Returns
        fun r => ElifItems.ifsAttached r.1 = true := by
  intro n
  induction n with
  | zero => intro elifs tok conditionHit lx _; exact PResult.returns_outOfFuel _
  | succ n ih =>
    intro elifs tok conditionHit lx helifs
    rw [elifLoop_succ]
    split
    · refine PResult.returns_bind fun c lx1 _ => ?_
      split
      · exact PResult.returns_die _ _ _ _ _
      · refine PResult.returns_bind fun stmts lx3 hs => ih _ _ _ _ ?_
        rw [ElifItems.items_attached_append, helifs]
        simp [ElifItems.ifsAttached, hsuite _ stmts lx3 hs]
    · exact PResult.returns_ok _ helifs

theorem if_stmt_primary (func_def : (Lexer → PResult Statements) → Lexer → PResult Statement)
    (fuel : Nat) (lx : Lexer) :
    (if_stmt func_def fuel lx).Returns fun s =>
      ∃ p elif_ else_, s = Statement.IfStatement (some p) elif_ else_ := by
  cases fuel with
  | zero => rw [if_stmt]; exact PResult.returns_outOfFuel _
  | succ fuel =>
    rw [if_stmt_succ]
    split
    · exact PResult.returns_die _ _ _ _ _
    · refine PResult.returns_bind fun comp lx2 _ => ?_
      split
      · exact PResult.returns_die _ _ _ _ _
      · exact PResult.returns_bind fun stmts lx4 _ => PResult.returns_bind fun r lx6 _ =>
          PResult.returns_bind fun e lx7 _ => PResult.returns_ok _ ⟨_, _, _, rfl⟩

theorem statement_attached
    (func_def : (Lexer → PResult Statements) → Lexer → PResult Statement)
    (hfd : ∀ fs : Lexer → PResult Statements,
      (∀ lx : Lexer, (fs lx).Returns fun b => Statements.ifsAttached b = true) →
      ∀ lx : Lexer, (func_def fs lx).Returns fun s => s.ifsAttached = true) :
    ∀ fuel : Nat,
      (∀ lx : Lexer, (stmt func_def fuel lx).Returns fun s => s.ifsAttached = true) ∧
      (∀ lx : Lexer, (compound_stmt func_def fuel lx).Returns fun s => s.ifsAttached = true) ∧
      (∀ lx : Lexer, (if_stmt func_def fuel lx).Returns fun s => s.ifsAttached = true) ∧
      (∀ lx : Lexer, (for_stmt func_def fuel lx).Returns fun s => s.ifsAttached = true) ∧
      (∀ lx : Lexer, (suite func_def fuel lx).Returns
        fun b => Statements.ifsAttached b = true) ∧
      (∀ lx : Lexer, (func_suite func_def fuel lx).Returns
        fun b => Statements.ifsAttached b = true) := by
  intro fuel
  induction fuel with
  | zero =>
    refine ⟨?_, ?_, ?_, ?_, ?_, ?_⟩
    · intro lx; rw [stmt]; exact PResult.returns_outOfFuel _
    · intro lx; rw [compound_stmt]; exact PResult.returns_outOfFuel _
    · intro lx; rw [if_stmt]; exact PResult.returns_outOfFuel _
    · intro lx; rw [for_stmt]; exact PResult.returns_outOfFuel _
    · intro lx; rw [suite]; exact PResult.returns_outOfFuel _
    · intro lx; rw [func_suite]; exact PResult.returns_outOfFuel _
  | succ fuel ih =>
    obtain ⟨hStmt, hCompound, hIf, hFor, hSuite, hFuncSuite⟩ := ih
    refine ⟨?_, ?_, ?_, ?_, ?_, ?_⟩
    · intro lx
      rw [stmt_succ]
      split
      · exact hCompound _
      · exact simple_stmt_attached fuel _
    · intro lx
      rw [compound_stmt_succ]
      split
      · exact hFor _
      · split
        · exact hIf _
        · split
          · exact hfd _ hFuncSuite _
          · exact PResult.returns_die _ _ _ _ _
    · intro lx
      rw [if_stmt_succ]
      split
      · exact PResult.returns_die _ _ _ _ _
      · refine PResult.returns_bind fun comp lx2 _ => ?_
        split
        · exact PResult.returns_die _ _ _ _ _
        · refine PResult.returns_bind fun stmts lx4 hs => PResult.returns_bind fun r lx6 hr =>
            PResult.returns_bind fun e lx7 he => PResult.returns_ok _ ?_
          have h1 : Statements.ifsAttached stmts = true := hSuite _ stmts lx4 hs
          have h2 : ElifItems.ifsAttachedOpt r.1 = true := by
            split at hr
            · obtain ⟨r0, lx5, hl, hk⟩ := PResult.bind_eq_ok hr
              simp only [PResult.ok.injEq] at hk
              rw [← hk.1]
              exact elifLoop_attached _ _ hSuite fuel [] _ _ _ rfl r0 lx5 hl
            · simp only [PResult.ok.injEq] at hr
              rw [← hr.1]
              rfl
          have h3 : Statements.ifsAttachedOpt e.1 = true := by
            split at he
            · split at he
              · simp at he
              · obtain ⟨b, lx8, hb, hk⟩ := PResult.bind_eq_ok he
                simp only [PResult.ok.injEq] at hk
                rw [← hk.1]
                exact hSuite _ b lx8 hb
            · simp only [PResult.ok.injEq] at he
              rw [← he.1]
              rfl
          simp [Statement.ifsAttached, h1, h2, h3]
    · intro lx
      rw [for_stmt_succ]
      split
      · exact PResult.returns_die _ _ _ _ _
      · split
        · exact PResult.returns_die _ _ _ _ _
        · split
          · exact PResult.returns_die _ _ _ _ _
          · split
            · exact PResult.returns_die _ _ _ _ _
            · split
              · exact PResult.returns_die _ _ _ _ _
              · refine PResult.returns_bind fun list lx6 _ => ?_
                split
                · exact PResult.returns_die _ _ _ _ _
                · split
                  · exact PResult.returns_die _ _ _ _ _
                  · refine PResult.returns_bind fun body lx9 hb => PResult.returns_ok _ ?_
                    simp [Statement.ifsAttached, hSuite _ body lx9 hb]
    · intro lx
      rw [suite_succ]
      split
      · exact PResult.returns_die _ _ _ _ _
      · split
        · exact PResult.returns_die _ _ _ _ _
        · exact stmtsLoop_attached _ _ hStmt fuel [] _ rfl
    · intro lx
      rw [func_suite_succ]
      split
      · exact PResult.returns_die _ _ _ _ _
      · split
        · exact PResult.returns_die _ _ _ _ _
        · exact funcSuiteLoop_attached fuel _ hStmt fuel [] _ rfl

theorem file_input_attached
    (func_def : (Lexer → PResult Statements) → Lexer → PResult Statement)
    (hfd : ∀ fs : Lexer → PResult Statements,
      (∀ lx : Lexer, (fs lx).Returns fun b => Statements.ifsAttached b = true) →
      ∀ lx : Lexer, (func_def fs lx).Returns fun s => s.ifsAttached = true)
    (fuel : Nat) (lx : Lexer) :
    (file_input func_def fuel lx).Returns fun b => Statements.ifsAttached b = true := by
  unfold file_input
  exact stmtsLoop_attached _ _ (statement_attached func_def hfd fuel).1 fuel [] lx rfl

theorem sampleFuncDef_attached (fs : Lexer → PResult Statements)
    (hfs : ∀ lx : Lexer, (fs lx).Returns fun b => Statements.ifsAttached b = true)
    (lx : Lexer) : (sampleFuncDef fs lx).Returns fun s => s.ifsAttached = true := by
  have heq : sampleFuncDef fs lx =
      if !lx.getToken.1.isFunc then
        PResult.die "Parser::func_def" "Expected DEF" lx.getToken.1 lx.getToken.2
      else if !lx.getToken.2.getToken.1.isName then
        PResult.die "Parser::func_def" "Expected NAME" lx.getToken.2.getToken.1
          lx.getToken.2.getToken.2
      else if !lx.getToken.2.getToken.2.getToken.1.isOpenParen then
        PResult.die "Parser::func_def" "Expected (" lx.getToken.2.getToken.2.getToken.1
          lx.getToken.2.getToken.2.getToken.2
      else if !lx.getToken.2.getToken.2.getToken.2.getToken.1.isCloseParen then
        PResult.die "Parser::func_def" "Expected )"
          lx.getToken.2.getToken.2.getToken.2.getToken.1
          lx.getToken.2.getToken.2.getToken.2.getToken.2
      else if !lx.getToken.2.getToken.2.getToken.2.getToken.2.getToken.1.isColon then
        PResult.die "Parser::func_def" "Expected :"
          lx.getToken.2.getToken.2.getToken.2.getToken.2.getToken.1
          lx.getToken.2.getToken.2.getToken.2.getToken.2.getToken.2
      else
        (fs lx.getToken.2.getToken.2.getToken.2.getToken.2.getToken.2).bind fun body lx6 =>
          PResult.ok (Statement.FunctionDefinition lx.getToken.2.getToken.1.getName []
            (some body) false) lx6 := rfl
  rw [heq]
  split
  · exact PResult.returns_die _ _ _ _ _
  · split
    · exact PResult.returns_die _ _ _ _ _
    · split
      · exact PResult.returns_die _ _ _ _ _
      · split
        · exact PResult.returns_die _ _ _ _ _
        · split
          · exact PResult.returns_die _ _ _ _ _
          · refine PResult.returns_bind fun body lx6 hb => PResult.returns_ok _ ?_
            simp [Statement.ifsAttached, Statements.ifsAttachedOpt, hfs _ body lx6 hb]

theorem Outcome.avoidsNullIf_bind {α β : Type} {P : α → Prop} {Q : β → Prop} {r : Outcome α}
    {k : α → World → Outcome β} (hr : r.AvoidsNullIf P)
    (hk : ∀ (a : α) (w : World), P a → (k a w).AvoidsNullIf Q) : (r.bind k).AvoidsNullIf Q := by
  cases r with
  | done a w => exact hk a w hr
  | fatal e w => exact hr
  | outOfFuel => trivial

theorem AssignStmt.assign_avoids (rt : Runtime) (lhs : String) (rhs : ExprNode) (w : World) :
    (AssignStmt.evaluate rt lhs rhs w).AvoidsNullIf fun _ => True := by
  unfold AssignStmt.evaluate
  split
  · simp [Outcome.AvoidsNullIf]
  · trivial

theorem PrintStatement.print_avoids (rt : Runtime) :
    ∀ (testList : List ExprNode) (w : World),
      (PrintStatement.evaluate rt testList w).AvoidsNullIf fun _ => True := by
  intro testList
  induction testList with
  | nil => intro w; trivial
  | cons item rest ih =>
    intro w
    unfold PrintStatement.evaluate
    split
    · simp [Outcome.AvoidsNullIf]
    · exact ih _

theorem Statements.block_avoids (evaluate : Statement → World → Outcome Statement)
    (he : ∀ (s : Statement) (w : World), s.ifsAttached = true →
      (evaluate s w).AvoidsNullIf fun s1 => s1.ifsAttached = true) :
    ∀ (block : Statements) (w : World), Statements.ifsAttached block = true →
      (Statements.evaluate evaluate block w).AvoidsNullIf
        fun b => Statements.ifsAttached b = true := by
  intro block
  induction block with
  | nil => intro w _; rfl
  | cons s rest ih =>
    intro w hb
    simp only [Statements.ifsAttached, Bool.and_eq_true] at hb
    unfold Statements.evaluate
    refine Outcome.avoidsNullIf_bind (he s w hb.1) fun s1 w1 hs1 =>
      Outcome.avoidsNullIf_bind (ih w1 hb.2) fun rest1 w2 hrest1 => ?_
    simp [Outcome.AvoidsNullIf, Statements.ifsAttached, hs1, hrest1]

theorem IfStmt.primary_avoids (rt : Runtime)
    (evalBlock : Statements → World → Outcome Statements)
    (hb : ∀ (b : Statements) (w : World), Statements.ifsAttached b = true →
      (evalBlock b w).AvoidsNullIf fun b1 => Statements.ifsAttached b1 = true)
    (p : ExprNode × Statements) (w : World) (hp : Statements.ifsAttached p.2 = true) :
    (IfStmt.evaluate rt evalBlock p w).AvoidsNullIf
      fun r => Statements.ifsAttached r.2.2 = true := by
  unfold IfStmt.evaluate
  split
  · simp [Outcome.AvoidsNullIf]
  · split
    · exact Outcome.avoidsNullIf_bind (hb _ w hp) fun block w1 h => h
    · exact hp

theorem ElifStmt.chain_avoids (rt : Runtime)
    (evalBlock : Statements → World → Outcome Statements)
    (hb : ∀ (b : Statements) (w : World), Statements.ifsAttached b = true →
      (evalBlock b w).AvoidsNullIf fun b1 => Statements.ifsAttached b1 = true) :
    ∀ (items : List (ExprNode × Statements)) (w : World), ElifItems.ifsAttached items = true →
      (ElifStmt.evaluate rt evalBlock items w).AvoidsNullIf
        fun r => ElifItems.ifsAttached r.2 = true := by
  intro items
  induction items with
  | nil => intro w _; rfl
  | cons item rest ih =>
    intro w hitems
    obtain ⟨c, block⟩ := item
    simp only [ElifItems.ifsAttached, Bool.and_eq_true] at hitems
    unfold ElifStmt.evaluate
    split
    · simp [Outcome.AvoidsNullIf]
    · split
      · refine Outcome.avoidsNullIf_bind (hb _ w hitems.1) fun block1 w1 h => ?_
        simp [Outcome.AvoidsNullIf, ElifItems.ifsAttached, h, hitems.2]
      · refine Outcome.avoidsNullIf_bind (ih w hitems.2) fun r w1 h => ?_
        simp [Outcome.AvoidsNullIf, ElifItems.ifsAttached, h, hitems.1]

theorem IfStatement.branches_avoids (rt : Runtime)
    (evalBlock : Statements → World → Outcome Statements)
    (hb : ∀ (b : Statements) (w : World), Statements.ifsAttached b = true →
      (evalBlock b w).AvoidsNullIf fun b1 => Statements.ifsAttached b1 = true)
    (p : ExprNode × Statements) (elif_ : Option (List (ExprNode × Statements)))
    (else_ : Option Statements) (w : World)
    (h : (Statement.IfStatement (some p) elif_ else_).ifsAttached = true) :
    (IfStatement.evaluate rt evalBlock (some p) elif_ else_ w).AvoidsNullIf
      fun s => s.ifsAttached = true := by
  obtain ⟨c, block⟩ := p
  simp only [Statement.ifsAttached, Bool.and_eq_true] at h
  obtain ⟨⟨hblock, helif⟩, helse⟩ := h
  unfold IfStatement.evaluate
  refine Outcome.avoidsNullIf_bind (IfStmt.primary_avoids rt evalBlock hb (c, block) w hblock)
    fun r w1 hr => ?_
  obtain ⟨taken, c1, block1⟩ := r
  simp only at hr
  split
  · simp [Outcome.AvoidsNullIf, Statement.ifsAttached, hr, helif, helse]
  · have hafter : (match elif_ with
        | none => (Outcome.done (false, none) w1 :
            Outcome (Bool × Option (List (ExprNode × Statements))))
        | some items =>
          (ElifStmt.evaluate rt evalBlock items w1).bind fun e w2 =>
            Outcome.done (e.1, some e.2) w2).AvoidsNullIf
        fun (e : Bool × Option (List (ExprNode × Statements))) =>
          ElifItems.ifsAttachedOpt e.2 = true := by
      cases elif_ with
      | none => rfl
      | some items =>
        exact Outcome.avoidsNullIf_bind (ElifStmt.chain_avoids rt evalBlock hb items w1 helif)
          fun e w2 he => he
    refine Outcome.avoidsNullIf_bind hafter fun e w2 he => ?_
    split
    · simp [Outcome.AvoidsNullIf, Statement.ifsAttached, hr, he, helse]
    · cases else_ with
      | none =>
        simp [Outcome.AvoidsNullIf, Statement.ifsAttached, hr, he, Statements.ifsAttachedOpt]
      | some stmts =>
        refine Outcome.avoidsNullIf_bind (P := fun b => Statements.ifsAttached b.2 = true) ?_
          fun b w3 hbk => ?_
        · unfold ElseStmt.evaluate
          exact Outcome.avoidsNullIf_bind (hb stmts w2 helse) fun block2 w3 h2 => h2
        · simp [Outcome.AvoidsNullIf, Statement.ifsAttached, hr, he, Statements.ifsAttachedOpt,
            hbk]

theorem RangeStmt.loop_avoids (rt : Runtime)
    (evalBlock : Statements → World → Outcome Statements)
    (hb : ∀ (b : Statements) (w : World), Statements.ifsAttached b = true →
      (evalBlock b w).AvoidsNullIf fun b1 => Statements.ifsAttached b1 = true)
    (continues : Int → Bool) (step : Int) (id : String) :
    ∀ (n : Nat) (body : Statements) (w : World), Statements.ifsAttached body = true →
      (RangeStmt.loop rt evalBlock continues step id n body w).AvoidsNullIf
        fun b => Statements.ifsAttached b = true := by
  intro n
  induction n with
  | zero => intro body w _; trivial
  | succ n ih =>
    intro body w hbody
    unfold RangeStmt.loop
    split
    · simp [Outcome.AvoidsNullIf]
    · split
      · refine Outcome.avoidsNullIf_bind (hb body w hbody) fun body1 w1 h1 => ?_
        split
        · simp [Outcome.AvoidsNullIf]
        · exact ih _ _ h1
      · exact hbody

theorem RangeStmt.parseTestList_ne_nullIf (rt : Runtime) (st : SymTab)
    (testList : List ExprNode) (o : RangeOptionals) (e : Fatal)
    (h : RangeStmt.parseTestList rt st testList o = Except.error e) : e ≠ Fatal.nullIf := by
  have hstore : ∀ (l : List ExprNode) (i : Nat) (o0 : RangeOptionals) (e0 : Fatal),
      RangeStmt.storeTestList rt st l i o0 = Except.error e0 → e0 ≠ Fatal.nullIf := by
    intro l
    induction l with
    | nil => intro i o0 e0 h0; simp [RangeStmt.storeTestList] at h0
    | cons item rest ih =>
      intro i o0 e0 h0
      unfold RangeStmt.storeTestList at h0
      split at h0
      · simp only [Except.error.injEq] at h0
        rw [← h0]; simp
      · exact ih _ _ _ h0
  unfold RangeStmt.parseTestList at h
  split at h
  · simp only [Except.error.injEq] at h
    rw [← h]; simp
  · split at h
    · next e1 he1 =>
      simp only [Except.error.injEq] at h
      rw [← h]
      exact hstore _ _ _ _ he1
    · dsimp only at h
      split at h <;> simp at h

theorem RangeStmt.range_avoids (rt : Runtime)
    (evalBlock : Statements → World → Outcome Statements)
    (hb : ∀ (b : Statements) (w : World), Statements.ifsAttached b = true →
      (evalBlock b w).AvoidsNullIf fun b1 => Statements.ifsAttached b1 = true)
    (loopFuel : Nat) (id : String) (testList : List ExprNode) (forBody : Statements)
    (o : RangeOptionals) (w : World) (hbody : Statements.ifsAttached forBody = true) :
    (RangeStmt.evaluate rt evalBlock loopFuel id testList forBody o w).AvoidsNullIf
      fun s => s.ifsAttached = true := by
  unfold RangeStmt.evaluate
  split
  · next e he => exact RangeStmt.parseTestList_ne_nullIf rt _ _ _ e he
  · split
    · simp [Outcome.AvoidsNullIf]
    · split
      · simp [Outcome.AvoidsNullIf]
      · dsimp only
        split
        · refine Outcome.avoidsNullIf_bind
            (RangeStmt.loop_avoids rt evalBlock hb _ _ id loopFuel forBody _ hbody)
            fun body w2 h2 => ?_
          simp [Outcome.AvoidsNullIf, Statement.ifsAttached, h2]
        · split
          · refine Outcome.avoidsNullIf_bind
              (RangeStmt.loop_avoids rt evalBlock hb _ _ id loopFuel forBody _ hbody)
              fun body w2 h2 => ?_
            simp [Outcome.AvoidsNullIf, Statement.ifsAttached, h2]
          · split
            · simp [Outcome.AvoidsNullIf, Statement.ifsAttached, hbody]
            · simp [Outcome.AvoidsNullIf]

theorem Statement.dispatch_avoids (rt : Runtime) :
    ∀ (fuel : Nat) (s : Statement) (w : World), s.ifsAttached = true →
      (Statement.evaluate rt fuel s w).AvoidsNullIf fun s1 => s1.ifsAttached = true := by
  intro fuel
  induction fuel with
  | zero => intro s w _; trivial
  | succ fuel ih =>
    intro s w hs
    have hb := Statements.block_avoids (Statement.evaluate rt fuel) ih
    cases s with
    | AssignStmt lhs rhs =>
      exact Outcome.avoidsNullIf_bind (AssignStmt.assign_avoids rt lhs rhs w)
        fun _ w1 _ => hs
    | PrintStatement testList =>
      exact Outcome.avoidsNullIf_bind (PrintStatement.print_avoids rt testList w)
        fun _ w1 _ => hs
    | IfStatement if_ elif_ else_ =>
      cases if_ with
      | none => simp [Statement.ifsAttached] at hs
      | some p => exact IfStatement.branches_avoids rt _ hb p elif_ else_ w hs
    | RangeStmt id testList forBody start end_ step =>
      exact RangeStmt.range_avoids rt _ hb fuel id testList forBody _ w
        (by simpa [Statement.ifsAttached] using hs)
    | FunctionDefinition funcName paramList suite added =>
      show (FunctionDefinition.evaluate funcName paramList suite added w).AvoidsNullIf _
      unfold FunctionDefinition.evaluate
      split
      · simp [Outcome.AvoidsNullIf, Statement.ifsAttached, Statements.ifsAttachedOpt]
      · exact hs
    | ReturnStatement value =>
      simp [Statement.evaluate, ReturnStatement.evaluate, Outcome.bind, Outcome.AvoidsNullIf]

theorem evalStatements_avoids (rt : Runtime) (fuel : Nat) (block : Statements) (w : World)
    (h : Statements.ifsAttached block = true) :
    (evalStatements rt fuel block w).AvoidsNullIf fun b => Statements.ifsAttached b = true :=
  Statements.block_avoids _ (Statement.dispatch_avoids rt fuel) block w h


/-- C20: the missing-primary-branch error is unreachable for parsed
programs.  Every statement returned by `Parser::if_stmt` is an IfStatement
with its primary (condition, block) pair attached.  When `func_def` returns
only trees whose if statements have their primary pair (given that
`func_suite` does), every if statement at any depth of a program returned by
`Parser::file_input` has its primary pair, and evaluating the program, or a
statement returned by `if_stmt`, with any runtime, any budget and any
environment never ends in the "cannot evaluate nullptr _if" fatal exit.  On an
IfStatement without primary branch, `IfStatement::evaluate` is that fatal
exit at once, in the environment it was entered with, whatever the elif and
else parts and the evaluation of blocks are. -/
theorem ifStatement_nullIf_unreachable
    (func_def : (Lexer → PResult Statements) → Lexer → PResult Statement) (rt : Runtime) :
    (∀ (fuel : Nat) (lx : Lexer) (s : Statement) (lx1 : Lexer),
      if_stmt func_def fuel lx = PResult.ok s lx1 →
      ∃ p elif_ else_, s = Statement.IfStatement (some p) elif_ else_) ∧
    ((∀ fs : Lexer → PResult Statements,
        (∀ lx : Lexer, (fs lx).Returns fun b => Statements.ifsAttached b = true) →
        ∀ lx : Lexer, (func_def fs lx).Returns fun s => s.ifsAttached = true) →
      (∀ (fuel : Nat) (lx : Lexer) (prog : Statements) (lx1 : Lexer),
        file_input func_def fuel lx = PResult.ok prog lx1 →
        Statements.ifsAttached prog = true ∧
          ∀ (efuel : Nat) (w w1 : World),
            evalStatements rt efuel prog w ≠ Outcome.fatal Fatal.nullIf w1) ∧
      (∀ (fuel : Nat) (lx : Lexer) (s : Statement) (lx1 : Lexer),
        if_stmt func_def fuel lx = PResult.ok s lx1 →
        ∀ (efuel : Nat) (w w1 : World),
          Statement.evaluate rt efuel s w ≠ Outcome.fatal Fatal.nullIf w1)) ∧
    (∀ (evalBlock : Statements → World → Outcome Statements)
        (elif_ : Option (List (ExprNode × Statements))) (else_ : Option Statements) (w : World),
      IfStatement.evaluate rt evalBlock none elif_ else_ w = Outcome.fatal Fatal.nullIf w) := by
  refine ⟨fun fuel lx s lx1 h => if_stmt_primary func_def fuel lx s lx1 h, fun hfd => ⟨?_, ?_⟩,
    fun _ _ _ _ => rfl⟩
  · intro fuel lx prog lx1 h
    have hprog := file_input_attached func_def hfd fuel lx prog lx1 h
    refine ⟨hprog, fun efuel w w1 hev => ?_⟩
    have := evalStatements_avoids rt efuel prog w hprog
    rw [hev] at this
    exact this rfl
  · intro fuel lx s lx1 h efuel w w1 hev
    have hs := (statement_attached func_def hfd fuel).2.2.1 lx s lx1 h
    have := Statement.dispatch_avoids rt efuel s w hs
    rw [hev] at this
    exact this rfl

/-- C20 (witness): the program `if 1: print 1` parses to an IfStatement with
its primary pair, its evaluation never ends in the missing-primary-branch
exit, and an IfStatement built without primary branch but with an else block
ends in that exit with nothing printed. -/
theorem ifStatement_nullIf_unreachable_witness :
    (∃ p elif_ else_,
      Statement.IfStatement (some (intLit 1, [Statement.PrintStatement [intLit 1]])) none none =
        Statement.IfStatement (some p) elif_ else_) ∧
    (Statements.ifsAttached
        [Statement.IfStatement (some (intLit 1, [Statement.PrintStatement [intLit 1]])) none
          none] = true ∧
      ∀ (efuel : Nat) (w w1 : World),
        evalStatements refRuntime efuel
          [Statement.IfStatement (some (intLit 1, [Statement.PrintStatement [intLit 1]])) none
            none] w ≠ Outcome.fatal Fatal.nullIf w1) ∧
    (∀ (efuel : Nat) (w w1 : World),
      Statement.evaluate refRuntime efuel
        (Statement.IfStatement (some (intLit 1, [Statement.PrintStatement [intLit 1]])) none
          none) w ≠ Outcome.fatal Fatal.nullIf w1) ∧
    IfStatement.evaluate refRuntime (evalStatements refRuntime 1) none none
        (some [Statement.PrintStatement [intLit 1]]) World.initial =
      Outcome.fatal Fatal.nullIf World.initial := by
  have hif : ∃ ops, if_stmt sampleFuncDef 14
      (Lexer.init [Token.keyword Keyword.kwIf, Token.wholeNumber 1, Token.colon, Token.eol,
        Token.indent, Token.keyword Keyword.kwPrint, Token.wholeNumber 1, Token.eol,
        Token.dedent]) =
      PResult.ok
        (Statement.IfStatement (some (intLit 1, [Statement.PrintStatement [intLit 1]])) none
          none)
        (Lexer.mk [] (some Token.eof) true ops) := by
    simp [if_stmt, elifLoop, suite, stmt, stmtsLoop, simple_stmt, print_stmt, getEOL, arith_expr,
      term, factor, atom, call, testlist, test, or_test, and_test, not_test, comparison,
      binaryLoop, testlistLoop, Lexer.init, Lexer.getToken, Lexer.ungetToken, PResult.bind,
      Token.isPrint, Token.isName, Token.isReturn, Token.isEol, Token.isOr, Token.isAnd,
      Token.isNot, Token.isCompOp, Token.isAdditionOperator, Token.isSubtractionOperator,
      Token.isMultiplicationOperator, Token.isDivisionOperator, Token.isModuloOperator,
      Token.isOpenParen, Token.isCloseParen, Token.isColon, Token.isWholeNumber, Token.isFloat,
      Token.isString, Token.isComma, Token.isIndent, Token.isDedent, Token.isFunc, Token.isFor,
      Token.isIf, Token.isElIf, Token.isElse, ExprNode.token, intLit]
  have hfile : ∃ ops, file_input sampleFuncDef 16
      (Lexer.init [Token.keyword Keyword.kwIf, Token.wholeNumber 1, Token.colon, Token.eol,
        Token.indent, Token.keyword Keyword.kwPrint, Token.wholeNumber 1, Token.eol,
        Token.dedent]) =
      PResult.ok
        [Statement.IfStatement (some (intLit 1, [Statement.PrintStatement [intLit 1]])) none
          none]
        (Lexer.mk [] (some Token.eof) false ops) := by
    simp [file_input, compound_stmt, if_stmt, elifLoop, suite, stmt, stmtsLoop, simple_stmt,
      print_stmt, getEOL, arith_expr,
      term, factor, atom, call, testlist, test, or_test, and_test, not_test, comparison,
      binaryLoop, testlistLoop, Lexer.init, Lexer.getToken, Lexer.ungetToken, PResult.bind,
      Token.isPrint, Token.isName, Token.isReturn, Token.isEol, Token.isOr, Token.isAnd,
      Token.isNot, Token.isCompOp, Token.isAdditionOperator, Token.isSubtractionOperator,
      Token.isMultiplicationOperator, Token.isDivisionOperator, Token.isModuloOperator,
      Token.isOpenParen, Token.isCloseParen, Token.isColon, Token.isWholeNumber, Token.isFloat,
      Token.isString, Token.isComma, Token.isIndent, Token.isDedent, Token.isFunc, Token.isFor,
      Token.isIf, Token.isElIf, Token.isElse, Token.isEof, ExprNode.token, intLit]
  obtain ⟨ops1, hif⟩ := hif
  obtain ⟨ops2, hfile⟩ := hfile
  exact ⟨(ifStatement_nullIf_unreachable sampleFuncDef refRuntime).1 14 _ _ _ hif,
    ((ifStatement_nullIf_unreachable sampleFuncDef refRuntime).2.1 sampleFuncDef_attached).1
      16 _ _ _ hfile,
    ((ifStatement_nullIf_unreachable sampleFuncDef refRuntime).2.1 sampleFuncDef_attached).2
      14 _ _ _ hif,
    (ifStatement_nullIf_unreachable sampleFuncDef refRuntime).2.2 _ none
      (some [Statement.PrintStatement [intLit 1]]) World.initial⟩


end PyInterp


namespace PyInterp

/-! ## Function definitions evaluated twice -/

/-- C27: evaluating a FunctionDefinition node is not idempotent on the
function table.  After `FunctionDefinition::evaluate` on a node with a body
and the marker false, the node still has the marker false and has lost its
body, and the table maps the name to the definition with the body, marked as
registered.  Evaluating the node as it now is once more (directly, or through
`Statement::evaluate`) registers under the same name a definition without
body, so the entry that carried the body is replaced and the two entries
differ. -/
theorem functionDefinition_not_idempotent (funcName : String) (paramList : List String)
    (body : Statements) (w : World) :
    ∃ w1 w2 : World,
      FunctionDefinition.evaluate funcName paramList (some body) false w =
        Outcome.done (Statement.FunctionDefinition funcName paramList none false) w1 ∧
      w1.symTab.funcs funcName =
        some (Statement.FunctionDefinition funcName paramList (some body) true) ∧
      FunctionDefinition.evaluate funcName paramList none false w1 =
        Outcome.done (Statement.FunctionDefinition funcName paramList none false) w2 ∧
      (∀ (rt : Runtime) (fuel : Nat),
        Statement.evaluate rt (fuel + 1)
            (Statement.FunctionDefinition funcName paramList none false) w1 =
          Outcome.done (Statement.FunctionDefinition funcName paramList none false) w2) ∧
      w2.symTab.funcs funcName =
        some (Statement.FunctionDefinition funcName paramList none true) ∧
      w2.symTab.funcs funcName ≠ w1.symTab.funcs funcName := by
  refine ⟨_, _, rfl, ?_, rfl, fun _ _ => rfl, ?_, ?_⟩
  · simp [SymTab.setFunction]
  · simp [SymTab.setFunction]
  · simp [SymTab.setFunction]

/-- C27 (witness): a definition of f with the body `print 1`, evaluated twice
in a row, and also as the body of `for x in range(2)`, leaves f registered
without body, while as the body of `for x in range(1)` it leaves f registered
with its body. -/
theorem functionDefinition_not_idempotent_witness :
    (∃ w1 w2 : World,
      FunctionDefinition.evaluate "f" [] (some [Statement.PrintStatement [intLit 1]]) false
          World.initial =
        Outcome.done (Statement.FunctionDefinition "f" [] none false) w1 ∧
      w1.symTab.funcs "f" =
        some (Statement.FunctionDefinition "f" []
          (some [Statement.PrintStatement [intLit 1]]) true) ∧
      FunctionDefinition.evaluate "f" [] none false w1 =
        Outcome.done (Statement.FunctionDefinition "f" [] none false) w2 ∧
      (∀ (rt : Runtime) (fuel : Nat),
        Statement.evaluate rt (fuel + 1) (Statement.FunctionDefinition "f" [] none false) w1 =
          Outcome.done (Statement.FunctionDefinition "f" [] none false) w2) ∧
      w2.symTab.funcs "f" = some (Statement.FunctionDefinition "f" [] none true) ∧
      w2.symTab.funcs "f" ≠ w1.symTab.funcs "f") ∧
    (RangeStmt.evaluate refRuntime (evalStatements refRuntime 1) 3 "x" [intLit 2]
        [Statement.FunctionDefinition "f" [] (some [Statement.PrintStatement [intLit 1]])
          false] ⟨none, none, none⟩ World.initial).world?.map
        (fun w => w.symTab.funcs "f") =
      some (some (Statement.FunctionDefinition "f" [] none true)) ∧
    (RangeStmt.evaluate refRuntime (evalStatements refRuntime 1) 3 "x" [intLit 1]
        [Statement.FunctionDefinition "f" [] (some [Statement.PrintStatement [intLit 1]])
          false] ⟨none, none, none⟩ World.initial).world?.map
        (fun w => w.symTab.funcs "f") =
      some (some (Statement.FunctionDefinition "f" []
        (some [Statement.PrintStatement [intLit 1]]) true)) :=
  ⟨functionDefinition_not_idempotent "f" [] [Statement.PrintStatement [intLit 1]]
      World.initial, rfl, rfl⟩

/-! ## The loop counter lives in the environment -/

/-- C26: the body can change the iteration.  When the range expressions give
start < end and step >= 1 with end + step at most `INT_MAX` (the increment of
the counter from end does not overflow), the loop variable is not defined at
entry, and one run of the body with the loop variable bound to start completes
and leaves the loop variable bound to the integer end, then
`RangeStmt::evaluate` runs the body exactly that once, whatever
`rangeCount start end step` is: the in-place increment makes the binding
end + step, the next loop test reads it from the environment and fails, and
the result is the world after that one run with the loop variable removed.
In particular this is so for the body that is the single assignment of an
expression with the value end to the loop variable, where the final world is
the world at entry. -/
theorem rangeStmt_body_sets_counter (rt : Runtime) (loopFuel : Nat) (id : String)
    (testList : List ExprNode) (o o1 : RangeOptionals) (w : World) (start end_ step : Int)
    (hparse : RangeStmt.parseTestList rt w.symTab testList o = Except.ok o1)
    (hdef : o1.defaulted = some (start, end_, step))
    (hundef : w.symTab.isDefined id = false)
    (hlt : start < end_) (hstep : 1 ≤ step) (hfit : end_ + step ≤ intMax)
    (hfuel : 2 ≤ loopFuel) :
    (∀ (evalBlock : Statements → World → Outcome Statements) (forBody body1 : Statements)
        (w1 : World),
      evalBlock forBody (w.bindInt id start) = Outcome.done body1 w1 →
      w1.symTab.getValueFor id = some (Value.int end_) →
      RangeStmt.evaluate rt evalBlock loopFuel id testList forBody o w =
        Outcome.done (Statement.RangeStmt id testList body1 o1.start o1.end_ o1.step)
          (w1.unbind id)) ∧
    (∀ (fuel : Nat) (e : ExprNode),
      rt.evaluate e (w.bindInt id start).symTab = Except.ok (Value.int end_) →
      RangeStmt.evaluate rt (evalStatements rt (fuel + 1)) loopFuel id testList
          [Statement.AssignStmt id e] o w =
        Outcome.done
          (Statement.RangeStmt id testList [Statement.AssignStmt id e] o1.start o1.end_
            o1.step) w) := by
  obtain ⟨hstart, hend, -⟩ := RangeStmt.parseTestList_isCInt rt w.symTab testList o o1 start
    end_ step hparse hdef
  have hsum : IsCInt (end_ + step) := by
    simp only [IsCInt, intMin, intMax] at hend hfit ⊢
    omega
  have hgen : ∀ (evalBlock : Statements → World → Outcome Statements)
      (forBody body1 : Statements) (w1 : World),
      evalBlock forBody (w.bindInt id start) = Outcome.done body1 w1 →
      w1.symTab.getValueFor id = some (Value.int end_) →
      RangeStmt.evaluate rt evalBlock loopFuel id testList forBody o w =
        Outcome.done (Statement.RangeStmt id testList body1 o1.start o1.end_ o1.step)
          (w1.unbind id) := by
    intro evalBlock forBody body1 w1 hbody hval
    rw [RangeStmt.evaluate_of_parse rt evalBlock loopFuel id testList forBody o o1 w start end_
      step hparse hdef hundef]
    have h1 : ¬(start > end_ ∧ step < 0) := by omega
    have h2 : start < end_ ∧ 1 ≤ step := ⟨hlt, hstep⟩
    rw [if_neg h1, if_pos h2]
    obtain ⟨k, rfl⟩ : ∃ k, loopFuel = k + 2 := ⟨loopFuel - 2, by omega⟩
    have hexit : ¬(end_ + step < end_) := by omega
    have hloop : RangeStmt.loop rt evalBlock (fun x => decide (x < end_)) step id (k + 2)
        forBody (w.bindInt id start) = Outcome.done body1 (w1.bindInt id (end_ + step)) := by
      have hw2 : ({ w1 with symTab := w1.symTab.setValueFor id (Value.int (end_ + step)) } :
          World) = w1.bindInt id (end_ + step) := rfl
      rw [RangeStmt.loop]
      simp only [World.getValueFor_bindInt, rt.getIntValue_of_isCInt hstart, hlt, decide_True,
        if_true, hbody, Outcome.bind, hval, rt.incrementByN_of_isCInt hsum, hw2]
      rw [RangeStmt.loop]
      simp only [World.getValueFor_bindInt, rt.getIntValue_of_isCInt hsum, hexit, decide_False,
        Bool.false_eq_true, if_false]
    rw [hloop, Outcome.bind_done, World.unbind_bindInt]
  refine ⟨hgen, ?_⟩
  intro fuel e he
  have hbody : evalStatements rt (fuel + 1) [Statement.AssignStmt id e] (w.bindInt id start) =
      Outcome.done [Statement.AssignStmt id e] ((w.bindInt id start).bindInt id end_) := by
    have he1 : rt.evaluate e (w.symTab.setValueFor id (Value.int start)) =
        Except.ok (Value.int end_) := he
    simp [evalStatements, Statements.evaluate, Statement.evaluate, AssignStmt.evaluate, he1,
      Outcome.bind, World.bindInt]
  rw [hgen _ _ _ _ hbody (World.getValueFor_bindInt _ id end_), World.unbind_bindInt,
    World.unbind_bindInt, World.unbind_of_undefined w id hundef]

/-- C26 (witness): `for x in range(0, 5): print x; x = 5` prints 0 only,
although the range holds five values, and `for x in range(0, 5): x = 5`
returns to the world it started in. -/
theorem rangeStmt_body_sets_counter_witness :
    rangeCount 0 5 1 = 5 ∧
    (RangeStmt.evaluate refRuntime (evalStatements refRuntime 1) 6 "x" [intLit 0, intLit 5]
        [Statement.PrintStatement [varRef "x"], Statement.AssignStmt "x" (intLit 5)]
        ⟨none, none, none⟩ World.initial).world?.map World.out =
      some [Output.value (Value.int 0), Output.blank, Output.endl] ∧
    RangeStmt.evaluate refRuntime (evalStatements refRuntime (0 + 1)) 6 "x"
        [intLit 0, intLit 5] [Statement.AssignStmt "x" (intLit 5)] ⟨none, none, none⟩
        World.initial =
      Outcome.done
        (Statement.RangeStmt "x" [intLit 0, intLit 5] [Statement.AssignStmt "x" (intLit 5)]
          (some 0) (some 5) none) World.initial := by
  have h := rangeStmt_body_sets_counter refRuntime 6 "x" [intLit 0, intLit 5]
    ⟨none, none, none⟩ ⟨some 0, some 5, none⟩ World.initial 0 5 1 rfl rfl rfl (by decide)
    (by decide) (by decide) (by decide)
  refine ⟨by decide, ?_, h.2 0 (intLit 5) rfl⟩
  rw [h.1 (evalStatements refRuntime 1)
    [Statement.PrintStatement [varRef "x"], Statement.AssignStmt "x" (intLit 5)] _ _ rfl rfl]
  rfl

theorem World.bindInt_bindInt (w : World) (id : String) (a b : Int) :
    (w.bindInt id a).bindInt id b = w.bindInt id b := by
  unfold World.bindInt SymTab.setValueFor
  congr 2
  funext k
  by_cases hk : k = id <;> simp [hk]

theorem RangeStmt.loop_overflow_diverges (rt : Runtime) (fuel : Nat) (id : String)
    (e : ExprNode) (w : World) (end_ step : Int)
    (hwrap : toCInt (end_ + step) < end_)
    (he : ∀ v : Int, rt.evaluate e (w.bindInt id v).symTab = Except.ok (Value.int end_)) :
    ∀ (n : Nat) (v : Int), IsCInt v → v < end_ →
      RangeStmt.loop rt (evalStatements rt (fuel + 1)) (fun x => decide (x < end_)) step id n
        [Statement.AssignStmt id e] (w.bindInt id v) = Outcome.outOfFuel := by
  intro n
  induction n with
  | zero =>
    intro v _ _
    rw [RangeStmt.loop]
  | succ n ih =>
    intro v hv hlt
    have hbody : evalStatements rt (fuel + 1) [Statement.AssignStmt id e] (w.bindInt id v) =
        Outcome.done [Statement.AssignStmt id e] (w.bindInt id end_) := by
      have he1 : rt.evaluate e (w.symTab.setValueFor id (Value.int v)) =
          Except.ok (Value.int end_) := he v
      rw [← World.bindInt_bindInt w id v end_]
      simp [evalStatements, Statements.evaluate, Statement.evaluate, AssignStmt.evaluate, he1,
        Outcome.bind, World.bindInt]
    have hw2 : ({ w.bindInt id end_ with
        symTab := (w.bindInt id end_).symTab.setValueFor id (Value.int (toCInt (end_ + step))) } :
          World) = w.bindInt id (toCInt (end_ + step)) :=
      World.bindInt_bindInt w id end_ (toCInt (end_ + step))
    rw [RangeStmt.loop]
    simp only [World.getValueFor_bindInt, rt.getIntValue_of_isCInt hv, hlt, decide_True,
      if_true, hbody, Outcome.bind, rt.incrementByN_int, hw2]
    exact ih (toCInt (end_ + step)) (isCInt_toCInt _) hwrap

/-- C26 (counterexample): `for x in range(0, 2147483647): x = 2147483647` has
start < end and step >= 1 and a body that assigns the value end to the loop
variable, but the increment of the counter from end leaves the range of `int`
and wraps around to `INT_MIN`, which passes the loop test again: the body is
run again after every increment and the loop does not exit, whatever the
budget of loop tests. -/
theorem rangeStmt_body_sets_counter_counterexample :
    (RangeStmt.parseTestList refRuntime World.initial.symTab
        [intLit 0, intLit 2147483647] ⟨none, none, none⟩).toOption.bind
        RangeOptionals.defaulted =
      some (0, 2147483647, 1) ∧
    refRuntime.evaluate (intLit 2147483647) (World.initial.bindInt "x" 0).symTab =
      Except.ok (Value.int 2147483647) ∧
    intMax < 2147483647 + 1 ∧
    refRuntime.incrementByN 1 (Value.int 2147483647) = Value.int intMin ∧
    rangeTest 2147483647 1 (refRuntime.getIntValue (Value.int intMin)) = true ∧
    RangeStmt.evaluate refRuntime (evalStatements refRuntime 1) 1000 "x"
        [intLit 0, intLit 2147483647] [Statement.AssignStmt "x" (intLit 2147483647)]
        ⟨none, none, none⟩ World.initial =
      Outcome.outOfFuel ∧
    ∀ loopFuel : Nat,
      RangeStmt.evaluate refRuntime (evalStatements refRuntime 1) loopFuel "x"
          [intLit 0, intLit 2147483647] [Statement.AssignStmt "x" (intLit 2147483647)]
          ⟨none, none, none⟩ World.initial =
        Outcome.outOfFuel := by
  have hall : ∀ loopFuel : Nat,
      RangeStmt.evaluate refRuntime (evalStatements refRuntime 1) loopFuel "x"
          [intLit 0, intLit 2147483647] [Statement.AssignStmt "x" (intLit 2147483647)]
          ⟨none, none, none⟩ World.initial =
        Outcome.outOfFuel := by
    intro loopFuel
    rw [RangeStmt.evaluate_of_parse refRuntime (evalStatements refRuntime 1) loopFuel "x"
      [intLit 0, intLit 2147483647] [Statement.AssignStmt "x" (intLit 2147483647)]
      ⟨none, none, none⟩ ⟨some 0, some 2147483647, none⟩ World.initial 0 2147483647 1 rfl rfl
      rfl]
    rw [if_neg (by decide), if_pos (by decide),
      RangeStmt.loop_overflow_diverges refRuntime 0 "x" (intLit 2147483647) World.initial
        2147483647 1 (by decide) (fun _ => rfl) loopFuel 0 (by decide) (by decide)]
    rfl
  exact ⟨rfl, rfl, by decide, rfl, rfl, hall 1000, hall⟩


/-! ## Function bodies -/

theorem Lexer.getToken_fst {lx : Lexer} {t : Token} {ts : List Token}
    (h : lx.stream = t :: ts) : lx.getToken.1 = t := by
  rw [Lexer.getToken_eq h]

theorem test_ofAtom (fuel : Nat) (lx : Lexer) (a t : Token) (ts : List Token)
    (h : lx.stream = a :: t :: ts) (ha : a.isAtom = true)
    (hcall : a.isName = true → t.isOpenParen = false) (ht : t.isOperator = false) :
    (test (fuel + 9) lx).Yields (ExprNode.ofAtom a) (t :: ts) := by
  obtain ⟨hmul, hadd, hcmp, hand, hor, -⟩ : (t.isMultiplicationOperator ||
        t.isDivisionOperator || t.isModuloOperator) = false ∧
      (t.isAdditionOperator || t.isSubtractionOperator) = false ∧ t.isCompOp = false ∧
      t.isAnd = false ∧ t.isOr = false ∧ t.isNot = false := by
    cases t <;> simp_all [Token.isOperator, Token.isMultiplicationOperator,
      Token.isDivisionOperator, Token.isModuloOperator, Token.isAdditionOperator,
      Token.isSubtractionOperator, Token.isCompOp, Token.isAnd, Token.isOr, Token.isNot,
      Token.isAssignmentOperator]
  unfold test
  exact or_test_ofAtom fuel lx a t ts h ha hcall hmul hadd hcmp hand hor

theorem return_stmt_ofAtom (fuel : Nat) (lx : Lexer) (a t : Token) (ts : List Token)
    (h : lx.stream = Token.keyword Keyword.kwReturn :: a :: t :: ts) (ha : a.isAtom = true)
    (hcall : a.isName = true → t.isOpenParen = false) (ht : t.isOperator = false) :
    (return_stmt (fuel + 9) lx).Yields (Statement.ReturnStatement (ExprNode.ofAtom a))
      (t :: ts) := by
  rw [return_stmt_eq, Lexer.getToken_fst h]
  simp only [Token.isReturn, Bool.not_true, Bool.false_eq_true, if_false]
  refine PResult.Yields.bind (test_ofAtom fuel _ a t ts (Lexer.getToken_stream h) ha hcall ht) ?_
  intro lx2 hs2
  exact ⟨lx2, rfl, hs2⟩

theorem func_suite_after_return
    (func_def : (Lexer → PResult Statements) → Lexer → PResult Statement) (fuel : Nat)
    (lx : Lexer) (a t : Token) (ts : List Token)
    (h : lx.stream =
      Token.eol :: Token.indent :: Token.keyword Keyword.kwReturn :: a :: t :: ts)
    (ha : a.isAtom = true) (hcall : a.isName = true → t.isOpenParen = false)
    (ht : t.isOperator = false) :
    ∃ lx1 : Lexer, lx1.stream = ts ∧
      func_suite func_def (fuel + 10) lx =
        funcSuiteEnd [Statement.ReturnStatement (ExprNode.ofAtom a)] t lx1 := by
  have s1 := Lexer.getToken_stream h
  have s2 := Lexer.getToken_stream s1
  rw [func_suite_succ, Lexer.getToken_fst h, Lexer.getToken_fst s1, funcSuiteLoop_succ,
    Lexer.getToken_fst s2]
  simp only [Token.isEol, Token.isIndent, Token.isDedent, Token.isReturn, Bool.not_true,
    Bool.not_false, Bool.false_eq_true, if_false, if_true]
  obtain ⟨lx2, heq, hs2⟩ :=
    return_stmt_ofAtom fuel _ a t ts (Lexer.getToken_unget_stream s2) ha hcall ht
  rw [heq]
  refine ⟨lx2.getToken.2, Lexer.getToken_stream hs2, ?_⟩
  simp only [PResult.bind, List.nil_append, Lexer.getToken_fst hs2]

/-- C24: `Parser::func_suite` stops at the first return statement.  On the
token stream END_OF_LINE INDENT RETURN 1 RETURN 2 DEDENT the loop is left
after `RETURN 1`, the token then fetched is the second RETURN and not a
DEDENT, and `func_suite` ends in its fatal error, although the grammar rule
in the comment of `func_suite` reads `{stmt | return_stmt} +`.  With the
single item `RETURN 1` it returns the one ReturnStatement. -/
theorem func_suite_stops_at_return
    (func_def : (Lexer → PResult Statements) → Lexer → PResult Statement) (fuel : Nat) :
    (∃ lx1 : Lexer,
      func_suite func_def (fuel + 10)
          (Lexer.init [Token.eol, Token.indent, Token.keyword Keyword.kwReturn,
            Token.wholeNumber 1, Token.keyword Keyword.kwReturn, Token.wholeNumber 2,
            Token.dedent]) =
        PResult.die "Parser::func_suit()" "EXpected a DEDENT token, instead got: "
          (Token.keyword Keyword.kwReturn) lx1) ∧
    (func_suite func_def (fuel + 10)
        (Lexer.init [Token.eol, Token.indent, Token.keyword Keyword.kwReturn,
          Token.wholeNumber 1, Token.keyword Keyword.kwReturn, Token.wholeNumber 2,
          Token.dedent])).value? = none ∧
    (func_suite func_def (fuel + 10)
        (Lexer.init [Token.eol, Token.indent, Token.keyword Keyword.kwReturn,
          Token.wholeNumber 1, Token.dedent])).value? =
      some [Statement.ReturnStatement (intLit 1)] := by
  obtain ⟨lx1, -, h1⟩ := func_suite_after_return func_def fuel
    (Lexer.init [Token.eol, Token.indent, Token.keyword Keyword.kwReturn,
      Token.wholeNumber 1, Token.keyword Keyword.kwReturn, Token.wholeNumber 2, Token.dedent])
    (Token.wholeNumber 1) (Token.keyword Keyword.kwReturn) [Token.wholeNumber 2, Token.dedent]
    (Lexer.init_stream _) rfl (fun _ => rfl) rfl
  obtain ⟨lx2, -, h2⟩ := func_suite_after_return func_def fuel
    (Lexer.init [Token.eol, Token.indent, Token.keyword Keyword.kwReturn,
      Token.wholeNumber 1, Token.dedent])
    (Token.wholeNumber 1) Token.dedent [] (Lexer.init_stream _) rfl (fun _ => rfl) rfl
  refine ⟨⟨lx1, ?_⟩, ?_, ?_⟩
  · rw [h1]; rfl
  · rw [h1]; rfl
  · rw [h2]; rfl


/-! ## Lifting a parse through the levels -/

theorem PResult.Yields.fuel_pos {α : Type} {p : Nat → Lexer → PResult α}
    (h0 : ∀ lx, p 0 lx = PResult.outOfFuel) {fuel : Nat} {lx : Lexer} {v : α}
    {out : List Token} (h : (p fuel lx).Yields v out) : ∃ n, fuel = n + 1 := by
  cases fuel with
  | zero =>
    obtain ⟨lx1, h1, -⟩ := h
    rw [h0] at h1
    simp at h1
  | succ n => exact ⟨n, rfl⟩

theorem Parses.binary_level (isOp : Token → Bool)
    (mk : Token → Option ExprNode → Option ExprNode → ExprNode)
    (operand : Lexer → PResult ExprNode) (n : Nat) {s mid out : List Token} {x0 : ExprNode}
    {steps : List (Token × ExprNode)} (h0 : Parses operand s x0 mid)
    (hc : OperandChain operand isOp mid steps out) (hn : steps.length < n) :
    Parses (fun lx => (operand lx).bind fun left lx1 => binaryLoop isOp mk operand n left lx1)
      s (leftFold mk x0 steps) out := by
  intro lx hs
  exact PResult.Yields.bind (h0 lx hs) fun lx1 hs1 =>
    binaryLoop_chain isOp mk operand hc n x0 lx1 hn hs1

theorem Parses.term_chain (fuel : Nat) {s mid out : List Token} {x0 : ExprNode}
    {steps : List (Token × ExprNode)} (h0 : Parses (factor fuel) s x0 mid)
    (hc : OperandChain (factor fuel)
      (fun tok => tok.isMultiplicationOperator || tok.isDivisionOperator ||
        tok.isModuloOperator) mid steps out)
    (hn : steps.length < fuel) :
    Parses (term (fuel + 1)) s (leftFold ExprNode.InfixExprNode x0 steps) out := by
  intro lx hs
  rw [term]
  exact Parses.binary_level _ _ _ fuel h0 hc hn lx hs

theorem Parses.arith_chain (fuel : Nat) {s mid out : List Token} {x0 : ExprNode}
    {steps : List (Token × ExprNode)} (h0 : Parses (term fuel) s x0 mid)
    (hc : OperandChain (term fuel)
      (fun tok => tok.isAdditionOperator || tok.isSubtractionOperator) mid steps out)
    (hn : steps.length < fuel) :
    Parses (arith_expr (fuel + 1)) s (leftFold ExprNode.InfixExprNode x0 steps) out := by
  intro lx hs
  rw [arith_expr]
  exact Parses.binary_level _ _ _ fuel h0 hc hn lx hs

theorem Parses.comparison_chain (fuel : Nat) {s mid out : List Token} {x0 : ExprNode}
    {steps : List (Token × ExprNode)} (h0 : Parses (arith_expr fuel) s x0 mid)
    (hc : OperandChain (arith_expr fuel) Token.isCompOp mid steps out)
    (hn : steps.length < fuel) :
    Parses (comparison (fuel + 1)) s (leftFold ExprNode.ComparisonExprNode x0 steps) out := by
  intro lx hs
  rw [comparison]
  exact Parses.binary_level _ _ _ fuel h0 hc hn lx hs

theorem Parses.and_chain (fuel : Nat) {s mid out : List Token} {x0 : ExprNode}
    {steps : List (Token × ExprNode)} (h0 : Parses (not_test fuel) s x0 mid)
    (hc : OperandChain (not_test fuel) Token.isAnd mid steps out)
    (hn : steps.length < fuel) :
    Parses (and_test (fuel + 1)) s (leftFold ExprNode.BooleanExprNode x0 steps) out := by
  intro lx hs
  rw [and_test]
  exact Parses.binary_level _ _ _ fuel h0 hc hn lx hs

theorem Parses.or_chain (fuel : Nat) {s mid out : List Token} {x0 : ExprNode}
    {steps : List (Token × ExprNode)} (h0 : Parses (and_test fuel) s x0 mid)
    (hc : OperandChain (and_test fuel) Token.isOr mid steps out)
    (hn : steps.length < fuel) :
    Parses (or_test (fuel + 1)) s (leftFold ExprNode.BooleanExprNode x0 steps) out := by
  intro lx hs
  rw [or_test]
  exact Parses.binary_level _ _ _ fuel h0 hc hn lx hs

theorem Parses.fuel_succ {α : Type} {p : Nat → Lexer → PResult α}
    (h0 : ∀ lx, p 0 lx = PResult.outOfFuel) {fuel : Nat} {s out : List Token} {v : α}
    (h : Parses (p fuel) s v out) : ∃ n, fuel = n + 1 := by
  have hlx : (Lexer.mk s none false []).stream = s := by simp [Lexer.stream]
  exact PResult.Yields.fuel_pos h0 (h _ hlx)

theorem Parses.not_test_of_comparison (fuel : Nat) {h : Token} {s out : List Token}
    {v : ExprNode} (hnot : h.isNot = false) (hp : Parses (comparison fuel) (h :: s) v out) :
    Parses (not_test (fuel + 1)) (h :: s) v out := by
  intro lx hs
  rw [not_test_succ, Lexer.getToken_fst hs]
  simp only [hnot, Bool.false_eq_true, if_false]
  exact hp _ (Lexer.getToken_unget_stream hs)

theorem Parses.test_of_or_test (fuel : Nat) {s out : List Token} {v : ExprNode}
    (hp : Parses (or_test fuel) s v out) : Parses (test (fuel + 1)) s v out := by
  intro lx hs
  rw [test]
  exact hp lx hs

theorem Parses.test_of_arith_expr (fuel : Nat) {h t : Token} {s ts : List Token}
    {v : ExprNode} (hnot : h.isNot = false) (hcmp : t.isCompOp = false)
    (hand : t.isAnd = false) (hor : t.isOr = false)
    (hp : Parses (arith_expr fuel) (h :: s) v (t :: ts)) :
    Parses (test (fuel + 5)) (h :: s) v (t :: ts) := by
  obtain ⟨n, rfl⟩ := Parses.fuel_succ (p := arith_expr) (fun _ => rfl) hp
  have h1 : Parses (comparison (n + 1 + 1)) (h :: s) v (t :: ts) :=
    Parses.comparison_chain (n + 1) hp (OperandChain.stop t ts hcmp) (by simp)
  have h2 := Parses.not_test_of_comparison (n + 1 + 1) hnot h1
  have h3 : Parses (and_test (n + 1 + 1 + 1 + 1)) (h :: s) v (t :: ts) :=
    Parses.and_chain _ h2 (OperandChain.stop t ts hand) (by simp)
  have h4 : Parses (or_test (n + 1 + 1 + 1 + 1 + 1)) (h :: s) v (t :: ts) :=
    Parses.or_chain _ h3 (OperandChain.stop t ts hor) (by simp)
  exact Parses.test_of_or_test _ h4

theorem Parses.atom_paren (fuel : Nat) {s ts : List Token} {v : ExprNode}
    (hp : Parses (test fuel) s v (Token.closeParen :: ts)) :
    Parses (atom (fuel + 1)) (Token.openParen :: s) v ts := by
  intro lx hs
  rw [atom_succ, Lexer.getToken_fst hs]
  simp only [Token.isName, Token.isWholeNumber, Token.isString, Token.isFloat,
    Token.isOpenParen, Bool.false_eq_true, if_false, if_true]
  refine PResult.Yields.bind (hp _ (Lexer.getToken_stream hs)) ?_
  intro lx2 hs2
  rw [Lexer.getToken_fst hs2]
  simp only [Token.isCloseParen, Bool.not_true, Bool.false_eq_true, if_false]
  exact ⟨_, rfl, Lexer.getToken_stream hs2⟩

theorem Parses.factor_of_atom (fuel : Nat) {h : Token} {s out : List Token} {v : ExprNode}
    (hminus : h.isSubtractionOperator = false) (hname : v.token.isName = false)
    (hp : Parses (atom fuel) (h :: s) v out) : Parses (factor (fuel + 1)) (h :: s) v out := by
  intro lx hs
  rw [factor_succ, Lexer.getToken_fst hs]
  simp only [hminus, Bool.false_eq_true, if_false]
  refine PResult.Yields.bind (hp _ (Lexer.getToken_unget_stream hs)) ?_
  intro lx2 hs2
  simp only [hname, Bool.false_eq_true, if_false]
  exact ⟨lx2, rfl, hs2⟩


/-! ## Parentheses -/

theorem Token.not_prefix_of_atom {a : Token} (ha : a.isAtom = true) :
    a.isNot = false ∧ a.isSubtractionOperator = false := by
  cases a <;> simp_all [Token.isAtom, Token.isName, Token.isWholeNumber, Token.isString,
    Token.isFloat, Token.isNot, Token.isSubtractionOperator]

theorem Parses.factor_atom (fuel : Nat) {a t : Token} {ts : List Token} (ha : a.isAtom = true)
    (hcall : a.isName = true → t.isOpenParen = false) :
    Parses (factor (fuel + 2)) (a :: t :: ts) (ExprNode.ofAtom a) (t :: ts) :=
  fun lx hs => factor_ofAtom fuel lx a t ts hs ha hcall

theorem Parses.term_atom (fuel : Nat) {a t : Token} {ts : List Token} (ha : a.isAtom = true)
    (hcall : a.isName = true → t.isOpenParen = false)
    (hmul : (t.isMultiplicationOperator || t.isDivisionOperator || t.isModuloOperator) = false) :
    Parses (term (fuel + 3)) (a :: t :: ts) (ExprNode.ofAtom a) (t :: ts) :=
  fun lx hs => term_ofAtom fuel lx a t ts hs ha hcall hmul

theorem Parses.sum_in_parentheses (fuel : Nat) (a b : Token) (ts : List Token)
    (ha : a.isAtom = true) (hb : b.isAtom = true) :
    Parses (factor (fuel + 11))
      (Token.openParen :: a :: Token.plus :: b :: Token.closeParen :: ts)
      (ExprNode.InfixExprNode Token.plus (some (ExprNode.ofAtom a)) (some (ExprNode.ofAtom b)))
      ts := by
  have hsum : Parses (arith_expr (fuel + 3 + 1)) (a :: Token.plus :: b :: Token.closeParen :: ts)
      (leftFold ExprNode.InfixExprNode (ExprNode.ofAtom a) [(Token.plus, ExprNode.ofAtom b)])
      (Token.closeParen :: ts) :=
    Parses.arith_chain (fuel + 3) (Parses.term_atom fuel ha (fun _ => rfl) rfl)
      (OperandChain.more Token.plus _ _ _ [] _ rfl
        (Parses.term_atom fuel hb (fun _ => rfl) rfl) (OperandChain.stop _ _ rfl))
      (by simp)
  have htest := Parses.test_of_arith_expr (fuel + 3 + 1) (t := Token.closeParen)
    (Token.not_prefix_of_atom ha).1 rfl rfl rfl hsum
  exact Parses.factor_of_atom _ rfl rfl (Parses.atom_paren _ htest)

/-- C21: parentheses group without adding a node.  When the token fetched by
`Parser::atom` is `(` and `test` returns a node for what follows, `atom`
returns exactly that node and consumes the next token if it is `)`, and ends
in its fatal error if it is not.  Hence, for all one-token atoms a, b, c
followed by a token t that ends the expression (no operator, and no `(` when
c is a name), `( a + b ) * c` parses to `*(+(a, b), c)` and `a + b * c`
parses to `+(a, *(b, c))`, leaving t as the next token. -/
theorem atom_parentheses_group (fuel : Nat) :
    (∀ (lx : Lexer) (p : ExprNode) (lx2 : Lexer),
      lx.getToken.1 = Token.openParen → test fuel lx.getToken.2 = PResult.ok p lx2 →
      (lx2.getToken.1.isCloseParen = true →
        atom (fuel + 1) lx = PResult.ok p lx2.getToken.2 ∧
          ∀ i : Nat, lx2.getToken.2.peek i = lx2.peek (1 + i)) ∧
      (lx2.getToken.1.isCloseParen = false →
        atom (fuel + 1) lx =
          PResult.die "Parser::atom" "Expected close-parenthesis, instead got" lx2.getToken.1
            lx2.getToken.2)) ∧
    (∀ (a b c t : Token) (ts : List Token),
      a.isAtom = true → b.isAtom = true → c.isAtom = true → t.isOperator = false →
      (c.isName = true → t.isOpenParen = false) →
      Parses (term (fuel + 12))
          (Token.openParen :: a :: Token.plus :: b :: Token.closeParen :: Token.times :: c ::
            t :: ts)
          (ExprNode.InfixExprNode Token.times
            (some (ExprNode.InfixExprNode Token.plus (some (ExprNode.ofAtom a))
              (some (ExprNode.ofAtom b))))
            (some (ExprNode.ofAtom c)))
          (t :: ts) ∧
        Parses (arith_expr (fuel + 4)) (a :: Token.plus :: b :: Token.times :: c :: t :: ts)
          (ExprNode.InfixExprNode Token.plus (some (ExprNode.ofAtom a))
            (some (ExprNode.InfixExprNode Token.times (some (ExprNode.ofAtom b))
              (some (ExprNode.ofAtom c)))))
          (t :: ts)) := by
  refine ⟨?_, ?_⟩
  · intro lx p lx2 hopen htest
    have hatom : atom (fuel + 1) lx =
        if !lx2.getToken.1.isCloseParen then
          PResult.die "Parser::atom" "Expected close-parenthesis, instead got" lx2.getToken.1
            lx2.getToken.2
        else PResult.ok p lx2.getToken.2 := by
      rw [atom_succ, hopen, htest]
      rfl
    refine ⟨fun hclose => ⟨?_, Lexer.peek_getToken lx2⟩, fun hclose => ?_⟩
    · rw [hatom, hclose]; rfl
    · rw [hatom, hclose]; rfl
  · intro a b c t ts ha hb hc ht hcall
    obtain ⟨hmul, hadd, -⟩ := Token.not_level_of_not_operator ht
    refine ⟨?_, ?_⟩
    · exact Parses.term_chain (fuel + 11) (Parses.sum_in_parentheses fuel a b _ ha hb)
        (OperandChain.more Token.times _ _ _ [] _ rfl
          (Parses.factor_atom (fuel + 9) hc hcall) (OperandChain.stop _ _ hmul))
        (by simp)
    · have hprod : Parses (term (fuel + 2 + 1)) (b :: Token.times :: c :: t :: ts)
          (leftFold ExprNode.InfixExprNode (ExprNode.ofAtom b)
            [(Token.times, ExprNode.ofAtom c)]) (t :: ts) :=
        Parses.term_chain (fuel + 2)
          (Parses.factor_atom fuel (t := Token.times) hb (fun _ => rfl))
          (OperandChain.more Token.times _ _ _ [] _ rfl
            (Parses.factor_atom fuel hc hcall) (OperandChain.stop _ _ hmul))
          (by simp)
      exact Parses.arith_chain (fuel + 3)
        (Parses.term_atom fuel (t := Token.plus) ha (fun _ => rfl) rfl)
        (OperandChain.more Token.plus _ _ _ [] _ rfl hprod (OperandChain.stop _ _ hadd))
        (by simp)

/-- C21 (witness): `( 1 + 2 ) * 3` parses to `*(+(1, 2), 3)`, `1 + 2 * 3` to
`+(1, *(2, 3))`, and `( 1 2` is the fatal error of `atom`. -/
theorem atom_parentheses_group_witness :
    (term (0 + 12) (Lexer.init [Token.openParen, Token.wholeNumber 1, Token.plus,
        Token.wholeNumber 2, Token.closeParen, Token.times, Token.wholeNumber 3,
        Token.eol])).Yields
      (ExprNode.InfixExprNode Token.times
        (some (ExprNode.InfixExprNode Token.plus (some (intLit 1)) (some (intLit 2))))
        (some (intLit 3)))
      [Token.eol] ∧
    (arith_expr (0 + 4) (Lexer.init [Token.wholeNumber 1, Token.plus, Token.wholeNumber 2,
        Token.times, Token.wholeNumber 3, Token.eol])).Yields
      (ExprNode.InfixExprNode Token.plus (some (intLit 1))
        (some (ExprNode.InfixExprNode Token.times (some (intLit 2)) (some (intLit 3)))))
      [Token.eol] ∧
    (∃ lx2 : Lexer,
      atom (9 + 1) (Lexer.init [Token.openParen, Token.wholeNumber 1, Token.wholeNumber 2]) =
        PResult.die "Parser::atom" "Expected close-parenthesis, instead got"
          (Token.wholeNumber 2) lx2) ∧
    ∃ lx2 : Lexer,
      atom (9 + 1) (Lexer.init [Token.openParen, Token.wholeNumber 1, Token.closeParen]) =
        PResult.ok (intLit 1) lx2 := by
  have hbad := test_ofAtom 0 (Lexer.init [Token.openParen, Token.wholeNumber 1,
    Token.wholeNumber 2]).getToken.2 (Token.wholeNumber 1) (Token.wholeNumber 2) [] rfl rfl
    (fun _ => rfl) rfl
  have hgood := test_ofAtom 0 (Lexer.init [Token.openParen, Token.wholeNumber 1,
    Token.closeParen]).getToken.2 (Token.wholeNumber 1) Token.closeParen [] rfl rfl
    (fun _ => rfl) rfl
  obtain ⟨lxb, hb, hsb⟩ := hbad
  obtain ⟨lxg, hg, hsg⟩ := hgood
  refine ⟨((atom_parentheses_group 0).2 (Token.wholeNumber 1) (Token.wholeNumber 2)
      (Token.wholeNumber 3) Token.eol [] rfl rfl rfl rfl (fun _ => rfl)).1 _
      (Lexer.init_stream _),
    ((atom_parentheses_group 0).2 (Token.wholeNumber 1) (Token.wholeNumber 2)
      (Token.wholeNumber 3) Token.eol [] rfl rfl rfl rfl (fun _ => rfl)).2 _
      (Lexer.init_stream _), ⟨lxb.getToken.2, ?_⟩, ⟨lxg.getToken.2, ?_⟩⟩
  · have h := ((atom_parentheses_group 9).1
      (Lexer.init [Token.openParen, Token.wholeNumber 1, Token.wholeNumber 2]) _ lxb rfl hb).2
      (by rw [Lexer.getToken_fst hsb]; rfl)
    rw [h, Lexer.getToken_fst hsb]
  · exact (((atom_parentheses_group 9).1
      (Lexer.init [Token.openParen, Token.wholeNumber 1, Token.closeParen]) _ lxg rfl hg).1
      (by rw [Lexer.getToken_fst hsg]; rfl)).1


/-! ## Prefix operators -/

theorem Token.levels_of_compOp {op : Token} (h : op.isCompOp = true) :
    op.isOpenParen = false ∧
      (op.isMultiplicationOperator || op.isDivisionOperator || op.isModuloOperator) = false ∧
      (op.isAdditionOperator || op.isSubtractionOperator) = false := by
  cases op <;> simp_all [Token.isCompOp, Token.isOpenParen, Token.isMultiplicationOperator,
    Token.isDivisionOperator, Token.isModuloOperator, Token.isAdditionOperator,
    Token.isSubtractionOperator]

theorem Parses.not_test_nest (fuel : Nat) {h : Token} {s out : List Token} {c : ExprNode}
    (hnot : h.isNot = false) (hp : Parses (comparison fuel) (h :: s) c out) :
    ∀ k : Nat, Parses (not_test (fuel + 1 + k))
      (List.replicate k (Token.keyword Keyword.kwNot) ++ h :: s) (notNest k c) out := by
  intro k
  induction k with
  | zero => exact Parses.not_test_of_comparison fuel hnot hp
  | succ k ih =>
    intro lx hs
    have hs1 : lx.stream = Token.keyword Keyword.kwNot ::
        (List.replicate k (Token.keyword Keyword.kwNot) ++ h :: s) := by
      rw [hs]; rfl
    have hfuel : fuel + 1 + (k + 1) = (fuel + 1 + k) + 1 := rfl
    rw [hfuel, not_test_succ, Lexer.getToken_fst hs1]
    simp only [Token.isNot, if_true]
    refine PResult.Yields.bind (ih _ (Lexer.getToken_stream hs1)) ?_
    intro lx2 hs2
    exact ⟨lx2, rfl, hs2⟩

theorem Parses.factor_nest (fuel : Nat) {s out : List Token} {u : ExprNode}
    (hp : Parses (factor fuel) s u out) :
    ∀ k : Nat, Parses (factor (fuel + k)) (List.replicate k Token.minus ++ s) (negNest k u)
      out := by
  intro k
  induction k with
  | zero => exact hp
  | succ k ih =>
    intro lx hs
    have hs1 : lx.stream = Token.minus :: (List.replicate k Token.minus ++ s) := by
      rw [hs]; rfl
    have hfuel : fuel + (k + 1) = (fuel + k) + 1 := rfl
    rw [hfuel, factor_succ, Lexer.getToken_fst hs1]
    simp only [Token.isSubtractionOperator, if_true]
    refine PResult.Yields.bind (ih _ (Lexer.getToken_stream hs1)) ?_
    intro lx2 hs2
    exact ⟨lx2, rfl, hs2⟩

/-- C22: prefix operators are right-recursive.  On k NOT tokens followed by
tokens that `comparison` parses to c, `Parser::not_test` returns k nested
`not` nodes around c; on k `-` tokens followed by tokens that `factor`
parses to u, `Parser::factor` returns k nested `-` nodes around u; in each
unary node the operand is the left child and the right child is absent.  So,
for one-token atoms a, b followed by a token t that ends the expression,
`not a == b` is `not(==(a, b))`, `not a and b` is `and(not(a), b)` and
`- a * b` is `*(-(a), b)`. -/
theorem prefix_operators_nest (fuel : Nat) :
    (∀ (k : Nat) (h : Token) (s out : List Token) (c : ExprNode),
      h.isNot = false → Parses (comparison fuel) (h :: s) c out →
      Parses (not_test (fuel + 1 + k))
        (List.replicate k (Token.keyword Keyword.kwNot) ++ h :: s) (notNest k c) out) ∧
    (∀ (k : Nat) (s out : List Token) (u : ExprNode),
      Parses (factor fuel) s u out →
      Parses (factor (fuel + k)) (List.replicate k Token.minus ++ s) (negNest k u) out) ∧
    (∀ (a b t : Token) (ts : List Token),
      a.isAtom = true → b.isAtom = true → t.isOperator = false →
      (b.isName = true → t.isOpenParen = false) →
      (∀ op : Token, op.isCompOp = true →
        Parses (not_test (fuel + 7)) (Token.keyword Keyword.kwNot :: a :: op :: b :: t :: ts)
          (ExprNode.BooleanExprNode (Token.keyword Keyword.kwNot)
            (some (ExprNode.ComparisonExprNode op (some (ExprNode.ofAtom a))
              (some (ExprNode.ofAtom b)))) none)
          (t :: ts)) ∧
      Parses (and_test (fuel + 8))
        (Token.keyword Keyword.kwNot :: a :: Token.keyword Keyword.kwAnd :: b :: t :: ts)
        (ExprNode.BooleanExprNode (Token.keyword Keyword.kwAnd)
          (some (ExprNode.BooleanExprNode (Token.keyword Keyword.kwNot)
            (some (ExprNode.ofAtom a)) none))
          (some (ExprNode.ofAtom b)))
        (t :: ts) ∧
      Parses (term (fuel + 4)) (Token.minus :: a :: Token.times :: b :: t :: ts)
        (ExprNode.InfixExprNode Token.times
          (some (ExprNode.InfixExprNode Token.minus (some (ExprNode.ofAtom a)) none))
          (some (ExprNode.ofAtom b)))
        (t :: ts)) := by
  refine ⟨fun k h s out c hnot hp => Parses.not_test_nest fuel hnot hp k,
    fun k s out u hp => Parses.factor_nest fuel hp k, ?_⟩
  intro a b t ts ha hb ht hcall
  obtain ⟨hmul, hadd, hcmp, hand, hor⟩ := Token.not_level_of_not_operator ht
  refine ⟨?_, ?_, ?_⟩
  · intro op hop
    obtain ⟨hopen, hopmul, hopadd⟩ := Token.levels_of_compOp hop
    have hcomp : Parses (comparison (fuel + 4 + 1)) (a :: op :: b :: t :: ts)
        (leftFold ExprNode.ComparisonExprNode (ExprNode.ofAtom a) [(op, ExprNode.ofAtom b)])
        (t :: ts) :=
      Parses.comparison_chain (fuel + 4)
        (fun lx hs => arith_expr_ofAtom fuel lx a op _ hs ha (fun _ => hopen) hopmul hopadd)
        (OperandChain.more op _ _ _ [] _ hop
          (fun lx hs => arith_expr_ofAtom fuel lx b t ts hs hb hcall hmul hadd)
          (OperandChain.stop _ _ hcmp))
        (by simp)
    exact Parses.not_test_nest (fuel + 4 + 1) (Token.not_prefix_of_atom ha).1 hcomp 1
  · have hnota : Parses (not_test (fuel + 5 + 1 + 1))
        (List.replicate 1 (Token.keyword Keyword.kwNot) ++
          a :: Token.keyword Keyword.kwAnd :: b :: t :: ts)
        (notNest 1 (ExprNode.ofAtom a)) (Token.keyword Keyword.kwAnd :: b :: t :: ts) :=
      Parses.not_test_nest (fuel + 5) (Token.not_prefix_of_atom ha).1
        (fun lx hs => comparison_ofAtom fuel lx a (Token.keyword Keyword.kwAnd) _ hs ha
          (fun _ => rfl) rfl rfl rfl) 1
    exact Parses.and_chain (fuel + 7) hnota
      (OperandChain.more (Token.keyword Keyword.kwAnd) _ _ _ [] _ rfl
        (fun lx hs => not_test_ofAtom (fuel + 1) lx b t ts hs hb hcall hmul hadd hcmp)
        (OperandChain.stop _ _ hand))
      (by simp)
  · have hnega : Parses (factor (fuel + 2 + 1)) (List.replicate 1 Token.minus ++
          a :: Token.times :: b :: t :: ts)
        (negNest 1 (ExprNode.ofAtom a)) (Token.times :: b :: t :: ts) :=
      Parses.factor_nest (fuel + 2)
        (Parses.factor_atom fuel (t := Token.times) ha (fun _ => rfl)) 1
    exact Parses.term_chain (fuel + 3) hnega
      (OperandChain.more Token.times _ _ _ [] _ rfl
        (Parses.factor_atom (fuel + 1) hb hcall) (OperandChain.stop _ _ hmul))
      (by simp)

/-- C22 (witness): `not not 1 == 2` is `not(not(==(1, 2)))`, `- - 1` is
`-(-(1))`, and `not 1 == 2`, `not 1 and 2`, `- 1 * 2` parse to
`not(==(1, 2))`, `and(not(1), 2)`, `*(-(1), 2)`. -/
theorem prefix_operators_nest_witness :
    (not_test (5 + 1 + 2) (Lexer.init [Token.keyword Keyword.kwNot, Token.keyword Keyword.kwNot,
        Token.wholeNumber 1, Token.compOp "==", Token.wholeNumber 2, Token.eol])).Yields
      (ExprNode.BooleanExprNode (Token.keyword Keyword.kwNot)
        (some (ExprNode.BooleanExprNode (Token.keyword Keyword.kwNot)
          (some (ExprNode.ComparisonExprNode (Token.compOp "==") (some (intLit 1))
            (some (intLit 2)))) none)) none)
      [Token.eol] ∧
    (factor (2 + 2) (Lexer.init [Token.minus, Token.minus, Token.wholeNumber 1,
        Token.eol])).Yields
      (ExprNode.InfixExprNode Token.minus
        (some (ExprNode.InfixExprNode Token.minus (some (intLit 1)) none)) none)
      [Token.eol] ∧
    (not_test (0 + 7) (Lexer.init [Token.keyword Keyword.kwNot, Token.wholeNumber 1,
        Token.compOp "==", Token.wholeNumber 2, Token.eol])).Yields
      (ExprNode.BooleanExprNode (Token.keyword Keyword.kwNot)
        (some (ExprNode.ComparisonExprNode (Token.compOp "==") (some (intLit 1))
          (some (intLit 2)))) none)
      [Token.eol] ∧
    (and_test (0 + 8) (Lexer.init [Token.keyword Keyword.kwNot, Token.wholeNumber 1,
        Token.keyword Keyword.kwAnd, Token.wholeNumber 2, Token.eol])).Yields
      (ExprNode.BooleanExprNode (Token.keyword Keyword.kwAnd)
        (some (ExprNode.BooleanExprNode (Token.keyword Keyword.kwNot) (some (intLit 1)) none))
        (some (intLit 2)))
      [Token.eol] ∧
    (term (0 + 4) (Lexer.init [Token.minus, Token.wholeNumber 1, Token.times,
        Token.wholeNumber 2, Token.eol])).Yields
      (ExprNode.InfixExprNode Token.times
        (some (ExprNode.InfixExprNode Token.minus (some (intLit 1)) none))
        (some (intLit 2)))
      [Token.eol] := by
  have hcomp : Parses (comparison 5)
      (Token.wholeNumber 1 :: [Token.compOp "==", Token.wholeNumber 2, Token.eol])
      (leftFold ExprNode.ComparisonExprNode (intLit 1) [(Token.compOp "==", intLit 2)])
      [Token.eol] :=
    Parses.comparison_chain 4
      (fun lx hs => arith_expr_ofAtom 0 lx (Token.wholeNumber 1) (Token.compOp "==") _ hs rfl
        (fun _ => rfl) rfl rfl)
      (OperandChain.more (Token.compOp "==") _ _ _ [] _ rfl
        (fun lx hs => arith_expr_ofAtom 0 lx (Token.wholeNumber 2) Token.eol [] hs rfl
          (fun _ => rfl) rfl rfl)
        (OperandChain.stop _ _ rfl))
      (by simp)
  have hparts := (prefix_operators_nest 0).2.2 (Token.wholeNumber 1) (Token.wholeNumber 2)
    Token.eol [] rfl rfl rfl (fun _ => rfl)
  exact ⟨(prefix_operators_nest 5).1 2 (Token.wholeNumber 1) _ _ _ rfl hcomp _
      (Lexer.init_stream _),
    (prefix_operators_nest 2).2.1 2 [Token.wholeNumber 1, Token.eol] [Token.eol] (intLit 1)
      (Parses.factor_atom 0 (a := Token.wholeNumber 1) rfl (fun _ => rfl)) _
      (Lexer.init_stream _),
    hparts.1 (Token.compOp "==") rfl _ (Lexer.init_stream _),
    hparts.2.1 _ (Lexer.init_stream _), hparts.2.2 _ (Lexer.init_stream _)⟩


end PyInterp


namespace PyInterp

/-! ## The shapes of an if statement -/

theorem PResult.ok_bind {α β : Type} (v : α) (lx : Lexer) (k : α → Lexer → PResult β) :
    (PResult.ok v lx).bind k = k v lx := rfl

theorem Lexer.getToken_head (x : Lexer) : x.getToken.1 = x.stream.getD 0 Token.eof :=
  Lexer.getToken_peek x

theorem elifLoop_clauses (test : Lexer → PResult ExprNode) (suite : Lexer → PResult Statements)
    {s : List Token} {pairs : List (ExprNode × Statements)} {out : List Token}
    (hc : ElifChain test suite s pairs out) (hout : (out.getD 0 Token.eof).isElIf = false) :
    ∀ (n : Nat) (acc : List (ExprNode × Statements)) (hit : Bool) (x : Lexer),
      pairs.length < n → x.stream = s →
      ∃ y : Lexer, y.stream = out ∧
        elifLoop test suite n acc x.getToken.1 hit x.getToken.2 =
          PResult.ok (acc ++ pairs, y.getToken.1, if pairs.isEmpty then hit else false)
            y.getToken.2 := by
  induction hc with
  | done s =>
    intro n acc hit x hn hs
    cases n with
    | zero => simp at hn
    | succ n =>
      refine ⟨x, hs, ?_⟩
      have htok : x.getToken.1.isElIf = false := by
        rw [Lexer.getToken_head, hs]; exact hout
      rw [elifLoop_succ]
      simp [htok]
  | clause s1 c s2 b s3 pairs out htest hsuite _ ih =>
    intro n acc hit x hn hs
    cases n with
    | zero => simp at hn
    | succ n =>
      obtain ⟨lx1, h1, hs1⟩ := htest _ (Lexer.getToken_stream hs)
      obtain ⟨lx3, h3, hs3⟩ := hsuite _ (Lexer.getToken_stream hs1)
      obtain ⟨y, hy, hloop⟩ := ih hout n (acc ++ [(c, b)]) false lx3
        (by simpa using hn) hs3
      refine ⟨y, hy, ?_⟩
      rw [elifLoop_succ, Lexer.getToken_fst hs, h1]
      simp only [Token.isElIf, if_true, PResult.bind, Lexer.getToken_fst hs1, Token.isColon,
        Bool.not_true, Bool.false_eq_true, if_false, h3, hloop]
      simp

theorem stmtsLoop_not_ungotten (stop : Token → Bool) (stmt : Lexer → PResult Statement) :
    ∀ (n : Nat) (stmts : Statements) (lx : Lexer) (v : Statements) (lx1 : Lexer),
      stmtsLoop stop stmt n stmts lx = PResult.ok v lx1 → lx1.ungotten = false := by
  intro n
  induction n with
  | zero => intro stmts lx v lx1 h; simp [stmtsLoop] at h
  | succ n ih =>
    intro stmts lx v lx1 h
    rw [stmtsLoop_succ] at h
    split at h
    · obtain ⟨s, lx2, -, hk⟩ := PResult.bind_eq_ok h
      exact ih _ _ _ _ hk
    · simp only [PResult.ok.injEq] at h
      rw [← h.2]
      unfold Lexer.getToken
      split
      · rfl
      · split <;> simp_all

theorem suite_not_ungotten
    (func_def : (Lexer → PResult Statements) → Lexer → PResult Statement) (fuel : Nat)
    (lx : Lexer) (v : Statements) (lx1 : Lexer)
    (h : suite func_def fuel lx = PResult.ok v lx1) : lx1.ungotten = false := by
  cases fuel with
  | zero => simp [suite] at h
  | succ fuel =>
    rw [suite_succ] at h
    split at h
    · simp at h
    · split at h
      · simp at h
      · exact stmtsLoop_not_ungotten _ _ _ _ _ _ _ h

theorem Parses.testlist_atom (fuel : Nat) {a t : Token} {ts : List Token}
    (ha : a.isAtom = true) (hcall : a.isName = true → t.isOpenParen = false)
    (ht : t.isOperator = false) (hcomma : t.isComma = false) :
    Parses (testlist (fuel + 10)) (a :: t :: ts) [ExprNode.ofAtom a] (t :: ts) := by
  intro lx hs
  rw [testlist]
  refine PResult.Yields.bind (test_ofAtom fuel lx a t ts hs ha hcall ht) ?_
  intro lx1 hs1
  rw [testlistLoop_succ, Lexer.getToken_fst hs1]
  simp only [hcomma, Bool.false_eq_true, if_false]
  exact ⟨_, rfl, Lexer.getToken_unget_stream hs1⟩

theorem Parses.suite_print
    (func_def : (Lexer → PResult Statements) → Lexer → PResult Statement) (fuel : Nat)
    {a : Token} {rest : List Token} (ha : a.isAtom = true) :
    Parses (suite func_def (fuel + 12))
      (Token.eol :: Token.indent :: Token.keyword Keyword.kwPrint :: a :: Token.eol ::
        Token.dedent :: rest)
      [Statement.PrintStatement [ExprNode.ofAtom a]] rest := by
  intro lx hs
  have s1 := Lexer.getToken_stream hs
  have s2 := Lexer.getToken_stream s1
  have u2 := Lexer.getToken_unget_stream s2
  have u3 := Lexer.getToken_unget_stream u2
  have s3 := Lexer.getToken_stream u3
  rw [suite_succ, Lexer.getToken_fst hs, Lexer.getToken_fst s1, stmtsLoop_succ,
    Lexer.getToken_fst s2, stmt_succ, Lexer.getToken_fst u2, simple_stmt_eq,
    Lexer.getToken_fst u3, print_stmt_eq, Lexer.getToken_fst (Lexer.getToken_unget_stream u3)]
  simp only [Token.isEol, Token.isIndent, Token.isDedent, Token.isFunc, Token.isFor,
    Token.isIf, Token.isPrint, Token.isName, Token.isReturn, Bool.not_true, Bool.not_false,
    Bool.or_self, Bool.or_true, Bool.true_or, Bool.false_eq_true, if_false, if_true]
  have hlist : Parses (testlist (fuel + 10)) (a :: Token.eol :: Token.dedent :: rest)
      [ExprNode.ofAtom a] (Token.eol :: Token.dedent :: rest) :=
    Parses.testlist_atom fuel ha (fun _ => rfl) rfl rfl
  obtain ⟨lx5, h5, hs5⟩ := hlist _ (Lexer.getToken_stream (Lexer.getToken_unget_stream u3))
  rw [h5]
  have s6 := Lexer.getToken_stream hs5
  simp only [PResult.bind, getEOL_eq, Lexer.getToken_fst hs5, Token.isEol, Bool.not_true,
    Bool.false_eq_true, if_false, List.nil_append]
  rw [stmtsLoop_succ, Lexer.getToken_fst s6]
  simp only [Token.isDedent, Bool.not_true, Bool.false_eq_true, if_false]
  exact ⟨_, rfl, Lexer.getToken_stream s6⟩

/-- C23: `Parser::if_stmt` leaves the stream just after the statement in all
four shapes.  Let the stream hold `if`, a condition that `test` parses up to
the colon, a block that `suite` parses, and then n >= 0 elif clauses (n below
the budget), after which the tokens `out` remain.  If `out` starts with
neither ELIF nor ELSE, `if_stmt` returns the IfStatement with the primary
pair, the n elif pairs in source order (no elif member when n = 0) and no
else block, the token it peeked is pushed back, and the lexer delivers
exactly `out` next.  If `out` is `else :` followed by a block that `suite`
parses, leaving `rest`, `if_stmt` returns the same IfStatement with that else
block, nothing is pushed back, and the lexer delivers `rest` next. -/
theorem if_stmt_shapes
    (func_def : (Lexer → PResult Statements) → Lexer → PResult Statement) (fuel : Nat)
    (lx : Lexer) (s0 s1 s2 out : List Token) (c : ExprNode) (b : Statements)
    (pairs : List (ExprNode × Statements))
    (hs : lx.stream = Token.keyword Keyword.kwIf :: s0)
    (hcond : Parses (test fuel) s0 c (Token.colon :: s1))
    (hblock : Parses (suite func_def fuel) s1 b s2)
    (hchain : ElifChain (test fuel) (suite func_def fuel) s2 pairs out)
    (hn : pairs.length < fuel) :
    ((out.getD 0 Token.eof).isElIf = false → (out.getD 0 Token.eof).isElse = false →
      ∃ lx1 : Lexer,
        if_stmt func_def (fuel + 1) lx =
          PResult.ok (Statement.IfStatement (some (c, b)) (elifMember pairs) none) lx1 ∧
        lx1.ungotten = true ∧ ∀ i : Nat, lx1.peek i = out.getD i Token.eof) ∧
    (∀ (s3 : List Token) (eb : Statements) (rest : List Token),
      out = Token.keyword Keyword.kwElse :: Token.colon :: s3 →
      Parses (suite func_def fuel) s3 eb rest →
      ∃ lx1 : Lexer,
        if_stmt func_def (fuel + 1) lx =
          PResult.ok (Statement.IfStatement (some (c, b)) (elifMember pairs) (some eb)) lx1 ∧
        lx1.ungotten = false ∧ lx1.stream = rest) := by
  obtain ⟨lx2, h2, hs2⟩ := hcond _ (Lexer.getToken_stream hs)
  obtain ⟨lx4, h4, hs4⟩ := hblock _ (Lexer.getToken_stream hs2)
  have hafter : (out.getD 0 Token.eof).isElIf = false →
      ∃ y : Lexer, y.stream = out ∧
        (if lx4.getToken.1.isElIf then
            (elifLoop (test fuel) (suite func_def fuel) fuel [] lx4.getToken.1 true
              lx4.getToken.2).bind fun r lx6 => PResult.ok (some r.1, r.2.1, r.2.2) lx6
          else
            (PResult.ok (none, lx4.getToken.1, false) lx4.getToken.2 :
              PResult (Option (List (ExprNode × Statements)) × Token × Bool))) =
          PResult.ok (elifMember pairs, y.getToken.1, false) y.getToken.2 := by
    intro hout
    cases hchain with
    | done s =>
      have htok : lx4.getToken.1.isElIf = false := by
        rw [Lexer.getToken_head, hs4]; exact hout
      exact ⟨lx4, hs4, by simp [htok, elifMember]⟩
    | clause s1 c1 s2' b1 s3 pairs1 _ htest hsuite hrest =>
      obtain ⟨y, hy, hloop⟩ := elifLoop_clauses (test fuel) (suite func_def fuel)
        (ElifChain.clause s1 c1 s2' b1 s3 pairs1 out htest hsuite hrest) hout fuel [] true lx4
        hn hs4
      refine ⟨y, hy, ?_⟩
      rw [Lexer.getToken_fst hs4] at hloop ⊢
      rw [hloop]
      simp [Token.isElIf, PResult.bind, elifMember]
  have hfinish : ∀ (y : Lexer)
      (tail : PResult (Option Statements × Bool)),
      (if lx4.getToken.1.isElIf then
            (elifLoop (test fuel) (suite func_def fuel) fuel [] lx4.getToken.1 true
              lx4.getToken.2).bind fun r lx6 => PResult.ok (some r.1, r.2.1, r.2.2) lx6
          else
            (PResult.ok (none, lx4.getToken.1, false) lx4.getToken.2 :
              PResult (Option (List (ExprNode × Statements)) × Token × Bool))) =
          PResult.ok (elifMember pairs, y.getToken.1, false) y.getToken.2 →
      (if y.getToken.1.isElse then
          if !y.getToken.2.getToken.1.isColon then
            PResult.die "Parser::if_stmt" "Expected : keyword, instead got"
              y.getToken.2.getToken.1 y.getToken.2.getToken.2
          else
            (suite func_def fuel y.getToken.2.getToken.2).bind fun elseStmts lx8 =>
              PResult.ok (some elseStmts, true) lx8
        else
          (PResult.ok (none, false) y.getToken.2 : PResult (Option Statements × Bool))) =
        tail →
      if_stmt func_def (fuel + 1) lx =
        tail.bind fun e lx7 =>
          PResult.ok (Statement.IfStatement (some (c, b)) (elifMember pairs) e.1)
            (if !e.2 then lx7.ungetToken else lx7) := by
    intro y tail hy htail
    have hif : (Token.keyword Keyword.kwIf).isIf = true := rfl
    have hcolon : Token.colon.isColon = true := rfl
    rw [if_stmt_succ, Lexer.getToken_fst hs]
    simp only [hif, Bool.not_true, Bool.false_eq_true, if_false]
    rw [h2, PResult.ok_bind, Lexer.getToken_fst hs2]
    simp only [hcolon, Bool.not_true, Bool.false_eq_true, if_false]
    rw [h4, PResult.ok_bind, hy, PResult.ok_bind]
    dsimp only
    rw [htail]
  refine ⟨?_, ?_⟩
  · intro hout helse
    obtain ⟨y, hy, hyeq⟩ := hafter hout
    have htok : y.getToken.1.isElse = false := by
      rw [Lexer.getToken_head, hy]; exact helse
    refine ⟨y.getToken.2.ungetToken, ?_, rfl, ?_⟩
    · rw [hfinish y (PResult.ok (none, false) y.getToken.2) hyeq (by simp [htok])]
      rfl
    · intro i
      rw [Lexer.peek_getToken_unget]
      unfold Lexer.peek
      rw [hy]
  · intro s3 eb rest hout hels
    subst hout
    obtain ⟨y, hy, hyeq⟩ := hafter rfl
    have t1 := Lexer.getToken_stream hy
    obtain ⟨lx8, h8, hs8⟩ := hels _ (Lexer.getToken_stream t1)
    refine ⟨lx8, ?_, suite_not_ungotten func_def fuel _ _ _ h8, hs8⟩
    rw [hfinish y (PResult.ok (some eb, true) lx8) hyeq
      (by simp [Lexer.getToken_fst hy, Lexer.getToken_fst t1, Token.isElse, Token.isColon, h8,
        PResult.bind])]
    rfl


/-- C23 (witness): `if 1:` with the block `print 1` at the end of the input
gives an IfStatement without elif and else parts, with the peeked
end-of-file pushed back; with an `elif 2:` clause and an `else:` clause
before the token x it gives the IfStatement with one elif pair and the else
block, and x is the next token. -/
theorem if_stmt_shapes_witness :
    (∃ lx1 : Lexer,
      if_stmt sampleFuncDef (12 + 1)
          (Lexer.init
            [Token.keyword Keyword.kwIf, Token.wholeNumber 1, Token.colon, Token.eol,
              Token.indent, Token.keyword Keyword.kwPrint, Token.wholeNumber 1, Token.eol,
              Token.dedent]) =
        PResult.ok
          (Statement.IfStatement (some (intLit 1, [Statement.PrintStatement [intLit 1]])) none
            none) lx1 ∧
      lx1.ungotten = true ∧ ∀ i : Nat, lx1.peek i = ([] : List Token).getD i Token.eof) ∧
    ∃ lx1 : Lexer,
      if_stmt sampleFuncDef (12 + 1)
          (Lexer.init
            [Token.keyword Keyword.kwIf, Token.wholeNumber 1, Token.colon, Token.eol,
              Token.indent, Token.keyword Keyword.kwPrint, Token.wholeNumber 1, Token.eol,
              Token.dedent, Token.keyword Keyword.kwElif, Token.wholeNumber 2, Token.colon,
              Token.eol, Token.indent, Token.keyword Keyword.kwPrint, Token.wholeNumber 2,
              Token.eol, Token.dedent, Token.keyword Keyword.kwElse, Token.colon, Token.eol,
              Token.indent, Token.keyword Keyword.kwPrint, Token.wholeNumber 3, Token.eol,
              Token.dedent, Token.name "x"]) =
        PResult.ok
          (Statement.IfStatement (some (intLit 1, [Statement.PrintStatement [intLit 1]]))
            (some [(intLit 2, [Statement.PrintStatement [intLit 2]])])
            (some [Statement.PrintStatement [intLit 3]])) lx1 ∧
      lx1.ungotten = false ∧ lx1.stream = [Token.name "x"] :=
  ⟨(if_stmt_shapes sampleFuncDef 12 _ _ _ _ [] (intLit 1) [Statement.PrintStatement [intLit 1]]
      [] (Lexer.init_stream _)
      (fun lx hs => test_ofAtom 3 lx (Token.wholeNumber 1) Token.colon _ hs rfl (fun _ => rfl)
        rfl)
      (Parses.suite_print sampleFuncDef 0 (a := Token.wholeNumber 1) rfl)
      (ElifChain.done _) (by decide)).1 rfl rfl,
    (if_stmt_shapes sampleFuncDef 12 _ _ _ _
      (Token.keyword Keyword.kwElse :: Token.colon :: Token.eol :: Token.indent ::
        Token.keyword Keyword.kwPrint :: Token.wholeNumber 3 :: Token.eol :: Token.dedent ::
        [Token.name "x"])
      (intLit 1) [Statement.PrintStatement [intLit 1]]
      [(intLit 2, [Statement.PrintStatement [intLit 2]])] (Lexer.init_stream _)
      (fun lx hs => test_ofAtom 3 lx (Token.wholeNumber 1) Token.colon _ hs rfl (fun _ => rfl)
        rfl)
      (Parses.suite_print sampleFuncDef 0 (a := Token.wholeNumber 1) rfl)
      (ElifChain.clause _ (intLit 2) _ [Statement.PrintStatement [intLit 2]] _ [] _
        (fun lx hs => test_ofAtom 3 lx (Token.wholeNumber 2) Token.colon _ hs rfl
          (fun _ => rfl) rfl)
        (Parses.suite_print sampleFuncDef 0 (a := Token.wholeNumber 2) rfl)
        (ElifChain.done _))
      (by decide)).2 _ [Statement.PrintStatement [intLit 3]] [Token.name "x"] rfl
      (Parses.suite_print sampleFuncDef 0 (a := Token.wholeNumber 3) rfl)⟩


end PyInterp


namespace PyInterp

/-! ## Tokens that remain -/

theorem tokensBeforeEnd_cons_le (t : Token) (ts : List Token) :
    tokensBeforeEnd ts ≤ tokensBeforeEnd (t :: ts) := by
  simp only [tokensBeforeEnd]
  split
  · next h => omega
  · omega

theorem tokensBeforeEnd_cons_of_not_eof (t : Token) (ts : List Token) (h : t.isEof = false) :
    tokensBeforeEnd (t :: ts) = tokensBeforeEnd ts + 1 := by
  simp [tokensBeforeEnd, h]

theorem tokensBeforeEnd_le_length (ts : List Token) : tokensBeforeEnd ts ≤ ts.length := by
  induction ts with
  | nil => simp [tokensBeforeEnd]
  | cons t ts ih =>
    simp only [tokensBeforeEnd, List.length_cons]
    split <;> omega

theorem Lexer.remaining_init (toks : List Token) :
    (Lexer.init toks).remaining ≤ toks.length := by
  simp only [Lexer.remaining, Lexer.init_stream]
  exact tokensBeforeEnd_le_length toks

theorem Lexer.remaining_getToken_le (lx : Lexer) : lx.getToken.2.remaining ≤ lx.remaining := by
  obtain ⟨input, last, ungotten, ops⟩ := lx
  cases ungotten <;> cases input <;>
    simp [Lexer.getToken, Lexer.remaining, Lexer.stream, tokensBeforeEnd_cons_le]

theorem Lexer.remaining_getToken_unget (lx : Lexer) :
    lx.getToken.2.ungetToken.remaining = lx.remaining := by
  obtain ⟨input, last, ungotten, ops⟩ := lx
  cases ungotten <;> cases input <;>
    simp [Lexer.getToken, Lexer.ungetToken, Lexer.remaining, Lexer.stream, tokensBeforeEnd,
      Token.isEof]

theorem Lexer.remaining_getToken_lt (lx : Lexer) (h : lx.getToken.1.isEof = false) :
    lx.getToken.2.remaining < lx.remaining := by
  obtain ⟨input, last, ungotten, ops⟩ := lx
  cases ungotten <;> cases input <;>
    simp_all [Lexer.getToken, Lexer.remaining, Lexer.stream, tokensBeforeEnd, Token.isEof]

theorem Lexer.remaining_invariant :
    LexerInvariant fun a b : Lexer => b.remaining ≤ a.remaining where
  refl := fun _ => Nat.le_refl _
  trans := fun _ _ _ h1 h2 => Nat.le_trans h2 h1
  get := Lexer.remaining_getToken_le
  getUnget := fun lx => Nat.le_of_eq (Lexer.remaining_getToken_unget lx)

theorem PResult.EndsIn.remaining_le {α : Type} {r : PResult α} {lx : Lexer}
    (h : r.EndsIn (fun a b : Lexer => b.remaining ≤ a.remaining) lx) {v : α} {lx1 : Lexer}
    (hr : r = PResult.ok v lx1) : lx1.remaining ≤ lx.remaining :=
  h lx1 (by rw [hr]; rfl)

/-! ## Every production consumes a token -/

theorem Token.not_eof_of_isNot {t : Token} (h : t.isNot = true) : t.isEof = false := by
  cases t <;> simp_all [Token.isNot, Token.isEof]

theorem Token.not_eof_of_isOpenParen {t : Token} (h : t.isOpenParen = true) :
    t.isEof = false := by
  cases t <;> simp_all [Token.isOpenParen, Token.isEof]

theorem Token.not_eof_of_isMinus {t : Token} (h : t.isSubtractionOperator = true) :
    t.isEof = false := by
  cases t <;> simp_all [Token.isSubtractionOperator, Token.isEof]

theorem Token.not_eof_of_isComma {t : Token} (h : t.isComma = true) : t.isEof = false := by
  cases t <;> simp_all [Token.isComma, Token.isEof]

theorem Token.not_eof_of_multiplicative {t : Token}
    (h : (t.isMultiplicationOperator || t.isDivisionOperator || t.isModuloOperator) = true) :
    t.isEof = false := by
  cases t <;> simp_all [Token.isMultiplicationOperator, Token.isDivisionOperator,
    Token.isModuloOperator, Token.isEof]

theorem Token.not_eof_of_additive {t : Token}
    (h : (t.isAdditionOperator || t.isSubtractionOperator) = true) : t.isEof = false := by
  cases t <;> simp_all [Token.isAdditionOperator, Token.isSubtractionOperator, Token.isEof]

theorem Token.not_eof_of_isCompOp {t : Token} (h : t.isCompOp = true) : t.isEof = false := by
  cases t <;> simp_all [Token.isCompOp, Token.isEof]

theorem Token.not_eof_of_isAnd {t : Token} (h : t.isAnd = true) : t.isEof = false := by
  cases t <;> simp_all [Token.isAnd, Token.isEof]

theorem Token.not_eof_of_isOr {t : Token} (h : t.isOr = true) : t.isEof = false := by
  cases t <;> simp_all [Token.isOr, Token.isEof]

theorem PResult.consumes_of_lt {α : Type} {r : PResult α} {lx lx0 : Lexer}
    (hlt : lx0.remaining < lx.remaining)
    (h : r.EndsIn (fun a b : Lexer => b.remaining ≤ a.remaining) lx0) : r.Consumes lx := by
  intro v lx1 hr
  have := PResult.EndsIn.remaining_le h hr
  omega

theorem PResult.consumes_of_eq {α : Type} {r : PResult α} {lx lx0 : Lexer}
    (heq : lx0.remaining = lx.remaining) (h : r.Consumes lx0) : r.Consumes lx := by
  intro v lx1 hr
  have := h v lx1 hr
  omega

theorem PResult.consumes_bind {α β : Type} {r : PResult α} {k : α → Lexer → PResult β}
    {lx : Lexer} (h : r.Consumes lx)
    (hk : ∀ (v : α) (lx1 : Lexer),
      (k v lx1).EndsIn (fun a b : Lexer => b.remaining ≤ a.remaining) lx1) :
    (r.bind k).Consumes lx := by
  intro w lx2 hr
  obtain ⟨v, lx1, h1, h2⟩ := PResult.bind_eq_ok hr
  have := h v lx1 h1
  have := PResult.EndsIn.remaining_le (hk v lx1) h2
  omega

theorem PResult.consumes_die {α : Type} (s m : String) (t : Token) (lx0 lx : Lexer) :
    (PResult.die s m t lx0 : PResult α).Consumes lx := by
  intro v lx1 h
  simp at h

theorem PResult.consumes_outOfFuel {α : Type} (lx : Lexer) :
    (PResult.outOfFuel : PResult α).Consumes lx := by
  intro v lx1 h
  simp at h

theorem PResult.consumes_ok {α : Type} (v : α) {lx0 lx : Lexer}
    (h : lx0.remaining < lx.remaining) : (PResult.ok v lx0).Consumes lx := by
  intro v1 lx1 h1
  simp only [PResult.ok.injEq] at h1
  rw [← h1.2]; exact h

theorem Token.not_eof_of_atom_start {t : Token}
    (h : (t.isName || t.isWholeNumber || t.isString || t.isFloat || t.isOpenParen) = true) :
    t.isEof = false := by
  cases t <;> simp_all [Token.isName, Token.isWholeNumber, Token.isString, Token.isFloat,
    Token.isOpenParen, Token.isEof]

theorem expression_consumes :
    ∀ fuel : Nat,
      (∀ lx : Lexer, (testlist fuel lx).Consumes lx) ∧
      (∀ lx : Lexer, (test fuel lx).Consumes lx) ∧
      (∀ lx : Lexer, (or_test fuel lx).Consumes lx) ∧
      (∀ lx : Lexer, (and_test fuel lx).Consumes lx) ∧
      (∀ lx : Lexer, (not_test fuel lx).Consumes lx) ∧
      (∀ lx : Lexer, (comparison fuel lx).Consumes lx) ∧
      (∀ lx : Lexer, (arith_expr fuel lx).Consumes lx) ∧
      (∀ lx : Lexer, (term fuel lx).Consumes lx) ∧
      (∀ (id : Token) (lx : Lexer), (call fuel id lx).Consumes lx) ∧
      (∀ lx : Lexer, (factor fuel lx).Consumes lx) ∧
      (∀ lx : Lexer, (atom fuel lx).Consumes lx) := by
  have hR := Lexer.remaining_invariant
  intro fuel
  induction fuel with
  | zero =>
    refine ⟨?_, ?_, ?_, ?_, ?_, ?_, ?_, ?_, ?_, ?_, ?_⟩
    · intro lx; rw [testlist]; exact PResult.consumes_outOfFuel lx
    · intro lx; rw [test]; exact PResult.consumes_outOfFuel lx
    · intro lx; rw [or_test]; exact PResult.consumes_outOfFuel lx
    · intro lx; rw [and_test]; exact PResult.consumes_outOfFuel lx
    · intro lx; rw [not_test]; exact PResult.consumes_outOfFuel lx
    · intro lx; rw [comparison]; exact PResult.consumes_outOfFuel lx
    · intro lx; rw [arith_expr]; exact PResult.consumes_outOfFuel lx
    · intro lx; rw [term]; exact PResult.consumes_outOfFuel lx
    · intro id lx; rw [call]; exact PResult.consumes_outOfFuel lx
    · intro lx; rw [factor]; exact PResult.consumes_outOfFuel lx
    · intro lx; rw [atom]; exact PResult.consumes_outOfFuel lx
  | succ fuel ih =>
    obtain ⟨hTestlist, hTest, hOr, hAnd, hNot, hCmp, hArith, hTerm, hCall, hFactor, hAtom⟩ := ih
    obtain ⟨kTestlist, kTest, kOr, kAnd, kNot, kCmp, kArith, kTerm, kCall, kFactor, kAtom⟩ :=
      expression_endsIn hR fuel
    refine ⟨?_, ?_, ?_, ?_, ?_, ?_, ?_, ?_, ?_, ?_, ?_⟩
    · intro lx
      rw [testlist]
      exact PResult.consumes_bind (hTest lx) fun e lx1 =>
        testlistLoop_endsIn hR _ kTest fuel _ lx1
    · intro lx; rw [test]; exact hOr lx
    · intro lx
      rw [or_test]
      exact PResult.consumes_bind (hAnd lx) fun left lx1 =>
        binaryLoop_endsIn hR _ _ _ kAnd fuel left lx1
    · intro lx
      rw [and_test]
      exact PResult.consumes_bind (hNot lx) fun left lx1 =>
        binaryLoop_endsIn hR _ _ _ kNot fuel left lx1
    · intro lx
      rw [not_test_succ]
      split
      · next hnot =>
        have hne : lx.getToken.1.isEof = false := Token.not_eof_of_isNot hnot
        exact PResult.consumes_of_lt (Lexer.remaining_getToken_lt lx hne)
          (PResult.EndsIn.andThen hR (kNot _) fun operand lx2 _ =>
            PResult.EndsIn.of_ok _ (hR.refl lx2))
      · exact PResult.consumes_of_eq (Lexer.remaining_getToken_unget lx) (hCmp _)
    · intro lx
      rw [comparison]
      exact PResult.consumes_bind (hArith lx) fun left lx1 =>
        binaryLoop_endsIn hR _ _ _ kArith fuel left lx1
    · intro lx
      rw [arith_expr]
      exact PResult.consumes_bind (hTerm lx) fun left lx1 =>
        binaryLoop_endsIn hR _ _ _ kTerm fuel left lx1
    · intro lx
      rw [term]
      exact PResult.consumes_bind (hFactor lx) fun left lx1 =>
        binaryLoop_endsIn hR _ _ _ kFactor fuel left lx1
    · intro id lx
      rw [call_succ]
      split
      · exact PResult.consumes_die _ _ _ _ _
      · next hopen =>
        have hne : lx.getToken.1.isEof = false :=
          Token.not_eof_of_isOpenParen (by simpa using hopen)
        refine PResult.consumes_of_lt (Lexer.remaining_getToken_lt lx hne)
          (PResult.EndsIn.andThen hR (kTestlist _) fun tlist lx2 _ => ?_)
        split
        · exact PResult.EndsIn.of_die _ _ _ (hR.get lx2)
        · exact PResult.EndsIn.of_ok _ (hR.get lx2)
    · intro lx
      rw [factor_succ]
      split
      · next hminus =>
        have hne : lx.getToken.1.isEof = false := Token.not_eof_of_isMinus hminus
        exact PResult.consumes_of_lt (Lexer.remaining_getToken_lt lx hne)
          (PResult.EndsIn.andThen hR (kFactor _) fun operand lx2 _ =>
            PResult.EndsIn.of_ok _ (hR.refl lx2))
      · refine PResult.consumes_of_eq (Lexer.remaining_getToken_unget lx)
          (PResult.consumes_bind (hAtom _) fun left lx2 => ?_)
        split
        · split
          · exact PResult.EndsIn.after hR (hR.getUnget lx2) (kCall _ _)
          · exact PResult.EndsIn.of_ok _ (hR.getUnget lx2)
        · exact PResult.EndsIn.of_ok _ (hR.refl lx2)
    · intro lx
      rw [atom_succ]
      by_cases hstart : (lx.getToken.1.isName || lx.getToken.1.isWholeNumber ||
          lx.getToken.1.isString || lx.getToken.1.isFloat || lx.getToken.1.isOpenParen) = true
      · have hlt := Lexer.remaining_getToken_lt lx (Token.not_eof_of_atom_start hstart)
        split
        · exact PResult.consumes_ok _ hlt
        · split
          · exact PResult.consumes_ok _ hlt
          · split
            · exact PResult.consumes_ok _ hlt
            · split
              · exact PResult.consumes_ok _ hlt
              · split
                · refine PResult.consumes_of_lt hlt
                    (PResult.EndsIn.andThen hR (kTest _) fun p lx2 _ => ?_)
                  split
                  · exact PResult.EndsIn.of_die _ _ _ (hR.get lx2)
                  · exact PResult.EndsIn.of_ok _ (hR.get lx2)
                · exact PResult.consumes_die _ _ _ _ _
      · simp only [Bool.or_eq_true, not_or, Bool.not_eq_true] at hstart
        obtain ⟨⟨⟨⟨h1, h2⟩, h3⟩, h4⟩, h5⟩ := hstart
        simp only [h1, h2, h3, h4, h5, Bool.false_eq_true, if_false]
        exact PResult.consumes_die _ _ _ _ _


/-! ## Termination of the expression productions -/

theorem PResult.terminates_bind {α β : Type} {r : PResult α} {k : α → Lexer → PResult β}
    (h : r.Terminates) (hk : ∀ (v : α) (lx1 : Lexer), r = PResult.ok v lx1 →
      (k v lx1).Terminates) : (r.bind k).Terminates := by
  cases r with
  | ok v lx1 => exact hk v lx1 rfl
  | die s m t lx1 => simp [PResult.bind, PResult.Terminates]
  | outOfFuel => exact absurd rfl h

theorem PResult.terminates_ok {α : Type} (v : α) (lx : Lexer) :
    (PResult.ok v lx).Terminates := by
  simp [PResult.Terminates]

theorem PResult.terminates_die {α : Type} (s m : String) (t : Token) (lx : Lexer) :
    (PResult.die s m t lx : PResult α).Terminates := by
  simp [PResult.Terminates]

theorem binaryLoop_terminates (isOp : Token → Bool)
    (mk : Token → Option ExprNode → Option ExprNode → ExprNode)
    (operand : Lexer → PResult ExprNode)
    (hop : ∀ t : Token, isOp t = true → t.isEof = false)
    (hkeep : ∀ lx : Lexer,
      (operand lx).EndsIn (fun a b : Lexer => b.remaining ≤ a.remaining) lx) :
    ∀ (k : Nat) (left : ExprNode) (lx : Lexer), lx.remaining < k →
      (∀ lx1 : Lexer, lx1.remaining < lx.remaining → (operand lx1).Terminates) →
      (binaryLoop isOp mk operand k left lx).Terminates := by
  intro k
  induction k with
  | zero => intro left lx hk; omega
  | succ k ih =>
    intro left lx hk hterm
    rw [binaryLoop_succ]
    split
    · next hisOp =>
      have hlt := Lexer.remaining_getToken_lt lx (hop _ hisOp)
      refine PResult.terminates_bind (hterm _ hlt) fun right lx2 hr => ?_
      have hle := PResult.EndsIn.remaining_le (hkeep _) hr
      exact ih _ lx2 (by omega) fun lx1 h1 => hterm lx1 (by omega)
    · exact PResult.terminates_ok _ _

theorem testlistLoop_terminates (test : Lexer → PResult ExprNode)
    (hkeep : ∀ lx : Lexer, (test lx).EndsIn (fun a b : Lexer => b.remaining ≤ a.remaining) lx) :
    ∀ (k : Nat) (p : List ExprNode) (lx : Lexer), lx.remaining < k →
      (∀ lx1 : Lexer, lx1.remaining < lx.remaining → (test lx1).Terminates) →
      (testlistLoop test k p lx).Terminates := by
  intro k
  induction k with
  | zero => intro p lx hk; omega
  | succ k ih =>
    intro p lx hk hterm
    rw [testlistLoop_succ]
    split
    · next hcomma =>
      have hne : lx.getToken.1.isEof = false := Token.not_eof_of_isComma hcomma
      have hlt := Lexer.remaining_getToken_lt lx hne
      refine PResult.terminates_bind (hterm _ hlt) fun e lx2 hr => ?_
      have hle := PResult.EndsIn.remaining_le (hkeep _) hr
      exact ih _ lx2 (by omega) fun lx1 h1 => hterm lx1 (by omega)
    · exact PResult.terminates_ok _ _

theorem expression_terminates :
    ∀ (n : Nat) (lx : Lexer), lx.remaining ≤ n →
      (∀ fuel : Nat, 11 * n + 1 ≤ fuel → (atom fuel lx).Terminates) ∧
      (∀ fuel : Nat, 11 * n + 2 ≤ fuel → (factor fuel lx).Terminates) ∧
      (∀ fuel : Nat, 11 * n + 3 ≤ fuel → (term fuel lx).Terminates) ∧
      (∀ fuel : Nat, 11 * n + 4 ≤ fuel → (arith_expr fuel lx).Terminates) ∧
      (∀ fuel : Nat, 11 * n + 5 ≤ fuel → (comparison fuel lx).Terminates) ∧
      (∀ fuel : Nat, 11 * n + 6 ≤ fuel → (not_test fuel lx).Terminates) ∧
      (∀ fuel : Nat, 11 * n + 7 ≤ fuel → (and_test fuel lx).Terminates) ∧
      (∀ fuel : Nat, 11 * n + 8 ≤ fuel → (or_test fuel lx).Terminates) ∧
      (∀ fuel : Nat, 11 * n + 9 ≤ fuel → (test fuel lx).Terminates) ∧
      (∀ fuel : Nat, 11 * n + 10 ≤ fuel → (testlist fuel lx).Terminates) ∧
      (∀ (fuel : Nat) (id : Token), 11 * n + 11 ≤ fuel → (call fuel id lx).Terminates) := by
  have hR := Lexer.remaining_invariant
  intro n
  induction n using Nat.strong_induction_on with
  | _ n ih =>
    have hAtom : ∀ lx : Lexer, lx.remaining ≤ n → ∀ fuel : Nat, 11 * n + 1 ≤ fuel →
        (atom fuel lx).Terminates := by
      intro lx hlx fuel hfuel
      obtain ⟨f, rfl⟩ : ∃ f, fuel = f + 1 := ⟨fuel - 1, by omega⟩
      rw [atom_succ]
      split
      · exact PResult.terminates_ok _ _
      · split
        · exact PResult.terminates_ok _ _
        · split
          · exact PResult.terminates_ok _ _
          · split
            · exact PResult.terminates_ok _ _
            · split
              · next hopen =>
                have hne : lx.getToken.1.isEof = false := Token.not_eof_of_isOpenParen hopen
                have hlt := Lexer.remaining_getToken_lt lx hne
                have hm : lx.getToken.2.remaining < n := by omega
                refine PResult.terminates_bind
                  ((ih _ hm _ (Nat.le_refl _)).2.2.2.2.2.2.2.2.1 f (by omega)) fun p lx2 _ => ?_
                split
                · exact PResult.terminates_die _ _ _ _
                · exact PResult.terminates_ok _ _
              · exact PResult.terminates_die _ _ _ _
    have hCallLow : ∀ lx : Lexer, lx.remaining < n → ∀ (fuel : Nat) (id : Token),
        11 * n ≤ fuel → (call fuel id lx).Terminates := by
      intro lx hlx fuel id hfuel
      exact (ih _ hlx _ (Nat.le_refl _)).2.2.2.2.2.2.2.2.2.2 fuel id (by omega)
    have hFactor : ∀ lx : Lexer, lx.remaining ≤ n → ∀ fuel : Nat, 11 * n + 2 ≤ fuel →
        (factor fuel lx).Terminates := by
      intro lx hlx fuel hfuel
      obtain ⟨f, rfl⟩ : ∃ f, fuel = f + 1 := ⟨fuel - 1, by omega⟩
      rw [factor_succ]
      split
      · next hminus =>
        have hne : lx.getToken.1.isEof = false := Token.not_eof_of_isMinus hminus
        have hlt := Lexer.remaining_getToken_lt lx hne
        have hm : lx.getToken.2.remaining < n := by omega
        exact PResult.terminates_bind ((ih _ hm _ (Nat.le_refl _)).2.1 f (by omega))
          fun operand lx2 _ => PResult.terminates_ok _ _
      · have heq := Lexer.remaining_getToken_unget lx
        refine PResult.terminates_bind (hAtom _ (by omega) f (by omega)) fun left lx2 hr => ?_
        have hlt := (expression_consumes f).2.2.2.2.2.2.2.2.2.2 _ _ _ hr
        split
        · split
          · exact hCallLow _ (by rw [Lexer.remaining_getToken_unget]; omega) f _ (by omega)
          · exact PResult.terminates_ok _ _
        · exact PResult.terminates_ok _ _
    have hLevel : ∀ (isOp : Token → Bool)
        (mk : Token → Option ExprNode → Option ExprNode → ExprNode)
        (operand : Nat → Lexer → PResult ExprNode) (c : Nat), 1 ≤ c →
        (∀ t : Token, isOp t = true → t.isEof = false) →
        (∀ (f : Nat) (lx : Lexer),
          (operand f lx).EndsIn (fun a b : Lexer => b.remaining ≤ a.remaining) lx) →
        (∀ lx : Lexer, lx.remaining ≤ n → ∀ fuel : Nat, 11 * n + c ≤ fuel →
          (operand fuel lx).Terminates) →
        ∀ lx : Lexer, lx.remaining ≤ n → ∀ f : Nat, 11 * n + c ≤ f →
          ((operand f lx).bind fun left lx1 =>
            binaryLoop isOp mk (operand f) f left lx1).Terminates := by
      intro isOp mk operand c hc hop hkeep hoperand lx hlx f hf
      refine PResult.terminates_bind (hoperand lx hlx f hf) fun left lx1 hr => ?_
      have hle := PResult.EndsIn.remaining_le (hkeep f lx) hr
      exact binaryLoop_terminates isOp mk (operand f) hop (hkeep f) f left lx1 (by omega)
        fun lx2 h2 => hoperand lx2 (by omega) f hf
    have hTerm : ∀ lx : Lexer, lx.remaining ≤ n → ∀ fuel : Nat, 11 * n + 3 ≤ fuel →
        (term fuel lx).Terminates := by
      intro lx hlx fuel hfuel
      obtain ⟨f, rfl⟩ : ∃ f, fuel = f + 1 := ⟨fuel - 1, by omega⟩
      rw [term]
      exact hLevel _ _ factor 2 (by omega)
        (fun t ht => Token.not_eof_of_multiplicative ht)
        (fun f lx => (expression_endsIn hR f).2.2.2.2.2.2.2.2.2.1 lx) hFactor lx hlx f
        (by omega)
    have hArith : ∀ lx : Lexer, lx.remaining ≤ n → ∀ fuel : Nat, 11 * n + 4 ≤ fuel →
        (arith_expr fuel lx).Terminates := by
      intro lx hlx fuel hfuel
      obtain ⟨f, rfl⟩ : ∃ f, fuel = f + 1 := ⟨fuel - 1, by omega⟩
      rw [arith_expr]
      exact hLevel _ _ term 3 (by omega)
        (fun t ht => Token.not_eof_of_additive ht)
        (fun f lx => (expression_endsIn hR f).2.2.2.2.2.2.2.1 lx) hTerm lx hlx f (by omega)
    have hCmp : ∀ lx : Lexer, lx.remaining ≤ n → ∀ fuel : Nat, 11 * n + 5 ≤ fuel →
        (comparison fuel lx).Terminates := by
      intro lx hlx fuel hfuel
      obtain ⟨f, rfl⟩ : ∃ f, fuel = f + 1 := ⟨fuel - 1, by omega⟩
      rw [comparison]
      exact hLevel _ _ arith_expr 4 (by omega)
        (fun t ht => Token.not_eof_of_isCompOp ht)
        (fun f lx => (expression_endsIn hR f).2.2.2.2.2.2.1 lx) hArith lx hlx f (by omega)
    have hNot : ∀ lx : Lexer, lx.remaining ≤ n → ∀ fuel : Nat, 11 * n + 6 ≤ fuel →
        (not_test fuel lx).Terminates := by
      intro lx hlx fuel hfuel
      obtain ⟨f, rfl⟩ : ∃ f, fuel = f + 1 := ⟨fuel - 1, by omega⟩
      rw [not_test_succ]
      split
      · next hnot =>
        have hne : lx.getToken.1.isEof = false := Token.not_eof_of_isNot hnot
        have hlt := Lexer.remaining_getToken_lt lx hne
        have hm : lx.getToken.2.remaining < n := by omega
        exact PResult.terminates_bind
          ((ih _ hm _ (Nat.le_refl _)).2.2.2.2.2.1 f (by omega))
          fun operand lx2 _ => PResult.terminates_ok _ _
      · exact hCmp _ (by rw [Lexer.remaining_getToken_unget]; exact hlx) f (by omega)
    have hAnd : ∀ lx : Lexer, lx.remaining ≤ n → ∀ fuel : Nat, 11 * n + 7 ≤ fuel →
        (and_test fuel lx).Terminates := by
      intro lx hlx fuel hfuel
      obtain ⟨f, rfl⟩ : ∃ f, fuel = f + 1 := ⟨fuel - 1, by omega⟩
      rw [and_test]
      exact hLevel _ _ not_test 6 (by omega)
        (fun t ht => Token.not_eof_of_isAnd ht)
        (fun f lx => (expression_endsIn hR f).2.2.2.2.1 lx) hNot lx hlx f (by omega)
    have hOr : ∀ lx : Lexer, lx.remaining ≤ n → ∀ fuel : Nat, 11 * n + 8 ≤ fuel →
        (or_test fuel lx).Terminates := by
      intro lx hlx fuel hfuel
      obtain ⟨f, rfl⟩ : ∃ f, fuel = f + 1 := ⟨fuel - 1, by omega⟩
      rw [or_test]
      exact hLevel _ _ and_test 7 (by omega)
        (fun t ht => Token.not_eof_of_isOr ht)
        (fun f lx => (expression_endsIn hR f).2.2.2.1 lx) hAnd lx hlx f (by omega)
    have hTest : ∀ lx : Lexer, lx.remaining ≤ n → ∀ fuel : Nat, 11 * n + 9 ≤ fuel →
        (test fuel lx).Terminates := by
      intro lx hlx fuel hfuel
      obtain ⟨f, rfl⟩ : ∃ f, fuel = f + 1 := ⟨fuel - 1, by omega⟩
      rw [test]
      exact hOr lx hlx f (by omega)
    have hTestlist : ∀ lx : Lexer, lx.remaining ≤ n → ∀ fuel : Nat, 11 * n + 10 ≤ fuel →
        (testlist fuel lx).Terminates := by
      intro lx hlx fuel hfuel
      obtain ⟨f, rfl⟩ : ∃ f, fuel = f + 1 := ⟨fuel - 1, by omega⟩
      rw [testlist]
      refine PResult.terminates_bind (hTest lx hlx f (by omega)) fun e lx1 hr => ?_
      have hle := PResult.EndsIn.remaining_le ((expression_endsIn hR f).2.1 lx) hr
      exact testlistLoop_terminates _ (fun lx => (expression_endsIn hR f).2.1 lx) f _ lx1
        (by omega) fun lx2 h2 => hTest lx2 (by omega) f (by omega)
    have hCall : ∀ lx : Lexer, lx.remaining ≤ n → ∀ (fuel : Nat) (id : Token),
        11 * n + 11 ≤ fuel → (call fuel id lx).Terminates := by
      intro lx hlx fuel id hfuel
      obtain ⟨f, rfl⟩ : ∃ f, fuel = f + 1 := ⟨fuel - 1, by omega⟩
      rw [call_succ]
      split
      · exact PResult.terminates_die _ _ _ _
      · refine PResult.terminates_bind
          (hTestlist _ (Nat.le_trans (Lexer.remaining_getToken_le lx) hlx) f (by omega))
          fun tlist lx2 _ => ?_
        split
        · exact PResult.terminates_die _ _ _ _
        · exact PResult.terminates_ok _ _
    intro lx hlx
    exact ⟨hAtom lx hlx, hFactor lx hlx, hTerm lx hlx, hArith lx hlx, hCmp lx hlx, hNot lx hlx,
      hAnd lx hlx, hOr lx hlx, hTest lx hlx, hTestlist lx hlx, hCall lx hlx⟩


/-! ## Every statement production consumes a token -/

theorem Token.not_eof_of_statement_start {t : Token}
    (h : (t.isPrint || t.isName || t.isReturn || t.isFor || t.isIf || t.isFunc || t.isEol ||
      t.isElIf) = true) : t.isEof = false := by
  cases t <;> simp_all [Token.isPrint, Token.isName, Token.isReturn, Token.isFor, Token.isIf,
    Token.isFunc, Token.isEol, Token.isElIf, Token.isEof]

theorem print_stmt_consumes (fuel : Nat) (lx : Lexer) : (print_stmt fuel lx).Consumes lx := by
  have hR := Lexer.remaining_invariant
  rw [print_stmt_eq]
  split
  · exact PResult.consumes_die _ _ _ _ _
  · next hprint =>
    have hne : lx.getToken.1.isEof = false :=
      Token.not_eof_of_statement_start (by simp at hprint; simp [hprint])
    exact PResult.consumes_of_lt (Lexer.remaining_getToken_lt lx hne)
      (PResult.EndsIn.andThen hR ((expression_endsIn hR fuel).1 _) fun l lx2 _ =>
        PResult.EndsIn.of_ok _ (hR.refl lx2))

theorem simple_stmt_consumes (fuel : Nat) (lx : Lexer) : (simple_stmt fuel lx).Consumes lx := by
  have hR := Lexer.remaining_invariant
  rw [simple_stmt_eq]
  split
  · exact PResult.consumes_die _ _ _ _ _
  · split
    · exact PResult.consumes_of_eq (Lexer.remaining_getToken_unget lx)
        (PResult.consumes_bind (print_stmt_consumes fuel _) fun s lx2 =>
          PResult.EndsIn.andThen hR (getEOL_endsIn hR _ lx2) fun _ lx3 _ =>
            PResult.EndsIn.of_ok _ (hR.refl lx3))
    · split
      · exact PResult.consumes_die _ _ _ _ _
      · split
        · next hname =>
          have hne : lx.getToken.1.isEof = false :=
            Token.not_eof_of_statement_start (by simp [hname])
          split
          · exact PResult.consumes_of_lt (Lexer.remaining_getToken_lt lx hne)
              (PResult.EndsIn.after hR (hR.getUnget lx.getToken.2)
                (PResult.EndsIn.andThen hR (assign_stmt_endsIn hR fuel _ _) fun s lx3 _ =>
                  PResult.EndsIn.andThen hR (getEOL_endsIn hR _ lx3) fun _ lx4 _ =>
                    PResult.EndsIn.of_ok _ (hR.refl lx4)))
          · split <;> exact PResult.consumes_die _ _ _ _ _
        · exact PResult.consumes_die _ _ _ _ _

theorem suite_consumes
    (func_def : (Lexer → PResult Statements) → Lexer → PResult Statement)
    (hkeep : ∀ fs : Lexer → PResult Statements,
      (∀ lx : Lexer, (fs lx).EndsIn (fun a b : Lexer => b.remaining ≤ a.remaining) lx) →
      ∀ lx : Lexer, (func_def fs lx).EndsIn (fun a b : Lexer => b.remaining ≤ a.remaining) lx)
    (fuel : Nat) (lx : Lexer) :
    (suite func_def fuel lx).Consumes lx := by
  have hR := Lexer.remaining_invariant
  cases fuel with
  | zero => rw [suite]; exact PResult.consumes_outOfFuel lx
  | succ fuel =>
    rw [suite_succ]
    split
    · exact PResult.consumes_die _ _ _ _ _
    · next heol =>
      have hne : lx.getToken.1.isEof = false :=
        Token.not_eof_of_statement_start (by simp at heol; simp [heol])
      refine PResult.consumes_of_lt (Lexer.remaining_getToken_lt lx hne) ?_
      split
      · exact PResult.EndsIn.of_die _ _ _ (hR.get _)
      · exact PResult.EndsIn.after hR (hR.get _)
          (stmtsLoop_endsIn hR _ _ (statement_endsIn hR func_def hkeep fuel).1 fuel [] _)

theorem func_suite_consumes
    (func_def : (Lexer → PResult Statements) → Lexer → PResult Statement)
    (hkeep : ∀ fs : Lexer → PResult Statements,
      (∀ lx : Lexer, (fs lx).EndsIn (fun a b : Lexer => b.remaining ≤ a.remaining) lx) →
      ∀ lx : Lexer, (func_def fs lx).EndsIn (fun a b : Lexer => b.remaining ≤ a.remaining) lx)
    (fuel : Nat) (lx : Lexer) :
    (func_suite func_def fuel lx).Consumes lx := by
  have hR := Lexer.remaining_invariant
  cases fuel with
  | zero => rw [func_suite]; exact PResult.consumes_outOfFuel lx
  | succ fuel =>
    rw [func_suite_succ]
    split
    · exact PResult.consumes_die _ _ _ _ _
    · next heol =>
      have hne : lx.getToken.1.isEof = false :=
        Token.not_eof_of_statement_start (by simp at heol; simp [heol])
      refine PResult.consumes_of_lt (Lexer.remaining_getToken_lt lx hne) ?_
      split
      · exact PResult.EndsIn.of_die _ _ _ (hR.get _)
      · exact PResult.EndsIn.after hR (hR.get _)
          (funcSuiteLoop_endsIn hR fuel _ (statement_endsIn hR func_def hkeep fuel).1 fuel [] _)

theorem for_stmt_consumes
    (func_def : (Lexer → PResult Statements) → Lexer → PResult Statement)
    (hkeep : ∀ fs : Lexer → PResult Statements,
      (∀ lx : Lexer, (fs lx).EndsIn (fun a b : Lexer => b.remaining ≤ a.remaining) lx) →
      ∀ lx : Lexer, (func_def fs lx).EndsIn (fun a b : Lexer => b.remaining ≤ a.remaining) lx)
    (fuel : Nat) (lx : Lexer) :
    (for_stmt func_def fuel lx).Consumes lx := by
  have hR := Lexer.remaining_invariant
  cases fuel with
  | zero => rw [for_stmt]; exact PResult.consumes_outOfFuel lx
  | succ fuel =>
    obtain ⟨-, -, -, -, hSuite, -⟩ := statement_endsIn hR func_def hkeep fuel
    rw [for_stmt_succ]
    have g2 : ∀ x : Lexer, x.getToken.2.getToken.2.remaining ≤ x.remaining :=
      fun x => hR.trans _ _ _ (hR.get x) (hR.get _)
    split
    · exact PResult.consumes_die _ _ _ _ _
    · next hfor =>
      have hne : lx.getToken.1.isEof = false :=
        Token.not_eof_of_statement_start (by simp at hfor; simp [hfor])
      refine PResult.consumes_of_lt (Lexer.remaining_getToken_lt lx hne) ?_
      have g3 := hR.trans _ _ _ (g2 lx.getToken.2) (hR.get _)
      have g4 := hR.trans _ _ _ g3 (hR.get _)
      split
      · exact PResult.EndsIn.of_die _ _ _ (hR.get _)
      · split
        · exact PResult.EndsIn.of_die _ _ _ (g2 _)
        · split
          · exact PResult.EndsIn.of_die _ _ _ g3
          · split
            · exact PResult.EndsIn.of_die _ _ _ g4
            · refine PResult.EndsIn.after hR g4
                (PResult.EndsIn.andThen hR ((expression_endsIn hR fuel).1 _)
                  fun list lx6 _ => ?_)
              split
              · exact PResult.EndsIn.of_die _ _ _ (hR.get lx6)
              · split
                · exact PResult.EndsIn.of_die _ _ _ (g2 lx6)
                · exact PResult.EndsIn.after hR (g2 lx6)
                    (PResult.EndsIn.andThen hR (hSuite _) fun stmts lx9 _ =>
                      PResult.EndsIn.of_ok _ (hR.refl lx9))

theorem if_stmt_consumes
    (func_def : (Lexer → PResult Statements) → Lexer → PResult Statement)
    (hkeep : ∀ fs : Lexer → PResult Statements,
      (∀ lx : Lexer, (fs lx).EndsIn (fun a b : Lexer => b.remaining ≤ a.remaining) lx) →
      ∀ lx : Lexer, (func_def fs lx).EndsIn (fun a b : Lexer => b.remaining ≤ a.remaining) lx)
    (fuel : Nat) (lx : Lexer) :
    (if_stmt func_def fuel lx).Consumes lx := by
  have hR := Lexer.remaining_invariant
  cases fuel with
  | zero => rw [if_stmt]; exact PResult.consumes_outOfFuel lx
  | succ fuel =>
    obtain ⟨-, -, -, -, hSuite, -⟩ := statement_endsIn hR func_def hkeep fuel
    have hTest := (expression_endsIn hR fuel).2.1
    rw [if_stmt_succ]
    split
    · exact PResult.consumes_die _ _ _ _ _
    · next hif =>
      have hne : lx.getToken.1.isEof = false :=
        Token.not_eof_of_statement_start (by simp at hif; simp [hif])
      refine PResult.consumes_of_lt (Lexer.remaining_getToken_lt lx hne)
        (PResult.EndsIn.andThen hR (hTest _) fun comp lx2 _ => ?_)
      split
      · exact PResult.EndsIn.of_die _ _ _ (hR.get lx2)
      · refine PResult.EndsIn.after hR (hR.get lx2)
          (PResult.EndsIn.andThen hR (hSuite _) fun stmts lx4 _ => ?_)
        obtain ⟨hA, hAok⟩ := afterElif_endsIn hR (test fuel) (suite func_def fuel) hTest hSuite
          fuel lx4
        refine PResult.EndsIn.andThenFrom hA fun r lx6 hr => ?_
        obtain ⟨y, hy, hlx⟩ := hAok r lx6 hr
        subst hlx
        exact PResult.EndsIn.after hR hy
          (ifTail_endsIn hR (suite func_def fuel) hSuite y r (comp, stmts))

theorem compound_stmt_consumes
    (func_def : (Lexer → PResult Statements) → Lexer → PResult Statement)
    (hkeep : ∀ fs : Lexer → PResult Statements,
      (∀ lx : Lexer, (fs lx).EndsIn (fun a b : Lexer => b.remaining ≤ a.remaining) lx) →
      ∀ lx : Lexer, (func_def fs lx).EndsIn (fun a b : Lexer => b.remaining ≤ a.remaining) lx)
    (hcons : ∀ fs : Lexer → PResult Statements, (∀ lx : Lexer, (fs lx).Consumes lx) →
      ∀ lx : Lexer, (func_def fs lx).Consumes lx)
    (fuel : Nat) (lx : Lexer) :
    (compound_stmt func_def fuel lx).Consumes lx := by
  cases fuel with
  | zero => rw [compound_stmt]; exact PResult.consumes_outOfFuel lx
  | succ fuel =>
    rw [compound_stmt_succ]
    split
    · exact PResult.consumes_of_eq (Lexer.remaining_getToken_unget lx)
        (for_stmt_consumes func_def hkeep fuel _)
    · split
      · exact PResult.consumes_of_eq (Lexer.remaining_getToken_unget lx)
          (if_stmt_consumes func_def hkeep fuel _)
      · split
        · exact PResult.consumes_of_eq (Lexer.remaining_getToken_unget lx)
            (hcons _ (func_suite_consumes func_def hkeep fuel) _)
        · exact PResult.consumes_die _ _ _ _ _

theorem stmt_consumes
    (func_def : (Lexer → PResult Statements) → Lexer → PResult Statement)
    (hkeep : ∀ fs : Lexer → PResult Statements,
      (∀ lx : Lexer, (fs lx).EndsIn (fun a b : Lexer => b.remaining ≤ a.remaining) lx) →
      ∀ lx : Lexer, (func_def fs lx).EndsIn (fun a b : Lexer => b.remaining ≤ a.remaining) lx)
    (hcons : ∀ fs : Lexer → PResult Statements, (∀ lx : Lexer, (fs lx).Consumes lx) →
      ∀ lx : Lexer, (func_def fs lx).Consumes lx)
    (fuel : Nat) (lx : Lexer) : (stmt func_def fuel lx).Consumes lx := by
  cases fuel with
  | zero => rw [stmt]; exact PResult.consumes_outOfFuel lx
  | succ fuel =>
    rw [stmt_succ]
    split
    · exact PResult.consumes_of_eq (Lexer.remaining_getToken_unget lx)
        (compound_stmt_consumes func_def hkeep hcons fuel _)
    · exact PResult.consumes_of_eq (Lexer.remaining_getToken_unget lx)
        (simple_stmt_consumes fuel _)



/-! ## Termination of the statement productions -/

theorem getEOL_terminates (scope : String) (lx : Lexer) : (getEOL scope lx).Terminates := by
  rw [getEOL_eq]
  split
  · exact PResult.terminates_die _ _ _ _
  · exact PResult.terminates_ok _ _

theorem simple_stmt_terminates (fuel : Nat) (lx : Lexer)
    (htestlist : ∀ x : Lexer, x.remaining ≤ lx.remaining → (testlist fuel x).Terminates)
    (htest : ∀ x : Lexer, x.remaining ≤ lx.remaining → (test fuel x).Terminates) :
    (simple_stmt fuel lx).Terminates := by
  have hle1 := Lexer.remaining_getToken_le lx
  have hle2 := Lexer.remaining_getToken_le lx.getToken.2
  rw [simple_stmt_eq]
  split
  · exact PResult.terminates_die _ _ _ _
  · split
    · refine PResult.terminates_bind ?_ fun s lx2 _ =>
        PResult.terminates_bind (getEOL_terminates _ lx2) fun _ lx3 _ =>
          PResult.terminates_ok _ _
      rw [print_stmt_eq]
      split
      · exact PResult.terminates_die _ _ _ _
      · exact PResult.terminates_bind
          (htestlist _ (by
            have := Lexer.remaining_getToken_le lx.getToken.2.ungetToken
            rw [Lexer.remaining_getToken_unget] at this
            exact this))
          fun l lx2 _ => PResult.terminates_ok _ _
    · split
      · exact PResult.terminates_die _ _ _ _
      · split
        · split
          · refine PResult.terminates_bind ?_ fun s lx2 _ =>
              PResult.terminates_bind (getEOL_terminates _ lx2) fun _ lx3 _ =>
                PResult.terminates_ok _ _
            rw [assign_stmt_eq]
            split
            · exact PResult.terminates_die _ _ _ _
            · exact PResult.terminates_bind
                (htest _ (by
                  have := Lexer.remaining_getToken_le lx.getToken.2.getToken.2.ungetToken
                  rw [Lexer.remaining_getToken_unget] at this
                  omega))
                fun e lx2 _ => PResult.terminates_ok _ _
          · split <;> exact PResult.terminates_die _ _ _ _
        · exact PResult.terminates_die _ _ _ _

theorem stmtsLoop_terminates (stop : Token → Bool) (stmt : Lexer → PResult Statement)
    (hcons : ∀ lx : Lexer, (stmt lx).Consumes lx) :
    ∀ (k : Nat) (stmts : Statements) (lx : Lexer), lx.remaining < k →
      (∀ x : Lexer, x.remaining ≤ lx.remaining → (stmt x).Terminates) →
      (stmtsLoop stop stmt k stmts lx).Terminates := by
  intro k
  induction k with
  | zero => intro stmts lx hk; omega
  | succ k ih =>
    intro stmts lx hk hterm
    rw [stmtsLoop_succ]
    split
    · have heq := Lexer.remaining_getToken_unget lx
      refine PResult.terminates_bind (hterm _ (by omega)) fun s lx2 hr => ?_
      have hlt := hcons _ s lx2 hr
      exact ih _ lx2 (by omega) fun x hx => hterm x (by omega)
    · exact PResult.terminates_ok _ _

theorem funcSuiteEnd_terminates (stmts : Statements) (tok : Token) (lx : Lexer) :
    (funcSuiteEnd stmts tok lx).Terminates := by
  unfold funcSuiteEnd
  split
  · exact PResult.terminates_ok _ _
  · exact PResult.terminates_die _ _ _ _

theorem funcSuiteLoop_terminates (fuel : Nat) (stmt : Lexer → PResult Statement)
    (hcons : ∀ lx : Lexer, (stmt lx).Consumes lx) :
    ∀ (k : Nat) (stmts : Statements) (lx : Lexer), lx.remaining < k →
      (∀ x : Lexer, x.remaining ≤ lx.remaining → (stmt x).Terminates) →
      (∀ x : Lexer, x.remaining ≤ lx.remaining → (test fuel x).Terminates) →
      (funcSuiteLoop fuel stmt k stmts lx).Terminates := by
  intro k
  induction k with
  | zero => intro stmts lx hk; omega
  | succ k ih =>
    intro stmts lx hk hterm htest
    have heq := Lexer.remaining_getToken_unget lx
    rw [funcSuiteLoop_succ]
    split
    · split
      · refine PResult.terminates_bind ?_ fun r lx2 _ => funcSuiteEnd_terminates _ _ _
        rw [return_stmt_eq]
        split
        · exact PResult.terminates_die _ _ _ _
        · exact PResult.terminates_bind
            (htest _ (by
              have := Lexer.remaining_getToken_le lx.getToken.2.ungetToken
              omega))
            fun e lx2 _ => PResult.terminates_ok _ _
      · refine PResult.terminates_bind (hterm _ (by omega)) fun s lx2 hr => ?_
        have hlt := hcons _ s lx2 hr
        exact ih _ lx2 (by omega) (fun x hx => hterm x (by omega))
          (fun x hx => htest x (by omega))
    · exact funcSuiteEnd_terminates _ _ _

theorem elifLoop_terminates (test : Lexer → PResult ExprNode)
    (suite : Lexer → PResult Statements)
    (hkeep : ∀ lx : Lexer, (test lx).EndsIn (fun a b : Lexer => b.remaining ≤ a.remaining) lx)
    (hcons : ∀ lx : Lexer, (suite lx).Consumes lx) :
    ∀ (k : Nat) (elifs : List (ExprNode × Statements)) (tok : Token) (hit : Bool) (lx : Lexer),
      lx.remaining < k →
      (∀ x : Lexer, x.remaining ≤ lx.remaining → (test x).Terminates) →
      (∀ x : Lexer, x.remaining ≤ lx.remaining → (suite x).Terminates) →
      (elifLoop test suite k elifs tok hit lx).Terminates := by
  intro k
  induction k with
  | zero => intro elifs tok hit lx hk; omega
  | succ k ih =>
    intro elifs tok hit lx hk htest hsuite
    rw [elifLoop_succ]
    split
    · refine PResult.terminates_bind (htest lx (Nat.le_refl _)) fun c lx1 hr => ?_
      have h1 := PResult.EndsIn.remaining_le (hkeep lx) hr
      have h2 := Lexer.remaining_getToken_le lx1
      split
      · exact PResult.terminates_die _ _ _ _
      · refine PResult.terminates_bind (hsuite _ (by omega)) fun stmts lx3 hs => ?_
        have h3 := hcons _ stmts lx3 hs
        have h4 := Lexer.remaining_getToken_le lx3
        exact ih _ _ _ _ (by omega) (fun x hx => htest x (by omega))
          (fun x hx => hsuite x (by omega))
    · exact PResult.terminates_ok _ _


theorem statement_terminates
    (func_def : (Lexer → PResult Statements) → Lexer → PResult Statement)
    (hkeep : ∀ fs : Lexer → PResult Statements,
      (∀ lx : Lexer, (fs lx).EndsIn (fun a b : Lexer => b.remaining ≤ a.remaining) lx) →
      ∀ lx : Lexer, (func_def fs lx).EndsIn (fun a b : Lexer => b.remaining ≤ a.remaining) lx)
    (hcons : ∀ fs : Lexer → PResult Statements, (∀ lx : Lexer, (fs lx).Consumes lx) →
      ∀ lx : Lexer, (func_def fs lx).Consumes lx)
    (hterm : ∀ (fs : Lexer → PResult Statements) (lx : Lexer),
      (∀ x : Lexer, x.remaining < lx.remaining → (fs x).Terminates) →
      (func_def fs lx).Terminates) :
    ∀ (n : Nat) (lx : Lexer), lx.remaining ≤ n →
      (∀ fuel : Nat, 11 * n + 14 ≤ fuel → (stmt func_def fuel lx).Terminates) ∧
      (∀ fuel : Nat, 11 * n + 13 ≤ fuel → (compound_stmt func_def fuel lx).Terminates) ∧
      (∀ fuel : Nat, 11 * n + 12 ≤ fuel → (if_stmt func_def fuel lx).Terminates) ∧
      (∀ fuel : Nat, 11 * n + 12 ≤ fuel → (for_stmt func_def fuel lx).Terminates) ∧
      (∀ fuel : Nat, 11 * n + 11 ≤ fuel → (suite func_def fuel lx).Terminates) ∧
      (∀ fuel : Nat, 11 * n + 11 ≤ fuel → (func_suite func_def fuel lx).Terminates) := by
  have hR := Lexer.remaining_invariant
  intro n
  induction n using Nat.strong_induction_on with
  | _ n ih =>
    have hTestlist : ∀ x : Lexer, x.remaining ≤ n → ∀ f : Nat, 11 * n + 10 ≤ f →
        (testlist f x).Terminates :=
      fun x hx f hf => (expression_terminates n x hx).2.2.2.2.2.2.2.2.2.1 f hf
    have hTest : ∀ x : Lexer, x.remaining ≤ n → ∀ f : Nat, 11 * n + 9 ≤ f →
        (test f x).Terminates :=
      fun x hx f hf => (expression_terminates n x hx).2.2.2.2.2.2.2.2.1 f hf
    have hStmtLow : ∀ x : Lexer, x.remaining < n → ∀ f : Nat, 11 * n + 3 ≤ f →
        (stmt func_def f x).Terminates :=
      fun x hx f hf => (ih _ hx x (Nat.le_refl _)).1 f (by omega)
    have hSuiteLow : ∀ x : Lexer, x.remaining < n → ∀ f : Nat, 11 * n ≤ f →
        (suite func_def f x).Terminates :=
      fun x hx f hf => (ih _ hx x (Nat.le_refl _)).2.2.2.2.1 f (by omega)
    have hFuncSuiteLow : ∀ x : Lexer, x.remaining < n → ∀ f : Nat, 11 * n ≤ f →
        (func_suite func_def f x).Terminates :=
      fun x hx f hf => (ih _ hx x (Nat.le_refl _)).2.2.2.2.2 f (by omega)
    have hSuite : ∀ lx : Lexer, lx.remaining ≤ n → ∀ fuel : Nat, 11 * n + 11 ≤ fuel →
        (suite func_def fuel lx).Terminates := by
      intro lx hlx fuel hfuel
      obtain ⟨f, rfl⟩ : ∃ f, fuel = f + 1 := ⟨fuel - 1, by omega⟩
      rw [suite_succ]
      split
      · exact PResult.terminates_die _ _ _ _
      · next heol =>
        have hne : lx.getToken.1.isEof = false :=
          Token.not_eof_of_statement_start (by simp at heol; simp [heol])
        have hlt := Lexer.remaining_getToken_lt lx hne
        have hle := Lexer.remaining_getToken_le lx.getToken.2
        split
        · exact PResult.terminates_die _ _ _ _
        · exact stmtsLoop_terminates _ _ (stmt_consumes func_def hkeep hcons f) f [] _
            (by omega) fun x hx => hStmtLow x (by omega) f (by omega)
    have hFuncSuite : ∀ lx : Lexer, lx.remaining ≤ n → ∀ fuel : Nat, 11 * n + 11 ≤ fuel →
        (func_suite func_def fuel lx).Terminates := by
      intro lx hlx fuel hfuel
      obtain ⟨f, rfl⟩ : ∃ f, fuel = f + 1 := ⟨fuel - 1, by omega⟩
      rw [func_suite_succ]
      split
      · exact PResult.terminates_die _ _ _ _
      · next heol =>
        have hne : lx.getToken.1.isEof = false :=
          Token.not_eof_of_statement_start (by simp at heol; simp [heol])
        have hlt := Lexer.remaining_getToken_lt lx hne
        have hle := Lexer.remaining_getToken_le lx.getToken.2
        split
        · exact PResult.terminates_die _ _ _ _
        · exact funcSuiteLoop_terminates f _ (stmt_consumes func_def hkeep hcons f) f [] _
            (by omega) (fun x hx => hStmtLow x (by omega) f (by omega))
            (fun x hx => hTest x (by omega) f (by omega))
    have hFor : ∀ lx : Lexer, lx.remaining ≤ n → ∀ fuel : Nat, 11 * n + 12 ≤ fuel →
        (for_stmt func_def fuel lx).Terminates := by
      intro lx hlx fuel hfuel
      obtain ⟨f, rfl⟩ : ∃ f, fuel = f + 1 := ⟨fuel - 1, by omega⟩
      rw [for_stmt_succ]
      split
      · exact PResult.terminates_die _ _ _ _
      · next hfor =>
        have hne : lx.getToken.1.isEof = false :=
          Token.not_eof_of_statement_start (by simp at hfor; simp [hfor])
        have hlt := Lexer.remaining_getToken_lt lx hne
        have g2 := Lexer.remaining_getToken_le lx.getToken.2
        have g3 := Lexer.remaining_getToken_le lx.getToken.2.getToken.2
        have g4 := Lexer.remaining_getToken_le lx.getToken.2.getToken.2.getToken.2
        have g5 := Lexer.remaining_getToken_le lx.getToken.2.getToken.2.getToken.2.getToken.2
        split
        · exact PResult.terminates_die _ _ _ _
        · split
          · exact PResult.terminates_die _ _ _ _
          · split
            · exact PResult.terminates_die _ _ _ _
            · split
              · exact PResult.terminates_die _ _ _ _
              · refine PResult.terminates_bind (hTestlist _ (by omega) f (by omega))
                  fun list lx6 hr => ?_
                have h6 := PResult.EndsIn.remaining_le ((expression_endsIn hR f).1 _) hr
                have h7 := Lexer.remaining_getToken_le lx6
                have h8 := Lexer.remaining_getToken_le lx6.getToken.2
                split
                · exact PResult.terminates_die _ _ _ _
                · split
                  · exact PResult.terminates_die _ _ _ _
                  · exact PResult.terminates_bind (hSuiteLow _ (by omega) f (by omega))
                      fun stmts lx9 _ => PResult.terminates_ok _ _
    have hIf : ∀ lx : Lexer, lx.remaining ≤ n → ∀ fuel : Nat, 11 * n + 12 ≤ fuel →
        (if_stmt func_def fuel lx).Terminates := by
      intro lx hlx fuel hfuel
      obtain ⟨f, rfl⟩ : ∃ f, fuel = f + 1 := ⟨fuel - 1, by omega⟩
      obtain ⟨-, -, -, -, kSuite, -⟩ := statement_endsIn hR func_def hkeep f
      have kTest := (expression_endsIn hR f).2.1
      rw [if_stmt_succ]
      split
      · exact PResult.terminates_die _ _ _ _
      · next hif =>
        have hne : lx.getToken.1.isEof = false :=
          Token.not_eof_of_statement_start (by simp at hif; simp [hif])
        have hlt := Lexer.remaining_getToken_lt lx hne
        refine PResult.terminates_bind (hTest _ (by omega) f (by omega)) fun comp lx2 hr => ?_
        have h2 := PResult.EndsIn.remaining_le (kTest _) hr
        have h3 := Lexer.remaining_getToken_le lx2
        split
        · exact PResult.terminates_die _ _ _ _
        · refine PResult.terminates_bind (hSuiteLow _ (by omega) f (by omega))
            fun stmts lx4 hs => ?_
          have h4 := PResult.EndsIn.remaining_le (kSuite _) hs
          have h5 := Lexer.remaining_getToken_le lx4
          obtain ⟨hA, -⟩ := afterElif_endsIn hR (test f) (suite func_def f) kTest kSuite f lx4
          refine PResult.terminates_bind ?_ fun r lx6 hr6 => ?_
          · split
            · exact PResult.terminates_bind
                (elifLoop_terminates _ _ kTest (suite_consumes func_def hkeep f) f [] _ _ _
                  (by omega) (fun x hx => hTest x (by omega) f (by omega))
                  (fun x hx => hSuiteLow x (by omega) f (by omega)))
                fun _ _ _ => PResult.terminates_ok _ _
            · exact PResult.terminates_ok _ _
          · have h6 := PResult.EndsIn.remaining_le hA hr6
            have h7 := Lexer.remaining_getToken_le lx6
            refine PResult.terminates_bind ?_ fun e lx7 _ => PResult.terminates_ok _ _
            split
            · split
              · exact PResult.terminates_die _ _ _ _
              · exact PResult.terminates_bind (hSuiteLow _ (by omega) f (by omega))
                  fun _ _ _ => PResult.terminates_ok _ _
            · exact PResult.terminates_ok _ _
    have hCompound : ∀ lx : Lexer, lx.remaining ≤ n → ∀ fuel : Nat, 11 * n + 13 ≤ fuel →
        (compound_stmt func_def fuel lx).Terminates := by
      intro lx hlx fuel hfuel
      obtain ⟨f, rfl⟩ : ∃ f, fuel = f + 1 := ⟨fuel - 1, by omega⟩
      have heq := Lexer.remaining_getToken_unget lx
      rw [compound_stmt_succ]
      split
      · exact hFor _ (by omega) f (by omega)
      · split
        · exact hIf _ (by omega) f (by omega)
        · split
          · exact hterm _ _ fun x hx => hFuncSuiteLow x (by omega) f (by omega)
          · exact PResult.terminates_die _ _ _ _
    have hStmt : ∀ lx : Lexer, lx.remaining ≤ n → ∀ fuel : Nat, 11 * n + 14 ≤ fuel →
        (stmt func_def fuel lx).Terminates := by
      intro lx hlx fuel hfuel
      obtain ⟨f, rfl⟩ : ∃ f, fuel = f + 1 := ⟨fuel - 1, by omega⟩
      have heq := Lexer.remaining_getToken_unget lx
      rw [stmt_succ]
      split
      · exact hCompound _ (by omega) f (by omega)
      · exact simple_stmt_terminates f _ (fun x hx => hTestlist x (by omega) f (by omega))
          (fun x hx => hTest x (by omega) f (by omega))
    intro lx hlx
    exact ⟨hStmt lx hlx, hCompound lx hlx, hIf lx hlx, hFor lx hlx, hSuite lx hlx,
      hFuncSuite lx hlx⟩

theorem file_input_terminates_of
    (func_def : (Lexer → PResult Statements) → Lexer → PResult Statement)
    (hkeep : ∀ fs : Lexer → PResult Statements,
      (∀ lx : Lexer, (fs lx).EndsIn (fun a b : Lexer => b.remaining ≤ a.remaining) lx) →
      ∀ lx : Lexer, (func_def fs lx).EndsIn (fun a b : Lexer => b.remaining ≤ a.remaining) lx)
    (hcons : ∀ fs : Lexer → PResult Statements, (∀ lx : Lexer, (fs lx).Consumes lx) →
      ∀ lx : Lexer, (func_def fs lx).Consumes lx)
    (hterm : ∀ (fs : Lexer → PResult Statements) (lx : Lexer),
      (∀ x : Lexer, x.remaining < lx.remaining → (fs x).Terminates) →
      (func_def fs lx).Terminates)
    (lx : Lexer) (fuel : Nat) (hfuel : 11 * lx.remaining + 14 ≤ fuel) :
    (file_input func_def fuel lx).Terminates := by
  unfold file_input
  exact stmtsLoop_terminates _ _ (stmt_consumes func_def hkeep hcons fuel) fuel [] lx
    (by omega) fun x hx =>
      (statement_terminates func_def hkeep hcons hterm lx.remaining x hx).1 fuel hfuel


/-! ## The sample `func_def` -/

theorem sampleFuncDef_eq (fs : Lexer → PResult Statements) (lx : Lexer) :
    sampleFuncDef fs lx =
      if !lx.getToken.1.isFunc then
        PResult.die "Parser::func_def" "Expected DEF" lx.getToken.1 lx.getToken.2
      else if !lx.getToken.2.getToken.1.isName then
        PResult.die "Parser::func_def" "Expected NAME" lx.getToken.2.getToken.1
          lx.getToken.2.getToken.2
      else if !lx.getToken.2.getToken.2.getToken.1.isOpenParen then
        PResult.die "Parser::func_def" "Expected (" lx.getToken.2.getToken.2.getToken.1
          lx.getToken.2.getToken.2.getToken.2
      else if !lx.getToken.2.getToken.2.getToken.2.getToken.1.isCloseParen then
        PResult.die "Parser::func_def" "Expected )"
          lx.getToken.2.getToken.2.getToken.2.getToken.1
          lx.getToken.2.getToken.2.getToken.2.getToken.2
      else if !lx.getToken.2.getToken.2.getToken.2.getToken.2.getToken.1.isColon then
        PResult.die "Parser::func_def" "Expected :"
          lx.getToken.2.getToken.2.getToken.2.getToken.2.getToken.1
          lx.getToken.2.getToken.2.getToken.2.getToken.2.getToken.2
      else
        (fs lx.getToken.2.getToken.2.getToken.2.getToken.2.getToken.2).bind fun body lx6 =>
          PResult.ok (Statement.FunctionDefinition lx.getToken.2.getToken.1.getName []
            (some body) false) lx6 := rfl

theorem sampleFuncDef_consumes (fs : Lexer → PResult Statements)
    (hfs : ∀ lx : Lexer, (fs lx).Consumes lx) (lx : Lexer) :
    (sampleFuncDef fs lx).Consumes lx := by
  have g1 := Lexer.remaining_getToken_le lx
  have g2 := Lexer.remaining_getToken_le lx.getToken.2
  have g3 := Lexer.remaining_getToken_le lx.getToken.2.getToken.2
  have g4 := Lexer.remaining_getToken_le lx.getToken.2.getToken.2.getToken.2
  have g5 := Lexer.remaining_getToken_le lx.getToken.2.getToken.2.getToken.2.getToken.2
  rw [sampleFuncDef_eq]
  split
  · exact PResult.consumes_die _ _ _ _ _
  · split
    · exact PResult.consumes_die _ _ _ _ _
    · split
      · exact PResult.consumes_die _ _ _ _ _
      · split
        · exact PResult.consumes_die _ _ _ _ _
        · split
          · exact PResult.consumes_die _ _ _ _ _
          · intro v lx1 h
            obtain ⟨body, lx6, hb, hk⟩ := PResult.bind_eq_ok h
            simp only [PResult.ok.injEq] at hk
            have := hfs _ body lx6 hb
            rw [← hk.2]
            omega

theorem sampleFuncDef_terminates (fs : Lexer → PResult Statements) (lx : Lexer)
    (hfs : ∀ x : Lexer, x.remaining < lx.remaining → (fs x).Terminates) :
    (sampleFuncDef fs lx).Terminates := by
  have g2 := Lexer.remaining_getToken_le lx.getToken.2
  have g3 := Lexer.remaining_getToken_le lx.getToken.2.getToken.2
  have g4 := Lexer.remaining_getToken_le lx.getToken.2.getToken.2.getToken.2
  have g5 := Lexer.remaining_getToken_le lx.getToken.2.getToken.2.getToken.2.getToken.2
  rw [sampleFuncDef_eq]
  split
  · exact PResult.terminates_die _ _ _ _
  · next hdef =>
    have hne : lx.getToken.1.isEof = false :=
      Token.not_eof_of_statement_start (by simp at hdef; simp [hdef])
    have hlt := Lexer.remaining_getToken_lt lx hne
    split
    · exact PResult.terminates_die _ _ _ _
    · split
      · exact PResult.terminates_die _ _ _ _
      · split
        · exact PResult.terminates_die _ _ _ _
        · split
          · exact PResult.terminates_die _ _ _ _
          · exact PResult.terminates_bind (hfs _ (by omega)) fun body lx6 _ =>
              PResult.terminates_ok _ _

/-- C25: the parser terminates.  Let the absent production `func_def` behave
as the productions of `Parser.cpp` do: it never gives tokens back, it
consumes a token when it returns, and it ends when the production it is
handed ends on every lexer with fewer tokens.  Then, with `remaining` the
number of tokens before the final run of end-of-file tokens, `file_input`
ends (it returns a tree or ends in the fatal error) on every lexer for every
budget of at least 11 * remaining + 14, in particular on every finite token
list.  The measure drops with every fetch of a token other than end-of-file
and is restored by a pushback, and each of the productions that a loop runs
once per iteration or that is called recursively (stmt, suite, func_suite,
if_stmt, for_stmt, and the expression productions from testlist down to
atom) has consumed at least one token whenever it returns. -/
theorem parser_terminates
    (func_def : (Lexer → PResult Statements) → Lexer → PResult Statement)
    (hkeep : ∀ fs : Lexer → PResult Statements,
      (∀ lx : Lexer, (fs lx).EndsIn (fun a b : Lexer => b.remaining ≤ a.remaining) lx) →
      ∀ lx : Lexer, (func_def fs lx).EndsIn (fun a b : Lexer => b.remaining ≤ a.remaining) lx)
    (hcons : ∀ fs : Lexer → PResult Statements, (∀ lx : Lexer, (fs lx).Consumes lx) →
      ∀ lx : Lexer, (func_def fs lx).Consumes lx)
    (hterm : ∀ (fs : Lexer → PResult Statements) (lx : Lexer),
      (∀ x : Lexer, x.remaining < lx.remaining → (fs x).Terminates) →
      (func_def fs lx).Terminates) :
    (∀ (lx : Lexer) (fuel : Nat), 11 * lx.remaining + 14 ≤ fuel →
      (file_input func_def fuel lx).Terminates) ∧
    (∀ (toks : List Token) (fuel : Nat), 11 * toks.length + 14 ≤ fuel →
      (∃ prog lx1, file_input func_def fuel (Lexer.init toks) = PResult.ok prog lx1) ∨
        ∃ s m t lx1, file_input func_def fuel (Lexer.init toks) = PResult.die s m t lx1) ∧
    (∀ lx : Lexer,
      (lx.getToken.1.isEof = false → lx.getToken.2.remaining < lx.remaining) ∧
        lx.getToken.2.ungetToken.remaining = lx.remaining) ∧
    (∀ (fuel : Nat) (lx : Lexer),
      (stmt func_def fuel lx).Consumes lx ∧ (suite func_def fuel lx).Consumes lx ∧
      (func_suite func_def fuel lx).Consumes lx ∧ (if_stmt func_def fuel lx).Consumes lx ∧
      (for_stmt func_def fuel lx).Consumes lx ∧ (testlist fuel lx).Consumes lx ∧
      (test fuel lx).Consumes lx ∧ (or_test fuel lx).Consumes lx ∧
      (and_test fuel lx).Consumes lx ∧ (not_test fuel lx).Consumes lx ∧
      (comparison fuel lx).Consumes lx ∧ (arith_expr fuel lx).Consumes lx ∧
      (term fuel lx).Consumes lx ∧ (factor fuel lx).Consumes lx ∧
      (atom fuel lx).Consumes lx) := by
  refine ⟨fun lx fuel hfuel => file_input_terminates_of func_def hkeep hcons hterm lx fuel hfuel,
    ?_, fun lx => ⟨Lexer.remaining_getToken_lt lx, Lexer.remaining_getToken_unget lx⟩, ?_⟩
  · intro toks fuel hfuel
    have hlen := Lexer.remaining_init toks
    have h := file_input_terminates_of func_def hkeep hcons hterm (Lexer.init toks) fuel
      (by omega)
    cases hr : file_input func_def fuel (Lexer.init toks) with
    | ok prog lx1 => exact Or.inl ⟨prog, lx1, rfl⟩
    | die s m t lx1 => exact Or.inr ⟨s, m, t, lx1, rfl⟩
    | outOfFuel => exact absurd hr h
  · intro fuel lx
    obtain ⟨h1, h2, h3, h4, h5, h6, h7, h8, -, h10, h11⟩ := expression_consumes fuel
    exact ⟨stmt_consumes func_def hkeep hcons fuel lx, suite_consumes func_def hkeep fuel lx,
      func_suite_consumes func_def hkeep fuel lx, if_stmt_consumes func_def hkeep fuel lx,
      for_stmt_consumes func_def hkeep fuel lx, h1 lx, h2 lx, h3 lx, h4 lx, h5 lx, h6 lx,
      h7 lx, h8 lx, h10 lx, h11 lx⟩

/-- C25 (witness): with the sample `func_def`, `file_input` ends on the three
tokens of `print 1` with the budget 47, and on the ten tokens of a
function definition with the body `return 1` with the budget 124. -/
theorem parser_terminates_witness :
    (file_input sampleFuncDef 47
      (Lexer.init [Token.keyword Keyword.kwPrint, Token.wholeNumber 1,
        Token.eol])).Terminates ∧
    ((∃ prog lx1,
        file_input sampleFuncDef 124
            (Lexer.init [Token.keyword Keyword.kwDef, Token.name "f", Token.openParen,
              Token.closeParen, Token.colon, Token.eol, Token.indent,
              Token.keyword Keyword.kwReturn, Token.wholeNumber 1, Token.dedent]) =
          PResult.ok prog lx1) ∨
      ∃ s m t lx1,
        file_input sampleFuncDef 124
            (Lexer.init [Token.keyword Keyword.kwDef, Token.name "f", Token.openParen,
              Token.closeParen, Token.colon, Token.eol, Token.indent,
              Token.keyword Keyword.kwReturn, Token.wholeNumber 1, Token.dedent]) =
          PResult.die s m t lx1) :=
  ⟨(parser_terminates sampleFuncDef
      (fun fs hfs lx => sampleFuncDef_endsIn Lexer.remaining_invariant fs hfs lx)
      sampleFuncDef_consumes sampleFuncDef_terminates).1 _ 47 (by decide),
    (parser_terminates sampleFuncDef
      (fun fs hfs lx => sampleFuncDef_endsIn Lexer.remaining_invariant fs hfs lx)
      sampleFuncDef_consumes sampleFuncDef_terminates).2.1 _ 124 (by decide)⟩


end PyInterp
